import Mathlib

/-!
HhbcTranslator: virtual stack, type refinement and exit traces.

A shallow embedding of `hphp/runtime/vm/jit/hhbctranslator.cpp`.

The translator works on a graph of heap objects (`SSATmp`, `IRInstruction`,
`IRTrace`) that it mutates through pointers.  The embedding keeps that graph
in an arena: instructions and values live in two lists owned by the
`IRFactory`, and a pointer is the index of the object in its list.  A null
pointer is `none`.

`assert` and `always_assert` are embedded as checks: a violated assertion
ends the computation with `Failure.assertion`.
-/

namespace HPHP.JIT

/-! ## Types -/

/-- Modelled from the spec: the class `Type` (type.h) is not part of the
translation unit.  A type is a set of runtime kinds, kept as a bit set;
unions are bitwise or and the subtype order is set inclusion. -/
structure IRType where
  bits : Nat
deriving DecidableEq, Repr

namespace IRType

/-- Inclusion of kind sets: `(bits & t2.bits) == bits`. -/
def subtypeOf (a b : IRType) : Bool := (a.bits &&& b.bits) == a.bits

/-- Strict inclusion: `*this != t2 && subtypeOf(t2)`. -/
def strictSubtypeOf (a b : IRType) : Bool := a != b && a.subtypeOf b

/-- Union of two types (`operator|`). -/
def union (a b : IRType) : IRType := ⟨a.bits ||| b.bits⟩

def Bottom : IRType := ⟨0⟩
def Uninit : IRType := ⟨2 ^ 0⟩
def InitNull : IRType := ⟨2 ^ 1⟩
def Null : IRType := union Uninit InitNull

/-- Null family: `subtypeOf(Type::Null)`. -/
def isNull (a : IRType) : Bool := a.subtypeOf Null

def Bool : IRType := ⟨2 ^ 2⟩
def Int : IRType := ⟨2 ^ 3⟩
def Dbl : IRType := ⟨2 ^ 4⟩
def StaticStr : IRType := ⟨2 ^ 5⟩
def CountedStr : IRType := ⟨2 ^ 6⟩
def StaticArr : IRType := ⟨2 ^ 7⟩
def CountedArr : IRType := ⟨2 ^ 8⟩
def Obj : IRType := ⟨2 ^ 9⟩

def Str : IRType := union StaticStr CountedStr
def Arr : IRType := union StaticArr CountedArr
def UncountedInit : IRType :=
  union InitNull (union Bool (union Int (union Dbl (union StaticStr StaticArr))))
def Uncounted : IRType := union UncountedInit Uninit
def Cell : IRType := union Uncounted (union Str (union Arr Obj))
/-- The boxed (reference cell) variant of a set of unboxed kinds. -/
def box (a : IRType) : IRType := ⟨a.bits * 2 ^ 10⟩
def BoxedCell : IRType := box Cell
def Gen : IRType := union Cell BoxedCell
/-- The pointer variant of a set of kinds. -/
def ptr (a : IRType) : IRType := ⟨a.bits * 2 ^ 20⟩
def PtrToGen : IRType := ptr Gen
def Cls : IRType := ⟨2 ^ 40⟩
def Func : IRType := ⟨2 ^ 41⟩
def RetAddr : IRType := ⟨2 ^ 47⟩
def StkPtr : IRType := ⟨2 ^ 48⟩
def FramePtr : IRType := ⟨2 ^ 49⟩
def TCA : IRType := ⟨2 ^ 50⟩
def ActRec : IRType := ⟨2 ^ 51⟩
def None : IRType := ⟨2 ^ 52⟩
def CacheHandle : IRType := ⟨2 ^ 53⟩

end IRType

/-! ## Opcodes -/

inductive Opcode where
  | Nop | Mov | IncRef | DecRef | DecRefNZ | DecRefStack | DecRefLoc | DecRefThis
  | LdLoc | LdStack | LdMem | LdProp | LdRef | LdThis | LdCtx | LdRaw
  | LdStackAddr | LdLocAddr | LdRetAddr | LdClsCns | LookupClsCns
  | StLoc | StMem | StProp | StRef | StRetVal
  | DefConst | DefFP | DefSP | ReDefSP | ReDefGeneratorSP | StashGeneratorSP
  | DefInlineFP | InlineReturn
  | Marker | SpillStack | SpillFrame | ExceptionBarrier | SyncABIRegs
  | ReqRetranslate | ReqBindJmp | ReqRetranslateNoIR | ReqBindJmpNoIR
  | BeginCatch | EndCatch | RaiseWarning | RaiseUninitLoc
  | Jmp_ | JmpZero | JmpNZero | JmpSwitchDest | JmpIndirect
  | ExitWhenSurprised | ExitOnVarEnv | ReleaseVVOrExit
  | LdSSwitchDestFast | LdSSwitchDestSlow
  | LdSwitchDblIndex | LdSwitchStrIndex | LdSwitchObjIndex
  | OpAdd | OpSub | OpMul | OpMod | OpBitAnd | OpBitOr | OpBitXor | OpBitNot
  | OpNot | OpLogicXor
  | ConvCellToBool | ConvBoolToInt
  | Concat | PrintStr | PrintInt | PrintBool
  | Call | CallArray | RetCtrl | RetAdjustStack | FreeActRec
  | GenericRetDecRefs | NativeImpl
  | InterpOne | InterpOneCF
  | CheckType | AssertType | CheckStk | AssertStk | AssertStkVal | GuardStk
  | CheckLoc | AssertLoc | GuardLoc | CheckInit
  | GuardRefs | ArrayIdx | AKExists | IncStatGrouped
  | Box | Unbox | NewArray | NewTuple
  | LdARFuncPtr | LdConst
deriving DecidableEq, Repr

/-- How an opcode determines the type of its result. -/
inductive DstKind where
  | ND
  | D (t : IRType)
  | DofS0
  | DParam
deriving DecidableEq, Repr

/-- Modelled from the spec: the opcode table (ir.h) is not part of the
translation unit.  A move and a reference-count increment forward the type of
their source; loads from a local, a stack slot, a memory cell, a property or
a boxed reference, and the other instructions that take a type parameter,
produce a value of that parameter; instructions that yield a stack or frame
pointer have that fixed type; instructions run for their effect have no
result. -/
def Opcode.dstKind : Opcode → DstKind
  | .Mov | .IncRef => .DofS0
  | .LdLoc | .LdStack | .LdMem | .LdProp | .LdRef | .LdRaw
  | .LdStackAddr | .LdLocAddr | .LdClsCns | .LookupClsCns
  | .DefConst | .LdConst | .CheckType | .AssertType | .Unbox => .DParam
  | .DefSP | .ReDefSP | .ReDefGeneratorSP | .StashGeneratorSP
  | .SpillStack | .SpillFrame | .ExceptionBarrier | .Call | .CallArray
  | .InterpOne | .InterpOneCF | .RetAdjustStack | .GenericRetDecRefs | .CheckStk
  | .AssertStk | .AssertStkVal | .GuardStk => .D IRType.StkPtr
  | .DefFP | .DefInlineFP | .FreeActRec => .D IRType.FramePtr
  | .LdRetAddr => .D IRType.RetAddr
  | .LdARFuncPtr => .D IRType.Func
  | .LdThis => .D IRType.Obj
  | .LdCtx => .D (IRType.union IRType.Obj IRType.Cls)
  | .LdSSwitchDestFast | .LdSSwitchDestSlow => .D IRType.TCA
  | .LdSwitchDblIndex | .LdSwitchStrIndex | .LdSwitchObjIndex => .D IRType.Int
  | .OpAdd | .OpSub | .OpMul | .OpMod | .OpBitAnd | .OpBitOr | .OpBitXor
  | .OpBitNot | .ConvBoolToInt => .D IRType.Int
  | .OpNot | .OpLogicXor | .ConvCellToBool | .AKExists => .D IRType.Bool
  | .Concat => .D IRType.Str
  | .ArrayIdx => .D IRType.Cell
  | .Box => .D IRType.BoxedCell
  | .NewArray | .NewTuple => .D IRType.Arr
  | _ => .ND

/-! ## Instructions and values -/

abbrev SSATmpId := Nat
abbrev InstId := Nat
/-- An `SSATmp*`: `none` is the null pointer. -/
abbrev SSATmpPtr := Option SSATmpId
abbrev Offset := Int

/-- An `IRTrace*`: the main trace or one of its exit traces. -/
inductive TraceRef where
  | main
  | exit (idx : Nat)
deriving DecidableEq, Repr

/-- The part of `Func` the translator reads. -/
structure Func where
  name : String := ""
  base : Offset := 0
  past : Offset := 0
  numParams : Nat := 0
  numLocals : Nat := 0
  isGenerator : Bool := false
  mayHaveThis : Bool := false
  mayUseVV : Bool := false
  isPseudoMain : Bool := false
deriving DecidableEq, Repr

structure MarkerData where
  bcOff : Offset
  stackOff : Int
  func : Func
deriving DecidableEq, Repr

/-- A compile-time constant carried by `DefConst`. -/
inductive ConstVal where
  | int (i : Int)
  | bool (b : Bool)
  | str (s : String)
  | null
  | func (f : Func)
  | tca (helper : String)
  | rawMemSlot (slot : String)
deriving DecidableEq, Repr

/-- The operand of `DefInlineFP` (lines 232-235). -/
structure DefInlineFPData where
  target : Func
  retBCOff : Offset
  retSPOff : Int
deriving DecidableEq, Repr

/-- The operand of `LdSSwitchDestFast` and `LdSSwitchDestSlow` (lines
2348-2352): the cases are pairs of a literal string and a destination. -/
structure LdSSwitchData where
  func : Func
  numCases : Int
  cases : List (String × Offset)
  defaultOff : Offset
deriving DecidableEq, Repr

/-- The operand of `JmpSwitchDest` (lines 2301-2307). -/
structure JmpSwitchData where
  func : Func
  base : Int
  bounded : Bool
  cases : Nat
  defaultOff : Offset
  targets : List Offset
deriving DecidableEq, Repr

/-- The immediate operand of an instruction. -/
inductive ExtraData where
  | none
  | stackOffset (off : Int)
  | localId (id : Nat)
  | bcOffset (off : Offset)
  | marker (m : MarkerData)
  | const (c : ConstVal)
  | name (s : String)
  | inlineFP (d : DefInlineFPData)
  | sswitch (d : LdSSwitchData)
  | jmpSwitch (d : JmpSwitchData)
  | actRec (numArgs : Int) (invName : Option String)
deriving DecidableEq, Repr

structure IRInstruction where
  op : Opcode := .Nop
  typeParam : Option IRType := none
  extra : ExtraData := .none
  taken : Option TraceRef := none
  srcs : List SSATmpPtr := []
  dst : SSATmpPtr := none
deriving DecidableEq, Repr

structure SSATmp where
  inst : InstId := 0
  type : IRType := IRType.Bottom
deriving DecidableEq, Repr

instance : Inhabited IRInstruction := ⟨{}⟩
instance : Inhabited SSATmp := ⟨{}⟩

/-- Source operand `i` of an instruction (`inst->src(i)`). -/
def IRInstruction.src (inst : IRInstruction) (i : Nat) : SSATmpPtr :=
  (inst.srcs.getD i none)

/-- The arena of instructions and values (`m_irFactory`). -/
structure IRFactory where
  insts : List IRInstruction := []
  tmps : List SSATmp := []
deriving DecidableEq, Repr

namespace IRFactory

/-- Dereference an instruction pointer. -/
def inst (f : IRFactory) (i : InstId) : IRInstruction := f.insts.getD i default

/-- Dereference a value pointer. -/
def tmp (f : IRFactory) (v : SSATmpId) : SSATmp := f.tmps.getD v default

/-- The current type of a value (`tmp->type()`). -/
def typeOf (f : IRFactory) (v : SSATmpId) : IRType := (f.tmp v).type

/-- The instruction producing a value (`tmp->inst()`). -/
def instOf (f : IRFactory) (v : SSATmpId) : InstId := (f.tmp v).inst

/-- In-place `tmp->setType(t)`. -/
def setType (f : IRFactory) (v : SSATmpId) (t : IRType) : IRFactory :=
  { f with tmps := f.tmps.set v { f.tmp v with type := t } }

/-- In-place `inst->setTypeParam(t)`. -/
def setTypeParam (f : IRFactory) (i : InstId) (t : IRType) : IRFactory :=
  { f with insts := f.insts.set i { f.inst i with typeParam := some t } }

/-- The type of a possibly null value pointer; a null pointer has no type. -/
def typeOfPtr (f : IRFactory) : SSATmpPtr → IRType
  | some v => f.typeOf v
  | none => IRType.Bottom

/-- Modelled from the spec: `outputType` (ir.cpp) is not part of the
translation unit.  The type an instruction guarantees for its result,
computed from the instruction as it is now: the type of source 0 for a
forwarding instruction, the type parameter for an instruction that has one
as its result type, the fixed type of the opcode otherwise. -/
def outputType (f : IRFactory) (i : InstId) : IRType :=
  match (f.inst i).op.dstKind with
  | .DofS0 => f.typeOfPtr ((f.inst i).src 0)
  | .DParam => (f.inst i).typeParam.getD IRType.Bottom
  | .D t => t
  | .ND => IRType.None

end IRFactory

/-- Why a computation did not return. -/
inductive Failure where
  | assertion
  | nullDeref
  | outOfFuel
  | punt
  | outOfBounds
deriving DecidableEq, Repr

/-- Lines 89-116, on the arena.  The recursion follows `inst->src(0)` through
moves and reference-count increments; `fuel` bounds its depth. -/
def refineTypeFuel : Nat → IRFactory → SSATmpId → IRType → Except Failure IRFactory
  | 0, _, _, _ => .error .outOfFuel
  | fuel + 1, f, tmp, type =>
    let inst := f.instOf tmp
    if type.strictSubtypeOf (f.typeOf tmp) then
      let opc := (f.inst inst).op
      if opc = .Mov ∨ opc = .IncRef then
        match (f.inst inst).src 0 with
        | none => .error .nullDeref
        | some src =>
          match refineTypeFuel fuel f src type with
          | .error e => .error e
          | .ok f1 => .ok (f1.setType tmp (f1.outputType inst))
      else if (f.typeOf tmp).isNull ∧ type.isNull then
        .ok (f.setType tmp type)
      else if opc = .LdLoc ∨ opc = .LdStack ∨ opc = .LdMem ∨ opc = .LdProp ∨ opc = .LdRef then
        let f1 := f.setTypeParam inst type
        let f2 := f1.setType tmp type
        if f2.outputType inst = type then .ok f2 else .error .assertion
      else
        .error .assertion
    else
      .ok f

/-- The recursion of `refineType` visits distinct values of the arena, so one
unit of fuel per value of the arena, and one more, is enough. -/
def IRFactory.refineType (f : IRFactory) (tmp : SSATmpId) (type : IRType) :
    Except Failure IRFactory :=
  refineTypeFuel (f.tmps.length + 1) f tmp type

/-- The values `refineType` can visit from `tmp`: `tmp` itself, then the
source of each move or reference-count increment in turn, down to the first
value whose producer is neither.  `fuel` bounds the length. -/
def chainFuel : Nat → IRFactory → SSATmpId → Option (List SSATmpId)
  | 0, _, _ => none
  | fuel + 1, f, tmp =>
    let opc := (f.inst (f.instOf tmp)).op
    if opc = .Mov ∨ opc = .IncRef then
      match (f.inst (f.instOf tmp)).src 0 with
      | none => none
      | some src =>
        match chainFuel fuel f src with
        | none => none
        | some vs => some (tmp :: vs)
    else
      some [tmp]

/-- The chain of `tmp`, on the fuel of `refineType`. -/
def IRFactory.chain (f : IRFactory) (tmp : SSATmpId) : Option (List SSATmpId) :=
  chainFuel (f.tmps.length + 1) f tmp

/-- Each value of a chain has a type at least as wide as the type of its
source: a forwarded value is created with the type of its source, and types
only narrow, the source before the value. -/
def IRFactory.chainTyped (f : IRFactory) : List SSATmpId → Bool
  | [] => true
  | [_] => true
  | a :: b :: rest => (f.typeOf b).subtypeOf (f.typeOf a) && chainTyped f (b :: rest)

/-- The producer of a value is one of the loads that carry their result type
as a type parameter (lines 108-110). -/
def IRFactory.isParamLoad (f : IRFactory) (w : SSATmpId) : Prop :=
  (f.inst (f.instOf w)).op = .LdLoc ∨ (f.inst (f.instOf w)).op = .LdStack ∨
  (f.inst (f.instOf w)).op = .LdMem ∨ (f.inst (f.instOf w)).op = .LdProp ∨
  (f.inst (f.instOf w)).op = .LdRef

instance (f : IRFactory) (w : SSATmpId) : Decidable (f.isParamLoad w) := by
  unfold IRFactory.isParamLoad
  infer_instance

/-- The condition under which narrowing the value `w` at the end of a chain
to `t` violates the invariant asserted at lines 108-110. -/
def IRFactory.refineViolates (f : IRFactory) (w : SSATmpId) (t : IRType) : Prop :=
  t.strictSubtypeOf (f.typeOf w) = true ∧
  ¬ ((f.inst (f.instOf w)).op = .Mov ∨ (f.inst (f.instOf w)).op = .IncRef) ∧
  ¬ ((f.typeOf w).isNull = true ∧ t.isNull = true) ∧
  ¬ ((f.inst (f.instOf w)).op = .LdLoc ∨ (f.inst (f.instOf w)).op = .LdStack ∨
     (f.inst (f.instOf w)).op = .LdMem ∨ (f.inst (f.instOf w)).op = .LdProp ∨
     (f.inst (f.instOf w)).op = .LdRef)

instance (f : IRFactory) (w : SSATmpId) (t : IRType) : Decidable (f.refineViolates w t) := by
  unfold IRFactory.refineViolates
  infer_instance

/-! ## Traces and the trace builder -/

abbrev Block := List InstId

/-- A trace: its basic blocks, each the instructions appended to it, in
emission order. -/
structure IRTrace where
  blocks : List Block := [[]]
  bcOff : Offset := 0
deriving DecidableEq, Repr

/-- Append to the last block of a block list. -/
def pushBackBlocks : List Block → InstId → List Block
  | [], i => [[i]]
  | [b], i => [b ++ [i]]
  | b :: b2 :: bs, i => b :: pushBackBlocks (b2 :: bs) i

/-- Append to the first block of a block list. -/
def pushFrontBlocks : List Block → InstId → List Block
  | [], i => [[i]]
  | b :: bs, i => (b ++ [i]) :: bs

namespace IRTrace

/-- The instruction sequence of the trace. -/
def instructions (t : IRTrace) : List InstId := t.blocks.flatten

/-- Append via `trace->back()->push_back(inst)`. -/
def pushBack (t : IRTrace) (i : InstId) : IRTrace :=
  { t with blocks := pushBackBlocks t.blocks i }

/-- Append via `trace->front()->push_back(inst)`. -/
def pushFront (t : IRTrace) (i : InstId) : IRTrace :=
  { t with blocks := pushFrontBlocks t.blocks i }

end IRTrace

/-- Modelled from the spec: the class `TraceBuilder` (tracebuilder.h) is not
part of the translation unit.  It owns the main trace and the auxiliary
traces made for it, and tracks the current stack pointer value, frame
pointer value and frame base offset. -/
structure TraceBuilder where
  trace : IRTrace := {}
  exitTraces : List IRTrace := []
  spValue : SSATmpPtr := none
  fpValue : SSATmpPtr := none
  spOffset : Int := 0
  inlineSaved : List (SSATmpPtr × SSATmpPtr × Int) := []
deriving DecidableEq, Repr

namespace TraceBuilder

def sp (tb : TraceBuilder) : SSATmpPtr := tb.spValue
def fp (tb : TraceBuilder) : SSATmpPtr := tb.fpValue

/-- Modelled from the spec: allocates a new auxiliary trace for a target
offset, made of a single empty block, and hands back a pointer to it. -/
def makeExitTrace (tb : TraceBuilder) (targetBcOff : Offset) : TraceRef × TraceBuilder :=
  (.exit tb.exitTraces.length,
   { tb with exitTraces := tb.exitTraces ++ [{ blocks := [[]], bcOff := targetBcOff }] })

/-- Append an instruction to the last block of the trace a pointer names. -/
def pushBackOn (tb : TraceBuilder) (t : TraceRef) (i : InstId) : TraceBuilder :=
  match t with
  | .main => { tb with trace := tb.trace.pushBack i }
  | .exit k => { tb with exitTraces := tb.exitTraces.modify (fun tr => tr.pushBack i) k }

/-- Append an instruction to the first block of the trace a pointer names. -/
def pushFrontOn (tb : TraceBuilder) (t : TraceRef) (i : InstId) : TraceBuilder :=
  match t with
  | .main => { tb with trace := tb.trace.pushFront i }
  | .exit k => { tb with exitTraces := tb.exitTraces.modify (fun tr => tr.pushFront i) k }

/-- The integer immediate of a stack-offset operand. -/
def stackOffsetOf : ExtraData → Int
  | .stackOffset off => off
  | _ => 0

/-- The stack offset the caller returns to, as `DefInlineFP` records it. -/
def retSPOffOf : ExtraData → Int
  | .inlineFP d => d.retSPOff
  | _ => 0

/-- Modelled from the spec: an instruction appended to the main trace that
produces a stack pointer becomes the tracked stack pointer, one that defines
a frame pointer becomes the tracked frame pointer, and an instruction that
defines the stack pointer at a given offset resets the frame base offset.
Defining an inlined frame saves the frame pointer of the caller with the stack
pointer and offset the caller returns to (the second source and the operand
of `DefInlineFP`, lines 181-213), and the inlined return restores them. -/
def updateTrackedState (tb : TraceBuilder) (inst : IRInstruction) : TraceBuilder :=
  match inst.op with
  | .DefInlineFP =>
    { tb with fpValue := inst.dst,
              inlineSaved := (tb.fpValue, inst.srcs.getD 1 none, retSPOffOf inst.extra) ::
                tb.inlineSaved }
  | .InlineReturn =>
    match tb.inlineSaved with
    | [] => tb
    | saved :: rest =>
      { tb with fpValue := saved.1, spValue := saved.2.1, spOffset := saved.2.2,
                inlineSaved := rest }
  | .DefFP | .FreeActRec => { tb with fpValue := inst.dst }
  | .DefSP | .ReDefSP | .ReDefGeneratorSP =>
    { tb with spValue := inst.dst, spOffset := stackOffsetOf inst.extra }
  | .SpillStack | .SpillFrame | .ExceptionBarrier | .Call | .CallArray | .InterpOne
  | .InterpOneCF | .RetAdjustStack | .CheckStk | .AssertStk | .AssertStkVal | .GuardStk =>
    { tb with spValue := inst.dst }
  | _ => tb

end TraceBuilder

namespace IRFactory

/-- Modelled from the spec: `IRFactory::gen` (irfactory.h) is not part of
the translation unit.  The factory allocates the instruction, and a value for
its result when the opcode has one, typed with the output type of the
instruction; it does no other work. -/
def gen (f : IRFactory) (op : Opcode) (typeParam : Option IRType) (extra : ExtraData)
    (taken : Option TraceRef) (srcs : List SSATmpPtr) : InstId × IRFactory :=
  let i := f.insts.length
  if op.dstKind = .ND then
    (i, { f with insts := f.insts ++ [{ op := op, typeParam := typeParam, extra := extra,
                                        taken := taken, srcs := srcs, dst := none }] })
  else
    let f1 : IRFactory :=
      { f with insts := f.insts ++ [{ op := op, typeParam := typeParam, extra := extra,
                                      taken := taken, srcs := srcs, dst := some f.tmps.length }] }
    (i, { f1 with tmps := f1.tmps ++ [{ inst := i, type := f1.outputType i }] })

/-- The type of a constant. -/
def typeForConst : ConstVal → IRType
  | .int _ => IRType.Int
  | .bool _ => IRType.Bool
  | .str _ => IRType.StaticStr
  | .null => IRType.InitNull
  | .func _ => IRType.Func
  | .tca _ => IRType.TCA
  | .rawMemSlot _ => IRType.Int

end IRFactory

/-! ## The translator -/

/-- The translation cursor of one call frame. -/
structure BcState where
  bcOff : Offset := 0
  func : Func := {}
deriving DecidableEq, Repr

instance : Inhabited BcState := ⟨{}⟩

/-- The session state of `HhbcTranslator`.  `evalStack` is the virtual
evaluation stack with the top of the stack at index 0; `bcStateStack` and
`fpiStack` are kept in vector order, the current entry last. -/
structure HhbcTranslator where
  irFactory : IRFactory := {}
  tb : TraceBuilder := {}
  evalStack : List SSATmpId := []
  stackDeficit : Nat := 0
  bcStateStack : List BcState := []
  fpiStack : List (SSATmpPtr × Int) := []
  startBcOff : Offset := 0
  lastBcOff : Bool := false
  hasExit : Bool := false
deriving DecidableEq, Repr

/-- The number of values of the 32-bit unsigned stack deficit counter. -/
def uint32Size : Nat := 2 ^ 32

/-- Conversion to the 32-bit signed integer of `MarkerData::stackOff`. -/
def toInt32 (x : Int) : Int := (x + 2 ^ 31) % 2 ^ 32 - 2 ^ 31

/-- The `ExitFlag` of `getExitTraceImpl`. -/
inductive ExitFlag where
  | None
  | NoIR
  | DelayedMarker
deriving DecidableEq, Repr

namespace HhbcTranslator

def bcOff (s : HhbcTranslator) : Offset := (s.bcStateStack.getLastD default).bcOff
def curFunc (s : HhbcTranslator) : Func := (s.bcStateStack.getLastD default).func

/-- Modelled from the spec: `gen` is declared in the header.  Emission
appends the instruction to the current trace and returns the produced value,
if any.  Position markers are attached by `emitMarker`, which `setBcOff`
calls whenever the offset changes (lines 277-279 and 321-329). -/
def gen (s : HhbcTranslator) (op : Opcode) (typeParam : Option IRType) (extra : ExtraData)
    (taken : Option TraceRef) (srcs : List SSATmpPtr) : SSATmpPtr × HhbcTranslator :=
  let r := s.irFactory.gen op typeParam extra taken srcs
  let inst := r.2.inst r.1
  (inst.dst,
   { s with irFactory := r.2,
            tb := ((s.tb.pushBackOn .main r.1).updateTrackedState inst) })

/-- Modelled from the spec: `genFor` is declared in the header.  The parallel
entry point emits into an explicitly named other trace and leaves the stack
model of the main trace alone. -/
def genFor (s : HhbcTranslator) (t : TraceRef) (op : Opcode) (typeParam : Option IRType)
    (extra : ExtraData) (taken : Option TraceRef) (srcs : List SSATmpPtr) :
    SSATmpPtr × HhbcTranslator :=
  let r := s.irFactory.gen op typeParam extra taken srcs
  ((r.2.inst r.1).dst, { s with irFactory := r.2, tb := s.tb.pushBackOn t r.1 })

/-- Modelled from the spec: `cns` is declared in the header.  A constant is a
value the factory makes; its defining instruction is put on no trace. -/
def cns (s : HhbcTranslator) (c : ConstVal) : SSATmpPtr × HhbcTranslator :=
  let r := s.irFactory.gen .DefConst (some (IRFactory.typeForConst c)) (.const c) none []
  ((r.2.inst r.1).dst, { s with irFactory := r.2 })

/-- Lines 83-87. -/
def push (s : HhbcTranslator) (tmp : SSATmpPtr) : Except Failure (SSATmpPtr × HhbcTranslator) :=
  match tmp with
  | none => .error .assertion
  | some v => .ok (some v, { s with evalStack := v :: s.evalStack })

/-- Lines 89-116, on the session state. -/
def refineType (s : HhbcTranslator) (tmp : SSATmpId) (type : IRType) :
    Except Failure HhbcTranslator :=
  match s.irFactory.refineType tmp type with
  | .error e => .error e
  | .ok f => .ok { s with irFactory := f }

/-- Lines 118-131. -/
def pop (s : HhbcTranslator) (type : IRType) : Except Failure (SSATmpPtr × HhbcTranslator) :=
  match s.evalStack with
  | [] =>
    let stackOff := s.stackDeficit
    let s1 := { s with stackDeficit := (s.stackDeficit + 1) % uint32Size }
    .ok (s1.gen .LdStack (some type) (.stackOffset stackOff) none [s1.tb.sp])
  | opnd :: rest =>
    match ({ s with evalStack := rest } : HhbcTranslator).refineType opnd type with
    | .error e => .error e
    | .ok s1 => .ok (some opnd, s1)

/-- Lines 133-137: the loop body does not read the loop counter. -/
def discard : HhbcTranslator → Nat → Except Failure HhbcTranslator
  | s, 0 => .ok s
  | s, n + 1 =>
    match s.pop (IRType.union IRType.Gen IRType.Cls) with
    | .error e => .error e
    | .ok r => discard r.2 n

/-- Lines 155-164. -/
def extendStack : HhbcTranslator → Nat → IRType → Except Failure HhbcTranslator
  | s, 0, type =>
    match s.pop type with
    | .error e => .error e
    | .ok r =>
      match r.2.push r.1 with
      | .error e => .error e
      | .ok r2 => .ok r2.2
  | s, index + 1, type =>
    match s.pop (IRType.union IRType.Gen IRType.Cls) with
    | .error e => .error e
    | .ok r =>
      match extendStack r.2 index type with
      | .error e => .error e
      | .ok s2 =>
        match s2.push r.1 with
        | .error e => .error e
        | .ok r3 => .ok r3.2

/-- Lines 166-175. -/
def top (s : HhbcTranslator) (type : IRType) (index : Nat) :
    Except Failure (SSATmpPtr × HhbcTranslator) :=
  match s.evalStack[index]? with
  | some tmp =>
    match s.refineType tmp type with
    | .error e => .error e
    | .ok s1 => .ok (some tmp, s1)
  | none =>
    match s.extendStack index type with
    | .error e => .error e
    | .ok s1 =>
      match s1.evalStack[index]? with
      | none => .error .assertion
      | some tmp =>
        match s1.refineType tmp type with
        | .error e => .error e
        | .ok s2 => .ok (some tmp, s2)

/-- Modelled from the spec: `EvalStack::numCells` is declared in the header.
The stack depth counts the virtual stack size. -/
def numCells (s : HhbcTranslator) : Nat := s.evalStack.length

/-- Lines 263-275: the marker instruction is made by the factory and not yet
put on a trace. -/
def makeMarker (s : HhbcTranslator) (bcOff : Offset) : InstId × HhbcTranslator :=
  let stackOff := toInt32 (s.tb.spOffset + s.numCells - s.stackDeficit)
  let r := s.irFactory.gen .Marker none
    (.marker { bcOff := bcOff, func := s.curFunc, stackOff := stackOff }) none []
  (r.1, { s with irFactory := r.2 })

/-- Lines 277-279. -/
def emitMarker (s : HhbcTranslator) : HhbcTranslator :=
  let r := s.makeMarker s.bcOff
  { r.2 with tb := (r.2.tb.pushBackOn .main r.1).updateTrackedState (r.2.irFactory.inst r.1) }

/-- Lines 39-57, the constructor. -/
def new (startOffset : Offset) (initialSpOffsetFromFp : Nat) (func : Func) : HhbcTranslator :=
  let s0 : HhbcTranslator :=
    { irFactory := {},
      tb := { spOffset := initialSpOffsetFromFp },
      bcStateStack := [{ bcOff := startOffset, func := func }],
      startBcOff := startOffset,
      lastBcOff := false,
      hasExit := false,
      stackDeficit := 0 }
  let s1 := s0.emitMarker
  let r := s1.gen .DefFP none .none none []
  (r.2.gen .DefSP none (.stackOffset initialSpOffsetFromFp) none [r.1]).2

/-- Lines 3312-3320: the values of the virtual stack, top of stack at index
0; the virtual stack is only read. -/
def peekSpillValues (s : HhbcTranslator) : List SSATmpPtr := s.evalStack.map some

/-- A caller-supplied closure run while an exit trace is built: it is handed
the trace and returns a value to spill, or null. -/
abbrev CustomExit := TraceRef → HhbcTranslator → SSATmpPtr × HhbcTranslator

/-- Lines 3382-3395 of `getExitTraceImpl`: the stack pointer of the exit, the
spill-value vector as the caller sees it afterwards, and the session. -/
def exitSpill (s : HhbcTranslator) (exit : TraceRef) (stackValues : List SSATmpPtr) :
    (SSATmpPtr × List SSATmpPtr) × HhbcTranslator :=
  if s.stackDeficit ≠ 0 ∨ stackValues ≠ [] then
    let c := s.cns (.int s.stackDeficit)
    let inserted := s.tb.sp :: c.1 :: stackValues
    let g := c.2.genFor exit .SpillStack none .none none inserted
    ((g.1, inserted), g.2)
  else
    ((s.tb.sp, stackValues), s)

/-- Lines 3397-3407 of `getExitTraceImpl`: the stack pointer, whether one more
value was spilled, and the session. -/
def exitCustom (s : HhbcTranslator) (exit : TraceRef) (stack : SSATmpPtr)
    (customFn : Option CustomExit) : (SSATmpPtr × Bool) × HhbcTranslator :=
  match customFn with
  | none => ((stack, false), s)
  | some fn =>
    let b := s.genFor exit .ExceptionBarrier none .none none [stack]
    let r := fn exit b.2
    match r.1 with
    | none => ((b.1, false), r.2)
    | some customTmp =>
      let z := r.2.cns (.int 0)
      let g := z.2.genFor exit .SpillStack none .none none [b.1, z.1, some customTmp]
      ((g.1, true), g.2)

/-- Lines 3409-3429 of `getExitTraceImpl`. -/
def exitFinish (s : HhbcTranslator) (exit : TraceRef) (targetBcOff : Offset) (flag : ExitFlag)
    (exitMarker : MarkerData) (stack : SSATmpPtr) : HhbcTranslator :=
  let s1 := if flag = .DelayedMarker
    then (s.genFor exit .Marker none (.marker exitMarker) none []).2 else s
  let s2 := (s1.genFor exit .SyncABIRegs none .none none [s1.tb.fp, stack]).2
  if flag = .NoIR then
    (s2.genFor exit (if targetBcOff = s2.startBcOff then .ReqRetranslateNoIR else .ReqBindJmpNoIR)
      none (.bcOffset targetBcOff) none []).2
  else if s2.bcOff = s2.startBcOff ∧ targetBcOff = s2.startBcOff then
    (s2.genFor exit .ReqRetranslate none .none none []).2
  else
    (s2.genFor exit .ReqBindJmp none (.bcOffset targetBcOff) none []).2

/-- Lines 3382-3430 of `getExitTraceImpl`: what follows the first marker.
`exitMarker` is the marker for the target offset as computed at lines
3367-3371. -/
def exitTail (s : HhbcTranslator) (exit : TraceRef) (targetBcOff : Offset) (flag : ExitFlag)
    (exitMarker : MarkerData) (stackValues : List SSATmpPtr) (customFn : Option CustomExit) :
    (TraceRef × List SSATmpPtr) × HhbcTranslator :=
  let sp := s.exitSpill exit stackValues
  let cu := sp.2.exitCustom exit sp.1.1 customFn
  let exitMarker2 : MarkerData :=
    if cu.1.2 then { exitMarker with stackOff := toInt32 (exitMarker.stackOff + 1) } else exitMarker
  ((exit, sp.1.2), cu.2.exitFinish exit targetBcOff flag exitMarker2 cu.1.1)

/-- Lines 3361-3430.  `stackValues` is passed by reference: the second
component of the result is the vector as the caller finds it afterwards. -/
def getExitTraceImpl (s : HhbcTranslator) (targetBcOff : Offset) (flag : ExitFlag)
    (stackValues : List SSATmpPtr) (customFn : Option CustomExit) :
    (TraceRef × List SSATmpPtr) × HhbcTranslator :=
  let m := s.tb.makeExitTrace targetBcOff
  let exit := m.1
  let s0 : HhbcTranslator := { s with tb := m.2 }
  let exitMarker : MarkerData :=
    { bcOff := targetBcOff,
      stackOff := toInt32 (s0.tb.spOffset + stackValues.length - s0.stackDeficit),
      func := s0.curFunc }
  let currentMarker : MarkerData :=
    { bcOff := s0.bcOff,
      func := s0.curFunc,
      stackOff := toInt32 (s0.tb.spOffset + s0.numCells - s0.stackDeficit) }
  let s1 := (s0.genFor exit .Marker none
    (.marker (if flag = .DelayedMarker then currentMarker else exitMarker)) none []).2
  s1.exitTail exit targetBcOff flag exitMarker stackValues customFn

/-- Lines 3327-3332: `getExitTrace(Offset, std::vector<SSATmp*>&)`. -/
def getExitTraceSpill (s : HhbcTranslator) (targetBcOff : Offset) (spillValues : List SSATmpPtr) :
    (TraceRef × List SSATmpPtr) × HhbcTranslator :=
  let target := if targetBcOff = -1 then s.bcOff else targetBcOff
  s.getExitTraceImpl target .None spillValues none

/-- Lines 3322-3325: `getExitTrace(Offset targetBcOff = -1)`. -/
def getExitTrace (s : HhbcTranslator) (targetBcOff : Offset) : TraceRef × HhbcTranslator :=
  let r := s.getExitTraceSpill targetBcOff s.peekSpillValues
  (r.1.1, r.2)

/-- The closure of `getExitTraceWarn`, lines 3339-3342. -/
def warnExit (warning : String) : CustomExit := fun t s =>
  let c := s.cns (.str warning)
  (none, (c.2.genFor t .RaiseWarning none .none none [c.1]).2)

/-- Lines 3334-3344. -/
def getExitTraceWarn (s : HhbcTranslator) (targetBcOff : Offset) (spillValues : List SSATmpPtr)
    (warning : String) : Except Failure ((TraceRef × List SSATmpPtr) × HhbcTranslator) :=
  if targetBcOff = -1 then .error .assertion
  else .ok (s.getExitTraceImpl targetBcOff .None spillValues (some (warnExit warning)))

/-- Lines 3346-3353. -/
def makeSideExit (s : HhbcTranslator) (targetBcOff : Offset) (exit : CustomExit) :
    TraceRef × HhbcTranslator :=
  let r := s.getExitTraceImpl targetBcOff .DelayedMarker s.peekSpillValues (some exit)
  (r.1.1, r.2)

/-- Lines 3355-3359. -/
def getExitSlowTrace (s : HhbcTranslator) : TraceRef × HhbcTranslator :=
  let r := s.getExitTraceImpl s.bcOff .NoIR s.peekSpillValues none
  (r.1.1, r.2)

/-- Lines 3452-3463. -/
def emitSpillStack (s : HhbcTranslator) (t : TraceRef) (sp : SSATmpPtr)
    (spillVals : List SSATmpPtr) : SSATmpPtr × HhbcTranslator :=
  let c := s.cns (.int s.stackDeficit)
  let ssaArgs := [sp, c.1] ++ spillVals
  if t = .main then c.2.gen .SpillStack none .none none ssaArgs
  else c.2.genFor t .SpillStack none .none none ssaArgs

/-- The number of blocks of the trace a pointer names. -/
def numBlocks (s : HhbcTranslator) : TraceRef → Nat
  | .main => s.tb.trace.blocks.length
  | .exit k => (s.tb.exitTraces.getD k {}).blocks.length

/-- Lines 3439-3450. -/
def getCatchTrace (s : HhbcTranslator) : Except Failure (TraceRef × HhbcTranslator) :=
  let m := s.tb.makeExitTrace s.bcOff
  let exit := m.1
  let s0 : HhbcTranslator := { s with tb := m.2 }
  if s0.numBlocks exit ≠ 1 then .error .assertion
  else
    let s1 := (s0.genFor exit .BeginCatch none .none none []).2
    let mk := s1.makeMarker s1.bcOff
    let s2 : HhbcTranslator := { mk.2 with tb := mk.2.tb.pushFrontOn exit mk.1 }
    let sp := s2.emitSpillStack exit s2.tb.sp s2.peekSpillValues
    let s3 := (sp.2.genFor exit .EndCatch none .none none [sp.1]).2
    if s3.numBlocks exit ≠ 1 then .error .assertion
    else .ok (exit, s3)

/-- Lines 3465-3471. -/
def spillStack (s : HhbcTranslator) : SSATmpPtr × HhbcTranslator :=
  let r := s.emitSpillStack .main s.tb.sp s.peekSpillValues
  (r.1, { r.2 with evalStack := [], stackDeficit := 0 })

/-- The closure handed to `makeSideExit` at lines 1514-1519 (`emitClsCnsD`). -/
def lookupClsCnsExit (clsCnsName : String) : CustomExit := fun t s =>
  s.genFor t .LookupClsCns (some IRType.Cell) (.name clsCnsName) none []

end HhbcTranslator

/-! ## Lowering rules -/

/-- Modelled from the spec: `Type::subtypeOfAny` (type.h), a subtype of one of
the listed types. -/
def subtypeOfAny (a : IRType) (ts : List IRType) : Bool := ts.any (fun t => a.subtypeOf t)

/-- Modelled from the spec: `Type::isString` (type.h), a subtype of `Str`. -/
def isString (a : IRType) : Bool := a.subtypeOf IRType.Str

/-- Dereference of a value pointer; a null pointer ends the computation. -/
def derefTmp : SSATmpPtr → Except Failure SSATmpId
  | some v => .ok v
  | none => .error .nullDeref

namespace HhbcTranslator

/-- Modelled from the spec: `popC` is declared in the header; it pops a
value expected to be a cell. -/
def popC (s : HhbcTranslator) : Except Failure (SSATmpPtr × HhbcTranslator) := s.pop IRType.Cell

/-- Modelled from the spec: `popF` is declared in the header; it pops a
call argument, a cell or a reference cell. -/
def popF (s : HhbcTranslator) : Except Failure (SSATmpPtr × HhbcTranslator) := s.pop IRType.Gen

/-- Modelled from the spec: `topC` is declared in the header; it reads the
entry at depth `index`, expected to be a cell. -/
def topC (s : HhbcTranslator) (index : Nat) : Except Failure (SSATmpPtr × HhbcTranslator) :=
  s.top IRType.Cell index

/-- Lines 259-261. -/
def isInlining (s : HhbcTranslator) : Bool := decide (1 < s.bcStateStack.length)

/-- Modelled from the spec: `SSATmp::isA` (ir.h), the type of the value is a
subtype of `t`. -/
def isA (s : HhbcTranslator) (tmp : SSATmpId) (t : IRType) : Bool :=
  (s.irFactory.typeOf tmp).subtypeOf t

/-- Lines 281-292.  `enabled` is the process-wide statistics switch read at
lines 282-283. -/
def profileFunctionEntry (s : HhbcTranslator) (enabled : Bool) (category : String) :
    HhbcTranslator :=
  if enabled then
    let a := s.cns (.str "FunctionEntry")
    let b := a.2.cns (.str category)
    let c := b.2.cns (.int 1)
    (c.2.gen .IncStatGrouped none .none none [a.1, b.1, c.1]).2
  else s

/-- Lines 223-226: iteration `i` pops one argument into `params[numParams - i
- 1]`; `fuel` counts the iterations left. -/
def popParams (numParams : Nat) :
    Nat → Nat → List SSATmpPtr → HhbcTranslator →
      Except Failure (List SSATmpPtr × HhbcTranslator)
  | 0, _, params, s => .ok (params, s)
  | fuel + 1, i, params, s =>
    match s.popF with
    | .error e => .error e
    | .ok r => popParams numParams fuel (i + 1) (params.set (numParams - i - 1) r.1) r.2

/-- Lines 243-245: iteration `i` stores `params[i]` to local `i` of the
callee; `fuel` counts the iterations left. -/
def storeParams (calleeFP : SSATmpPtr) (params : List SSATmpPtr) :
    Nat → Nat → HhbcTranslator → HhbcTranslator
  | 0, _, s => s
  | fuel + 1, i, s =>
    storeParams calleeFP params fuel (i + 1)
      (s.gen .StLoc none (.localId i) none [calleeFP, params.getD i none]).2

/-- Lines 227-245 of `beginInlining`, after the arguments were popped into
`params`: the stack is spilled, the frame of the callee is defined, its frame
state is pushed, the stack pointer is redefined above its locals, and the
arguments are stored to its locals.  `statsEnabled` is the switch of
`profileFunctionEntry`. -/
def inlineFrame (s : HhbcTranslator) (params : List SSATmpPtr) (statsEnabled : Bool)
    (numParams : Nat) (target : Func) (returnBcOffset : Offset) : HhbcTranslator :=
  let prevSP := (s.fpiStack.getLastD (none, 0)).1
  let prevSPOff := (s.fpiStack.getLastD (none, 0)).2
  let calleeSP := s.spillStack
  let calleeFP := calleeSP.2.gen .DefInlineFP none
    (.inlineFP { target := target, retBCOff := returnBcOffset, retSPOff := prevSPOff })
    none [calleeSP.1, prevSP]
  let s1 : HhbcTranslator :=
    { calleeFP.2 with
      bcStateStack := calleeFP.2.bcStateStack ++ [{ bcOff := target.base, func := target }] }
  let s2 := (s1.gen .ReDefSP none (.stackOffset target.numLocals) none
    [s1.tb.fp, s1.tb.sp]).2
  let s3 := s2.profileFunctionEntry statsEnabled "Inline"
  storeParams calleeFP.1 params numParams 0 s3

/-- Lines 227-238 of `beginInlining`: the frame pointer of the callee and the
session as it is at line 239, when the frame state of the callee has been
pushed and `ReDefSP` is about to be emitted. -/
def inlineFrameEntered (s : HhbcTranslator) (target : Func) (returnBcOffset : Offset) :
    SSATmpPtr × HhbcTranslator :=
  let prevSP := (s.fpiStack.getLastD (none, 0)).1
  let prevSPOff := (s.fpiStack.getLastD (none, 0)).2
  let calleeSP := s.spillStack
  let calleeFP := calleeSP.2.gen .DefInlineFP none
    (.inlineFP { target := target, retBCOff := returnBcOffset, retSPOff := prevSPOff })
    none [calleeSP.1, prevSP]
  (calleeFP.1,
   { calleeFP.2 with
     bcStateStack := calleeFP.2.bcStateStack ++ [{ bcOff := target.base, func := target }] })

/-- Lines 214-257.  The loop at lines 246-254 aborts in its first iteration,
so it is entered exactly when the callee has a local that is not a
parameter. -/
def beginInlining (s : HhbcTranslator) (statsEnabled : Bool) (numParams : Nat) (target : Func)
    (returnBcOffset : Offset) : Except Failure HhbcTranslator :=
  if s.fpiStack = [] then .error .assertion
  else if target.isGenerator then .error .assertion
  else
    match popParams numParams numParams 0 (List.replicate numParams none) s with
    | .error e => .error e
    | .ok p =>
      let s4 := inlineFrame p.2 p.1 statsEnabled numParams target returnBcOffset
      if numParams < target.numLocals then .error .assertion
      else .ok s4.emitMarker

/-- Lines 2188-2194: the locals are released from the last to the first;
`n` is the number of locals left, the next one released is `n - 1`. -/
def decRefLocals (retVal : SSATmpPtr) (retValLocId : Int) : Nat → HhbcTranslator → HhbcTranslator
  | 0, s => s
  | n + 1, s =>
    if retValLocId = (n : Int) then
      decRefLocals retVal retValLocId n (s.gen .DecRef none .none none [retVal]).2
    else
      decRefLocals retVal retValLocId n
        (s.gen .DecRefLoc (some IRType.Gen) (.localId n) none [s.tb.fp]).2

/-- The local a `LdLoc` instruction reads. -/
def locIdOf : ExtraData → Nat
  | .localId id => id
  | _ => 0

/-- Lines 2153-2171 of `emitDecRefLocalsInline`: the load the return value is
a counted reference to, with its opcode, when the return value is the `IncRef`
of a `LdLoc` or `LdThis`; null and `Nop` otherwise. -/
def retValSource (s : HhbcTranslator) (rv : SSATmpId) : Except Failure (SSATmpPtr × Opcode) :=
  let retValSrcInstr := s.irFactory.inst (s.irFactory.instOf rv)
  if retValSrcInstr.op = .IncRef then
    match retValSrcInstr.src 0 with
    | none => .error .nullDeref
    | some loc =>
      let opc := (s.irFactory.inst (s.irFactory.instOf loc)).op
      if opc ≠ .LdLoc ∧ opc ≠ .LdThis then .ok (none, .Nop) else .ok (some loc, opc)
  else .ok (none, .Nop)

/-- Lines 2173-2197 of `emitDecRefLocalsInline`: the release of the receiver
and of the locals, and the value returned. -/
def decRefThisAndLocals (s : HhbcTranslator) (retVal : SSATmpPtr) (retValSrcLoc : SSATmpPtr)
    (retValSrcOpc : Opcode) : SSATmpPtr × HhbcTranslator :=
  let curFunc := s.curFunc
  let s1 :=
    if curFunc.mayHaveThis then
      if retValSrcLoc ≠ none ∧ retValSrcOpc = .LdThis then
        (s.gen .DecRef none .none none [retVal]).2
      else
        (s.gen .DecRefThis none .none none [s.tb.fp]).2
    else s
  let retValLocId : Int :=
    match retValSrcLoc with
    | some loc =>
      if ¬ s1.isInlining ∧ retValSrcOpc = .LdLoc then
        (locIdOf (s1.irFactory.inst (s1.irFactory.instOf loc)).extra : Nat)
      else -1
    | none => -1
  let s2 := decRefLocals retVal retValLocId curFunc.numLocals s1
  (if retValSrcLoc ≠ none then retValSrcLoc else retVal, s2)

/-- Lines 2152-2198. -/
def emitDecRefLocalsInline (s : HhbcTranslator) (retVal : SSATmpPtr) :
    Except Failure (SSATmpPtr × HhbcTranslator) :=
  match retVal with
  | none => .error .nullDeref
  | some rv =>
    match s.retValSource rv with
    | .error e => .error e
    | .ok src => .ok (s.decRefThisAndLocals retVal src.1 src.2)

/-- Lines 2107-2150. -/
def emitRetFromInlined (s : HhbcTranslator) (type : IRType) : Except Failure HhbcTranslator :=
  match s.pop type with
  | .error e => .error e
  | .ok r =>
    if r.2.curFunc.mayUseVV then .error .assertion
    else if r.2.curFunc.isPseudoMain then .error .assertion
    else if r.2.fpiStack = [] then .error .assertion
    else
      match r.2.emitDecRefLocalsInline r.1 with
      | .error e => .error e
      | .ok d =>
        let s1 := (d.2.gen .InlineReturn none .none none [d.2.tb.fp]).2
        let s2 : HhbcTranslator :=
          { s1 with bcStateStack := s1.bcStateStack.dropLast, fpiStack := s1.fpiStack.dropLast }
        let s3 :=
          if s2.curFunc.isGenerator then
            (s2.gen .ReDefGeneratorSP none (.stackOffset s2.tb.spOffset) none [s2.tb.sp]).2
          else
            (s2.gen .ReDefSP none (.stackOffset s2.tb.spOffset) none [s2.tb.fp, s2.tb.sp]).2
        if s3.numCells ≠ 0 then .error .assertion
        else
          match ({ s3 with stackDeficit := 0 } : HhbcTranslator).push r.1 with
          | .error e => .error e
          | .ok q => .ok q.2.emitMarker

/-- Lines 597-599. -/
def emitInt (s : HhbcTranslator) (val : Int) : Except Failure HhbcTranslator :=
  let c := s.cns (.int val)
  match c.2.push c.1 with
  | .error e => .error e
  | .ok p => .ok p.2

/-- Lines 3215-3232.  `numPopped` is compared with the unsigned deficit
counter. -/
def emitInterpOne (s : HhbcTranslator) (type : IRType) (numPopped : Nat)
    (numExtraPushed : Int) : Except Failure HhbcTranslator :=
  let sp := s.spillStack
  match sp.2.discard numPopped with
  | .error e => .error e
  | .ok s1 =>
    if numPopped % uint32Size ≠ s1.stackDeficit then .error .assertion
    else
      let numPushed : Int := (if type = IRType.None then 0 else 1) + numExtraPushed
      let c1 := s1.cns (.int s1.bcOff)
      let c2 := c1.2.cns (.int (numPopped - numPushed))
      let g := c2.2.gen .InterpOne (some type) .none none [c2.2.tb.fp, sp.1, c1.1, c2.1]
      .ok { g.2 with stackDeficit := 0 }

end HhbcTranslator

/-- Lines 724-740; any other opcode reaches `not_reached()`. -/
def areBinaryArithTypesSupported (opc : Opcode) (t1 t2 : IRType) : Except Failure Bool :=
  if opc = .OpAdd ∨ opc = .OpSub ∨ opc = .OpMul then
    .ok (subtypeOfAny t1 [IRType.Int, IRType.Bool, IRType.Dbl] &&
         subtypeOfAny t2 [IRType.Int, IRType.Bool, IRType.Dbl])
  else if opc = .OpBitAnd ∨ opc = .OpBitOr ∨ opc = .OpBitXor then
    .ok (subtypeOfAny t1 [IRType.Int, IRType.Bool] && subtypeOfAny t2 [IRType.Int, IRType.Bool])
  else .error .assertion

/-- Lines 3106-3121: the result type handed to the interpreter when the
operand types are not supported.  `needsReg` is `Type::needsReg` (type.h). -/
def binaryArithInterpType (needsReg : IRType → Bool) (isBitOp : Bool) (type1 type2 : IRType) :
    IRType :=
  if isBitOp then
    if isString type1 && isString type2 then IRType.Str
    else if (needsReg type1 && (needsReg type2 || isString type2)) ||
        (needsReg type2 && isString type1) then IRType.Cell
    else IRType.Int
  else IRType.Cell

/-- A read of the 32-bit immediate vector of a switch. -/
def readVec (iv : List Int) (i : Int) : Except Failure Int :=
  if i < 0 then .error .outOfBounds
  else
    match iv[i.toNat]? with
    | some x => .ok x
    | none => .error .outOfBounds

/-- The value of `bits[i] << k` at line 2553: the `bool` is promoted to the
32-bit `int`, so the shift is a 32-bit shift whose result is read as a signed
32-bit integer.  A count of 32 or more is undefined in C++; the count is taken
modulo 32 here, as the shift instruction of x86-64 takes it. -/
def shlBool (b : Bool) (k : Nat) : Int := toInt32 ((if b then 1 else 0) * 2 ^ (k % 32))

/-- Conversion of a signed integer to `uint64_t`. -/
def toUInt64 (x : Int) : Nat := (x % 2 ^ 64).toNat

/-- Conversion of a 64-bit word to `int64_t`. -/
def toInt64 (x : Nat) : Int := ((x : Int) + 2 ^ 63) % 2 ^ 64 - 2 ^ 63

/-- The loop of `packBitVec` (lines 2552-2557); `fuel` bounds the number of
iterations.  The counter is a 32-bit unsigned integer; since 64 divides
`2 ^ 32`, the test `++i % 64 == 0` is the same with and without the wrap. -/
def packBitVecLoop (bits : List Bool) : Nat → Nat → Nat → Except Failure Nat
  | 0, _, _ => .error .outOfFuel
  | fuel + 1, i, retval =>
    if i < bits.length then
      let retval1 := retval ||| toUInt64 (shlBool (bits.getD i false) (i % 64))
      if (i + 1) % 64 = 0 then .ok retval1
      else packBitVecLoop bits fuel (i + 1) retval1
    else .ok retval

/-- Lines 2548-2559. -/
def packBitVec (bits : List Bool) (i : Nat) : Except Failure Nat :=
  if i % 64 ≠ 0 then .error .assertion
  else if ¬ i < bits.length then .error .assertion
  else packBitVecLoop bits 64 i 0

/-- The kinds of array key that `checkStrictlyInteger` tells apart. -/
inductive KeyType where
  | IntKey
  | StrKey
deriving DecidableEq, Repr

namespace HhbcTranslator

/-- The conversion `tr->isA(Type::Bool) ? gen(ConvBoolToInt, tr) : tr` of lines
3102-3103. -/
def boolToInt (s : HhbcTranslator) (tmp : SSATmpPtr) : Except Failure (SSATmpPtr × HhbcTranslator) :=
  match tmp with
  | none => .error .nullDeref
  | some v =>
    if s.isA v IRType.Bool then .ok (s.gen .ConvBoolToInt none .none none [some v])
    else .ok (some v, s)

/-- Lines 3096-3124.  `needsReg` is `Type::needsReg` (type.h). -/
def emitBinaryArith (needsReg : IRType → Bool) (s : HhbcTranslator) (opc : Opcode) :
    Except Failure HhbcTranslator :=
  let isBitOp : Bool := decide (opc = .OpBitAnd ∨ opc = .OpBitOr ∨ opc = .OpBitXor)
  match s.topC 0 with
  | .error e => .error e
  | .ok t0 =>
    match derefTmp t0.1 with
    | .error e => .error e
    | .ok v0 =>
      let type1 := t0.2.irFactory.typeOf v0
      match t0.2.topC 1 with
      | .error e => .error e
      | .ok t1 =>
        match derefTmp t1.1 with
        | .error e => .error e
        | .ok v1 =>
          let type2 := t1.2.irFactory.typeOf v1
          match areBinaryArithTypesSupported opc type1 type2 with
          | .error e => .error e
          | .ok true =>
            match t1.2.popC with
            | .error e => .error e
            | .ok tr =>
              match tr.2.popC with
              | .error e => .error e
              | .ok tl =>
                match tl.2.boolToInt tr.1 with
                | .error e => .error e
                | .ok tr2 =>
                  match tr2.2.boolToInt tl.1 with
                  | .error e => .error e
                  | .ok tl2 =>
                    let g := tl2.2.gen opc none .none none [tl2.1, tr2.1]
                    match g.2.push g.1 with
                    | .error e => .error e
                    | .ok p => .ok p.2
          | .ok false =>
            t1.2.emitInterpOne (binaryArithInterpType needsReg isBitOp type1 type2) 2 0

/-- The `BINOP(OpAdd)` expansion: `emitAdd`. -/
def emitAdd (needsReg : IRType → Bool) (s : HhbcTranslator) : Except Failure HhbcTranslator :=
  s.emitBinaryArith needsReg .OpAdd

/-- Lines 337-346: the print instruction for a value of the given type. -/
def printOpcode (type : IRType) : Except Failure Opcode :=
  if isString type then .ok .PrintStr
  else if type.subtypeOf IRType.Int then .ok .PrintInt
  else if type.subtypeOf IRType.Bool then .ok .PrintBool
  else if type.isNull then .ok .Nop
  else .error .assertion

/-- Lines 331-355. -/
def emitPrint (s : HhbcTranslator) : Except Failure HhbcTranslator :=
  match s.topC 0 with
  | .error e => .error e
  | .ok t =>
    match derefTmp t.1 with
    | .error e => .error e
    | .ok tv =>
      let type := t.2.irFactory.typeOf tv
      if subtypeOfAny type [IRType.Int, IRType.Bool, IRType.Null, IRType.Str] then
        match t.2.popC with
        | .error e => .error e
        | .ok cell =>
          match printOpcode type with
          | .error e => .error e
          | .ok op =>
            let s1 := if op ≠ .Nop then (cell.2.gen op none .none none [cell.1]).2 else cell.2
            let one := s1.cns (.int 1)
            match one.2.push one.1 with
            | .error e => .error e
            | .ok p => .ok p.2
      else t.2.emitInterpOne IRType.Int 1 0

/-- Lines 1461-1471.  Offsets are 32-bit signed integers; the signed
subtraction is taken without overflow. -/
def emitJmp (s : HhbcTranslator) (offset : Offset) (breakTracelet noSurprise : Bool) :
    HhbcTranslator :=
  let backward : Bool := decide (offset - toInt32 s.bcOff < 0)
  let s1 :=
    if backward ∧ ¬ noSurprise then
      let e := s.getExitSlowTrace
      (e.2.gen .ExitWhenSurprised none .none (some e.1) []).2
    else s
  if ¬ breakTracelet then s1
  else
    let e := s1.getExitTrace offset
    (e.2.gen .Jmp_ none .none (some e.1) []).2

/-- Lines 2298-2315 of `emitSwitch`: the jump through the table. -/
def emitSwitchDest (s : HhbcTranslator) (iv : List Int) (base : Int) (bounded : Bool)
    (defaultOff : Offset) (index : SSATmpPtr) : HhbcTranslator :=
  let data : JmpSwitchData :=
    { func := s.curFunc, base := base, bounded := bounded, cases := iv.length,
      defaultOff := defaultOff, targets := iv.map (fun rel => s.bcOff + rel) }
  let stack := s.spillStack
  let s1 := (stack.2.gen .SyncABIRegs none .none none [stack.2.tb.fp, stack.1]).2
  let s2 := (s1.gen .JmpSwitchDest none (.jmpSwitch data) none [index]).2
  { s2 with hasExit := true }

/-- Lines 2239-2316.  The additions on offsets are signed and taken without
overflow. -/
def emitSwitch (s : HhbcTranslator) (iv : List Int) (base : Int) (bounded : Bool) :
    Except Failure HhbcTranslator :=
  let size : Int := iv.length
  let nTargets : Int := if bounded then size - 2 else size
  match s.popC with
  | .error e => .error e
  | .ok r =>
    match derefTmp r.1 with
    | .error e => .error e
    | .ok switchVal =>
      let type := r.2.irFactory.typeOf switchVal
      if type ≠ IRType.Int ∧ ¬ bounded then .error .assertion
      else if bounded ∧ ¬ 2 < iv.length then .error .assertion
      else
        let ssabase := r.2.cns (.int base)
        let ssatargets := ssabase.2.cns (.int nTargets)
        let s1 := ssatargets.2
        match readVec iv (size - 1) with
        | .error e => .error e
        | .ok lastRel =>
          let defaultOff := s1.bcOff + lastRel
          match (if base ≤ 0 ∧ base + nTargets > 0 then
                  (readVec iv (0 - base)).map (fun rel => s1.bcOff + rel)
                else .ok defaultOff) with
          | .error e => .error e
          | .ok zeroOff =>
            if type.subtypeOf IRType.Null then
              let e := s1.getExitTrace zeroOff
              .ok (e.2.gen .Jmp_ none .none (some e.1) []).2
            else if type.subtypeOf IRType.Bool then
              match readVec iv (size - 2) with
              | .error e => .error e
              | .ok rel =>
                let e1 := s1.getExitTrace (s1.bcOff + rel)
                let s2 := (e1.2.gen .JmpNZero none .none (some e1.1) [some switchVal]).2
                let e2 := s2.getExitTrace zeroOff
                .ok (e2.2.gen .Jmp_ none .none (some e2.1) []).2
            else if type.subtypeOf IRType.Int then
              .ok (s1.emitSwitchDest iv base bounded defaultOff (some switchVal))
            else if type.subtypeOf IRType.Dbl then
              let g := s1.gen .LdSwitchDblIndex none .none none
                [some switchVal, ssabase.1, ssatargets.1]
              .ok (g.2.emitSwitchDest iv base false defaultOff g.1)
            else if type.subtypeOf IRType.Str then
              let g := s1.gen .LdSwitchStrIndex none .none none
                [some switchVal, ssabase.1, ssatargets.1]
              .ok (g.2.emitSwitchDest iv base false defaultOff g.1)
            else if type.subtypeOf IRType.Obj then
              match s1.getCatchTrace with
              | .error e => .error e
              | .ok c =>
                let g := c.2.gen .LdSwitchObjIndex none .none (some c.1)
                  [some switchVal, ssabase.1, ssatargets.1]
                .ok (g.2.emitSwitchDest iv base false defaultOff g.1)
            else if type.subtypeOf IRType.Arr then
              let s2 := (s1.gen .DecRef none .none none [some switchVal]).2
              let e := s2.getExitTrace defaultOff
              .ok (e.2.gen .Jmp_ none .none (some e.1) []).2
            else .error .punt

/-- Lines 2342-2352 of `emitSSwitch`: the case table, made of the strings of the
cases with their absolute targets, and the absolute default target. -/
def sswitchData (lookupLitstrId : Nat → String) (func : Func) (bcOff : Offset)
    (iv : List (Nat × Offset)) (last : Nat × Offset) : LdSSwitchData :=
  { func := func, numCases := ((iv.length - 1 : Nat) : Int),
    cases := (iv.take (iv.length - 1)).map (fun kv => (lookupLitstrId kv.1, bcOff + kv.2)),
    defaultOff := bcOff + last.2 }

/-- Lines 2318-2365.  `lookupLitstrId` is the literal-string table of the
unit being translated and `isNumeric` is `StringData::isNumeric`. -/
def emitSSwitch (lookupLitstrId : Nat → String) (isNumeric : String → Bool)
    (s : HhbcTranslator) (iv : List (Nat × Offset)) : Except Failure HhbcTranslator :=
  let numCases : Nat := iv.length - 1
  match s.topC 0 with
  | .error e => .error e
  | .ok t =>
    match derefTmp t.1 with
    | .error e => .error e
    | .ok tv =>
      let fastPath : Bool :=
        t.2.isA tv IRType.Str &&
          !(iv.take numCases).any (fun item => isNumeric (lookupLitstrId item.1))
      let catchTrace : Except Failure (Option TraceRef × HhbcTranslator) :=
        if ¬ fastPath then
          match t.2.getCatchTrace with
          | .error e => .error e
          | .ok c => .ok (some c.1, c.2)
        else .ok (none, t.2)
      match catchTrace with
      | .error e => .error e
      | .ok ct =>
        match ct.2.popC with
        | .error e => .error e
        | .ok testVal =>
          let s1 := testVal.2
          match iv.getLast? with
          | none => .error .outOfBounds
          | some last =>
            let data := sswitchData lookupLitstrId s1.curFunc s1.bcOff iv last
            let dest := s1.gen (if fastPath then .LdSSwitchDestFast else .LdSSwitchDestSlow)
              none (.sswitch data) ct.1 [testVal.1]
            let s2 := (dest.2.gen .DecRef none .none none [testVal.1]).2
            let stack := s2.spillStack
            let s3 := (stack.2.gen .SyncABIRegs none .none none [stack.2.tb.fp, stack.1]).2
            let s4 := (s3.gen .JmpIndirect none .none none [dest.1]).2
            .ok { s4 with hasExit := true }

/-- Lines 321-329.  The frame state written at line 325 is the last entry of
the frame-state stack, which `back()` requires to exist. -/
def setBcOff (s : HhbcTranslator) (newOff : Offset) (lastBcOff : Bool) :
    Except Failure HhbcTranslator :=
  if s.isInlining = true ∧ lastBcOff = true then .error .assertion
  else if s.bcStateStack = [] then .error .outOfBounds
  else
    let s1 : HhbcTranslator :=
      if newOff ≠ s.bcOff then
        ({ s with bcStateStack := s.bcStateStack.dropLast ++
            [{ s.bcStateStack.getLastD default with bcOff := newOff }] } :
          HhbcTranslator).emitMarker
      else s
    .ok { s1 with lastBcOff := lastBcOff }

/-- Lines 2230-2236 of `emitRet`: the activation record is freed and control
returns to the caller. -/
def retCtrl (s : HhbcTranslator) (sp : SSATmpPtr) : HhbcTranslator :=
  let retAddr := s.gen .LdRetAddr none .none none [s.tb.fp]
  let fp := retAddr.2.gen .FreeActRec none .none none [retAddr.2.tb.fp]
  let s1 := (fp.2.gen .RetCtrl none .none none [sp, fp.1, retAddr.1]).2
  { s1 with hasExit := true }

/-- Lines 2205-2214 of `emitRet`: the surprise check, and the release of the
extra variables when the function may use them. -/
def retChecks (s : HhbcTranslator) : HhbcTranslator :=
  let e1 := s.getExitSlowTrace
  let s1 := (e1.2.gen .ExitWhenSurprised none .none (some e1.1) []).2
  if s.curFunc.mayUseVV then
    let e2 := s1.getExitSlowTrace
    (e2.2.gen .ReleaseVVOrExit none .none (some e2.1) [e2.2.tb.fp]).2
  else s1

/-- Lines 2223-2236 of `emitRet`, the branch without `freeInline`: the
receiver and the locals are released, the return value is stored, and control
returns to the caller. -/
def retGeneric (s : HhbcTranslator) (curFunc : Func) (retVal : SSATmpPtr) : HhbcTranslator :=
  let s3 :=
    if curFunc.mayHaveThis then (s.gen .DecRefThis none .none none [s.tb.fp]).2
    else s
  let c := s3.cns (.int curFunc.numLocals)
  let sp := c.2.gen .GenericRetDecRefs none .none none [c.2.tb.fp, c.1]
  let s4 := (sp.2.gen .StRetVal none .none none [sp.2.tb.fp, retVal]).2
  s4.retCtrl sp.1

/-- Lines 2200-2237. -/
def emitRet (s : HhbcTranslator) (type : IRType) (freeInline : Bool) :
    Except Failure HhbcTranslator :=
  if s.isInlining then s.emitRetFromInlined type
  else
    let curFunc := s.curFunc
    match s.retChecks.pop type with
    | .error e => .error e
    | .ok r =>
      if freeInline then
        match r.2.emitDecRefLocalsInline r.1 with
        | .error e => .error e
        | .ok useRet =>
          let s3 := (useRet.2.gen .StRetVal none .none none [useRet.2.tb.fp, useRet.1]).2
          let sp := s3.gen .RetAdjustStack none .none none [s3.tb.fp]
          .ok (sp.2.retCtrl sp.1)
      else .ok (r.2.retGeneric curFunc r.1)

/-- Lines 140-148. -/
def popDecRef (s : HhbcTranslator) (type : IRType) : HhbcTranslator :=
  match s.evalStack with
  | src :: rest =>
    (({ s with evalStack := rest } : HhbcTranslator).gen .DecRef none .none none [some src]).2
  | [] =>
    let g := s.gen .DecRefStack (some type) (.stackOffset s.stackDeficit) none [s.tb.sp]
    { g.2 with stackDeficit := (g.2.stackDeficit + 1) % uint32Size }

/-- Lines 177-179.  `EvalStack::replace` is declared in a header: it
overwrites the entry at depth `index`, which has to exist. -/
def replace (s : HhbcTranslator) (index : Nat) (tmp : SSATmpPtr) :
    Except Failure HhbcTranslator :=
  match tmp with
  | none => .error .assertion
  | some v =>
    if index < s.evalStack.length then .ok { s with evalStack := s.evalStack.set index v }
    else .error .outOfBounds

/-- Lines 2448-2461.  The real stack offset is computed in 32-bit unsigned
arithmetic. -/
def checkTypeStack (s : HhbcTranslator) (idx : Nat) (type : IRType) (dest : Offset) :
    Except Failure HhbcTranslator :=
  let e := s.getExitTrace dest
  if idx < e.2.evalStack.length then
    match e.2.evalStack[idx]? with
    | none => .error .assertion
    | some tmp =>
      let g := e.2.gen .CheckType (some type) .none (some e.1) [some tmp]
      g.2.replace idx g.1
  else
    .ok (e.2.gen .CheckStk (some type)
      (.stackOffset ((idx - e.2.evalStack.length + e.2.stackDeficit) % uint32Size))
      (some e.1) [e.2.tb.sp]).2

/-- Lines 2467-2477. -/
def assertTypeStack (s : HhbcTranslator) (idx : Nat) (type : IRType) :
    Except Failure HhbcTranslator :=
  if idx < s.evalStack.length then
    match s.evalStack[idx]? with
    | none => .error .assertion
    | some tmp =>
      let g := s.gen .AssertType (some type) .none none [some tmp]
      g.2.replace idx g.1
  else
    .ok (s.gen .AssertStk (some type)
      (.stackOffset ((idx - s.evalStack.length + s.stackDeficit) % uint32Size))
      none [s.tb.sp]).2

/-- Lines 3598-3618.  `nextPc` is the offset of the instruction that follows
the current one (`curSrcKey().advanced(curUnit())`), which the unit decides. -/
def end_ (s : HhbcTranslator) (nextPc : Offset) : Except Failure HhbcTranslator :=
  if s.hasExit then .ok s
  else if nextPc ≥ s.curFunc.past then .ok s
  else
    match s.setBcOff nextPc true with
    | .error e => .error e
    | .ok s1 =>
      let sp := s1.spillStack
      let s2 := (sp.2.gen .SyncABIRegs none .none none [sp.2.tb.fp, sp.1]).2
      .ok (s2.gen .ReqBindJmp none (.bcOffset nextPc) none []).2

/-- Modelled from the spec: `TraceBuilder::genLdConst` (tracebuilder.h) is not
part of the translation unit.  It emits, on the main trace, an instruction
that loads the 64-bit constant. -/
def genLdConst (s : HhbcTranslator) (val : Nat) : SSATmpPtr × HhbcTranslator :=
  s.gen .LdConst (some IRType.Int) (.const (.int (toInt64 val))) none []

/-- Lines 2568-2594 of `guardRefs`: the loop over the 64-bit chunks of the
mask.  `i` is the index the chunk starts at, `nParams` the variable of line
2566, and `fuel` bounds the number of chunks. -/
def guardRefsLoop (mask vals : List Bool) (funcPtr : SSATmpPtr) :
    Nat → Nat → SSATmpPtr → HhbcTranslator → Except Failure HhbcTranslator
  | 0, i, _, s => if i < mask.length then .error .outOfFuel else .ok s
  | fuel + 1, i, nParams, s =>
    if ¬ i < mask.length then .ok s
    else if ¬ i < vals.length then .error .assertion
    else
      match packBitVec mask i with
      | .error e => .error e
      | .ok mask64 =>
        if mask64 = 0 then guardRefsLoop mask vals funcPtr fuel (i + 64) nParams s
        else
          match packBitVec vals i with
          | .error e => .error e
          | .ok vals64 =>
            let np : SSATmpPtr × HhbcTranslator :=
              if i = 0 then s.cns (.int 64)
              else if i = 64 then
                let c := s.cns (.rawMemSlot "FuncNumParams")
                c.2.gen .LdRaw (some IRType.Int) .none none [funcPtr, c.1]
              else (nParams, s)
            let maskTmp :=
              if mask64 / 2 ^ 32 = 0 then np.2.cns (.int mask64) else np.2.genLdConst mask64
            let valsTmp :=
              if vals64 / 2 ^ 32 = 0 then maskTmp.2.cns (.int vals64)
              else maskTmp.2.genLdConst vals64
            let ci := valsTmp.2.cns (.int i)
            let g := ci.2.gen .GuardRefs none .none none
              [funcPtr, np.1, ci.1, maskTmp.1, valsTmp.1]
            guardRefsLoop mask vals funcPtr fuel (i + 64) np.1 g.2

/-- Lines 2561-2595.  `cellsToBytes` is declared in a header; its result is
narrowed to a 32-bit signed integer. -/
def guardRefs (cellsToBytes : Int → Int) (s : HhbcTranslator) (entryArDelta : Int)
    (mask vals : List Bool) : Except Failure HhbcTranslator :=
  let actRecOff := toInt32 (cellsToBytes entryArDelta)
  let c := s.cns (.int actRecOff)
  let funcPtr := c.2.gen .LdARFuncPtr none .none none [c.2.tb.sp, c.1]
  guardRefsLoop mask vals funcPtr.1 (mask.length / 64 + 1) 0 none funcPtr.2

/-- Modelled from the spec: `SSATmp::isConst` (ir.h) is not part of the
translation unit.  A value is a constant when the instruction that defines it
is a constant definition or a constant load. -/
def isConst (s : HhbcTranslator) (tmp : SSATmpId) : Bool :=
  decide ((s.irFactory.inst (s.irFactory.instOf tmp)).op = .DefConst ∨
    (s.irFactory.inst (s.irFactory.instOf tmp)).op = .LdConst)

/-- Modelled from the spec: `SSATmp::getValStr` (ir.h) is not part of the
translation unit.  It reads the string a constant carries. -/
def getValStr (s : HhbcTranslator) (tmp : SSATmpId) : Except Failure String :=
  match (s.irFactory.inst (s.irFactory.instOf tmp)).extra with
  | .const (.str x) => .ok x
  | _ => .error .assertion

/-- Lines 3621-3639.  The three reference parameters are returned: the key,
its kind, and whether the string has to be tested at run time.
`isStrictlyInteger` is `StringData::isStrictlyInteger`, which yields the
integer a string strictly denotes, if any. -/
def checkStrictlyInteger (isStrictlyInteger : String → Option Int) (s : HhbcTranslator)
    (key : SSATmpId) : Except Failure ((SSATmpPtr × KeyType × Bool) × HhbcTranslator) :=
  if s.isA key IRType.Int then .ok ((some key, .IntKey, false), s)
  else if ¬ s.isA key IRType.Str then .error .assertion
  else if s.isConst key then
    match s.getValStr key with
    | .error e => .error e
    | .ok str =>
      match isStrictlyInteger str with
      | some i =>
        let c := s.cns (.int i)
        .ok ((c.1, .IntKey, false), c.2)
      | none => .ok ((some key, .StrKey, false), s)
  else .ok ((some key, .StrKey, true), s)

/-- Lines 1243-1251 and 1259-1261 of `emitArrayIdx`: the three operands are
popped, the default value first. -/
def popArrayIdxOperands (s : HhbcTranslator) :
    Except Failure ((SSATmpPtr × SSATmpPtr × SSATmpPtr) × HhbcTranslator) :=
  match s.popC with
  | .error e => .error e
  | .ok d =>
    match d.2.popC with
    | .error e => .error e
    | .ok a =>
      match a.2.popC with
      | .error e => .error e
      | .ok k => .ok ((d.1, a.1, k.1), k.2)

/-- Lines 1232-1280.  The helper is named by the constant handed to
`ArrayIdx`. -/
def emitArrayIdx (isStrictlyInteger : String → Option Int) (s : HhbcTranslator) :
    Except Failure HhbcTranslator :=
  match s.topC 1 with
  | .error e => .error e
  | .ok ta =>
    match derefTmp ta.1 with
    | .error e => .error e
    | .ok av =>
      let arrType := ta.2.irFactory.typeOf av
      match ta.2.topC 2 with
      | .error e => .error e
      | .ok tk =>
        match derefTmp tk.1 with
        | .error e => .error e
        | .ok kv =>
          let keyType := tk.2.irFactory.typeOf kv
          if ¬ arrType.subtypeOf IRType.Arr then tk.2.emitInterpOne IRType.Cell 3 0
          else if keyType.subtypeOf IRType.Null then
            match tk.2.popArrayIdxOperands with
            | .error e => .error e
            | .ok o =>
              match o.2.push o.1.1 with
              | .error e => .error e
              | .ok p =>
                let s1 := (p.2.gen .DecRef none .none none [o.1.2.1]).2
                .ok (s1.gen .DecRef none .none none [o.1.2.2]).2
          else if ¬ (keyType.subtypeOf IRType.Int ∨ keyType.subtypeOf IRType.Str) then
            tk.2.emitInterpOne IRType.Cell 3 0
          else
            match tk.2.popArrayIdxOperands with
            | .error e => .error e
            | .ok o =>
              match derefTmp o.1.2.2 with
              | .error e => .error e
              | .ok key0 =>
                match checkStrictlyInteger isStrictlyInteger o.2 key0 with
                | .error e => .error e
                | .ok ck =>
                  let key := ck.1.1
                  let opFunc :=
                    if ck.1.2.2 then "arrayIdxSi"
                    else if ck.1.2.1 = .IntKey then "arrayIdxI"
                    else "arrayIdxS"
                  let cf := ck.2.cns (.tca opFunc)
                  let g := cf.2.gen .ArrayIdx none .none none [cf.1, o.1.2.1, key, o.1.1]
                  match g.2.push g.1 with
                  | .error e => .error e
                  | .ok p =>
                    let s1 := (p.2.gen .DecRef none .none none [o.1.2.1]).2
                    .ok (s1.gen .DecRef none .none none [key]).2

end HhbcTranslator

/-- How a lowering rule ends: it returns, it throws the exception of `PUNT`,
which leaves the session as it is at the throw, or it stops at a failed
check. -/
inductive Outcome where
  | done (s : HhbcTranslator)
  | punted (s : HhbcTranslator)
  | failed (e : Failure)
deriving DecidableEq, Repr

namespace HhbcTranslator

/-- Lines 1526-1540. -/
def emitAKExists (s : HhbcTranslator) : Outcome :=
  match s.popC with
  | .error e => .failed e
  | .ok a =>
    match a.2.popC with
    | .error e => .failed e
    | .ok k =>
      match a.1 with
      | none => .failed .nullDeref
      | some arr =>
        if ¬ k.2.isA arr IRType.Arr ∧ ¬ k.2.isA arr IRType.Obj then .punted k.2
        else
          match k.1 with
          | none => .failed .nullDeref
          | some key =>
            if ¬ isString (k.2.irFactory.typeOf key) ∧ ¬ k.2.isA key IRType.Int ∧
                ¬ k.2.isA key IRType.Null then .punted k.2
            else
              let g := k.2.gen .AKExists none .none none [some arr, some key]
              match g.2.push g.1 with
              | .error e => .failed e
              | .ok p =>
                let d := p.2.gen .DecRef none .none none [some arr]
                .done (d.2.gen .DecRef none .none none [some key]).2

end HhbcTranslator

/-! ## Closed forms used to state the effect of materializing loads -/

/-- The loads that successive pops of an empty virtual stack make: one
`LdStack` per requested type, from consecutive real stack offsets starting at
`off`, with consecutive results starting at `dstBase`. -/
def stackLoads (sp : SSATmpPtr) : Nat → Nat → List IRType → List IRInstruction
  | _, _, [] => []
  | off, dstBase, t :: ts =>
    { op := .LdStack, typeParam := some t, extra := .stackOffset off, taken := none,
      srcs := [sp], dst := some dstBase } :: stackLoads sp (off + 1) (dstBase + 1) ts

/-- The results of those loads: value number `k` is produced by instruction
`instBase + k` and has the requested type. -/
def stackLoadTmps : Nat → List IRType → List SSATmp
  | _, [] => []
  | instBase, t :: ts => { inst := instBase, type := t } :: stackLoadTmps (instBase + 1) ts

/-- The session after the loads for the requested types were emitted on an
empty virtual stack; the virtual stack itself is not touched. -/
def HhbcTranslator.afterLoads (s : HhbcTranslator) (types : List IRType) : HhbcTranslator :=
  { s with
    stackDeficit := s.stackDeficit + types.length,
    irFactory :=
      { insts := s.irFactory.insts ++
          stackLoads s.tb.sp s.stackDeficit s.irFactory.tmps.length types,
        tmps := s.irFactory.tmps ++ stackLoadTmps s.irFactory.insts.length types },
    tb := { s.tb with
      trace := { s.tb.trace with
        blocks := (List.range' s.irFactory.insts.length types.length).foldl
          pushBackBlocks s.tb.trace.blocks } } }

/-- The session after `extendStack(index, t)` on a virtual stack no deeper
than `index`: the slots below the virtual stack are loaded, generic but for the
last, and the virtual stack is put back on top of them. -/
def HhbcTranslator.afterExtend (s : HhbcTranslator) (index : Nat) (t : IRType) :
    HhbcTranslator :=
  { s.afterLoads (List.replicate (index - s.evalStack.length)
      (IRType.union IRType.Gen IRType.Cls) ++ [t]) with
    evalStack := s.evalStack ++
      List.range' s.irFactory.tmps.length (index - s.evalStack.length + 1) }

/-- The generic type used for stack slots of unknown type. -/
abbrev genericType : IRType := IRType.union IRType.Gen IRType.Cls

/-! ## Isolation of exit-trace construction -/

/-- The session `s1` differs from `s` only in that the factory made more
instructions and values and that auxiliary trace `k` may have received
instructions: the stack model, the frame state, the main trace, the tracked
pointers and every other auxiliary trace are the same. -/
structure EmitsInto (k : Nat) (s s1 : HhbcTranslator) : Prop where
  evalStack : s1.evalStack = s.evalStack
  stackDeficit : s1.stackDeficit = s.stackDeficit
  bcStateStack : s1.bcStateStack = s.bcStateStack
  fpiStack : s1.fpiStack = s.fpiStack
  startBcOff : s1.startBcOff = s.startBcOff
  lastBcOff : s1.lastBcOff = s.lastBcOff
  hasExit : s1.hasExit = s.hasExit
  trace : s1.tb.trace = s.tb.trace
  spValue : s1.tb.spValue = s.tb.spValue
  fpValue : s1.tb.fpValue = s.tb.fpValue
  spOffset : s1.tb.spOffset = s.tb.spOffset
  exitLen : s1.tb.exitTraces.length = s.tb.exitTraces.length
  exitOther : ∀ j, j ≠ k → s1.tb.exitTraces[j]? = s.tb.exitTraces[j]?
  insts : ∃ more, s1.irFactory.insts = s.irFactory.insts ++ more
  tmps : ∃ more, s1.irFactory.tmps = s.irFactory.tmps ++ more

/-- A custom exit closure is local when it emits only into the trace it is
handed, as the closures of `getExitTraceWarn` and `emitClsCnsD` do through
`genFor`. -/
def CustomExitLocal (fn : HhbcTranslator.CustomExit) : Prop :=
  ∀ (k : Nat) (s : HhbcTranslator), EmitsInto k s (fn (.exit k) s).2

/-- What building an exit or catch trace leaves alone: the virtual stack, the
deficit, the frame-state and call-preparation stacks, the main trace, the
tracked pointers, every auxiliary trace that existed, and every instruction
and value that existed; exactly one auxiliary trace is new. -/
structure Isolated (s s1 : HhbcTranslator) : Prop where
  evalStack : s1.evalStack = s.evalStack
  stackDeficit : s1.stackDeficit = s.stackDeficit
  bcStateStack : s1.bcStateStack = s.bcStateStack
  fpiStack : s1.fpiStack = s.fpiStack
  trace : s1.tb.trace = s.tb.trace
  spValue : s1.tb.spValue = s.tb.spValue
  fpValue : s1.tb.fpValue = s.tb.fpValue
  spOffset : s1.tb.spOffset = s.tb.spOffset
  exitTraces : ∃ t, s1.tb.exitTraces = s.tb.exitTraces ++ [t]
  insts : ∃ more, s1.irFactory.insts = s.irFactory.insts ++ more
  tmps : ∃ more, s1.irFactory.tmps = s.irFactory.tmps ++ more

/-- The instruction that defines the constant `c` as value `dst`. -/
abbrev defConstInst (c : ConstVal) (dst : SSATmpId) : IRInstruction :=
  { op := .DefConst, typeParam := some (IRFactory.typeForConst c), extra := .const c,
    taken := none, srcs := [], dst := some dst }

/-- The position marker instruction for `m`. -/
abbrev markerInst (m : MarkerData) : IRInstruction :=
  { op := .Marker, typeParam := none, extra := .marker m, taken := none, srcs := [],
    dst := none }

/-- The spill-value vector as `getExitTraceImpl` leaves it to its caller
(lines 3387-3391): when there is a deficit or a value to spill, the current
stack pointer and the constant holding the deficit, which is the next value
the factory makes, are inserted in front. -/
def HhbcTranslator.spillVectorAfter (s : HhbcTranslator) (stackValues : List SSATmpPtr) :
    List SSATmpPtr :=
  if s.stackDeficit ≠ 0 ∨ stackValues ≠ [] then
    s.tb.sp :: some s.irFactory.tmps.length :: stackValues
  else stackValues

/-! ## Emission into the main trace -/

/-- An instruction record with the given fields. -/
abbrev mkInst (op : Opcode) (typeParam : Option IRType) (extra : ExtraData)
    (taken : Option TraceRef) (srcs : List SSATmpPtr) (dst : SSATmpPtr) : IRInstruction :=
  { op := op, typeParam := typeParam, extra := extra, taken := taken, srcs := srcs, dst := dst }

/-- The target offsets of the auxiliary traces, in the order the traces were
made. -/
def HhbcTranslator.exitTargets (s : HhbcTranslator) : List Offset :=
  s.tb.exitTraces.map (fun t => t.bcOff)

/-- The instructions on the trace a pointer names, in order. -/
def HhbcTranslator.traceInsts (s : HhbcTranslator) : TraceRef → List IRInstruction
  | .main => s.tb.trace.instructions.map s.irFactory.inst
  | .exit k => (s.tb.exitTraces.getD k {}).instructions.map s.irFactory.inst

/-- Between the sessions `s` and `s1` the main trace received exactly the
instructions `recs`, in order, and exactly the auxiliary traces with target
offsets `exits` were made, in order: auxiliary trace number
`s.tb.exitTraces.length + j` is the one for `exits[j]`.  The auxiliary traces
that existed are untouched and the factory only made new objects. -/
structure Emitted (s s1 : HhbcTranslator) (recs : List IRInstruction) (exits : List Offset) :
    Prop where
  ids : ∃ ids, s1.tb.trace.instructions = s.tb.trace.instructions ++ ids ∧
    ids.map s1.irFactory.inst = recs ∧ ∀ i ∈ ids, i < s1.irFactory.insts.length
  targets : s1.exitTargets = s.exitTargets ++ exits
  old : ∀ j, j < s.tb.exitTraces.length → s1.tb.exitTraces[j]? = s.tb.exitTraces[j]?
  insts : ∃ more, s1.irFactory.insts = s.irFactory.insts ++ more
  tmps : ∃ more, s1.irFactory.tmps = s.irFactory.tmps ++ more

/-- Auxiliary trace `k` of the session exists and holds exactly the
instructions `recs`, in order. -/
structure ExitContent (s : HhbcTranslator) (k : Nat) (recs : List IRInstruction) : Prop where
  inRange : k < s.tb.exitTraces.length
  insts : s.traceInsts (.exit k) = recs
  valid : ∀ i ∈ (s.tb.exitTraces.getD k {}).instructions, i < s.irFactory.insts.length

/-- The offset a switch at offset `bcOff` takes for the value zero (lines
2254-2259): the table entry of case zero when zero lies within the `nTargets`
cases that start at `base`, the default offset otherwise. -/
def switchZeroOff (bcOff : Offset) (iv : List Int) (base nTargets : Int) (defaultOff : Offset) :
    Offset :=
  if base ≤ 0 ∧ base + nTargets > 0 then bcOff + iv.getD (0 - base).toNat 0 else defaultOff

/-- Value `v` of the session is the constant `c`: it exists, it is the result
of the instruction that defines `c`, and it has the type of `c`. -/
structure IsConst (s : HhbcTranslator) (v : SSATmpId) (c : ConstVal) : Prop where
  valid : v < s.irFactory.tmps.length
  instValid : s.irFactory.instOf v < s.irFactory.insts.length
  inst : s.irFactory.inst (s.irFactory.instOf v) = defConstInst c v
  type : s.irFactory.typeOf v = IRFactory.typeForConst c

/-- The opcodes whose emission changes the stack pointer, frame pointer or
frame base offset the trace builder tracks. -/
def Opcode.tracked : Opcode → Bool
  | .DefInlineFP | .InlineReturn | .DefFP | .FreeActRec | .DefSP | .ReDefSP
  | .ReDefGeneratorSP | .SpillStack | .SpillFrame | .ExceptionBarrier | .Call | .CallArray
  | .InterpOne | .InterpOneCF | .RetAdjustStack | .CheckStk | .AssertStk | .AssertStkVal
  | .GuardStk => true
  | _ => false

/-- What emission and exit building leave alone in the session: the stack
model, the frame-state and call-preparation stacks and the flags. -/
structure SameFrame (s s1 : HhbcTranslator) : Prop where
  evalStack : s1.evalStack = s.evalStack
  stackDeficit : s1.stackDeficit = s.stackDeficit
  bcStateStack : s1.bcStateStack = s.bcStateStack
  fpiStack : s1.fpiStack = s.fpiStack
  startBcOff : s1.startBcOff = s.startBcOff
  lastBcOff : s1.lastBcOff = s.lastBcOff
  hasExit : s1.hasExit = s.hasExit

/-- The tracked stack pointer, frame pointer and frame base offset are the
same in both sessions. -/
structure SameTracked (s s1 : HhbcTranslator) : Prop where
  spValue : s1.tb.spValue = s.tb.spValue
  fpValue : s1.tb.fpValue = s.tb.fpValue
  spOffset : s1.tb.spOffset = s.tb.spOffset

/-- The requests that end an exit trace. -/
def Opcode.isRequest : Opcode → Bool
  | .ReqRetranslate | .ReqBindJmp | .ReqRetranslateNoIR | .ReqBindJmpNoIR => true
  | _ => false

/-- A custom exit closure that appends: handed an auxiliary trace, it adds
instructions other than requests at the end of that trace, it makes the
factory only make new objects, and it leaves the stack model, the frame-state
stack, the flags and the tracked pointers alone.  The closures of
`getExitTraceWarn` and `emitClsCnsD` are of this kind. -/
def CustomExitAppends (fn : HhbcTranslator.CustomExit) : Prop :=
  ∀ (k : Nat) (s : HhbcTranslator) (recs : List IRInstruction), ExitContent s k recs →
    ∃ more, ExitContent (fn (.exit k) s).2 k (recs ++ more) ∧
      (∀ i ∈ more, i.op.isRequest = false) ∧
      SameFrame s (fn (.exit k) s).2 ∧ SameTracked s (fn (.exit k) s).2 ∧
      (∃ grown, (fn (.exit k) s).2.irFactory.insts = s.irFactory.insts ++ grown) ∧
      (∃ grown, (fn (.exit k) s).2.irFactory.tmps = s.irFactory.tmps ++ grown)

/-- Auxiliary trace `k` ends with the instruction `req`, and no instruction
ahead of it is a request. -/
def EndsWithRequest (s : HhbcTranslator) (k : Nat) (req : IRInstruction) : Prop :=
  ∃ body, ExitContent s k (body ++ [req]) ∧ ∀ i ∈ body, i.op.isRequest = false

/-- What pops do to the main trace: session `r` differs from `s` by `n`
loads from the real stack, appended to the main trace. -/
structure Loaded (s r : HhbcTranslator) (n : Nat) : Prop where
  trace : r.tb.trace.instructions =
    s.tb.trace.instructions ++ List.range' s.irFactory.insts.length n
  length : r.irFactory.insts.length = s.irFactory.insts.length + n
  old : ∀ i, i < s.irFactory.insts.length → (r.irFactory.inst i).op = (s.irFactory.inst i).op
  new : ∀ i, s.irFactory.insts.length ≤ i → i < s.irFactory.insts.length + n →
    (r.irFactory.inst i).op = .LdStack
  exitTraces : r.tb.exitTraces = s.tb.exitTraces

/-- The operand of a marker instruction. -/
def markerOf : ExtraData → Option MarkerData
  | .marker m => some m
  | _ => none

/-- The marker most recently put on the main trace. -/
def HhbcTranslator.lastMarker (s : HhbcTranslator) : Option MarkerData :=
  (((s.traceInsts .main).filter (fun i => decide (i.op = .Marker))).getLast?).bind
    (fun i => markerOf i.extra)

/-- The most recent marker on the main trace is for the current frame: the
main trace holds a marker that carries the bytecode offset and the function of
the frame state that is current, and no marker follows it.  An instruction
appended to the main trace of such a session comes under a marker for the
frame it is emitted for. -/
def MarkerCurrent (s : HhbcTranslator) : Prop :=
  ∃ pre i post m, s.tb.trace.instructions = pre ++ i :: post ∧
    i < s.irFactory.insts.length ∧ (s.irFactory.inst i).op = .Marker ∧
    (s.irFactory.inst i).extra = .marker m ∧ m.bcOff = s.bcOff ∧ m.func = s.curFunc ∧
    ∀ j ∈ post, j < s.irFactory.insts.length ∧ (s.irFactory.inst j).op ≠ .Marker

/-- What a lowering rule does to the main trace: it appends instructions other
than markers, it leaves the frame-state stack alone, and every instruction
that existed keeps its opcode and its immediate operand (narrowing rewrites
type parameters only).  Emission through `gen`, the making of constants, the
building of exit and catch traces, pushes and pops are steps of this kind,
and so is every sequence of them. -/
structure RuleStep (s s1 : HhbcTranslator) : Prop where
  bcStateStack : s1.bcStateStack = s.bcStateStack
  trace : ∃ ids, s1.tb.trace.instructions = s.tb.trace.instructions ++ ids ∧
    ∀ i ∈ ids, i < s1.irFactory.insts.length ∧ (s1.irFactory.inst i).op ≠ .Marker
  arena : ∀ i, i < s.irFactory.insts.length → i < s1.irFactory.insts.length ∧
    (s1.irFactory.inst i).op = (s.irFactory.inst i).op ∧
    (s1.irFactory.inst i).extra = (s.irFactory.inst i).extra

/-- The sessions, at the boundaries between their operations: a session is
made by the constructor and goes on by `setBcOff`, by a step of a lowering
rule, by the marker a lowering rule asks for (line 1894), by `beginInlining`
and by `emitRetFromInlined`. -/
inductive Session : HhbcTranslator → Prop where
  | new (startOffset : Offset) (initialSpOffsetFromFp : Nat) (func : Func) :
      Session (HhbcTranslator.new startOffset initialSpOffsetFromFp func)
  | setBcOff {s s1 : HhbcTranslator} (newOff : Offset) (last : Bool) :
      Session s → s.setBcOff newOff last = .ok s1 → Session s1
  | rule {s s1 : HhbcTranslator} : Session s → RuleStep s s1 → Session s1
  | emitMarker {s : HhbcTranslator} : Session s → Session s.emitMarker
  | beginInlining {s s1 : HhbcTranslator} (statsEnabled : Bool) (numParams : Nat)
      (target : Func) (returnBcOffset : Offset) :
      Session s → s.beginInlining statsEnabled numParams target returnBcOffset = .ok s1 →
      Session s1
  | emitRetFromInlined {s s1 : HhbcTranslator} (type : IRType) :
      Session s → s.emitRetFromInlined type = .ok s1 → Session s1

/-! ## Sample sessions -/

/-- A session as the constructor leaves it: a marker, the frame pointer and
the stack pointer. -/
def sessionStart : HhbcTranslator := HhbcTranslator.new 0 0 {}

/-- The session after loading local 0 as a cell (value 2). -/
def sessionLdLoc : HhbcTranslator :=
  (sessionStart.gen .LdLoc (some IRType.Cell) (.localId 0) none [sessionStart.tb.fp]).2

/-- The session after taking a reference to the loaded local (value 3). -/
def sessionIncRef : HhbcTranslator :=
  (sessionLdLoc.gen .IncRef none .none none [some 2]).2

/-- The session with the reference on top of the loaded local on the virtual
stack. -/
def sessionTwo : HhbcTranslator := { sessionIncRef with evalStack := [3, 2] }

/-- The session after an array lookup whose result is a cell (value 4) and a
reference taken to that result (value 5). -/
def sessionArrayIdx : HhbcTranslator :=
  ((sessionIncRef.gen .ArrayIdx none .none none [some 2, some 3, some 2]).2.gen
    .IncRef none .none none [some 4]).2

/-- The session after popping a null from the real stack (value 2, the result
of a load typed `Null`) and taking a reference to it (value 3). -/
def sessionNull : HhbcTranslator :=
  match sessionStart.pop IRType.Null with
  | .ok r => (r.2.gen .IncRef none .none none [r.1]).2
  | .error _ => sessionStart

/-- The session `sessionNull` after narrowing the reference to `Uninit`. -/
def sessionNullRefined : HhbcTranslator :=
  match sessionNull.refineType 3 IRType.Uninit with
  | .ok s1 => s1
  | .error _ => sessionNull

/-- A session that starts at bytecode offset 10. -/
def sessionAtTen : HhbcTranslator := HhbcTranslator.new 10 0 {}

/-- A session with a null constant (value 2) on the virtual stack. -/
def sessionNullConst : HhbcTranslator :=
  { (sessionStart.cns .null).2 with evalStack := [2] }

/-- A session with a new array (value 2) on the virtual stack. -/
def sessionArr : HhbcTranslator :=
  { (sessionStart.gen .NewArray none .none none []).2 with evalStack := [2] }

/-- A session with a string constant (value 2) on the virtual stack. -/
def sessionStr : HhbcTranslator :=
  { (sessionStart.cns (.str "x")).2 with evalStack := [2] }

/-- The literal strings of a sample unit: the cases `"a"` and `"b"`. -/
def sampleLitstr (id : Nat) : String := ["a", "b"].getD id ""

/-- A stand-in for `StringData::isNumeric` on the sample strings: the string
is not empty and all its characters are digits. -/
def sampleIsNumeric (str : String) : Bool := !str.data.isEmpty && str.data.all Char.isDigit

/-- A callee with two parameters and no other local. -/
def sampleCallee : Func := { name := "callee", base := 100, numParams := 2, numLocals := 2 }

/-- A callee with one parameter and one more local. -/
def sampleCalleeExtraLocal : Func :=
  { name := "extra", base := 200, numParams := 1, numLocals := 2 }

/-- A method with two parameters and no other local. -/
def sampleMethod : Func :=
  { name := "method", base := 300, numParams := 2, numLocals := 2, mayHaveThis := true }

/-- A session with the integer constants 7 (value 2) and 8 (value 3) on the
virtual stack as the arguments of a call that is being prepared: the
call-preparation stack holds one entry, made at the current stack pointer. -/
def sessionCall : HhbcTranslator :=
  match sessionStart.emitInt 7 with
  | .ok s1 =>
    match s1.emitInt 8 with
    | .ok s2 => { s2 with fpiStack := [(s2.tb.sp, 0)] }
    | .error _ => sessionStart
  | .error _ => sessionStart

/-- The session after `beginInlining` of `sampleCallee` from `sessionCall`. -/
def sessionInlined : HhbcTranslator :=
  match sessionCall.beginInlining false 2 sampleCallee 50 with
  | .ok s1 => s1
  | .error _ => sessionCall

/-- The body of the inlined callee returns its local 0: the local is loaded,
a reference is taken, and the reference is left on the virtual stack. -/
def sessionInlinedBody : HhbcTranslator :=
  let l := sessionInlined.gen .LdLoc (some IRType.Cell) (.localId 0) none [sessionInlined.tb.fp]
  let i := l.2.gen .IncRef none .none none [l.1]
  { i.2 with evalStack := (i.1.toList ++ i.2.evalStack) }

/-- The session after `beginInlining` of `sampleMethod` from `sessionCall`. -/
def sessionInlinedMethod : HhbcTranslator :=
  match sessionCall.beginInlining false 2 sampleMethod 50 with
  | .ok s1 => s1
  | .error _ => sessionCall

/-- The body of the inlined method returns its receiver: the receiver is
loaded, a reference is taken, and the reference is left on the virtual
stack. -/
def sessionInlinedMethodBody : HhbcTranslator :=
  let l := sessionInlinedMethod.gen .LdThis none .none none [sessionInlinedMethod.tb.fp]
  let i := l.2.gen .IncRef none .none none [l.1]
  { i.2 with evalStack := (i.1.toList ++ i.2.evalStack) }

/-- The session `sessionStart` after the cursor moved on to offset 5: the
session still starts at offset 0. -/
def sessionMoved : HhbcTranslator :=
  match sessionStart.setBcOff 5 false with
  | .ok s1 => s1
  | .error _ => sessionStart

/-- The session inside `beginInlining` of `sampleCallee` from `sessionCall` as
it is at line 239: the arguments are popped, the stack is spilled, the frame
of the callee is defined, its frame state is pushed, and `ReDefSP` is about to
be emitted. -/
def sessionCallEntered : HhbcTranslator :=
  (({ sessionCall with evalStack := [] } : HhbcTranslator).inlineFrameEntered sampleCallee 50).2

/-- A method with three locals that may use the extra-variables mechanism. -/
def sampleVarEnvMethod : Func :=
  { name := "vv", numLocals := 3, mayHaveThis := true, mayUseVV := true }

/-- A session in `sampleVarEnvMethod` with the integer constant 7 (value 2) on
the virtual stack, about to be returned. -/
def sessionRet : HhbcTranslator :=
  match (HhbcTranslator.new 0 0 sampleVarEnvMethod).emitInt 7 with
  | .ok s1 => s1
  | .error _ => HhbcTranslator.new 0 0 sampleVarEnvMethod

/-- A function whose bytecode ends at offset 10. -/
def sampleBody : Func := { name := "body", past := 10 }

/-- A session in `sampleBody`, as the constructor leaves it at offset 0. -/
def sessionBody : HhbcTranslator := HhbcTranslator.new 0 0 sampleBody

/-- Lines 3365-3398 of `getExitTraceImpl` for a side exit (`makeSideExit`):
the result of the `ExceptionBarrier` and the session as the custom closure is
handed it at line 3399. -/
def HhbcTranslator.sideExitBarrier (s : HhbcTranslator) (targetBcOff : Offset) :
    SSATmpPtr × HhbcTranslator :=
  let m := s.tb.makeExitTrace targetBcOff
  let s0 : HhbcTranslator := { s with tb := m.2 }
  let currentMarker : MarkerData :=
    { bcOff := s0.bcOff,
      func := s0.curFunc,
      stackOff := toInt32 (s0.tb.spOffset + s0.numCells - s0.stackDeficit) }
  let s1 := (s0.genFor m.1 .Marker none (.marker currentMarker) none []).2
  let sp := s1.exitSpill m.1 s.peekSpillValues
  sp.2.genFor m.1 .ExceptionBarrier none .none none [sp.1.1]

/-- A session in `sampleVarEnvMethod` that is about to return its local 1:
the local is loaded (value 2), a reference is taken (value 3), and the
reference is left on the virtual stack. -/
def sessionRetLocal : HhbcTranslator :=
  let s0 := HhbcTranslator.new 0 0 sampleVarEnvMethod
  let l := s0.gen .LdLoc (some IRType.Cell) (.localId 1) none [s0.tb.fp]
  let i := l.2.gen .IncRef none .none none [l.1]
  { i.2 with evalStack := (i.1.toList ++ i.2.evalStack) }

/-- Lines 2187-2188 of `emitDecRefLocalsInline`: the id of the local the return
value was loaded from, when the session is not inlining and the return value
is a counted reference to a `LdLoc`; -1 otherwise. -/
def HhbcTranslator.retValLocId (s : HhbcTranslator) (retValSrcLoc : SSATmpPtr)
    (retValSrcOpc : Opcode) : Int :=
  match retValSrcLoc with
  | some loc =>
    if ¬ s.isInlining ∧ retValSrcOpc = .LdLoc then
      (locIdOf (s.irFactory.inst (s.irFactory.instOf loc)).extra : Nat)
    else -1
  | none => -1

/-- A stand-in for `StringData::isStrictlyInteger` on the sample strings: the
string `"12"` denotes 12, no other string denotes an integer. -/
def sampleStrictlyInteger (str : String) : Option Int := if str = "12" then some 12 else none

/-- A session with the operands of an array lookup on the virtual stack: the
default value, the integer constant 0 (value 4), on top of a new array (value
2) and of the key, the string constant `"12"` (value 3). -/
def sessionArrayIdxArgs : HhbcTranslator :=
  let a := sessionStart.gen .NewArray none .none none []
  let k := a.2.cns (.str "12")
  let d := k.2.cns (.int 0)
  { d.2 with evalStack := [4, 2, 3] }

/-- Two arenas hold the same objects up to value types and type parameters:
narrowing rewrites nothing else. -/
structure SameShape (f g : IRFactory) : Prop where
  tmpsLen : g.tmps.length = f.tmps.length
  instsLen : g.insts.length = f.insts.length
  op : ∀ i, (g.inst i).op = (f.inst i).op
  srcs : ∀ i, (g.inst i).srcs = (f.inst i).srcs
  instOf : ∀ v, g.instOf v = f.instOf v

/-! ## Lemmas on types -/

theorem IRType.ext_bits {a b : IRType} (h : a.bits = b.bits) : a = b := by
  cases a; cases b; simp_all

theorem IRType.strictSubtypeOf_self (t : IRType) : t.strictSubtypeOf t = false := by
  simp [IRType.strictSubtypeOf]

theorem IRType.subtypeOf_antisymm {a b : IRType} (h1 : a.subtypeOf b = true)
    (h2 : b.subtypeOf a = true) : a = b := by
  simp only [IRType.subtypeOf, beq_iff_eq] at h1 h2
  apply IRType.ext_bits
  rw [← h1, Nat.land_comm, h2]

theorem IRType.subtypeOf_trans {a b c : IRType} (h1 : a.subtypeOf b = true)
    (h2 : b.subtypeOf c = true) : a.subtypeOf c = true := by
  simp only [IRType.subtypeOf, beq_iff_eq] at h1 h2 ⊢
  calc a.bits &&& c.bits = (a.bits &&& b.bits) &&& c.bits := by rw [h1]
    _ = a.bits &&& (b.bits &&& c.bits) := Nat.land_assoc _ _ _
    _ = a.bits := by rw [h2, h1]

theorem IRType.strictSubtypeOf_iff {a b : IRType} :
    a.strictSubtypeOf b = true ↔ a ≠ b ∧ a.subtypeOf b = true := by
  simp [IRType.strictSubtypeOf]

theorem IRType.not_strict_of_subtypeOf {a t : IRType} (h : a.subtypeOf t = true) :
    t.strictSubtypeOf a = false := by
  cases hs : t.strictSubtypeOf a
  · rfl
  · have h2 := IRType.strictSubtypeOf_iff.mp hs
    exact absurd (IRType.subtypeOf_antisymm h2.2 h) h2.1

theorem IRType.strictSubtypeOf_bottom (t : IRType) :
    t.strictSubtypeOf IRType.Bottom = false := by
  cases hs : t.strictSubtypeOf IRType.Bottom
  · rfl
  · have h2 := IRType.strictSubtypeOf_iff.mp hs
    have h3 : t.bits = 0 := by
      have := h2.2
      simp only [IRType.subtypeOf, IRType.Bottom, beq_iff_eq, Nat.and_zero] at this
      exact this.symm
    exact absurd (IRType.ext_bits h3) h2.1

/-! ## Lemmas on the arena -/

namespace IRFactory

theorem typeOf_of_length_le (f : IRFactory) (v : SSATmpId) (h : f.tmps.length ≤ v) :
    f.typeOf v = IRType.Bottom := by
  simp [typeOf, tmp, List.getElem?_eq_none h]
  rfl

theorem lt_of_strict {f : IRFactory} {v : SSATmpId} {t : IRType}
    (h : t.strictSubtypeOf (f.typeOf v) = true) : v < f.tmps.length := by
  by_contra hlt
  rw [typeOf_of_length_le f v (Nat.le_of_not_lt hlt), IRType.strictSubtypeOf_bottom] at h
  exact Bool.noConfusion h

theorem tmp_setType_self (f : IRFactory) (v : SSATmpId) (t : IRType) (h : v < f.tmps.length) :
    (f.setType v t).tmp v = { f.tmp v with type := t } := by
  simp [setType, tmp, h]

theorem tmp_setType_ne (f : IRFactory) (v w : SSATmpId) (t : IRType) (h : v ≠ w) :
    (f.setType v t).tmp w = f.tmp w := by
  simp [setType, tmp, h]

theorem typeOf_setType_self (f : IRFactory) (v : SSATmpId) (t : IRType)
    (h : v < f.tmps.length) : (f.setType v t).typeOf v = t := by
  simp [typeOf, tmp_setType_self f v t h]

theorem typeOf_setType_ne (f : IRFactory) (v w : SSATmpId) (t : IRType) (h : v ≠ w) :
    (f.setType v t).typeOf w = f.typeOf w := by
  simp [typeOf, tmp_setType_ne f v w t h]

theorem instOf_setType (f : IRFactory) (v w : SSATmpId) (t : IRType) :
    (f.setType v t).instOf w = f.instOf w := by
  by_cases hvw : v = w
  · subst hvw
    by_cases hlt : v < f.tmps.length
    · simp [instOf, tmp_setType_self f v t hlt]
    · simp [instOf, setType, tmp, List.set_eq_of_length_le (Nat.le_of_not_lt hlt)]
  · simp [instOf, tmp_setType_ne f v w t hvw]

theorem inst_setType (f : IRFactory) (v : SSATmpId) (t : IRType) (i : InstId) :
    (f.setType v t).inst i = f.inst i := rfl

theorem tmp_setTypeParam (f : IRFactory) (i : InstId) (t : IRType) (v : SSATmpId) :
    (f.setTypeParam i t).tmp v = f.tmp v := rfl

theorem length_tmps_setType (f : IRFactory) (v : SSATmpId) (t : IRType) :
    (f.setType v t).tmps.length = f.tmps.length := by
  simp [setType]

theorem inst_setTypeParam_self (f : IRFactory) (i : InstId) (t : IRType)
    (h : i < f.insts.length) :
    (f.setTypeParam i t).inst i = { f.inst i with typeParam := some t } := by
  simp [setTypeParam, inst, h]

theorem inst_setTypeParam_ne (f : IRFactory) (i j : InstId) (t : IRType) (h : i ≠ j) :
    (f.setTypeParam i t).inst j = f.inst j := by
  simp [setTypeParam, inst, h]

/-- A branch of `refineType` that does not narrow leaves the arena as it is,
on any positive fuel. -/
theorem refineTypeFuel_of_not_strict (n : Nat) (f : IRFactory) (v : SSATmpId) (t : IRType)
    (h : t.strictSubtypeOf (f.typeOf v) = false) :
    refineTypeFuel (n + 1) f v t = .ok f := by
  simp [refineTypeFuel, h]

theorem refineType_of_not_strict (f : IRFactory) (v : SSATmpId) (t : IRType)
    (h : t.strictSubtypeOf (f.typeOf v) = false) : f.refineType v t = .ok f :=
  refineTypeFuel_of_not_strict _ f v t h

theorem op_setTypeParam (f : IRFactory) (i j : InstId) (t : IRType) :
    ((f.setTypeParam i t).inst j).op = (f.inst j).op := by
  by_cases hij : i = j
  · subst hij
    by_cases hlt : i < f.insts.length
    · rw [inst_setTypeParam_self f i t hlt]
    · simp [setTypeParam, inst, List.set_eq_of_length_le (Nat.le_of_not_lt hlt)]
  · rw [inst_setTypeParam_ne f i j t hij]

theorem srcs_setTypeParam (f : IRFactory) (i j : InstId) (t : IRType) :
    ((f.setTypeParam i t).inst j).srcs = (f.inst j).srcs := by
  by_cases hij : i = j
  · subst hij
    by_cases hlt : i < f.insts.length
    · rw [inst_setTypeParam_self f i t hlt]
    · simp [setTypeParam, inst, List.set_eq_of_length_le (Nat.le_of_not_lt hlt)]
  · rw [inst_setTypeParam_ne f i j t hij]

theorem sameShape_refl (f : IRFactory) : SameShape f f :=
  ⟨rfl, rfl, fun _ => rfl, fun _ => rfl, fun _ => rfl⟩

theorem sameShape_trans {f g h : IRFactory} (h1 : SameShape f g) (h2 : SameShape g h) :
    SameShape f h :=
  ⟨h2.tmpsLen.trans h1.tmpsLen, h2.instsLen.trans h1.instsLen,
   fun i => (h2.op i).trans (h1.op i), fun i => (h2.srcs i).trans (h1.srcs i),
   fun v => (h2.instOf v).trans (h1.instOf v)⟩

theorem sameShape_setType (f : IRFactory) (v : SSATmpId) (t : IRType) :
    SameShape f (f.setType v t) :=
  ⟨length_tmps_setType f v t, rfl, fun _ => rfl, fun _ => rfl, fun w => instOf_setType f v w t⟩

theorem sameShape_setTypeParam (f : IRFactory) (i : InstId) (t : IRType) :
    SameShape f (f.setTypeParam i t) :=
  ⟨rfl, by simp [setTypeParam], fun j => op_setTypeParam f i j t,
   fun j => srcs_setTypeParam f i j t, fun _ => rfl⟩

/-- Narrowing keeps the shape of the arena. -/
theorem refineTypeFuel_sameShape (n : Nat) :
    ∀ (f g : IRFactory) (v : SSATmpId) (t : IRType),
      refineTypeFuel n f v t = .ok g → SameShape f g := by
  induction n with
  | zero => intro f g v t h; simp [refineTypeFuel] at h
  | succ n ih =>
    intro f g v t h
    simp only [refineTypeFuel] at h
    split at h
    · split at h
      · split at h
        · exact absurd h (by simp)
        · rename_i src hsrc
          split at h
          · exact absurd h (by simp)
          · rename_i f1 hf1
            simp only [Except.ok.injEq] at h
            subst h
            exact sameShape_trans (ih f f1 src t hf1) (sameShape_setType _ _ _)
      · split at h
        · simp only [Except.ok.injEq] at h
          subst h
          exact sameShape_setType _ _ _
        · split at h
          · split at h
            · simp only [Except.ok.injEq] at h
              subst h
              exact sameShape_trans (sameShape_setTypeParam _ _ _) (sameShape_setType _ _ _)
            · exact absurd h (by simp)
          · exact absurd h (by simp)
    · simp only [Except.ok.injEq] at h
      subst h
      exact sameShape_refl f

/-- After a narrowing that returned, the requested type is no longer a strict
subtype of the type of the value. -/
theorem refineTypeFuel_not_strict_after (n : Nat) :
    ∀ (f g : IRFactory) (v : SSATmpId) (t : IRType),
      refineTypeFuel n f v t = .ok g → t.strictSubtypeOf (g.typeOf v) = false := by
  induction n with
  | zero => intro f g v t h; simp [refineTypeFuel] at h
  | succ n ih =>
    intro f g v t h
    simp only [refineTypeFuel] at h
    split at h
    · rename_i hstrict
      have hv : v < f.tmps.length := lt_of_strict hstrict
      split at h
      · rename_i hop
        split at h
        · exact absurd h (by simp)
        · rename_i src hsrc
          split at h
          · exact absurd h (by simp)
          · rename_i f1 hf1
            simp only [Except.ok.injEq] at h
            subst h
            have hsh := refineTypeFuel_sameShape n f f1 src t hf1
            rw [typeOf_setType_self f1 v _ (hsh.tmpsLen ▸ hv)]
            have hop1 : (f1.inst (f.instOf v)).op.dstKind = .DofS0 := by
              rw [hsh.op]
              rcases hop with h1 | h1 <;> rw [h1] <;> rfl
            have hsrc1 : (f1.inst (f.instOf v)).src 0 = some src := by
              simp only [IRInstruction.src, hsh.srcs]
              exact hsrc
            simp only [outputType, hop1, hsrc1, typeOfPtr]
            exact ih f f1 src t hf1
      · split at h
        · simp only [Except.ok.injEq] at h
          subst h
          rw [typeOf_setType_self f v t hv]
          exact IRType.strictSubtypeOf_self t
        · split at h
          · split at h
            · simp only [Except.ok.injEq] at h
              subst h
              rw [typeOf_setType_self _ v t (by simpa [setTypeParam] using hv)]
              exact IRType.strictSubtypeOf_self t
            · exact absurd h (by simp)
          · exact absurd h (by simp)
    · rename_i hstrict
      simp only [Except.ok.injEq] at h
      subst h
      simpa using hstrict

/-- A second narrowing to the same type is the identity. -/
theorem refineType_twice (f g : IRFactory) (v : SSATmpId) (t : IRType)
    (h : f.refineType v t = .ok g) : g.refineType v t = .ok g :=
  refineType_of_not_strict g v t (refineTypeFuel_not_strict_after _ f g v t h)

end IRFactory

/-! ## The virtual stack and type refinement -/

namespace HhbcTranslator

theorem refineType_session_of_not_strict (s : HhbcTranslator) (v : SSATmpId) (t : IRType)
    (h : t.strictSubtypeOf (s.irFactory.typeOf v) = false) : s.refineType v t = .ok s := by
  simp [refineType, IRFactory.refineType_of_not_strict _ v t h]

end HhbcTranslator

/-- C4: if `t` is not a strict subtype of the current type of `v`, then
`refineType(v, t)` returns normally and the whole session is as before: the
type of `v`, the type of every other value and the type parameter of every
instruction are unchanged. -/
theorem refineType_unchanged_when_not_narrower (s : HhbcTranslator) (v : SSATmpId) (t : IRType)
    (h : t.strictSubtypeOf (s.irFactory.typeOf v) = false) :
    s.refineType v t = .ok s ∧ s.irFactory.refineType v t = .ok s.irFactory :=
  ⟨HhbcTranslator.refineType_session_of_not_strict s v t h,
   IRFactory.refineType_of_not_strict _ v t h⟩

theorem refineType_unchanged_when_not_narrower_witness :
    IRType.Gen.strictSubtypeOf (sessionIncRef.irFactory.typeOf 3) = false ∧
    (sessionIncRef.refineType 3 IRType.Gen = .ok sessionIncRef ∧
     sessionIncRef.irFactory.refineType 3 IRType.Gen = .ok sessionIncRef.irFactory) :=
  ⟨by decide, refineType_unchanged_when_not_narrower sessionIncRef 3 IRType.Gen (by decide)⟩

/-- C5: `refineType` with a fixed type is idempotent.  Whenever the first
application returns a session, the second application returns that same
session, so every value type and every type parameter is as the first
application left it; this holds for every producer of `v`, chains of `Mov`
and `IncRef` included. -/
theorem refineType_idempotent (s : HhbcTranslator) (v : SSATmpId) (t : IRType) :
    (s.refineType v t).bind (fun s1 => s1.refineType v t) = s.refineType v t := by
  cases h : s.irFactory.refineType v t with
  | error e => simp [HhbcTranslator.refineType, h, Except.bind]
  | ok g =>
    have h2 := IRFactory.refineType_twice _ g v t h
    simp [HhbcTranslator.refineType, h, h2, Except.bind]

/-- C1: `push(v)` followed at once by `pop(t)`, for `t` a supertype of the type
of `v`, returns `v` and leaves the session exactly as it was before the push:
no type changed, no instruction was made or appended to a trace, the virtual
stack and the deficit are as before. -/
theorem push_pop_roundtrip (s : HhbcTranslator) (v : SSATmpId) (t : IRType)
    (h : (s.irFactory.typeOf v).subtypeOf t = true) :
    (s.push (some v)).bind (fun r => r.2.pop t) = .ok (some v, s) := by
  have h2 := IRType.not_strict_of_subtypeOf h
  simp [HhbcTranslator.push, Except.bind, HhbcTranslator.pop,
    HhbcTranslator.refineType_session_of_not_strict s v t h2]

theorem push_pop_roundtrip_witness :
    (sessionIncRef.irFactory.typeOf 3).subtypeOf IRType.Gen = true ∧
    (sessionIncRef.push (some 3)).bind (fun r => r.2.pop IRType.Gen) = .ok (some 3, sessionIncRef) :=
  ⟨by decide, push_pop_roundtrip sessionIncRef 3 IRType.Gen (by decide)⟩

/-! ## Materializing loads -/

theorem pushBackBlocks_flatten (bs : List Block) (i : InstId) :
    (pushBackBlocks bs i).flatten = bs.flatten ++ [i] := by
  induction bs with
  | nil => simp [pushBackBlocks]
  | cons b bs ih =>
    cases bs with
    | nil => simp [pushBackBlocks]
    | cons b2 bs => simp [pushBackBlocks, ih]

theorem foldl_pushBackBlocks_flatten (ids : List InstId) (bs : List Block) :
    (ids.foldl pushBackBlocks bs).flatten = bs.flatten ++ ids := by
  induction ids generalizing bs with
  | nil => simp
  | cons i ids ih => simp [List.foldl_cons, ih, pushBackBlocks_flatten]

namespace HhbcTranslator

theorem afterLoads_nil (s : HhbcTranslator) : s.afterLoads [] = s := by
  simp [afterLoads, stackLoads, stackLoadTmps]

/-- One pop of an empty virtual stack emits one load. -/
theorem pop_of_empty (s : HhbcTranslator) (t : IRType) (hempty : s.evalStack = [])
    (hd : s.stackDeficit + 1 < uint32Size) :
    s.pop t = .ok (some s.irFactory.tmps.length, s.afterLoads [t]) := by
  have hk : Opcode.dstKind .LdStack = .DParam := rfl
  have hinst : ∀ (l : List IRInstruction) (x : IRInstruction), (l ++ [x]).getD l.length default = x := by
    intro l x
    simp
  simp only [pop, hempty, Nat.mod_eq_of_lt hd, gen, IRFactory.gen, hk]
  simp only [reduceCtorEq, if_false, IRFactory.inst, hinst, IRFactory.outputType, hk,
    Option.getD_some, TraceBuilder.updateTrackedState, TraceBuilder.pushBackOn, TraceBuilder.sp]
  simp [afterLoads, stackLoads, stackLoadTmps, IRTrace.pushBack, TraceBuilder.sp, hempty]

theorem stackLoads_length (sp : SSATmpPtr) (types : List IRType) :
    ∀ off dstBase, (stackLoads sp off dstBase types).length = types.length := by
  induction types with
  | nil => intro off dstBase; rfl
  | cons t ts ih => intro off dstBase; simp [stackLoads, ih]

theorem stackLoadTmps_length (types : List IRType) :
    ∀ instBase, (stackLoadTmps instBase types).length = types.length := by
  induction types with
  | nil => intro instBase; rfl
  | cons t ts ih => intro instBase; simp [stackLoadTmps, ih]

theorem stackLoadTmps_getElem? (types : List IRType) :
    ∀ instBase k, (stackLoadTmps instBase types)[k]? =
      types[k]?.map (fun t => ({ inst := instBase + k, type := t } : SSATmp)) := by
  induction types with
  | nil => intro instBase k; simp [stackLoadTmps]
  | cons t ts ih =>
    intro instBase k
    cases k with
    | zero => simp [stackLoadTmps]
    | succ k =>
      simp only [stackLoadTmps, List.getElem?_cons_succ, ih]
      have : instBase + 1 + k = instBase + (k + 1) := by omega
      rw [this]

theorem stackLoads_getElem? (sp : SSATmpPtr) (types : List IRType) :
    ∀ off dstBase k, (stackLoads sp off dstBase types)[k]? =
      types[k]?.map (fun t =>
        ({ op := .LdStack, typeParam := some t, extra := .stackOffset (Nat.cast (off + k)),
           taken := none, srcs := [sp], dst := some (dstBase + k) } : IRInstruction)) := by
  induction types with
  | nil => intro off dstBase k; simp [stackLoads]
  | cons t ts ih =>
    intro off dstBase k
    cases k with
    | zero => simp [stackLoads]
    | succ k =>
      simp only [stackLoads, List.getElem?_cons_succ, ih]
      have h1 : off + 1 + k = off + (k + 1) := by omega
      have h2 : dstBase + 1 + k = dstBase + (k + 1) := by omega
      rw [h1, h2]

/-- Loads emitted one after the other add up. -/
theorem afterLoads_cons (s : HhbcTranslator) (t : IRType) (ts : List IRType) :
    (s.afterLoads [t]).afterLoads ts = s.afterLoads (t :: ts) := by
  simp only [afterLoads, stackLoads, stackLoadTmps, List.length_cons, List.length_nil,
    List.length_append, List.append_assoc, List.singleton_append, List.range'_one,
    List.foldl_cons, List.foldl_nil, List.range'_succ, Nat.zero_add]
  congr 1
  omega

theorem afterLoads_evalStack (s : HhbcTranslator) (ts : List IRType) :
    (s.afterLoads ts).evalStack = s.evalStack := rfl

/-- The loop of `discard` on an empty virtual stack. -/
theorem discard_of_empty (n : Nat) :
    ∀ s : HhbcTranslator, s.evalStack = [] → s.stackDeficit + n < uint32Size →
      s.discard n = .ok (s.afterLoads (List.replicate n genericType)) := by
  induction n with
  | zero => intro s _ _; simp [discard, afterLoads_nil]
  | succ n ih =>
    intro s hempty hd
    have hpop := pop_of_empty s genericType hempty (by omega)
    simp only [genericType] at hpop
    simp only [discard, hpop]
    have := ih (s.afterLoads [genericType]) hempty
      (by simp only [afterLoads, List.length_singleton]; omega)
    simp only [genericType] at this
    rw [this, afterLoads_cons]
    rfl

/-- A pop of a non-empty virtual stack whose top needs no narrowing. -/
theorem pop_of_cons (s : HhbcTranslator) (t : IRType) (e : SSATmpId) (rest : List SSATmpId)
    (hstack : s.evalStack = e :: rest)
    (hty : t.strictSubtypeOf (s.irFactory.typeOf e) = false) :
    s.pop t = .ok (some e, { s with evalStack := rest }) := by
  have h := refineType_session_of_not_strict ({ s with evalStack := rest }) e t hty
  simp only [pop, hstack, h]

/-- The loop of `discard` in general: entries of the virtual stack are
dropped first, the remainder is loaded from the real stack. -/
theorem discard_general (n : Nat) :
    ∀ s : HhbcTranslator,
      (∀ e ∈ s.evalStack.take n, genericType.strictSubtypeOf (s.irFactory.typeOf e) = false) →
      s.stackDeficit + (n - s.evalStack.length) < uint32Size →
      s.discard n = .ok (({ s with evalStack := s.evalStack.drop n } : HhbcTranslator).afterLoads
        (List.replicate (n - s.evalStack.length) genericType)) := by
  induction n with
  | zero => intro s _ _; simp [discard, afterLoads_nil]
  | succ n ih =>
    intro s hty hd
    cases hstack : s.evalStack with
    | nil =>
      have h := discard_of_empty (n + 1) s hstack (by simpa [hstack] using hd)
      rw [h]
      simp only [List.drop_nil, List.length_nil, Nat.sub_zero]
      congr 2
      rw [← hstack]
    | cons e rest =>
      have hte : genericType.strictSubtypeOf (s.irFactory.typeOf e) = false :=
        hty e (by simp [hstack])
      have hpop := pop_of_cons s genericType e rest hstack hte
      simp only [genericType] at hpop
      simp only [discard, hpop]
      have := ih ({ s with evalStack := rest })
        (by
          intro x hx
          exact hty x (by simp [hstack, hx]))
        (by simpa [hstack] using hd)
      rw [this]
      simp

theorem push_some (s : HhbcTranslator) (v : SSATmpId) :
    s.push (some v) = .ok (some v, { s with evalStack := v :: s.evalStack }) := rfl

/-- The recursion of `extendStack` on a virtual stack no deeper than `index`. -/
theorem extendStack_spec (t : IRType) (index : Nat) :
    ∀ s : HhbcTranslator, s.evalStack.length ≤ index →
      (∀ e ∈ s.evalStack, genericType.strictSubtypeOf (s.irFactory.typeOf e) = false) →
      s.stackDeficit + (index - s.evalStack.length + 1) < uint32Size →
      s.extendStack index t = .ok (s.afterExtend index t) := by
  induction index with
  | zero =>
    intro s hlen _ hd
    have hempty : s.evalStack = [] := List.length_eq_zero.mp (Nat.le_zero.mp hlen)
    have hpop := pop_of_empty s t hempty (by simpa [hempty] using hd)
    simp only [extendStack, hpop, push_some]
    simp [afterExtend, hempty, afterLoads]
  | succ index ih =>
    intro s hlen hty hd
    cases hstack : s.evalStack with
    | nil =>
      have hpop := pop_of_empty s genericType hstack (by omega)
      simp only [genericType] at hpop
      simp only [extendStack, hpop]
      have h1 := ih (s.afterLoads [genericType]) (by simp [afterLoads, hstack])
        (by simp [afterLoads, hstack])
        (by
          simp only [afterLoads, List.length_singleton, hstack, List.length_nil] at hd ⊢
          omega)
      simp only [genericType] at h1
      rw [h1]
      simp only [push_some, afterExtend, afterLoads_cons, afterLoads_evalStack, hstack,
        List.length_nil, Nat.sub_zero, List.nil_append]
      congr 2
      simp [afterLoads, stackLoadTmps, List.range'_succ]
    | cons e rest =>
      have hte : genericType.strictSubtypeOf (s.irFactory.typeOf e) = false :=
        hty e (by simp [hstack])
      have hpop := pop_of_cons s genericType e rest hstack hte
      simp only [genericType] at hpop
      simp only [extendStack, hpop]
      have hlen2 : rest.length ≤ index := by
        simp only [hstack, List.length_cons] at hlen
        omega
      have h1 := ih ({ s with evalStack := rest }) hlen2
        (by
          intro x hx
          exact hty x (by simp [hstack, hx]))
        (by
          simp only [hstack, List.length_cons] at hd
          have : index + 1 - (rest.length + 1) = index - rest.length := by omega
          rw [this] at hd
          exact hd)
      rw [h1]
      have hsub : index + 1 - (rest.length + 1) = index - rest.length := by omega
      simp only [push_some, afterExtend, hstack, List.length_cons, hsub, List.cons_append]
      rfl

/-- The value `top` returns after extending the virtual stack is the last
load, which already has the requested type. -/
theorem top_of_short (s : HhbcTranslator) (t : IRType) (index : Nat)
    (hlen : s.evalStack.length ≤ index)
    (hty : ∀ e ∈ s.evalStack, genericType.strictSubtypeOf (s.irFactory.typeOf e) = false)
    (hd : s.stackDeficit + (index - s.evalStack.length + 1) < uint32Size) :
    s.top t index =
      .ok (some (s.irFactory.tmps.length + (index - s.evalStack.length)),
           s.afterExtend index t) := by
  have hnone : s.evalStack[index]? = none := List.getElem?_eq_none hlen
  have hget : (s.afterExtend index t).evalStack[index]? =
      some (s.irFactory.tmps.length + (index - s.evalStack.length)) := by
    simp only [afterExtend]
    rw [List.getElem?_append_right hlen, List.getElem?_range' _ _ (by omega)]
    simp
  have htype : (s.afterExtend index t).irFactory.typeOf
      (s.irFactory.tmps.length + (index - s.evalStack.length)) = t := by
    simp only [afterExtend, afterLoads, IRFactory.typeOf, IRFactory.tmp,
      List.getD_eq_getElem?_getD]
    rw [List.getElem?_append_right (by omega), Nat.add_sub_cancel_left,
      stackLoadTmps_getElem?]
    simp
  have href := refineType_session_of_not_strict (s.afterExtend index t)
    (s.irFactory.tmps.length + (index - s.evalStack.length)) t
    (by rw [htype]; exact IRType.strictSubtypeOf_self t)
  simp only [top, hnone, extendStack_spec t index s hlen hty hd, hget, href]

end HhbcTranslator

/-- C2: on an empty virtual stack with deficit `d` (and `d + 1` within the
range of the 32-bit counter), `pop(t)` returns the result of one new `LdStack`
that is typed `t`, reads real stack offset `d` and takes the current stack
pointer as source; the instruction is appended to the main trace and to no
other, the virtual stack stays empty and the deficit becomes `d + 1`. -/
theorem pop_on_empty_stack (s : HhbcTranslator) (t : IRType) (hempty : s.evalStack = [])
    (hd : s.stackDeficit + 1 < uint32Size) :
    ∃ s1, s.pop t = .ok (some s.irFactory.tmps.length, s1) ∧
      s1.evalStack = [] ∧
      s1.stackDeficit = s.stackDeficit + 1 ∧
      s1.tb.trace.instructions = s.tb.trace.instructions ++ [s.irFactory.insts.length] ∧
      s1.tb.exitTraces = s.tb.exitTraces ∧
      s1.tb.sp = s.tb.sp ∧
      s1.irFactory.insts = s.irFactory.insts ++
        [{ op := .LdStack, typeParam := some t, extra := .stackOffset s.stackDeficit,
           taken := none, srcs := [s.tb.sp], dst := some s.irFactory.tmps.length }] ∧
      s1.irFactory.tmps = s.irFactory.tmps ++ [{ inst := s.irFactory.insts.length, type := t }] := by
  refine ⟨s.afterLoads [t], HhbcTranslator.pop_of_empty s t hempty hd, ?_⟩
  simp [HhbcTranslator.afterLoads, hempty, stackLoads, stackLoadTmps, IRTrace.instructions,
    pushBackBlocks_flatten, TraceBuilder.sp]

theorem pop_on_empty_stack_witness :
    sessionIncRef.evalStack = [] ∧ sessionIncRef.stackDeficit + 1 < uint32Size ∧
    ∃ s1, sessionIncRef.pop IRType.Int = .ok (some sessionIncRef.irFactory.tmps.length, s1) ∧
      s1.evalStack = [] ∧
      s1.stackDeficit = sessionIncRef.stackDeficit + 1 ∧
      s1.tb.trace.instructions =
        sessionIncRef.tb.trace.instructions ++ [sessionIncRef.irFactory.insts.length] ∧
      s1.tb.exitTraces = sessionIncRef.tb.exitTraces ∧
      s1.tb.sp = sessionIncRef.tb.sp ∧
      s1.irFactory.insts = sessionIncRef.irFactory.insts ++
        [{ op := .LdStack, typeParam := some IRType.Int,
           extra := .stackOffset sessionIncRef.stackDeficit,
           taken := none, srcs := [sessionIncRef.tb.sp],
           dst := some sessionIncRef.irFactory.tmps.length }] ∧
      s1.irFactory.tmps = sessionIncRef.irFactory.tmps ++
        [{ inst := sessionIncRef.irFactory.insts.length, type := IRType.Int }] :=
  ⟨by decide, by decide, pop_on_empty_stack sessionIncRef IRType.Int (by decide) (by decide)⟩

/-- C3: `discard(n)` drops the top `min(n, m)` entries of a virtual stack of
`m` entries and raises the deficit `d` by `n - min(n, m)`, loading each of the
remaining slots with the generic type `Gen|Cls` from real stack offsets `d`,
`d + 1`, ... in that order; on an empty virtual stack these are `n` loads from
offsets `d` to `d + n - 1` and the deficit becomes `d + n`.  The dropped
entries are taken to need no narrowing to `Gen|Cls`, and the counter to stay
within its 32-bit range. -/
theorem discard_effect (s : HhbcTranslator) (n : Nat)
    (hty : ∀ e ∈ s.evalStack.take n,
      genericType.strictSubtypeOf (s.irFactory.typeOf e) = false)
    (hd : s.stackDeficit + (n - min n s.evalStack.length) < uint32Size) :
    ∃ s1, s.discard n = .ok s1 ∧
      s1.evalStack = s.evalStack.drop (min n s.evalStack.length) ∧
      s1.stackDeficit = s.stackDeficit + (n - min n s.evalStack.length) ∧
      s1.irFactory.insts = s.irFactory.insts ++
        stackLoads s.tb.sp s.stackDeficit s.irFactory.tmps.length
          (List.replicate (n - min n s.evalStack.length) genericType) ∧
      s1.irFactory.tmps = s.irFactory.tmps ++
        stackLoadTmps s.irFactory.insts.length
          (List.replicate (n - min n s.evalStack.length) genericType) ∧
      s1.tb.trace.instructions = s.tb.trace.instructions ++
        List.range' s.irFactory.insts.length (n - min n s.evalStack.length) ∧
      s1.tb.exitTraces = s.tb.exitTraces ∧
      (s.evalStack = [] → s1.evalStack = [] ∧ s1.stackDeficit = s.stackDeficit + n) := by
  have hsub : n - min n s.evalStack.length = n - s.evalStack.length := by omega
  have hdrop : s.evalStack.drop (min n s.evalStack.length) = s.evalStack.drop n := by
    rcases Nat.le_total n s.evalStack.length with h | h
    · rw [Nat.min_eq_left h]
    · rw [Nat.min_eq_right h, List.drop_length, List.drop_eq_nil_of_le h]
  rw [hsub] at hd ⊢
  rw [hdrop]
  refine ⟨_, HhbcTranslator.discard_general n s hty hd, ?_⟩
  simp only [HhbcTranslator.afterLoads, List.length_replicate, IRTrace.instructions,
    foldl_pushBackBlocks_flatten, TraceBuilder.sp, true_and]
  intro hempty
  simp [hempty]

theorem discard_effect_witness :
    (∀ e ∈ sessionTwo.evalStack.take 5,
      genericType.strictSubtypeOf (sessionTwo.irFactory.typeOf e) = false) ∧
    sessionTwo.stackDeficit + (5 - min 5 sessionTwo.evalStack.length) < uint32Size ∧
    ∃ s1, sessionTwo.discard 5 = .ok s1 ∧
      s1.evalStack = sessionTwo.evalStack.drop (min 5 sessionTwo.evalStack.length) ∧
      s1.stackDeficit = sessionTwo.stackDeficit + (5 - min 5 sessionTwo.evalStack.length) ∧
      s1.irFactory.insts = sessionTwo.irFactory.insts ++
        stackLoads sessionTwo.tb.sp sessionTwo.stackDeficit sessionTwo.irFactory.tmps.length
          (List.replicate (5 - min 5 sessionTwo.evalStack.length) genericType) ∧
      s1.irFactory.tmps = sessionTwo.irFactory.tmps ++
        stackLoadTmps sessionTwo.irFactory.insts.length
          (List.replicate (5 - min 5 sessionTwo.evalStack.length) genericType) ∧
      s1.tb.trace.instructions = sessionTwo.tb.trace.instructions ++
        List.range' sessionTwo.irFactory.insts.length (5 - min 5 sessionTwo.evalStack.length) ∧
      s1.tb.exitTraces = sessionTwo.tb.exitTraces ∧
      (sessionTwo.evalStack = [] →
        s1.evalStack = [] ∧ s1.stackDeficit = sessionTwo.stackDeficit + 5) :=
  ⟨by decide, by decide, discard_effect sessionTwo 5 (by decide) (by decide)⟩

/-- C8: for a virtual stack of `m` entries with deficit `d` and an index at
least `m`, `top(t, index)` leaves `index + 1` entries: the `m` old ones in their
order, then the results of fresh loads from real stack offsets `d`, `d + 1`,
..., `d + index - m` in that order, the last typed `t` and the others `Gen|Cls`;
the deficit becomes `d + index + 1 - m` and the value returned is the entry at
depth `index`.  The old entries are taken to need no narrowing to `Gen|Cls`,
and the counter to stay within its 32-bit range.  For an index below `m`,
`top` only narrows the entry at that depth: virtual stack, deficit and traces
are as before, and nothing at all changes when `t` does not narrow the entry. -/
theorem top_effect (s : HhbcTranslator) (t : IRType) (index : Nat) :
    (s.evalStack.length ≤ index →
      (∀ e ∈ s.evalStack, genericType.strictSubtypeOf (s.irFactory.typeOf e) = false) →
      s.stackDeficit + (index + 1 - s.evalStack.length) < uint32Size →
      ∃ s1, s.top t index =
          .ok (some (s.irFactory.tmps.length + (index - s.evalStack.length)), s1) ∧
        s1.evalStack = s.evalStack ++
          List.range' s.irFactory.tmps.length (index + 1 - s.evalStack.length) ∧
        s1.evalStack.length = index + 1 ∧
        s1.evalStack[index]? = some (s.irFactory.tmps.length + (index - s.evalStack.length)) ∧
        s1.stackDeficit = s.stackDeficit + index + 1 - s.evalStack.length ∧
        s1.irFactory.insts = s.irFactory.insts ++
          stackLoads s.tb.sp s.stackDeficit s.irFactory.tmps.length
            (List.replicate (index - s.evalStack.length) genericType ++ [t]) ∧
        s1.irFactory.tmps = s.irFactory.tmps ++
          stackLoadTmps s.irFactory.insts.length
            (List.replicate (index - s.evalStack.length) genericType ++ [t]) ∧
        s1.tb.trace.instructions = s.tb.trace.instructions ++
          List.range' s.irFactory.insts.length (index + 1 - s.evalStack.length) ∧
        s1.tb.exitTraces = s.tb.exitTraces) ∧
    (∀ e, s.evalStack[index]? = some e →
      s.top t index =
        (match s.irFactory.refineType e t with
         | .error x => .error x
         | .ok f => .ok (some e, { s with irFactory := f })) ∧
      (t.strictSubtypeOf (s.irFactory.typeOf e) = false → s.top t index = .ok (some e, s))) := by
  constructor
  · intro hlen hty hd
    have hk : index + 1 - s.evalStack.length = index - s.evalStack.length + 1 := by omega
    rw [hk] at hd ⊢
    refine ⟨_, HhbcTranslator.top_of_short s t index hlen hty hd, ?_⟩
    have hget : (s.evalStack ++ List.range' s.irFactory.tmps.length
        (index - s.evalStack.length + 1))[index]? =
        some (s.irFactory.tmps.length + (index - s.evalStack.length)) := by
      rw [List.getElem?_append_right hlen, List.getElem?_range' _ _ (by omega)]
      simp
    simp only [HhbcTranslator.afterExtend, HhbcTranslator.afterLoads, List.length_append,
      List.length_replicate, List.length_singleton, List.length_range', IRTrace.instructions,
      foldl_pushBackBlocks_flatten, TraceBuilder.sp, hget, true_and, and_true]
    omega
  · intro e he
    have hmain : s.top t index =
        (match s.irFactory.refineType e t with
         | .error x => .error x
         | .ok f => .ok (some e, { s with irFactory := f })) := by
      simp only [HhbcTranslator.top, he, HhbcTranslator.refineType]
      cases s.irFactory.refineType e t <;> rfl
    refine ⟨hmain, ?_⟩
    intro hns
    rw [hmain, IRFactory.refineType_of_not_strict _ e t hns]

theorem top_effect_witness :
    (sessionTwo.evalStack.length ≤ 3 ∧
     (∀ e ∈ sessionTwo.evalStack,
       genericType.strictSubtypeOf (sessionTwo.irFactory.typeOf e) = false) ∧
     sessionTwo.stackDeficit + (3 + 1 - sessionTwo.evalStack.length) < uint32Size ∧
     ∃ s1, sessionTwo.top IRType.Int 3 = .ok (some 5, s1) ∧ s1.evalStack = [3, 2, 4, 5] ∧
       s1.stackDeficit = 2) ∧
    (sessionTwo.evalStack[1]? = some 2 ∧
     IRType.Gen.strictSubtypeOf (sessionTwo.irFactory.typeOf 2) = false ∧
     sessionTwo.top IRType.Gen 1 = .ok (some 2, sessionTwo)) := by
  refine ⟨⟨by decide, by decide, by decide, ?_⟩, by decide, by decide, ?_⟩
  · obtain ⟨s1, h1, h2, _, _, h5, _⟩ :=
      (top_effect sessionTwo IRType.Int 3).1 (by decide) (by decide) (by decide)
    exact ⟨s1, h1, h2, h5⟩
  · exact ((top_effect sessionTwo IRType.Gen 1).2 2 (by decide)).2 (by decide)

/-! ## Chains of forwarding instructions -/

theorem IRType.subtypeOf_refl (a : IRType) : a.subtypeOf a = true := by
  simp [IRType.subtypeOf]

theorem IRType.subtypeOf_of_strict {a b : IRType} (h : a.strictSubtypeOf b = true) :
    a.subtypeOf b = true := (IRType.strictSubtypeOf_iff.mp h).2

/-- A strict subtype of a type is a strict subtype of every supertype of it. -/
theorem IRType.strict_of_strict_of_subtypeOf {t a b : IRType}
    (h1 : t.strictSubtypeOf a = true) (h2 : a.subtypeOf b = true) :
    t.strictSubtypeOf b = true := by
  have h3 := IRType.strictSubtypeOf_iff.mp h1
  refine IRType.strictSubtypeOf_iff.mpr ⟨?_, IRType.subtypeOf_trans h3.2 h2⟩
  intro heq
  subst heq
  exact h3.1 (IRType.subtypeOf_antisymm h3.2 h2)

namespace IRFactory

/-- A chain starts at its value, ends at a value that is not forwarded, and
the type of its end is a subtype of the type of its start when it is typed. -/
theorem chainFuel_ends (n : Nat) :
    ∀ (f : IRFactory) (v : SSATmpId) (vs : List SSATmpId), chainFuel n f v = some vs →
      ∃ w, vs.getLast? = some w ∧ vs.head? = some v ∧
        ¬ ((f.inst (f.instOf w)).op = .Mov ∨ (f.inst (f.instOf w)).op = .IncRef) ∧
        (f.chainTyped vs = true → (f.typeOf w).subtypeOf (f.typeOf v) = true) := by
  induction n with
  | zero => intro f v vs h; simp [chainFuel] at h
  | succ n ih =>
    intro f v vs h
    simp only [chainFuel] at h
    split at h
    · split at h
      · exact absurd h (by simp)
      · rename_i src hsrc
        split at h
        · exact absurd h (by simp)
        · rename_i us hus
          simp only [Option.some.injEq] at h
          subst h
          obtain ⟨w, hw1, hw2, hw3, hw4⟩ := ih f src us hus
          cases us with
          | nil => simp at hw2
          | cons u us2 =>
            simp only [List.head?_cons, Option.some.injEq] at hw2
            subst hw2
            refine ⟨w, ?_, rfl, hw3, ?_⟩
            · rw [List.getLast?_cons_cons]
              exact hw1
            · intro hty
              have hty2 : (f.typeOf u).subtypeOf (f.typeOf v) = true ∧
                  f.chainTyped (u :: us2) = true := by
                simpa [chainTyped] using hty
              exact IRType.subtypeOf_trans (hw4 hty2.2) hty2.1
    · rename_i hop
      simp only [Option.some.injEq] at h
      subst h
      exact ⟨v, rfl, rfl, hop, fun _ => IRType.subtypeOf_refl _⟩

theorem op_default : (default : IRInstruction).op = .Nop := rfl

/-- An instruction pointer that reads an opcode other than the default one
points into the arena. -/
theorem lt_of_op_ne_nop {f : IRFactory} {i : InstId} (h : (f.inst i).op ≠ .Nop) :
    i < f.insts.length := by
  by_contra hlt
  apply h
  simp [inst, List.getElem?_eq_none (Nat.le_of_not_lt hlt)]
  rfl

/-- The load branch of `refineType` passes its closing assertion. -/
theorem outputType_after_load (f : IRFactory) (v : SSATmpId) (i : InstId) (t : IRType)
    (hop : (f.inst i).op = .LdLoc ∨ (f.inst i).op = .LdStack ∨ (f.inst i).op = .LdMem ∨
      (f.inst i).op = .LdProp ∨ (f.inst i).op = .LdRef) :
    ((f.setTypeParam i t).setType v t).outputType i = t := by
  have hlt : i < f.insts.length := by
    apply lt_of_op_ne_nop
    rcases hop with h | h | h | h | h <;> rw [h] <;> decide
  have hk : (f.inst i).op.dstKind = .DParam := by
    rcases hop with h | h | h | h | h <;> rw [h] <;> rfl
  simp only [outputType, inst_setType, inst_setTypeParam_self f i t hlt, hk, Option.getD_some]

/-- The outcome of `refineType` on a typed chain is decided at its end. -/
theorem refineTypeFuel_outcome (t : IRType) (n : Nat) :
    ∀ (f : IRFactory) (v : SSATmpId) (vs : List SSATmpId), chainFuel n f v = some vs →
      f.chainTyped vs = true → ∀ w, vs.getLast? = some w →
      (f.refineViolates w t → refineTypeFuel n f v t = .error .assertion) ∧
      (¬ f.refineViolates w t → ∃ g, refineTypeFuel n f v t = .ok g) := by
  induction n with
  | zero => intro f v vs h; simp [chainFuel] at h
  | succ n ih =>
    intro f v vs h hty w hw
    have hends := chainFuel_ends (n + 1) f v vs h
    simp only [chainFuel] at h
    by_cases hop : (f.inst (f.instOf v)).op = .Mov ∨ (f.inst (f.instOf v)).op = .IncRef
    · rw [if_pos hop] at h
      cases hsrc : (f.inst (f.instOf v)).src 0 with
      | none => simp [hsrc] at h
      | some u =>
        cases hus : chainFuel n f u with
        | none => simp [hsrc, hus] at h
        | some us =>
          simp only [hsrc, hus, Option.some.injEq] at h
          subst h
          obtain ⟨w2, hw2, hhead, _, _⟩ := chainFuel_ends n f u us hus
          cases us with
          | nil => simp at hhead
          | cons u2 us2 =>
            simp only [List.head?_cons, Option.some.injEq] at hhead
            subst hhead
            rw [List.getLast?_cons_cons] at hw
            have hty2 : (f.typeOf u2).subtypeOf (f.typeOf v) = true ∧
                f.chainTyped (u2 :: us2) = true := by
              simpa [chainTyped] using hty
            have hrec := ih f u2 (u2 :: us2) hus hty2.2 w hw
            obtain ⟨w3, hw3, _, _, hsub⟩ := hends
            rw [List.getLast?_cons_cons, hw, Option.some.injEq] at hw3
            subst hw3
            by_cases hs : t.strictSubtypeOf (f.typeOf v) = true
            · constructor
              · intro hv
                simp only [refineTypeFuel, hs, if_true, hop, hsrc, hrec.1 hv]
              · intro hv
                obtain ⟨g, hg⟩ := hrec.2 hv
                exact ⟨g.setType v (g.outputType (f.instOf v)),
                  by simp only [refineTypeFuel, hs, if_true, hop, hsrc, hg]⟩
            · constructor
              · intro hv
                exact absurd (IRType.strict_of_strict_of_subtypeOf hv.1 (hsub hty)) hs
              · intro _
                exact ⟨f, by simp only [refineTypeFuel, hs, if_false]; simp⟩
    · rw [if_neg hop, Option.some.injEq] at h
      subst h
      simp only [List.getLast?_singleton, Option.some.injEq] at hw
      subst hw
      by_cases hs : t.strictSubtypeOf (f.typeOf v) = true
      · by_cases hnull : (f.typeOf v).isNull = true ∧ t.isNull = true
        · constructor
          · intro hv
            exact absurd hnull hv.2.2.1
          · intro _
            exact ⟨f.setType v t,
              by simp only [refineTypeFuel, hs, if_true, hop, if_false, hnull, and_self]⟩
        · by_cases hload : (f.inst (f.instOf v)).op = .LdLoc ∨
              (f.inst (f.instOf v)).op = .LdStack ∨ (f.inst (f.instOf v)).op = .LdMem ∨
              (f.inst (f.instOf v)).op = .LdProp ∨ (f.inst (f.instOf v)).op = .LdRef
          · constructor
            · intro hv
              exact absurd hload hv.2.2.2
            · intro _
              refine ⟨(f.setTypeParam (f.instOf v) t).setType v t, ?_⟩
              simp only [refineTypeFuel, hs, if_true, hop, if_false, hnull, hload,
                outputType_after_load f v _ t hload]
          · constructor
            · intro _
              simp only [refineTypeFuel, hs, if_true, hop, if_false, hnull, hload]
            · intro hv
              exact absurd ⟨hs, hop, hnull, hload⟩ hv
      · constructor
        · intro hv
          exact absurd hv.1 hs
        · intro _
          exact ⟨f, by simp only [refineTypeFuel, hs, if_false]; simp⟩

end IRFactory

/-- C7: for a value `v` whose chain of moves and reference-count increments
ends at `w`, in a session where each value of the chain has a type at least as
wide as its source, `refineType(v, t)` fails its invariant check exactly when
`t` is a strict subtype of the type of `w`, the producer of `w` is neither a
move nor an increment, the type of `w` and `t` are not both null-family, and
the producer of `w` is none of `LdLoc`, `LdStack`, `LdMem`, `LdProp`, `LdRef`;
in every other case it returns normally. -/
theorem refineType_fails_exactly_when (s : HhbcTranslator) (v : SSATmpId) (t : IRType)
    (vs : List SSATmpId) (w : SSATmpId)
    (hchain : s.irFactory.chain v = some vs) (hlast : vs.getLast? = some w)
    (htyped : s.irFactory.chainTyped vs = true) :
    (s.refineType v t = .error .assertion ↔ s.irFactory.refineViolates w t) ∧
    ((∃ s1, s.refineType v t = .ok s1) ↔ ¬ s.irFactory.refineViolates w t) := by
  have h := IRFactory.refineTypeFuel_outcome t _ s.irFactory v vs hchain htyped w hlast
  have hbad : s.irFactory.refineViolates w t → s.refineType v t = .error .assertion := by
    intro hv
    have := h.1 hv
    simp only [HhbcTranslator.refineType, IRFactory.refineType, this]
  have hgood : ¬ s.irFactory.refineViolates w t → ∃ s1, s.refineType v t = .ok s1 := by
    intro hv
    obtain ⟨g, hg⟩ := h.2 hv
    exact ⟨{ s with irFactory := g }, by
      simp only [HhbcTranslator.refineType, IRFactory.refineType, hg]⟩
  constructor
  · constructor
    · intro herr
      by_contra hv
      obtain ⟨s1, hs1⟩ := hgood hv
      rw [hs1] at herr
      exact Except.noConfusion herr
    · exact hbad
  · constructor
    · rintro ⟨s1, hs1⟩ hv
      rw [hbad hv] at hs1
      exact Except.noConfusion hs1
    · exact hgood

theorem refineType_fails_exactly_when_witness :
    sessionArrayIdx.irFactory.chain 5 = some [5, 4] ∧
    [5, 4].getLast? = some 4 ∧
    sessionArrayIdx.irFactory.chainTyped [5, 4] = true ∧
    sessionArrayIdx.irFactory.refineViolates 4 IRType.Int ∧
    sessionArrayIdx.refineType 5 IRType.Int = .error .assertion := by
  have h := refineType_fails_exactly_when sessionArrayIdx 5 IRType.Int [5, 4] 4
    (by decide) (by decide) (by decide)
  exact ⟨by decide, by decide, by decide, by decide, h.1.mpr (by decide)⟩

/-! ## Narrowing through a chain that ends in a load -/

namespace IRFactory

/-- Every value of a chain is forwarded from a value of the chain, or is its
end. -/
theorem chainFuel_mem (n : Nat) :
    ∀ (f : IRFactory) (v : SSATmpId) (vs : List SSATmpId), chainFuel n f v = some vs →
      ∀ x ∈ vs,
        (((f.inst (f.instOf x)).op = .Mov ∨ (f.inst (f.instOf x)).op = .IncRef) ∧
          ∃ u ∈ vs, (f.inst (f.instOf x)).src 0 = some u) ∨
        vs.getLast? = some x := by
  induction n with
  | zero => intro f v vs h; simp [chainFuel] at h
  | succ n ih =>
    intro f v vs h x hx
    have hcopy := h
    simp only [chainFuel] at h
    by_cases hop : (f.inst (f.instOf v)).op = .Mov ∨ (f.inst (f.instOf v)).op = .IncRef
    · rw [if_pos hop] at h
      cases hsrc : (f.inst (f.instOf v)).src 0 with
      | none => simp [hsrc] at h
      | some u =>
        cases hus : chainFuel n f u with
        | none => simp [hsrc, hus] at h
        | some us =>
          simp only [hsrc, hus, Option.some.injEq] at h
          subst h
          obtain ⟨w2, hw2, hhead, _, _⟩ := chainFuel_ends n f u us hus
          cases us with
          | nil => simp at hhead
          | cons u2 us2 =>
            simp only [List.head?_cons, Option.some.injEq] at hhead
            subst hhead
            rcases List.mem_cons.mp hx with hxv | hxu
            · subst hxv
              exact Or.inl ⟨hop, u2, by simp, hsrc⟩
            · rcases ih f u2 (u2 :: us2) hus x hxu with ⟨h1, u3, hu3, h3⟩ | h2
              · exact Or.inl ⟨h1, u3, List.mem_cons_of_mem _ hu3, h3⟩
              · exact Or.inr (by rw [List.getLast?_cons_cons]; exact h2)
    · rw [if_neg hop, Option.some.injEq] at h
      subst h
      simp only [List.mem_singleton] at hx
      subst hx
      exact Or.inr rfl

/-- Narrowing through a chain whose values carry the output type of their
producers and whose end is a parameter-typed load. -/
theorem refineTypeFuel_load_chain (t : IRType) (n : Nat) :
    ∀ (f : IRFactory) (v : SSATmpId) (vs : List SSATmpId), chainFuel n f v = some vs →
      (∀ x ∈ vs, f.typeOf x = f.outputType (f.instOf x)) →
      t.strictSubtypeOf (f.typeOf v) = true →
      ¬ ((f.typeOf v).isNull = true ∧ t.isNull = true) →
      ∀ w, vs.getLast? = some w → f.isParamLoad w →
      ∃ g, refineTypeFuel n f v t = .ok g ∧ SameShape f g ∧
        (∀ x ∈ vs, g.typeOf x = t) ∧
        (∀ x ∈ vs, f.typeOf x = f.typeOf v) ∧
        (∀ x, x ∉ vs → g.typeOf x = f.typeOf x) ∧
        (g.inst (f.instOf w)).typeParam = some t ∧
        (∀ i, i ≠ f.instOf w → g.inst i = f.inst i) := by
  induction n with
  | zero => intro f v vs h; simp [chainFuel] at h
  | succ n ih =>
    intro f v vs h hinv hs hnull w hw hload
    have hvlt : v < f.tmps.length := lt_of_strict hs
    simp only [chainFuel] at h
    by_cases hop : (f.inst (f.instOf v)).op = .Mov ∨ (f.inst (f.instOf v)).op = .IncRef
    · rw [if_pos hop] at h
      cases hsrc : (f.inst (f.instOf v)).src 0 with
      | none => simp [hsrc] at h
      | some u =>
        cases hus : chainFuel n f u with
        | none => simp [hsrc, hus] at h
        | some us =>
          simp only [hsrc, hus, Option.some.injEq] at h
          subst h
          obtain ⟨w2, hw2, hhead, _, _⟩ := chainFuel_ends n f u us hus
          cases us with
          | nil => simp at hhead
          | cons u2 us2 =>
            simp only [List.head?_cons, Option.some.injEq] at hhead
            subst hhead
            rw [List.getLast?_cons_cons] at hw
            have hk : (f.inst (f.instOf v)).op.dstKind = .DofS0 := by
              rcases hop with h1 | h1 <;> rw [h1] <;> rfl
            have hvu : f.typeOf v = f.typeOf u2 := by
              rw [hinv v (by simp)]
              simp only [outputType, hk, hsrc, typeOfPtr]
            obtain ⟨g1, hg1, hsh, hall, heq, hother, hparam, hinst⟩ :=
              ih f u2 (u2 :: us2) hus (fun x hx => hinv x (List.mem_cons_of_mem _ hx))
                (hvu ▸ hs) (hvu ▸ hnull) w hw hload
            have hk1 : (g1.inst (f.instOf v)).op.dstKind = .DofS0 := by
              rw [hsh.op]; exact hk
            have hsrc1 : (g1.inst (f.instOf v)).src 0 = some u2 := by
              simp only [IRInstruction.src, hsh.srcs]
              exact hsrc
            have hout : g1.outputType (f.instOf v) = t := by
              simp only [outputType, hk1, hsrc1, typeOfPtr]
              exact hall u2 (by simp)
            refine ⟨g1.setType v t, ?_, sameShape_trans hsh (sameShape_setType _ _ _),
              ?_, ?_, ?_, ?_, ?_⟩
            · simp only [refineTypeFuel, hs, if_true, hop, hsrc, hg1, hout]
            · intro x hx
              by_cases hxv : v = x
              · subst hxv
                exact typeOf_setType_self g1 v t (hsh.tmpsLen ▸ hvlt)
              · rw [typeOf_setType_ne g1 v x t hxv]
                rcases List.mem_cons.mp hx with h1 | h1
                · exact absurd h1.symm hxv
                · exact hall x h1
            · intro x hx
              rcases List.mem_cons.mp hx with h1 | h1
              · rw [h1]
              · rw [heq x h1, hvu]
            · intro x hx
              have hxv : v ≠ x := fun h1 => hx (by simp [h1])
              rw [typeOf_setType_ne g1 v x t hxv]
              exact hother x (fun h1 => hx (List.mem_cons_of_mem _ h1))
            · rw [inst_setType]; exact hparam
            · intro i hi
              rw [inst_setType]; exact hinst i hi
    · rw [if_neg hop, Option.some.injEq] at h
      subst h
      simp only [List.getLast?_singleton, Option.some.injEq] at hw
      subst hw
      have hload2 := hload
      simp only [isParamLoad] at hload2
      have hilt : f.instOf v < f.insts.length := by
        apply lt_of_op_ne_nop
        rcases hload2 with h1 | h1 | h1 | h1 | h1 <;> rw [h1] <;> decide
      refine ⟨(f.setTypeParam (f.instOf v) t).setType v t, ?_,
        sameShape_trans (sameShape_setTypeParam _ _ _) (sameShape_setType _ _ _),
        ?_, ?_, ?_, ?_, ?_⟩
      · simp only [refineTypeFuel, hs, if_true, hop, if_false, hnull, hload2,
          outputType_after_load f v _ t hload2]
      · intro x hx
        simp only [List.mem_singleton] at hx
        subst hx
        exact typeOf_setType_self _ x t (by simpa [setTypeParam] using hvlt)
      · intro x hx
        simp only [List.mem_singleton] at hx
        rw [hx]
      · intro x hx
        have hxv : v ≠ x := fun h1 => hx (by simp [h1])
        rw [typeOf_setType_ne _ v x t hxv]
        rfl
      · rw [inst_setType, inst_setTypeParam_self f _ t hilt]
      · intro i hi
        rw [inst_setType, inst_setTypeParam_ne f _ i t (Ne.symm hi)]

end IRFactory

/-- C6, as stated, fails for null-family types.  In `sessionNull` value 3 is
the `IncRef` of value 2, the result of a `LdStack` typed `Null`; both have the
output type of their producers, and `Uninit` is a strict subtype of `Null`.
`refineType(3, Uninit)` returns, but it takes the null-family branch at the
load: the type parameter of the load is still `Null`, and value 2 no longer has
the output type of its producer. -/
theorem refineType_null_family_load_counterexample :
    sessionNull.irFactory.chain 3 = some [3, 2] ∧
    (sessionNull.irFactory.inst (sessionNull.irFactory.instOf 3)).op = .IncRef ∧
    sessionNull.irFactory.isParamLoad 2 ∧
    (∀ x ∈ [3, 2], sessionNull.irFactory.typeOf x =
      sessionNull.irFactory.outputType (sessionNull.irFactory.instOf x)) ∧
    IRType.Uninit.strictSubtypeOf (sessionNull.irFactory.typeOf 3) = true ∧
    sessionNull.refineType 3 IRType.Uninit = .ok sessionNullRefined ∧
    (sessionNullRefined.irFactory.inst (sessionNullRefined.irFactory.instOf 2)).typeParam ≠
      some IRType.Uninit ∧
    sessionNullRefined.irFactory.typeOf 2 ≠
      sessionNullRefined.irFactory.outputType (sessionNullRefined.irFactory.instOf 2) :=
  ⟨by decide, by decide, by decide, by decide, by decide, rfl, by decide, by decide⟩

/-- C6, amended: let the chain of moves and reference-count increments of `v` end
at `w`, the result of a `LdLoc`, `LdStack`, `LdMem`, `LdProp` or `LdRef`; let every
value of the chain have the output type of its producer, `t` be a strict subtype
of the type of `v`, and the type of `v` and `t` not both be null-family.
Then `refineType(v, t)` returns; the type parameter of the load and the type of
`w` are `t`; every value of the chain has type `t`, which is the output type of
its producer recomputed from the narrowed source; and no value of the arena
has a wider type than before. -/
theorem refineType_narrows_load_chain (s : HhbcTranslator) (v : SSATmpId) (t : IRType)
    (vs : List SSATmpId) (w : SSATmpId)
    (hchain : s.irFactory.chain v = some vs) (hlast : vs.getLast? = some w)
    (hload : s.irFactory.isParamLoad w)
    (hinv : ∀ x ∈ vs, s.irFactory.typeOf x = s.irFactory.outputType (s.irFactory.instOf x))
    (hstrict : t.strictSubtypeOf (s.irFactory.typeOf v) = true)
    (hnull : ¬ ((s.irFactory.typeOf v).isNull = true ∧ t.isNull = true)) :
    ∃ s1, s.refineType v t = .ok s1 ∧
      (s1.irFactory.inst (s1.irFactory.instOf w)).typeParam = some t ∧
      s1.irFactory.typeOf w = t ∧
      (∀ x ∈ vs, s1.irFactory.typeOf x = t) ∧
      (∀ x ∈ vs, s1.irFactory.typeOf x =
        s1.irFactory.outputType (s1.irFactory.instOf x)) ∧
      (∀ x, (s1.irFactory.typeOf x).subtypeOf (s.irFactory.typeOf x) = true) := by
  obtain ⟨g, hg, hsh, hall, heq, hother, hparam, _⟩ :=
    IRFactory.refineTypeFuel_load_chain t _ s.irFactory v vs hchain hinv hstrict hnull w hlast
      hload
  have hwmem : w ∈ vs := List.mem_of_getLast?_eq_some hlast
  refine ⟨{ s with irFactory := g }, ?_, ?_, hall w hwmem, hall, ?_, ?_⟩
  · simp only [HhbcTranslator.refineType, IRFactory.refineType, hg]
  · show (g.inst (g.instOf w)).typeParam = some t
    rw [hsh.instOf]
    exact hparam
  · intro x hx
    show g.typeOf x = g.outputType (g.instOf x)
    rw [hall x hx, hsh.instOf]
    rcases IRFactory.chainFuel_mem _ s.irFactory v vs hchain x hx with ⟨hop, u, hu, hsrc⟩ | hl
    · have hk : (g.inst (s.irFactory.instOf x)).op.dstKind = .DofS0 := by
        rw [hsh.op]
        rcases hop with h1 | h1 <;> rw [h1] <;> rfl
      have hsrc1 : (g.inst (s.irFactory.instOf x)).src 0 = some u := by
        simp only [IRInstruction.src, hsh.srcs]
        exact hsrc
      simp only [IRFactory.outputType, hk, hsrc1, IRFactory.typeOfPtr]
      exact (hall u hu).symm
    · rw [hlast, Option.some.injEq] at hl
      subst hl
      have hk : (g.inst (s.irFactory.instOf w)).op.dstKind = .DParam := by
        rw [hsh.op]
        simp only [IRFactory.isParamLoad] at hload
        rcases hload with h1 | h1 | h1 | h1 | h1 <;> rw [h1] <;> rfl
      simp only [IRFactory.outputType, hk, hparam, Option.getD_some]
  · intro x
    show (g.typeOf x).subtypeOf (s.irFactory.typeOf x) = true
    by_cases hx : x ∈ vs
    · rw [hall x hx, heq x hx]
      exact IRType.subtypeOf_of_strict hstrict
    · rw [hother x hx]
      exact IRType.subtypeOf_refl _

theorem refineType_narrows_load_chain_witness :
    sessionIncRef.irFactory.chain 3 = some [3, 2] ∧
    [3, 2].getLast? = some 2 ∧
    sessionIncRef.irFactory.isParamLoad 2 ∧
    (∀ x ∈ [3, 2], sessionIncRef.irFactory.typeOf x =
      sessionIncRef.irFactory.outputType (sessionIncRef.irFactory.instOf x)) ∧
    IRType.Int.strictSubtypeOf (sessionIncRef.irFactory.typeOf 3) = true ∧
    ¬ ((sessionIncRef.irFactory.typeOf 3).isNull = true ∧ IRType.Int.isNull = true) ∧
    ∃ s1, sessionIncRef.refineType 3 IRType.Int = .ok s1 ∧
      (s1.irFactory.inst (s1.irFactory.instOf 2)).typeParam = some IRType.Int ∧
      s1.irFactory.typeOf 2 = IRType.Int ∧
      (∀ x ∈ [3, 2], s1.irFactory.typeOf x = IRType.Int) ∧
      (∀ x ∈ [3, 2], s1.irFactory.typeOf x =
        s1.irFactory.outputType (s1.irFactory.instOf x)) ∧
      (∀ x, (s1.irFactory.typeOf x).subtypeOf (sessionIncRef.irFactory.typeOf x) = true) :=
  ⟨by decide, by decide, by decide, by decide, by decide, by decide,
   refineType_narrows_load_chain sessionIncRef 3 IRType.Int [3, 2] 2
     (by decide) (by decide) (by decide) (by decide) (by decide) (by decide)⟩

/-! ## Exit and catch traces -/

namespace IRFactory

theorem gen_insts (f : IRFactory) (op : Opcode) (tp : Option IRType) (extra : ExtraData)
    (taken : Option TraceRef) (srcs : List SSATmpPtr) :
    ∃ more, (f.gen op tp extra taken srcs).2.insts = f.insts ++ more := by
  simp only [gen]
  split
  · exact ⟨_, rfl⟩
  · exact ⟨_, rfl⟩

theorem gen_tmps (f : IRFactory) (op : Opcode) (tp : Option IRType) (extra : ExtraData)
    (taken : Option TraceRef) (srcs : List SSATmpPtr) :
    ∃ more, (f.gen op tp extra taken srcs).2.tmps = f.tmps ++ more := by
  simp only [gen]
  split
  · exact ⟨[], by simp⟩
  · exact ⟨_, rfl⟩

end IRFactory

theorem emitsInto_refl (k : Nat) (s : HhbcTranslator) : EmitsInto k s s :=
  ⟨rfl, rfl, rfl, rfl, rfl, rfl, rfl, rfl, rfl, rfl, rfl, rfl, fun _ _ => rfl,
   ⟨[], by simp⟩, ⟨[], by simp⟩⟩

theorem emitsInto_trans {k : Nat} {s s1 s2 : HhbcTranslator} (h1 : EmitsInto k s s1)
    (h2 : EmitsInto k s1 s2) : EmitsInto k s s2 where
  evalStack := h2.evalStack.trans h1.evalStack
  stackDeficit := h2.stackDeficit.trans h1.stackDeficit
  bcStateStack := h2.bcStateStack.trans h1.bcStateStack
  fpiStack := h2.fpiStack.trans h1.fpiStack
  startBcOff := h2.startBcOff.trans h1.startBcOff
  lastBcOff := h2.lastBcOff.trans h1.lastBcOff
  hasExit := h2.hasExit.trans h1.hasExit
  trace := h2.trace.trans h1.trace
  spValue := h2.spValue.trans h1.spValue
  fpValue := h2.fpValue.trans h1.fpValue
  spOffset := h2.spOffset.trans h1.spOffset
  exitLen := h2.exitLen.trans h1.exitLen
  exitOther := fun j hj => (h2.exitOther j hj).trans (h1.exitOther j hj)
  insts := by
    obtain ⟨m1, e1⟩ := h1.insts
    obtain ⟨m2, e2⟩ := h2.insts
    exact ⟨m1 ++ m2, by rw [e2, e1, List.append_assoc]⟩
  tmps := by
    obtain ⟨m1, e1⟩ := h1.tmps
    obtain ⟨m2, e2⟩ := h2.tmps
    exact ⟨m1 ++ m2, by rw [e2, e1, List.append_assoc]⟩

namespace HhbcTranslator

/-- Emission into an auxiliary trace through `genFor`. -/
theorem genFor_emitsInto (s : HhbcTranslator) (k : Nat) (op : Opcode) (tp : Option IRType)
    (extra : ExtraData) (taken : Option TraceRef) (srcs : List SSATmpPtr) :
    EmitsInto k s (s.genFor (.exit k) op tp extra taken srcs).2 where
  evalStack := rfl
  stackDeficit := rfl
  bcStateStack := rfl
  fpiStack := rfl
  startBcOff := rfl
  lastBcOff := rfl
  hasExit := rfl
  trace := rfl
  spValue := rfl
  fpValue := rfl
  spOffset := rfl
  exitLen := by simp [genFor, TraceBuilder.pushBackOn]
  exitOther := fun j hj => by
    simp [genFor, TraceBuilder.pushBackOn, List.getElem?_modify_ne _ _ (Ne.symm hj)]
  insts := IRFactory.gen_insts _ _ _ _ _ _
  tmps := IRFactory.gen_tmps _ _ _ _ _ _

/-- A constant is made by the factory and put on no trace. -/
theorem cns_emitsInto (s : HhbcTranslator) (k : Nat) (c : ConstVal) :
    EmitsInto k s (s.cns c).2 where
  evalStack := rfl
  stackDeficit := rfl
  bcStateStack := rfl
  fpiStack := rfl
  startBcOff := rfl
  lastBcOff := rfl
  hasExit := rfl
  trace := rfl
  spValue := rfl
  fpValue := rfl
  spOffset := rfl
  exitLen := rfl
  exitOther := fun _ _ => rfl
  insts := IRFactory.gen_insts _ _ _ _ _ _
  tmps := IRFactory.gen_tmps _ _ _ _ _ _

theorem exitSpill_emitsInto (s : HhbcTranslator) (k : Nat) (stackValues : List SSATmpPtr) :
    EmitsInto k s (s.exitSpill (.exit k) stackValues).2 := by
  simp only [exitSpill]
  split
  · exact emitsInto_trans (cns_emitsInto s k _) (genFor_emitsInto _ k _ _ _ _ _)
  · exact emitsInto_refl k s

theorem exitCustom_emitsInto (s : HhbcTranslator) (k : Nat) (stack : SSATmpPtr)
    (customFn : Option CustomExit) (hfn : ∀ fn, customFn = some fn → CustomExitLocal fn) :
    EmitsInto k s (s.exitCustom (.exit k) stack customFn).2 := by
  cases customFn with
  | none => exact emitsInto_refl k s
  | some fn =>
    have h1 := genFor_emitsInto s k .ExceptionBarrier none .none none [stack]
    have h2 := hfn fn rfl k (s.genFor (.exit k) .ExceptionBarrier none .none none [stack]).2
    simp only [exitCustom]
    split
    · exact emitsInto_trans h1 h2
    · exact emitsInto_trans (emitsInto_trans h1 h2)
        (emitsInto_trans (cns_emitsInto _ k _) (genFor_emitsInto _ k _ _ _ _ _))

theorem exitFinish_emitsInto (s : HhbcTranslator) (k : Nat) (targetBcOff : Offset)
    (flag : ExitFlag) (exitMarker : MarkerData) (stack : SSATmpPtr) :
    EmitsInto k s (s.exitFinish (.exit k) targetBcOff flag exitMarker stack) := by
  cases flag
  · simp only [exitFinish, reduceCtorEq, if_false]
    split
    · exact emitsInto_trans (genFor_emitsInto _ k _ _ _ _ _) (genFor_emitsInto _ k _ _ _ _ _)
    · exact emitsInto_trans (genFor_emitsInto _ k _ _ _ _ _) (genFor_emitsInto _ k _ _ _ _ _)
  · simp only [exitFinish, reduceCtorEq, if_false, if_true]
    exact emitsInto_trans (genFor_emitsInto _ k _ _ _ _ _) (genFor_emitsInto _ k _ _ _ _ _)
  · simp only [exitFinish, reduceCtorEq, if_false, if_true]
    split
    · exact emitsInto_trans (genFor_emitsInto _ k _ _ _ _ _)
        (emitsInto_trans (genFor_emitsInto _ k _ _ _ _ _) (genFor_emitsInto _ k _ _ _ _ _))
    · exact emitsInto_trans (genFor_emitsInto _ k _ _ _ _ _)
        (emitsInto_trans (genFor_emitsInto _ k _ _ _ _ _) (genFor_emitsInto _ k _ _ _ _ _))

end HhbcTranslator

/-- A list one longer than `l` that agrees with `l` below its length is `l`
with one element appended. -/
theorem exists_append_singleton {α : Type} (l l1 : List α) (hlen : l1.length = l.length + 1)
    (hget : ∀ j, j < l.length → l1[j]? = l[j]?) : ∃ t, l1 = l ++ [t] := by
  have hne : l.length < l1.length := by omega
  refine ⟨l1[l.length], ?_⟩
  apply List.ext_getElem?
  intro j
  rcases Nat.lt_trichotomy j l.length with h | h | h
  · rw [hget j h, List.getElem?_append_left h]
  · subst h
    rw [List.getElem?_concat_length, List.getElem?_eq_getElem hne]
  · rw [List.getElem?_eq_none (by omega), List.getElem?_eq_none (by simp; omega)]

/-- Whatever is emitted into a freshly made auxiliary trace leaves the session
isolated. -/
theorem isolated_of_emitsInto (s s1 : HhbcTranslator) (targetBcOff : Offset)
    (h : EmitsInto s.tb.exitTraces.length
      { s with tb := (s.tb.makeExitTrace targetBcOff).2 } s1) : Isolated s s1 where
  evalStack := h.evalStack
  stackDeficit := h.stackDeficit
  bcStateStack := h.bcStateStack
  fpiStack := h.fpiStack
  trace := h.trace
  spValue := h.spValue
  fpValue := h.fpValue
  spOffset := h.spOffset
  exitTraces := by
    apply exists_append_singleton
    · rw [h.exitLen]
      simp [TraceBuilder.makeExitTrace]
    · intro j hj
      rw [h.exitOther j (Nat.ne_of_lt hj)]
      simp [TraceBuilder.makeExitTrace, List.getElem?_append_left hj]
  insts := h.insts
  tmps := h.tmps

namespace HhbcTranslator

/-- The body of every exit builder emits into the trace it made. -/
theorem getExitTraceImpl_isolated (s : HhbcTranslator) (targetBcOff : Offset) (flag : ExitFlag)
    (stackValues : List SSATmpPtr) (customFn : Option CustomExit)
    (hfn : ∀ fn, customFn = some fn → CustomExitLocal fn) :
    Isolated s (s.getExitTraceImpl targetBcOff flag stackValues customFn).2 ∧
    (s.getExitTraceImpl targetBcOff flag stackValues customFn).1.1 =
      .exit s.tb.exitTraces.length := by
  refine ⟨isolated_of_emitsInto s _ targetBcOff ?_, rfl⟩
  simp only [getExitTraceImpl, exitTail, TraceBuilder.makeExitTrace]
  exact emitsInto_trans (genFor_emitsInto _ _ _ _ _ _ _)
    (emitsInto_trans (exitSpill_emitsInto _ _ _)
      (emitsInto_trans (exitCustom_emitsInto _ _ _ _ hfn) (exitFinish_emitsInto _ _ _ _ _ _)))

theorem warnExit_local (warning : String) : CustomExitLocal (warnExit warning) := by
  intro k s
  exact emitsInto_trans (cns_emitsInto s k _) (genFor_emitsInto _ k _ _ _ _ _)

theorem lookupClsCnsExit_local (name : String) : CustomExitLocal (lookupClsCnsExit name) := by
  intro k s
  exact genFor_emitsInto s k _ _ _ _ _

theorem makeMarker_emitsInto (s : HhbcTranslator) (k : Nat) (off : Offset) :
    EmitsInto k s (s.makeMarker off).2 where
  evalStack := rfl
  stackDeficit := rfl
  bcStateStack := rfl
  fpiStack := rfl
  startBcOff := rfl
  lastBcOff := rfl
  hasExit := rfl
  trace := rfl
  spValue := rfl
  fpValue := rfl
  spOffset := rfl
  exitLen := rfl
  exitOther := fun _ _ => rfl
  insts := IRFactory.gen_insts _ _ _ _ _ _
  tmps := IRFactory.gen_tmps _ _ _ _ _ _

theorem pushFrontOn_emitsInto (s : HhbcTranslator) (k : Nat) (i : InstId) :
    EmitsInto k s { s with tb := s.tb.pushFrontOn (.exit k) i } where
  evalStack := rfl
  stackDeficit := rfl
  bcStateStack := rfl
  fpiStack := rfl
  startBcOff := rfl
  lastBcOff := rfl
  hasExit := rfl
  trace := rfl
  spValue := rfl
  fpValue := rfl
  spOffset := rfl
  exitLen := by simp [TraceBuilder.pushFrontOn]
  exitOther := fun j hj => by
    simp [TraceBuilder.pushFrontOn, List.getElem?_modify_ne _ _ (Ne.symm hj)]
  insts := ⟨[], by simp⟩
  tmps := ⟨[], by simp⟩

theorem emitSpillStack_emitsInto (s : HhbcTranslator) (k : Nat) (sp : SSATmpPtr)
    (spillVals : List SSATmpPtr) :
    EmitsInto k s (s.emitSpillStack (.exit k) sp spillVals).2 := by
  simp only [emitSpillStack, reduceCtorEq, if_false]
  exact emitsInto_trans (cns_emitsInto s k _) (genFor_emitsInto _ k _ _ _ _ _)

/-- A trace modified in place keeps having one block when the modification
keeps that. -/
theorem blocks_modify (l : List IRTrace) (f : IRTrace → IRTrace) (k : Nat)
    (hf : ∀ t : IRTrace, t.blocks.length = 1 → (f t).blocks.length = 1)
    (h : (l.getD k {}).blocks.length = 1) : ((l.modify f k).getD k {}).blocks.length = 1 := by
  simp only [List.getD_eq_getElem?_getD, List.getElem?_modify_eq] at h ⊢
  cases hk : l[k]? with
  | none => simp
  | some t =>
    simp only [hk, Option.getD_some, Option.map_eq_map, Option.map_some'] at h ⊢
    exact hf t h

theorem pushBack_blocks (t : IRTrace) (i : InstId) (h : t.blocks.length = 1) :
    (t.pushBack i).blocks.length = 1 := by
  obtain ⟨b, hb⟩ := List.length_eq_one.mp h
  simp [IRTrace.pushBack, hb, pushBackBlocks]

theorem pushFront_blocks (t : IRTrace) (i : InstId) (h : t.blocks.length = 1) :
    (t.pushFront i).blocks.length = 1 := by
  obtain ⟨b, hb⟩ := List.length_eq_one.mp h
  simp [IRTrace.pushFront, hb, pushFrontBlocks]

theorem numBlocks_genFor (s : HhbcTranslator) (k : Nat) (op : Opcode) (tp : Option IRType)
    (extra : ExtraData) (taken : Option TraceRef) (srcs : List SSATmpPtr)
    (h : s.numBlocks (.exit k) = 1) :
    (s.genFor (.exit k) op tp extra taken srcs).2.numBlocks (.exit k) = 1 := by
  simp only [numBlocks, genFor, TraceBuilder.pushBackOn] at h ⊢
  exact blocks_modify _ _ k (fun t ht => pushBack_blocks t _ ht) h

/-- Lines 3439-3450 never fail their two assertions, and emit into the trace
they made. -/
theorem getCatchTrace_isolated (s : HhbcTranslator) :
    ∃ s1, s.getCatchTrace = .ok (.exit s.tb.exitTraces.length, s1) ∧ Isolated s s1 := by
  have h0 : ({ s with tb := (s.tb.makeExitTrace s.bcOff).2 } : HhbcTranslator).numBlocks
      (.exit s.tb.exitTraces.length) = 1 := by
    simp [numBlocks, TraceBuilder.makeExitTrace]
  have h1 := numBlocks_genFor _ _ .BeginCatch none .none none [] h0
  generalize hs1 : (({ s with tb := (s.tb.makeExitTrace s.bcOff).2 } : HhbcTranslator).genFor
    (.exit s.tb.exitTraces.length) .BeginCatch none .none none []).2 = s1 at h1
  have e1 : EmitsInto s.tb.exitTraces.length
      ({ s with tb := (s.tb.makeExitTrace s.bcOff).2 } : HhbcTranslator) s1 :=
    hs1 ▸ genFor_emitsInto _ _ _ _ _ _ _
  have e2 := emitsInto_trans (makeMarker_emitsInto s1 s.tb.exitTraces.length s1.bcOff)
    (pushFrontOn_emitsInto (s1.makeMarker s1.bcOff).2 s.tb.exitTraces.length
      (s1.makeMarker s1.bcOff).1)
  have h2 : ({ (s1.makeMarker s1.bcOff).2 with
      tb := (s1.makeMarker s1.bcOff).2.tb.pushFrontOn (.exit s.tb.exitTraces.length)
        (s1.makeMarker s1.bcOff).1 } : HhbcTranslator).numBlocks
      (.exit s.tb.exitTraces.length) = 1 := by
    simp only [numBlocks, TraceBuilder.pushFrontOn, makeMarker] at h1 ⊢
    exact blocks_modify _ _ _ (fun t ht => pushFront_blocks t _ ht) h1
  generalize hs2 : ({ (s1.makeMarker s1.bcOff).2 with
      tb := (s1.makeMarker s1.bcOff).2.tb.pushFrontOn (.exit s.tb.exitTraces.length)
        (s1.makeMarker s1.bcOff).1 } : HhbcTranslator) = s2 at e2 h2
  have e3 := emitSpillStack_emitsInto s2 s.tb.exitTraces.length s2.tb.sp s2.peekSpillValues
  have h3 : (s2.emitSpillStack (.exit s.tb.exitTraces.length) s2.tb.sp
      s2.peekSpillValues).2.numBlocks (.exit s.tb.exitTraces.length) = 1 := by
    simp only [emitSpillStack, reduceCtorEq, if_false]
    exact numBlocks_genFor _ _ _ _ _ _ _ (by simpa [numBlocks, cns] using h2)
  have e4 := genFor_emitsInto (s2.emitSpillStack (.exit s.tb.exitTraces.length) s2.tb.sp
      s2.peekSpillValues).2 s.tb.exitTraces.length .EndCatch none .none none
      [(s2.emitSpillStack (.exit s.tb.exitTraces.length) s2.tb.sp s2.peekSpillValues).1]
  have h4 := numBlocks_genFor _ _ .EndCatch none .none none
      [(s2.emitSpillStack (.exit s.tb.exitTraces.length) s2.tb.sp s2.peekSpillValues).1] h3
  refine ⟨_, ?_, isolated_of_emitsInto s _ s.bcOff
    (emitsInto_trans e1 (emitsInto_trans e2 (emitsInto_trans e3 e4)))⟩
  subst hs2
  subst hs1
  unfold getCatchTrace
  exact (if_neg (fun h => h h0)).trans ((if_neg (fun h => h h4)).trans rfl)

end HhbcTranslator

/-- C9: building an exit trace (`getExitTrace` in both forms, `getExitTraceWarn`,
`makeSideExit`, `getExitSlowTrace`) or a catch trace (`getCatchTrace`) leaves
the virtual stack, the deficit, the frame-state stack, the call-preparation
stack and the main trace as they were; every auxiliary trace that existed and
every instruction and value that existed are untouched, and exactly one
auxiliary trace is new, which is the one returned.  The closure handed to
`makeSideExit` is taken to emit only into the trace it is given, and
`getExitTraceWarn` is taken at a target other than the `-1` it asserts
against. -/
theorem exit_trace_isolation (s : HhbcTranslator) (targetBcOff : Offset)
    (spillValues : List SSATmpPtr) (warning : String) (exit : HhbcTranslator.CustomExit)
    (hexit : CustomExitLocal exit) :
    (Isolated s (s.getExitTrace targetBcOff).2 ∧
      (s.getExitTrace targetBcOff).1 = .exit s.tb.exitTraces.length) ∧
    (Isolated s (s.getExitTraceSpill targetBcOff spillValues).2 ∧
      (s.getExitTraceSpill targetBcOff spillValues).1.1 = .exit s.tb.exitTraces.length) ∧
    (targetBcOff ≠ -1 →
      ∃ r, s.getExitTraceWarn targetBcOff spillValues warning = .ok r ∧ Isolated s r.2 ∧
        r.1.1 = .exit s.tb.exitTraces.length) ∧
    (Isolated s (s.makeSideExit targetBcOff exit).2 ∧
      (s.makeSideExit targetBcOff exit).1 = .exit s.tb.exitTraces.length) ∧
    (Isolated s s.getExitSlowTrace.2 ∧ s.getExitSlowTrace.1 = .exit s.tb.exitTraces.length) ∧
    (∃ s1, s.getCatchTrace = .ok (.exit s.tb.exitTraces.length, s1) ∧ Isolated s s1) := by
  have hnone : ∀ fn, (none : Option HhbcTranslator.CustomExit) = some fn → CustomExitLocal fn :=
    fun fn h => Option.noConfusion h
  refine ⟨?_, ?_, ?_, ?_, ?_, HhbcTranslator.getCatchTrace_isolated s⟩
  · exact HhbcTranslator.getExitTraceImpl_isolated s _ .None s.peekSpillValues none hnone
  · exact HhbcTranslator.getExitTraceImpl_isolated s _ .None spillValues none hnone
  · intro hne
    refine ⟨s.getExitTraceImpl targetBcOff .None spillValues
      (some (HhbcTranslator.warnExit warning)),
      by simp only [HhbcTranslator.getExitTraceWarn, hne, if_false], ?_⟩
    exact HhbcTranslator.getExitTraceImpl_isolated s targetBcOff .None spillValues
      (some (HhbcTranslator.warnExit warning))
      (fun fn h => by
        rw [Option.some.injEq] at h
        exact h ▸ HhbcTranslator.warnExit_local warning)
  · exact HhbcTranslator.getExitTraceImpl_isolated s targetBcOff .DelayedMarker
      s.peekSpillValues (some exit)
      (fun fn h => by
        rw [Option.some.injEq] at h
        exact h ▸ hexit)
  · exact HhbcTranslator.getExitTraceImpl_isolated s s.bcOff .NoIR s.peekSpillValues none hnone

theorem exit_trace_isolation_witness :
    CustomExitLocal (HhbcTranslator.lookupClsCnsExit "C::K") ∧ (7 : Offset) ≠ -1 ∧
    Isolated sessionTwo (sessionTwo.getExitTrace 7).2 ∧
    Isolated sessionTwo
      (sessionTwo.makeSideExit 7 (HhbcTranslator.lookupClsCnsExit "C::K")).2 ∧
    (∃ r, sessionTwo.getExitTraceWarn 7 [some 3] "Division by zero" = .ok r ∧
      Isolated sessionTwo r.2 ∧ r.1.1 = .exit sessionTwo.tb.exitTraces.length) ∧
    (∃ s1, sessionTwo.getCatchTrace = .ok (.exit sessionTwo.tb.exitTraces.length, s1) ∧
      Isolated sessionTwo s1) := by
  have h := exit_trace_isolation sessionTwo 7 [some 3] "Division by zero"
    (HhbcTranslator.lookupClsCnsExit "C::K") (HhbcTranslator.lookupClsCnsExit_local "C::K")
  exact ⟨HhbcTranslator.lookupClsCnsExit_local "C::K", by decide, h.1.1, h.2.2.2.1.1,
    h.2.2.1 (by decide), h.2.2.2.2.2⟩

/-! ## The spill-value vector of an exit trace -/

namespace IRFactory

theorem gen_of_ND (f : IRFactory) (op : Opcode) (tp : Option IRType) (extra : ExtraData)
    (taken : Option TraceRef) (srcs : List SSATmpPtr) (h : op.dstKind = .ND) :
    f.gen op tp extra taken srcs =
      (f.insts.length,
       { f with insts := f.insts ++ [{ op := op, typeParam := tp, extra := extra,
                                       taken := taken, srcs := srcs, dst := none }] }) := by
  simp only [gen, h, if_true]

theorem gen_DefConst (f : IRFactory) (c : ConstVal) :
    f.gen .DefConst (some (typeForConst c)) (.const c) none [] =
      (f.insts.length,
       { insts := f.insts ++ [{ op := .DefConst, typeParam := some (typeForConst c),
                                extra := .const c, taken := none, srcs := [],
                                dst := some f.tmps.length }],
         tmps := f.tmps ++ [{ inst := f.insts.length, type := typeForConst c }] }) := by
  have hk : Opcode.dstKind .DefConst = .DParam := rfl
  have hinst : ∀ (l : List IRInstruction) (x : IRInstruction),
      (l ++ [x]).getD l.length default = x := by
    intro l x
    simp
  simp only [gen, hk, reduceCtorEq, if_false, outputType, inst, hinst, Option.getD_some]

end IRFactory

namespace HhbcTranslator

theorem cns_fst (s : HhbcTranslator) (c : ConstVal) :
    (s.cns c).1 = some s.irFactory.tmps.length := by
  have hinst : ∀ (l : List IRInstruction) (x : IRInstruction),
      (l ++ [x]).getD l.length default = x := by
    intro l x
    simp
  simp only [cns, IRFactory.gen_DefConst, IRFactory.inst, hinst]

theorem cns_irFactory (s : HhbcTranslator) (c : ConstVal) :
    (s.cns c).2.irFactory =
      { insts := s.irFactory.insts ++ [defConstInst c s.irFactory.tmps.length],
        tmps := s.irFactory.tmps ++
          [{ inst := s.irFactory.insts.length, type := IRFactory.typeForConst c }] } := by
  simp only [cns, IRFactory.gen_DefConst]

theorem exitTail_vector (s : HhbcTranslator) (exit : TraceRef) (targetBcOff : Offset)
    (flag : ExitFlag) (exitMarker : MarkerData) (stackValues : List SSATmpPtr)
    (customFn : Option CustomExit) :
    (s.exitTail exit targetBcOff flag exitMarker stackValues customFn).1.2 =
      s.spillVectorAfter stackValues := by
  simp only [exitTail, exitSpill, spillVectorAfter]
  split
  · simp only [cns_fst, TraceBuilder.sp]
  · rfl

/-- When a spill is needed, the first object the tail makes is the constant
of the deficit; nothing made later displaces it. -/
theorem exitTail_arena (s : HhbcTranslator) (k : Nat) (targetBcOff : Offset)
    (flag : ExitFlag) (exitMarker : MarkerData) (stackValues : List SSATmpPtr)
    (customFn : Option CustomExit) (hfn : ∀ fn, customFn = some fn → CustomExitLocal fn)
    (hcond : s.stackDeficit ≠ 0 ∨ stackValues ≠ []) :
    (∃ more, (s.exitTail (.exit k) targetBcOff flag exitMarker stackValues
        customFn).2.irFactory.insts =
      (s.irFactory.insts ++
        [defConstInst (.int s.stackDeficit) s.irFactory.tmps.length]) ++ more) ∧
    (∃ more, (s.exitTail (.exit k) targetBcOff flag exitMarker stackValues
        customFn).2.irFactory.tmps =
      (s.irFactory.tmps ++ [{ inst := s.irFactory.insts.length, type := IRType.Int }]) ++
        more) := by
  have hc := cns_irFactory s (.int s.stackDeficit)
  have hsp : (s.exitSpill (.exit k) stackValues).2 =
      ((s.cns (.int s.stackDeficit)).2.genFor (.exit k) .SpillStack none .none none
        (s.tb.sp :: (s.cns (.int s.stackDeficit)).1 :: stackValues)).2 := by
    simp only [exitSpill, hcond, if_true]
  have e1 := genFor_emitsInto (s.cns (.int s.stackDeficit)).2 k .SpillStack none .none none
    (s.tb.sp :: (s.cns (.int s.stackDeficit)).1 :: stackValues)
  rw [← hsp] at e1
  have e2 := exitCustom_emitsInto (s.exitSpill (.exit k) stackValues).2 k
    (s.exitSpill (.exit k) stackValues).1.1 customFn hfn
  have e3 := fun em st => exitFinish_emitsInto
    ((s.exitSpill (.exit k) stackValues).2.exitCustom (.exit k)
      (s.exitSpill (.exit k) stackValues).1.1 customFn).2 k targetBcOff flag em st
  have hfinal := fun em st => emitsInto_trans e1 (emitsInto_trans e2 (e3 em st))
  simp only [exitTail]
  constructor
  · obtain ⟨more, hmore⟩ := (hfinal _ _).insts
    exact ⟨more, by rw [hmore, hc]⟩
  · obtain ⟨more, hmore⟩ := (hfinal _ _).tmps
    exact ⟨more, by rw [hmore, hc]; rfl⟩

/-- The first marker of an exit trace has no result: the factory gains one
instruction and no value. -/
theorem genFor_marker_irFactory (s : HhbcTranslator) (t : TraceRef) (m : MarkerData) :
    (s.genFor t .Marker none (.marker m) none []).2.irFactory =
      { s.irFactory with insts := s.irFactory.insts ++ [markerInst m] } := by
  have hm : Opcode.dstKind .Marker = .ND := rfl
  simp only [genFor, IRFactory.gen_of_ND _ _ _ _ _ _ hm]

/-- The constant of the deficit in the arena the tail leaves, when the tail
starts right after the first marker was made. -/
theorem exitTail_const (s1 : HhbcTranslator) (k : Nat) (targetBcOff : Offset)
    (flag : ExitFlag) (exitMarker : MarkerData) (stackValues : List SSATmpPtr)
    (customFn : Option CustomExit) (hfn : ∀ fn, customFn = some fn → CustomExitLocal fn)
    (base : IRFactory) (m : MarkerData)
    (hf : s1.irFactory = { base with insts := base.insts ++ [markerInst m] })
    (hcond : s1.stackDeficit ≠ 0 ∨ stackValues ≠ []) :
    (s1.exitTail (.exit k) targetBcOff flag exitMarker stackValues customFn).2.irFactory.tmp
        base.tmps.length =
      { inst := base.insts.length + 1, type := IRType.Int } ∧
    (s1.exitTail (.exit k) targetBcOff flag exitMarker stackValues customFn).2.irFactory.inst
        (base.insts.length + 1) =
      defConstInst (.int s1.stackDeficit) base.tmps.length := by
  obtain ⟨⟨mi, hmi⟩, ⟨mt, hmt⟩⟩ :=
    exitTail_arena s1 k targetBcOff flag exitMarker stackValues customFn hfn hcond
  rw [hf] at hmi hmt
  simp only [List.length_append, List.length_singleton] at hmi hmt
  constructor
  · simp only [IRFactory.tmp, List.getD_eq_getElem?_getD, hmt]
    rw [List.getElem?_append_left (by simp), List.getElem?_concat_length]
    rfl
  · simp only [IRFactory.inst, List.getD_eq_getElem?_getD, hmi]
    rw [List.getElem?_append_left (by simp)]
    have : base.insts.length + 1 = (base.insts ++ [markerInst m]).length := by simp
    rw [this, List.getElem?_concat_length]
    rfl

/-- The vector handed to `getExitTraceImpl` comes back as `spillVectorAfter`
says, and the value inserted second is the integer constant of the deficit. -/
theorem getExitTraceImpl_vector (s : HhbcTranslator) (targetBcOff : Offset) (flag : ExitFlag)
    (stackValues : List SSATmpPtr) (customFn : Option CustomExit)
    (hfn : ∀ fn, customFn = some fn → CustomExitLocal fn) :
    (s.getExitTraceImpl targetBcOff flag stackValues customFn).1.2 =
      s.spillVectorAfter stackValues ∧
    (s.stackDeficit ≠ 0 ∨ stackValues ≠ [] →
      (s.getExitTraceImpl targetBcOff flag stackValues customFn).2.irFactory.tmp
          s.irFactory.tmps.length =
        { inst := s.irFactory.insts.length + 1, type := IRType.Int } ∧
      (s.getExitTraceImpl targetBcOff flag stackValues customFn).2.irFactory.inst
          (s.irFactory.insts.length + 1) =
        defConstInst (.int s.stackDeficit) s.irFactory.tmps.length) := by
  constructor
  · simp only [getExitTraceImpl, exitTail_vector]
    simp only [spillVectorAfter, genFor_marker_irFactory]
    rfl
  · intro hcond
    simp only [getExitTraceImpl]
    exact exitTail_const _ s.tb.exitTraces.length targetBcOff flag _ stackValues customFn hfn
      s.irFactory _ (genFor_marker_irFactory _ _ _) hcond

end HhbcTranslator

/-- C10, as stated, fails: `getExitTrace(targetBcOff, spillValues)` and
`getExitTraceWarn` take the vector by reference and insert into it.  Called
on `sessionTwo` with the one-element vector holding value 3, both leave the
caller a vector of three elements: the stack pointer (value 1), the new
constant of the deficit (value 4) and value 3. -/
theorem exit_trace_spill_list_counterexample :
    (sessionTwo.getExitTraceSpill 7 [some 3]).1.2 = [some 1, some 4, some 3] ∧
    (sessionTwo.getExitTraceSpill 7 [some 3]).1.2 ≠ [some 3] ∧
    (∃ r, sessionTwo.getExitTraceWarn 7 [some 3] "Division by zero" = .ok r ∧
      r.1.2 = [some 1, some 4, some 3] ∧ r.1.2 ≠ [some 3]) :=
  ⟨by decide, by decide, _, rfl, by decide, by decide⟩

/-- C10, amended: exit-trace construction reads the virtual stack without
changing it, and a vector the caller passes to `getExitTrace(targetBcOff,
spillValues)` or to `getExitTraceWarn` comes back unchanged only when the
deficit is zero and the vector is empty; otherwise it comes back with two
elements inserted in front of its own, which keep their order: the current
stack pointer and the integer constant of the deficit. -/
theorem exit_trace_spill_list_amended (s : HhbcTranslator) (targetBcOff : Offset)
    (spillValues : List SSATmpPtr) (warning : String) :
    ((s.getExitTraceSpill targetBcOff spillValues).2.evalStack = s.evalStack ∧
     (s.stackDeficit = 0 ∧ spillValues = [] →
       (s.getExitTraceSpill targetBcOff spillValues).1.2 = spillValues) ∧
     (s.stackDeficit ≠ 0 ∨ spillValues ≠ [] →
       (s.getExitTraceSpill targetBcOff spillValues).1.2 =
         s.tb.sp :: some s.irFactory.tmps.length :: spillValues ∧
       (s.getExitTraceSpill targetBcOff spillValues).2.irFactory.tmp s.irFactory.tmps.length =
         { inst := s.irFactory.insts.length + 1, type := IRType.Int } ∧
       (s.getExitTraceSpill targetBcOff spillValues).2.irFactory.inst
           (s.irFactory.insts.length + 1) =
         defConstInst (.int s.stackDeficit) s.irFactory.tmps.length)) ∧
    (targetBcOff ≠ -1 →
      ∃ r, s.getExitTraceWarn targetBcOff spillValues warning = .ok r ∧
        r.2.evalStack = s.evalStack ∧
        (s.stackDeficit = 0 ∧ spillValues = [] → r.1.2 = spillValues) ∧
        (s.stackDeficit ≠ 0 ∨ spillValues ≠ [] →
          r.1.2 = s.tb.sp :: some s.irFactory.tmps.length :: spillValues ∧
          r.2.irFactory.tmp s.irFactory.tmps.length =
            { inst := s.irFactory.insts.length + 1, type := IRType.Int } ∧
          r.2.irFactory.inst (s.irFactory.insts.length + 1) =
            defConstInst (.int s.stackDeficit) s.irFactory.tmps.length)) := by
  have hnone : ∀ fn, (none : Option HhbcTranslator.CustomExit) = some fn → CustomExitLocal fn :=
    fun fn h => Option.noConfusion h
  have hwarn : ∀ fn, some (HhbcTranslator.warnExit warning) = some fn → CustomExitLocal fn :=
    fun fn h => by
      rw [Option.some.injEq] at h
      exact h ▸ HhbcTranslator.warnExit_local warning
  have key : ∀ (t : Offset) (customFn : Option HhbcTranslator.CustomExit),
      (∀ fn, customFn = some fn → CustomExitLocal fn) →
      (s.getExitTraceImpl t .None spillValues customFn).2.evalStack = s.evalStack ∧
      (s.stackDeficit = 0 ∧ spillValues = [] →
        (s.getExitTraceImpl t .None spillValues customFn).1.2 = spillValues) ∧
      (s.stackDeficit ≠ 0 ∨ spillValues ≠ [] →
        (s.getExitTraceImpl t .None spillValues customFn).1.2 =
          s.tb.sp :: some s.irFactory.tmps.length :: spillValues ∧
        (s.getExitTraceImpl t .None spillValues customFn).2.irFactory.tmp
            s.irFactory.tmps.length =
          { inst := s.irFactory.insts.length + 1, type := IRType.Int } ∧
        (s.getExitTraceImpl t .None spillValues customFn).2.irFactory.inst
            (s.irFactory.insts.length + 1) =
          defConstInst (.int s.stackDeficit) s.irFactory.tmps.length) := by
    intro t customFn hfn
    have hv := HhbcTranslator.getExitTraceImpl_vector s t .None spillValues customFn hfn
    refine ⟨(HhbcTranslator.getExitTraceImpl_isolated s t .None spillValues customFn
      hfn).1.evalStack, ?_, ?_⟩
    · rintro ⟨h1, h2⟩
      rw [hv.1]
      simp [HhbcTranslator.spillVectorAfter, h1, h2]
    · intro hcond
      refine ⟨?_, hv.2 hcond⟩
      rw [hv.1]
      simp only [HhbcTranslator.spillVectorAfter, hcond, if_true]
  constructor
  · exact key _ none hnone
  · intro hne
    exact ⟨s.getExitTraceImpl targetBcOff .None spillValues
      (some (HhbcTranslator.warnExit warning)),
      by simp only [HhbcTranslator.getExitTraceWarn, hne, if_false],
      key targetBcOff _ hwarn⟩

theorem exit_trace_spill_list_amended_witness :
    (7 : Offset) ≠ -1 ∧ (sessionTwo.stackDeficit ≠ 0 ∨ [some 3] ≠ ([] : List SSATmpPtr)) ∧
    (sessionTwo.getExitTraceSpill 7 [some 3]).1.2 =
      sessionTwo.tb.sp :: some sessionTwo.irFactory.tmps.length :: [some 3] ∧
    (sessionStart.stackDeficit = 0 ∧ ([] : List SSATmpPtr) = []) ∧
    (sessionStart.getExitTraceSpill 7 []).1.2 = [] ∧
    (∃ r, sessionTwo.getExitTraceWarn 7 [some 3] "Division by zero" = .ok r ∧
      r.2.evalStack = sessionTwo.evalStack) := by
  have h := exit_trace_spill_list_amended sessionTwo 7 [some 3] "Division by zero"
  have h0 := exit_trace_spill_list_amended sessionStart 7 [] "Division by zero"
  obtain ⟨r, hr, hre, _⟩ := h.2 (by decide)
  exact ⟨by decide, by decide, (h.1.2.2 (by decide)).1, by decide, h0.1.2.1 (by decide),
    r, hr, hre⟩

/-! ## Emission into the main trace: the building blocks -/

namespace TraceBuilder

theorem updateTrackedState_trace (tb : TraceBuilder) (inst : IRInstruction) :
    (tb.updateTrackedState inst).trace = tb.trace := by
  unfold updateTrackedState
  split <;> first | rfl | (split <;> rfl)

theorem updateTrackedState_exitTraces (tb : TraceBuilder) (inst : IRInstruction) :
    (tb.updateTrackedState inst).exitTraces = tb.exitTraces := by
  unfold updateTrackedState
  split <;> first | rfl | (split <;> rfl)

theorem updateTrackedState_untracked (tb : TraceBuilder) (inst : IRInstruction)
    (h : inst.op.tracked = false) : tb.updateTrackedState inst = tb := by
  unfold updateTrackedState
  cases hop : inst.op <;> simp_all [Opcode.tracked]

end TraceBuilder

namespace IRFactory

theorem gen_fst (f : IRFactory) (op : Opcode) (tp : Option IRType) (extra : ExtraData)
    (taken : Option TraceRef) (srcs : List SSATmpPtr) :
    (f.gen op tp extra taken srcs).1 = f.insts.length := by
  simp only [gen]
  split <;> rfl

theorem gen_insts_eq (f : IRFactory) (op : Opcode) (tp : Option IRType) (extra : ExtraData)
    (taken : Option TraceRef) (srcs : List SSATmpPtr) :
    (f.gen op tp extra taken srcs).2.insts = f.insts ++
      [mkInst op tp extra taken srcs (if op.dstKind = .ND then none else some f.tmps.length)] := by
  simp only [gen]
  split
  · rfl
  · rfl

theorem inst_append_left (f g : IRFactory) (more : List IRInstruction)
    (h : g.insts = f.insts ++ more) (i : InstId) (hi : i < f.insts.length) :
    g.inst i = f.inst i := by
  simp only [inst, h, List.getD_eq_getElem?_getD, List.getElem?_append_left hi]

theorem typeOf_append_left (f g : IRFactory) (more : List SSATmp)
    (h : g.tmps = f.tmps ++ more) (v : SSATmpId) (hv : v < f.tmps.length) :
    g.typeOf v = f.typeOf v := by
  simp only [typeOf, tmp, h, List.getD_eq_getElem?_getD, List.getElem?_append_left hv]

theorem instOf_append_left (f g : IRFactory) (more : List SSATmp)
    (h : g.tmps = f.tmps ++ more) (v : SSATmpId) (hv : v < f.tmps.length) :
    g.instOf v = f.instOf v := by
  simp only [instOf, tmp, h, List.getD_eq_getElem?_getD, List.getElem?_append_left hv]

theorem gen_inst_new (f : IRFactory) (op : Opcode) (tp : Option IRType) (extra : ExtraData)
    (taken : Option TraceRef) (srcs : List SSATmpPtr) :
    (f.gen op tp extra taken srcs).2.inst f.insts.length =
      mkInst op tp extra taken srcs (if op.dstKind = .ND then none else some f.tmps.length) := by
  simp only [inst, gen_insts_eq, List.getD_eq_getElem?_getD, List.getElem?_concat_length,
    Option.getD_some]

theorem gen_length (f : IRFactory) (op : Opcode) (tp : Option IRType) (extra : ExtraData)
    (taken : Option TraceRef) (srcs : List SSATmpPtr) :
    (f.gen op tp extra taken srcs).2.insts.length = f.insts.length + 1 := by
  simp [gen_insts_eq]

end IRFactory

theorem emitted_refl (s : HhbcTranslator) : Emitted s s [] [] where
  ids := ⟨[], by simp, rfl, by simp⟩
  targets := by simp
  old := fun _ _ => rfl
  insts := ⟨[], by simp⟩
  tmps := ⟨[], by simp⟩

theorem emitted_of_same (s s1 : HhbcTranslator) (h1 : s1.irFactory = s.irFactory)
    (h2 : s1.tb = s.tb) : Emitted s s1 [] [] where
  ids := ⟨[], by simp [h2], rfl, by simp⟩
  targets := by simp [HhbcTranslator.exitTargets, h2]
  old := fun _ _ => by rw [h2]
  insts := ⟨[], by simp [h1]⟩
  tmps := ⟨[], by simp [h1]⟩

theorem emitted_trans {s s1 s2 : HhbcTranslator} {r1 r2 : List IRInstruction}
    {e1 e2 : List Offset} (h1 : Emitted s s1 r1 e1) (h2 : Emitted s1 s2 r2 e2) :
    Emitted s s2 (r1 ++ r2) (e1 ++ e2) where
  ids := by
    obtain ⟨ids1, ha1, hb1, hc1⟩ := h1.ids
    obtain ⟨ids2, ha2, hb2, hc2⟩ := h2.ids
    obtain ⟨more, hm⟩ := h2.insts
    refine ⟨ids1 ++ ids2, by rw [ha2, ha1, List.append_assoc], ?_, ?_⟩
    · rw [List.map_append, hb2, ← hb1]
      congr 1
      apply List.map_congr_left
      intro i hi
      exact IRFactory.inst_append_left _ _ more hm i (hc1 i hi)
    · intro i hi
      rcases List.mem_append.mp hi with h | h
      · have := hc1 i h
        rw [hm, List.length_append]
        exact Nat.lt_of_lt_of_le this (Nat.le_add_right _ _)
      · exact hc2 i h
  targets := by rw [h2.targets, h1.targets, List.append_assoc]
  old := fun j hj => by
    have hlen : s.tb.exitTraces.length ≤ s1.tb.exitTraces.length := by
      have := congrArg List.length h1.targets
      simp only [HhbcTranslator.exitTargets, List.length_map, List.length_append] at this
      omega
    rw [h2.old j (by omega), h1.old j hj]
  insts := by
    obtain ⟨m1, e1⟩ := h1.insts
    obtain ⟨m2, e2⟩ := h2.insts
    exact ⟨m1 ++ m2, by rw [e2, e1, List.append_assoc]⟩
  tmps := by
    obtain ⟨m1, e1⟩ := h1.tmps
    obtain ⟨m2, e2⟩ := h2.tmps
    exact ⟨m1 ++ m2, by rw [e2, e1, List.append_assoc]⟩

theorem sameFrame_refl (s : HhbcTranslator) : SameFrame s s := ⟨rfl, rfl, rfl, rfl, rfl, rfl, rfl⟩

theorem sameFrame_trans {s s1 s2 : HhbcTranslator} (h1 : SameFrame s s1) (h2 : SameFrame s1 s2) :
    SameFrame s s2 where
  evalStack := h2.evalStack.trans h1.evalStack
  stackDeficit := h2.stackDeficit.trans h1.stackDeficit
  bcStateStack := h2.bcStateStack.trans h1.bcStateStack
  fpiStack := h2.fpiStack.trans h1.fpiStack
  startBcOff := h2.startBcOff.trans h1.startBcOff
  lastBcOff := h2.lastBcOff.trans h1.lastBcOff
  hasExit := h2.hasExit.trans h1.hasExit

theorem sameTracked_refl (s : HhbcTranslator) : SameTracked s s := ⟨rfl, rfl, rfl⟩

theorem sameTracked_trans {s s1 s2 : HhbcTranslator} (h1 : SameTracked s s1)
    (h2 : SameTracked s1 s2) : SameTracked s s2 where
  spValue := h2.spValue.trans h1.spValue
  fpValue := h2.fpValue.trans h1.fpValue
  spOffset := h2.spOffset.trans h1.spOffset

namespace HhbcTranslator

theorem gen_result (s : HhbcTranslator) (op : Opcode) (tp : Option IRType) (extra : ExtraData)
    (taken : Option TraceRef) (srcs : List SSATmpPtr) :
    (s.gen op tp extra taken srcs).1 =
      if op.dstKind = .ND then none else some s.irFactory.tmps.length := by
  simp only [gen, IRFactory.gen_fst, IRFactory.gen_inst_new]

theorem gen_sameFrame (s : HhbcTranslator) (op : Opcode) (tp : Option IRType) (extra : ExtraData)
    (taken : Option TraceRef) (srcs : List SSATmpPtr) :
    SameFrame s (s.gen op tp extra taken srcs).2 := ⟨rfl, rfl, rfl, rfl, rfl, rfl, rfl⟩

theorem gen_emitted (s : HhbcTranslator) (op : Opcode) (tp : Option IRType) (extra : ExtraData)
    (taken : Option TraceRef) (srcs : List SSATmpPtr) :
    Emitted s (s.gen op tp extra taken srcs).2
      [mkInst op tp extra taken srcs (s.gen op tp extra taken srcs).1] [] where
  ids := by
    refine ⟨[s.irFactory.insts.length], ?_, ?_, ?_⟩
    · simp only [gen, TraceBuilder.updateTrackedState_trace, TraceBuilder.pushBackOn,
        IRTrace.instructions, IRTrace.pushBack, pushBackBlocks_flatten, IRFactory.gen_fst]
    · simp only [List.map_cons, List.map_nil, gen_result]
      simp only [gen, IRFactory.gen_inst_new]
    · intro i hi
      simp only [List.mem_singleton] at hi
      subst hi
      simp only [gen, IRFactory.gen_length]
      exact Nat.lt_succ_self _
  targets := by
    simp only [exitTargets, gen, TraceBuilder.updateTrackedState_exitTraces,
      TraceBuilder.pushBackOn, List.append_nil]
  old := fun j _ => by
    simp only [gen, TraceBuilder.updateTrackedState_exitTraces, TraceBuilder.pushBackOn]
  insts := IRFactory.gen_insts _ _ _ _ _ _
  tmps := IRFactory.gen_tmps _ _ _ _ _ _

theorem gen_sameTracked (s : HhbcTranslator) (op : Opcode) (tp : Option IRType)
    (extra : ExtraData) (taken : Option TraceRef) (srcs : List SSATmpPtr)
    (h : op.tracked = false) : SameTracked s (s.gen op tp extra taken srcs).2 := by
  have : (s.gen op tp extra taken srcs).2.tb = s.tb.pushBackOn .main s.irFactory.insts.length := by
    simp only [gen, IRFactory.gen_fst]
    apply TraceBuilder.updateTrackedState_untracked
    simp only [IRFactory.gen_inst_new]
    exact h
  exact ⟨by rw [this]; rfl, by rw [this]; rfl, by rw [this]; rfl⟩

theorem cns_emitted (s : HhbcTranslator) (c : ConstVal) : Emitted s (s.cns c).2 [] [] where
  ids := ⟨[], by simp [cns], rfl, by simp⟩
  targets := by simp [exitTargets, cns]
  old := fun _ _ => rfl
  insts := IRFactory.gen_insts _ _ _ _ _ _
  tmps := IRFactory.gen_tmps _ _ _ _ _ _

theorem cns_sameFrame (s : HhbcTranslator) (c : ConstVal) : SameFrame s (s.cns c).2 :=
  ⟨rfl, rfl, rfl, rfl, rfl, rfl, rfl⟩

theorem cns_sameTracked (s : HhbcTranslator) (c : ConstVal) : SameTracked s (s.cns c).2 :=
  ⟨rfl, rfl, rfl⟩

end HhbcTranslator

theorem map_bcOff_modify (l : List IRTrace) (f : IRTrace → IRTrace) (k : Nat)
    (hf : ∀ t, (f t).bcOff = t.bcOff) :
    (l.modify f k).map (fun t => t.bcOff) = l.map (fun t => t.bcOff) := by
  apply List.ext_getElem?
  intro j
  simp only [List.getElem?_map, List.getElem?_modify]
  cases l[j]? with
  | none => rfl
  | some t =>
    simp only [Option.map_eq_map, Option.map_some']
    split
    · rw [hf]
    · rfl

namespace HhbcTranslator

theorem genFor_targets (s : HhbcTranslator) (t : TraceRef) (op : Opcode) (tp : Option IRType)
    (extra : ExtraData) (taken : Option TraceRef) (srcs : List SSATmpPtr) :
    (s.genFor t op tp extra taken srcs).2.exitTargets = s.exitTargets := by
  cases t with
  | main => rfl
  | exit k =>
    simp only [exitTargets, genFor, TraceBuilder.pushBackOn]
    exact map_bcOff_modify _ _ _ (fun _ => rfl)

theorem exitSpill_targets (s : HhbcTranslator) (exit : TraceRef) (vals : List SSATmpPtr) :
    (s.exitSpill exit vals).2.exitTargets = s.exitTargets := by
  simp only [exitSpill]
  split
  · rw [genFor_targets]; rfl
  · rfl

theorem exitFinish_targets (s : HhbcTranslator) (exit : TraceRef) (targetBcOff : Offset)
    (flag : ExitFlag) (exitMarker : MarkerData) (stack : SSATmpPtr) :
    (s.exitFinish exit targetBcOff flag exitMarker stack).exitTargets = s.exitTargets := by
  simp only [exitFinish]
  split <;> (try split) <;> (try split) <;> simp only [genFor_targets]

theorem getExitTraceImpl_targets (s : HhbcTranslator) (targetBcOff : Offset) (flag : ExitFlag)
    (vals : List SSATmpPtr) :
    (s.getExitTraceImpl targetBcOff flag vals none).2.exitTargets =
      s.exitTargets ++ [targetBcOff] := by
  simp only [getExitTraceImpl, exitTail, exitCustom, exitFinish_targets, exitSpill_targets,
    genFor_targets]
  simp [exitTargets, TraceBuilder.makeExitTrace]

theorem emitted_of_isolated {s s1 : HhbcTranslator} {off : Offset} (h : Isolated s s1)
    (ht : s1.exitTargets = s.exitTargets ++ [off]) : Emitted s s1 [] [off] where
  ids := ⟨[], by simp [h.trace], rfl, by simp⟩
  targets := ht
  old := fun j hj => by
    obtain ⟨t, e⟩ := h.exitTraces
    rw [e, List.getElem?_append_left hj]
  insts := h.insts
  tmps := h.tmps

theorem getExitTraceImpl_emitsInto (s : HhbcTranslator) (targetBcOff : Offset) (flag : ExitFlag)
    (vals : List SSATmpPtr) :
    EmitsInto s.tb.exitTraces.length { s with tb := (s.tb.makeExitTrace targetBcOff).2 }
      (s.getExitTraceImpl targetBcOff flag vals none).2 := by
  simp only [getExitTraceImpl, exitTail, TraceBuilder.makeExitTrace]
  exact emitsInto_trans (genFor_emitsInto _ _ _ _ _ _ _)
    (emitsInto_trans (exitSpill_emitsInto _ _ _)
      (emitsInto_trans (exitCustom_emitsInto _ _ _ _ (by intro fn h; cases h))
        (exitFinish_emitsInto _ _ _ _ _ _)))

/-- What building an exit trace without a custom closure does to the session. -/
theorem getExitTraceImpl_emitted (s : HhbcTranslator) (targetBcOff : Offset) (flag : ExitFlag)
    (vals : List SSATmpPtr) :
    Emitted s (s.getExitTraceImpl targetBcOff flag vals none).2 [] [targetBcOff] ∧
    SameFrame s (s.getExitTraceImpl targetBcOff flag vals none).2 ∧
    SameTracked s (s.getExitTraceImpl targetBcOff flag vals none).2 ∧
    (s.getExitTraceImpl targetBcOff flag vals none).1.1 = .exit s.tb.exitTraces.length := by
  have h := getExitTraceImpl_emitsInto s targetBcOff flag vals
  refine ⟨emitted_of_isolated
    (getExitTraceImpl_isolated s targetBcOff flag vals none (by intro fn h; cases h)).1
    (getExitTraceImpl_targets s targetBcOff flag vals), ?_, ?_, rfl⟩
  · exact ⟨h.evalStack, h.stackDeficit, h.bcStateStack, h.fpiStack, h.startBcOff, h.lastBcOff,
      h.hasExit⟩
  · exact ⟨h.spValue, h.fpValue, h.spOffset⟩

theorem getExitTrace_emitted (s : HhbcTranslator) (off : Offset) (hoff : off ≠ -1) :
    Emitted s (s.getExitTrace off).2 [] [off] ∧ SameFrame s (s.getExitTrace off).2 ∧
    SameTracked s (s.getExitTrace off).2 ∧
    (s.getExitTrace off).1 = .exit s.tb.exitTraces.length := by
  have h := getExitTraceImpl_emitted s off .None s.peekSpillValues
  simpa only [getExitTrace, getExitTraceSpill, if_neg hoff] using h

theorem getExitSlowTrace_emitted (s : HhbcTranslator) :
    Emitted s s.getExitSlowTrace.2 [] [s.bcOff] ∧ SameFrame s s.getExitSlowTrace.2 ∧
    SameTracked s s.getExitSlowTrace.2 ∧
    s.getExitSlowTrace.1 = .exit s.tb.exitTraces.length :=
  getExitTraceImpl_emitted s s.bcOff .NoIR s.peekSpillValues

end HhbcTranslator

theorem emitted_congr {s s1 s2 : HhbcTranslator} {r : List IRInstruction} {e : List Offset}
    (h : Emitted s s1 r e) (h1 : s2.irFactory = s1.irFactory) (h2 : s2.tb = s1.tb) :
    Emitted s s2 r e := by
  simpa using emitted_trans h (emitted_of_same s1 s2 h1 h2)

namespace HhbcTranslator

theorem pushFrontOn_targets (s : HhbcTranslator) (t : TraceRef) (i : InstId) :
    ({ s with tb := s.tb.pushFrontOn t i } : HhbcTranslator).exitTargets = s.exitTargets := by
  cases t with
  | main => rfl
  | exit k =>
    simp only [exitTargets, TraceBuilder.pushFrontOn]
    exact map_bcOff_modify _ _ _ (fun _ => rfl)

theorem gen_targets (s : HhbcTranslator) (op : Opcode) (tp : Option IRType) (extra : ExtraData)
    (taken : Option TraceRef) (srcs : List SSATmpPtr) :
    (s.gen op tp extra taken srcs).2.exitTargets = s.exitTargets := by
  simpa using (gen_emitted s op tp extra taken srcs).targets

theorem emitSpillStack_targets (s : HhbcTranslator) (t : TraceRef) (sp : SSATmpPtr)
    (vals : List SSATmpPtr) :
    (s.emitSpillStack t sp vals).2.exitTargets = s.exitTargets := by
  simp only [emitSpillStack]
  split
  · rw [gen_targets]; rfl
  · rw [genFor_targets]; rfl

theorem makeMarker_targets (s : HhbcTranslator) (off : Offset) :
    (s.makeMarker off).2.exitTargets = s.exitTargets := rfl

/-- What building a catch trace does to the session. -/
theorem getCatchTrace_emitted (s : HhbcTranslator) :
    ∃ s1, s.getCatchTrace = .ok (.exit s.tb.exitTraces.length, s1) ∧
      Emitted s s1 [] [s.bcOff] ∧ SameFrame s s1 ∧ SameTracked s s1 := by
  obtain ⟨s1, h, iso⟩ := getCatchTrace_isolated s
  have h2 := h
  unfold getCatchTrace at h2
  simp only at h2
  split at h2
  · cases h2
  · split at h2
    · cases h2
    · simp only [Except.ok.injEq, Prod.mk.injEq] at h2
      obtain ⟨_, h2⟩ := h2
      refine ⟨s1, h, emitted_of_isolated iso ?_, ?_, ?_⟩
      · rw [← h2]
        simp only [genFor_targets, emitSpillStack_targets, pushFrontOn_targets,
          makeMarker_targets]
        simp [exitTargets, TraceBuilder.makeExitTrace]
      · refine ⟨iso.evalStack, iso.stackDeficit, iso.bcStateStack, iso.fpiStack, ?_, ?_, ?_⟩
        · rw [← h2]; rfl
        · rw [← h2]; rfl
        · rw [← h2]; rfl
      · exact ⟨iso.spValue, iso.fpValue, iso.spOffset⟩

theorem emitMarker_emitted (s : HhbcTranslator) :
    Emitted s s.emitMarker
      [markerInst ⟨s.bcOff, toInt32 (s.tb.spOffset + s.numCells - s.stackDeficit), s.curFunc⟩]
      [] ∧
    SameFrame s s.emitMarker ∧ SameTracked s s.emitMarker := by
  have h := gen_emitted s .Marker none
    (.marker ⟨s.bcOff, toInt32 (s.tb.spOffset + s.numCells - s.stackDeficit), s.curFunc⟩) none []
  have ht := gen_sameTracked s .Marker none
    (.marker ⟨s.bcOff, toInt32 (s.tb.spOffset + s.numCells - s.stackDeficit), s.curFunc⟩) none []
    rfl
  have hk : Opcode.dstKind .Marker = .ND := rfl
  rw [gen_result, if_pos hk] at h
  exact ⟨h, ⟨rfl, rfl, rfl, rfl, rfl, rfl, rfl⟩, ht⟩

theorem spillStack_fst (s : HhbcTranslator) :
    s.spillStack.1 = some (s.irFactory.tmps.length + 1) := by
  have hk : Opcode.dstKind .SpillStack ≠ .ND := by decide
  simp only [spillStack, emitSpillStack, if_true, gen_result, if_neg hk, cns_irFactory,
    List.length_append, List.length_singleton]

/-- Materializing the virtual stack: one `SpillStack` of the stack pointer, the
constant holding the deficit and the values of the virtual stack. -/
theorem spillStack_emitted (s : HhbcTranslator) :
    Emitted s s.spillStack.2
      [mkInst .SpillStack none .none none
        (s.tb.sp :: some s.irFactory.tmps.length :: s.peekSpillValues)
        (some (s.irFactory.tmps.length + 1))] [] := by
  have h1 := cns_emitted s (.int s.stackDeficit)
  have h2 := gen_emitted (s.cns (.int s.stackDeficit)).2 .SpillStack none .none none
    ([s.tb.sp, (s.cns (.int s.stackDeficit)).1] ++ s.peekSpillValues)
  have h3 : Emitted s s.spillStack.2 _ _ := emitted_congr (emitted_trans h1 h2) rfl rfl
  have hk : Opcode.dstKind .SpillStack ≠ .ND := by decide
  rw [gen_result, if_neg hk, cns_fst, cns_irFactory] at h3
  simpa only [List.length_append, List.length_singleton, List.nil_append, List.cons_append,
    List.append_nil] using h3

theorem spillStack_frame (s : HhbcTranslator) :
    s.spillStack.2.evalStack = [] ∧ s.spillStack.2.stackDeficit = 0 ∧
    s.spillStack.2.bcStateStack = s.bcStateStack ∧ s.spillStack.2.fpiStack = s.fpiStack ∧
    s.spillStack.2.startBcOff = s.startBcOff ∧ s.spillStack.2.lastBcOff = s.lastBcOff ∧
    s.spillStack.2.hasExit = s.hasExit :=
  ⟨rfl, rfl, rfl, rfl, rfl, rfl, rfl⟩

end HhbcTranslator

/-! ## Unconditional jumps -/

theorem emitted_exitLen {s s1 : HhbcTranslator} {r : List IRInstruction} {e : List Offset}
    (h : Emitted s s1 r e) : s1.tb.exitTraces.length = s.tb.exitTraces.length + e.length := by
  have := congrArg List.length h.targets
  simpa only [HhbcTranslator.exitTargets, List.length_map, List.length_append] using this

namespace HhbcTranslator

theorem gen_exitLen (s : HhbcTranslator) (op : Opcode) (tp : Option IRType) (extra : ExtraData)
    (taken : Option TraceRef) (srcs : List SSATmpPtr) :
    (s.gen op tp extra taken srcs).2.tb.exitTraces.length = s.tb.exitTraces.length := by
  simpa using emitted_exitLen (gen_emitted s op tp extra taken srcs)

/-- An instruction without a result, emitted into the main trace. -/
theorem gen_emitted_ND (s : HhbcTranslator) (op : Opcode) (tp : Option IRType)
    (extra : ExtraData) (taken : Option TraceRef) (srcs : List SSATmpPtr)
    (h : op.dstKind = .ND) :
    Emitted s (s.gen op tp extra taken srcs).2 [mkInst op tp extra taken srcs none] [] := by
  have h1 := gen_emitted s op tp extra taken srcs
  rwa [gen_result, if_pos h] at h1

/-- An instruction with a result, emitted into the main trace. -/
theorem gen_emitted_D (s : HhbcTranslator) (op : Opcode) (tp : Option IRType)
    (extra : ExtraData) (taken : Option TraceRef) (srcs : List SSATmpPtr)
    (h : op.dstKind ≠ .ND) :
    Emitted s (s.gen op tp extra taken srcs).2
      [mkInst op tp extra taken srcs (some s.irFactory.tmps.length)] [] := by
  have h1 := gen_emitted s op tp extra taken srcs
  rwa [gen_result, if_neg h] at h1

/-- Building the exit trace for a target: the pair it returns. -/
theorem getExitTrace_ex (s : HhbcTranslator) (off : Offset) (hoff : off ≠ -1) :
    ∃ s1, s.getExitTrace off = (.exit s.tb.exitTraces.length, s1) ∧
      Emitted s s1 [] [off] ∧ SameFrame s s1 ∧ SameTracked s s1 := by
  obtain ⟨h, f, t, k⟩ := getExitTrace_emitted s off hoff
  exact ⟨(s.getExitTrace off).2, Prod.ext k rfl, h, f, t⟩

/-- Building the slow exit trace: the pair it returns. -/
theorem getExitSlowTrace_ex (s : HhbcTranslator) :
    ∃ s1, s.getExitSlowTrace = (.exit s.tb.exitTraces.length, s1) ∧
      Emitted s s1 [] [s.bcOff] ∧ SameFrame s s1 ∧ SameTracked s s1 := by
  obtain ⟨h, f, t, k⟩ := getExitSlowTrace_emitted s
  exact ⟨s.getExitSlowTrace.2, Prod.ext k rfl, h, f, t⟩

/-- Emission of an instruction without a result: the pair `gen` returns. -/
theorem gen_ND_ex (s : HhbcTranslator) (op : Opcode) (tp : Option IRType)
    (extra : ExtraData) (taken : Option TraceRef) (srcs : List SSATmpPtr)
    (h : op.dstKind = .ND) :
    ∃ s1, s.gen op tp extra taken srcs = (none, s1) ∧
      Emitted s s1 [mkInst op tp extra taken srcs none] [] ∧ SameFrame s s1 ∧
      s1.irFactory.tmps = s.irFactory.tmps :=
  ⟨(s.gen op tp extra taken srcs).2, Prod.ext (by rw [gen_result, if_pos h]) rfl,
    gen_emitted_ND s op tp extra taken srcs h, gen_sameFrame s op tp extra taken srcs,
    by simp only [gen, IRFactory.gen, if_pos h]⟩

/-- Emission of an instruction with a result: the pair `gen` returns. -/
theorem gen_D_ex (s : HhbcTranslator) (op : Opcode) (tp : Option IRType)
    (extra : ExtraData) (taken : Option TraceRef) (srcs : List SSATmpPtr)
    (h : op.dstKind ≠ .ND) :
    ∃ s1, s.gen op tp extra taken srcs = (some s.irFactory.tmps.length, s1) ∧
      Emitted s s1 [mkInst op tp extra taken srcs (some s.irFactory.tmps.length)] [] ∧
      SameFrame s s1 ∧ s1.irFactory.tmps.length = s.irFactory.tmps.length + 1 :=
  ⟨(s.gen op tp extra taken srcs).2, Prod.ext (by rw [gen_result, if_neg h]) rfl,
    gen_emitted_D s op tp extra taken srcs h, gen_sameFrame s op tp extra taken srcs,
    by simp [gen, IRFactory.gen, if_neg h]⟩

end HhbcTranslator

/-- C16 (amended): an unconditional jump emits the surprise check, with the
slow exit for the current offset as its target, exactly when the jump target is
strictly behind the current offset and the caller did not pass `noSurprise`;
then it emits a `Jmp_` to a new exit trace for the jump target exactly when
`breakTracelet` is set; nothing else is put on the main trace and no other
auxiliary trace is made. -/
theorem emitJmp_surprise_check_unless_suppressed (s : HhbcTranslator) (offset : Offset)
    (breakTracelet noSurprise : Bool) (hoff : offset ≠ -1) (hcur : toInt32 s.bcOff = s.bcOff) :
    Emitted s (s.emitJmp offset breakTracelet noSurprise)
      ((if offset < s.bcOff ∧ noSurprise = false then
          [mkInst .ExitWhenSurprised none .none (some (.exit s.tb.exitTraces.length)) [] none]
        else []) ++
       (if breakTracelet = true then
          [mkInst .Jmp_ none .none
            (some (.exit (s.tb.exitTraces.length +
              if offset < s.bcOff ∧ noSurprise = false then 1 else 0))) [] none]
        else []))
      ((if offset < s.bcOff ∧ noSurprise = false then [s.bcOff] else []) ++
       (if breakTracelet = true then [offset] else [])) := by
  have hE : Opcode.dstKind .ExitWhenSurprised = .ND := rfl
  have hJ : Opcode.dstKind .Jmp_ = .ND := rfl
  have hback : (offset - toInt32 s.bcOff < 0) ↔ offset < s.bcOff := by rw [hcur]; exact sub_neg
  by_cases hs : offset < s.bcOff ∧ noSurprise = false
  · have hcond : (decide (offset - toInt32 s.bcOff < 0) = true ∧ ¬ noSurprise = true) := by
      simp only [decide_eq_true_eq, hback]
      exact ⟨hs.1, by simp [hs.2]⟩
    obtain ⟨s1, e1, h1, -, -⟩ := HhbcTranslator.getExitSlowTrace_ex s
    obtain ⟨s2, e2, h2, -, -⟩ := HhbcTranslator.gen_ND_ex s1 .ExitWhenSurprised none .none
      (some (.exit s.tb.exitTraces.length)) [] hE
    have h12 := emitted_trans h1 h2
    cases breakTracelet with
    | false =>
      simp only [HhbcTranslator.emitJmp, if_pos hcond, if_pos hs, e1, e2]
      simpa using h12
    | true =>
      obtain ⟨s3, e3, h3, -, -⟩ := HhbcTranslator.getExitTrace_ex s2 offset hoff
      obtain ⟨s4, e4, h4, -, -⟩ := HhbcTranslator.gen_ND_ex s3 .Jmp_ none .none
        (some (.exit s2.tb.exitTraces.length)) [] hJ
      have h := emitted_trans h12 (emitted_trans h3 h4)
      rw [emitted_exitLen h12] at h
      simp only [HhbcTranslator.emitJmp, if_pos hcond, if_pos hs, e1, e2, e3, e4]
      simpa using h
  · have hcond : ¬ (decide (offset - toInt32 s.bcOff < 0) = true ∧ ¬ noSurprise = true) := by
      simp only [decide_eq_true_eq, hback]
      intro h
      exact hs ⟨h.1, by simpa using h.2⟩
    cases breakTracelet with
    | false =>
      simp only [HhbcTranslator.emitJmp, if_neg hcond, if_neg hs]
      simpa using emitted_refl s
    | true =>
      obtain ⟨s3, e3, h3, -, -⟩ := HhbcTranslator.getExitTrace_ex s offset hoff
      obtain ⟨s4, e4, h4, -, -⟩ := HhbcTranslator.gen_ND_ex s3 .Jmp_ none .none
        (some (.exit s.tb.exitTraces.length)) [] hJ
      have h := emitted_trans h3 h4
      simp only [HhbcTranslator.emitJmp, if_neg hcond, if_neg hs, e3, e4]
      simpa using h

/-- C16, as stated, fails: in a session at offset 10, the jump to offset 5 lowered
with `noSurprise` set puts a `Jmp_` on the main trace and no surprise check
before it; the only auxiliary trace made is the exit for offset 5. -/
theorem emitJmp_noSurprise_counterexample :
    (5 : Offset) < sessionAtTen.bcOff ∧
    ((sessionAtTen.emitJmp 5 true true).traceInsts .main).map (fun i => i.op) =
      (sessionAtTen.traceInsts .main).map (fun i => i.op) ++ [.Jmp_] ∧
    (sessionAtTen.emitJmp 5 true true).exitTargets = [5] := by
  decide

theorem emitJmp_surprise_check_unless_suppressed_witness :
    (5 : Offset) ≠ -1 ∧ toInt32 sessionAtTen.bcOff = sessionAtTen.bcOff ∧
    Emitted sessionAtTen (sessionAtTen.emitJmp 5 true false)
      [mkInst .ExitWhenSurprised none .none (some (.exit 0)) [] none,
       mkInst .Jmp_ none .none (some (.exit 1)) [] none] [10, 5] :=
  ⟨by decide, by decide,
    emitJmp_surprise_check_unless_suppressed sessionAtTen 5 true false (by decide) (by decide)⟩

/-! ## Conditional jumps and the content of exit traces -/

/-- An auxiliary trace keeps its content while instructions are emitted into
the main trace and other auxiliary traces are made. -/
theorem exitContent_of_emitted {s s1 : HhbcTranslator} {r : List IRInstruction}
    {e : List Offset} {k : Nat} {recs : List IRInstruction} (h : Emitted s s1 r e)
    (c : ExitContent s k recs) : ExitContent s1 k recs := by
  have hget : s1.tb.exitTraces.getD k {} = s.tb.exitTraces.getD k {} := by
    simp only [List.getD_eq_getElem?_getD, h.old k c.inRange]
  obtain ⟨more, hm⟩ := h.insts
  refine ⟨?_, ?_, ?_⟩
  · rw [emitted_exitLen h]
    exact Nat.lt_of_lt_of_le c.inRange (Nat.le_add_right _ _)
  · rw [← c.insts]
    simp only [HhbcTranslator.traceInsts, hget]
    apply List.map_congr_left
    intro i hi
    exact IRFactory.inst_append_left _ _ more hm i (c.valid i hi)
  · intro i hi
    rw [hget] at hi
    rw [hm, List.length_append]
    exact Nat.lt_of_lt_of_le (c.valid i hi) (Nat.le_add_right _ _)

namespace HhbcTranslator

theorem modify_last (old : List IRTrace) (t : IRTrace) (f : IRTrace → IRTrace) :
    (old ++ [t]).modify f old.length = old ++ [f t] := by
  induction old with
  | nil => rfl
  | cons a as ih => simp only [List.cons_append, List.length_cons, List.modify_succ_cons, ih]

/-- Emission of an instruction without a result into the auxiliary trace made
last. -/
theorem genFor_ND_last (s : HhbcTranslator) (old : List IRTrace) (t : IRTrace)
    (h : s.tb.exitTraces = old ++ [t]) (op : Opcode) (tp : Option IRType) (extra : ExtraData)
    (taken : Option TraceRef) (srcs : List SSATmpPtr) (hk : op.dstKind = .ND) :
    (s.genFor (.exit old.length) op tp extra taken srcs).2.tb.exitTraces =
      old ++ [t.pushBack s.irFactory.insts.length] ∧
    (s.genFor (.exit old.length) op tp extra taken srcs).2.irFactory.insts =
      s.irFactory.insts ++ [mkInst op tp extra taken srcs none] := by
  constructor
  · simp only [genFor, TraceBuilder.pushBackOn, h, modify_last, IRFactory.gen_fst]
  · simp only [genFor, IRFactory.gen_insts_eq, if_pos hk]

/-- Emission of an instruction without a result into an auxiliary trace whose
content is known. -/
theorem genFor_ND_content (s : HhbcTranslator) (k : Nat) (recs : List IRInstruction)
    (c : ExitContent s k recs) (op : Opcode) (tp : Option IRType) (extra : ExtraData)
    (taken : Option TraceRef) (srcs : List SSATmpPtr) (hk : op.dstKind = .ND) :
    ∃ s1, s.genFor (.exit k) op tp extra taken srcs = (none, s1) ∧
      ExitContent s1 k (recs ++ [mkInst op tp extra taken srcs none]) ∧
      SameFrame s s1 ∧ SameTracked s s1 := by
  have hins : (s.genFor (.exit k) op tp extra taken srcs).2.irFactory.insts =
      s.irFactory.insts ++ [mkInst op tp extra taken srcs none] := by
    simp only [genFor, IRFactory.gen_insts_eq, if_pos hk]
  have hget : ((s.genFor (.exit k) op tp extra taken srcs).2.tb.exitTraces.getD k {}) =
      (s.tb.exitTraces.getD k {}).pushBack s.irFactory.insts.length := by
    have hk2 := c.inRange
    simp only [genFor, TraceBuilder.pushBackOn, IRFactory.gen_fst, List.getD_eq_getElem?_getD,
      List.getElem?_modify_eq, List.getElem?_eq_getElem hk2, Option.map_eq_map, Option.map_some',
      Option.getD_some]
  refine ⟨(s.genFor (.exit k) op tp extra taken srcs).2, Prod.ext ?_ rfl, ⟨?_, ?_, ?_⟩,
    ⟨rfl, rfl, rfl, rfl, rfl, rfl, rfl⟩, ⟨rfl, rfl, rfl⟩⟩
  · simp only [genFor, IRFactory.gen_fst, IRFactory.gen_inst_new, if_pos hk]
  · simp only [genFor, TraceBuilder.pushBackOn, List.length_modify]
    exact c.inRange
  · simp only [traceInsts, hget, IRTrace.instructions, IRTrace.pushBack, pushBackBlocks_flatten,
      List.map_append, List.map_cons, List.map_nil]
    congr 1
    · rw [← c.insts]
      simp only [traceInsts, IRTrace.instructions]
      apply List.map_congr_left
      intro i hi
      exact IRFactory.inst_append_left _ _ _ hins i (c.valid i hi)
    · simp only [genFor, IRFactory.gen_inst_new, if_pos hk]
  · intro i hi
    rw [hget] at hi
    simp only [IRTrace.instructions, IRTrace.pushBack, pushBackBlocks_flatten,
      List.mem_append, List.mem_singleton] at hi
    rw [hins, List.length_append, List.length_singleton]
    rcases hi with h | h
    · exact Nat.lt_succ_of_lt (c.valid i h)
    · subst h
      exact Nat.lt_succ_self _

/-- A new auxiliary trace is empty. -/
theorem makeExitTrace_content (s : HhbcTranslator) (off : Offset) :
    ExitContent { s with tb := (s.tb.makeExitTrace off).2 } s.tb.exitTraces.length [] := by
  refine ⟨?_, ?_, ?_⟩
  · simp [TraceBuilder.makeExitTrace]
  · simp [traceInsts, TraceBuilder.makeExitTrace, IRTrace.instructions]
  · simp [TraceBuilder.makeExitTrace, IRTrace.instructions]

end HhbcTranslator

namespace HhbcTranslator

theorem gen_tb (s : HhbcTranslator) (op : Opcode) (tp : Option IRType) (extra : ExtraData)
    (taken : Option TraceRef) (srcs : List SSATmpPtr) :
    (s.gen op tp extra taken srcs).2.tb =
      (s.tb.pushBackOn .main s.irFactory.insts.length).updateTrackedState
        (mkInst op tp extra taken srcs
          (if op.dstKind = .ND then none else some s.irFactory.tmps.length)) := by
  simp only [gen, IRFactory.gen_fst, IRFactory.gen_inst_new]

theorem spillStack_tracked (s : HhbcTranslator) :
    s.spillStack.2.tb.sp = some (s.irFactory.tmps.length + 1) ∧
    s.spillStack.2.tb.fp = s.tb.fp ∧ s.spillStack.2.tb.spOffset = s.tb.spOffset := by
  have hk : Opcode.dstKind .SpillStack ≠ .ND := by decide
  have h : s.spillStack.2.tb = ((s.cns (.int s.stackDeficit)).2.gen .SpillStack none .none none
      ([s.tb.sp, (s.cns (.int s.stackDeficit)).1] ++ s.peekSpillValues)).2.tb := rfl
  rw [h, gen_tb, if_neg hk, cns_irFactory]
  simp only [TraceBuilder.updateTrackedState, TraceBuilder.sp, TraceBuilder.fp,
    TraceBuilder.pushBackOn, List.length_append, List.length_singleton, true_and]
  exact ⟨rfl, rfl⟩

/-- Materializing the virtual stack: the pair `spillStack` returns. -/
theorem spillStack_ex (s : HhbcTranslator) :
    ∃ s1, s.spillStack = (some (s.irFactory.tmps.length + 1), s1) ∧
      Emitted s s1
        [mkInst .SpillStack none .none none
          (s.tb.sp :: some s.irFactory.tmps.length :: s.peekSpillValues)
          (some (s.irFactory.tmps.length + 1))] [] ∧
      s1.evalStack = [] ∧ s1.stackDeficit = 0 ∧ s1.bcStateStack = s.bcStateStack ∧
      s1.fpiStack = s.fpiStack ∧ s1.startBcOff = s.startBcOff ∧ s1.lastBcOff = s.lastBcOff ∧
      s1.hasExit = s.hasExit ∧ s1.tb.sp = some (s.irFactory.tmps.length + 1) ∧
      s1.tb.fp = s.tb.fp ∧ s1.tb.spOffset = s.tb.spOffset :=
  ⟨s.spillStack.2, Prod.ext (spillStack_fst s) rfl, spillStack_emitted s, rfl, rfl, rfl, rfl, rfl,
    rfl, rfl, (spillStack_tracked s).1, (spillStack_tracked s).2.1, (spillStack_tracked s).2.2⟩

end HhbcTranslator

theorem readVec_last (iv : List Int) (last : Int) (h : iv.getLast? = some last) :
    readVec iv ((iv.length : Int) - 1) = .ok last := by
  have hne : iv ≠ [] := by
    intro h0
    rw [h0] at h
    cases h
  have hpos : 0 < iv.length := List.length_pos.mpr hne
  have hi : ¬ ((iv.length : Int) - 1 < 0) := by omega
  have ht : ((iv.length : Int) - 1).toNat = iv.length - 1 := by omega
  rw [List.getLast?_eq_getElem?] at h
  simp only [readVec, if_neg hi, ht, h]

theorem readVec_inRange (iv : List Int) (i : Int) (h0 : 0 ≤ i) (h1 : i < iv.length) :
    ∃ x, readVec iv i = .ok x := by
  have hi : ¬ (i < 0) := by omega
  have ht : i.toNat < iv.length := by omega
  exact ⟨iv[i.toNat], by simp only [readVec, if_neg hi, List.getElem?_eq_getElem ht]⟩

namespace HhbcTranslator

/-- Making a constant: the pair `cns` returns. -/
theorem cns_ex (s : HhbcTranslator) (c : ConstVal) :
    ∃ s1, s.cns c = (some s.irFactory.tmps.length, s1) ∧ Emitted s s1 [] [] ∧
      SameFrame s s1 ∧ SameTracked s s1 ∧
      s1.irFactory = { insts := s.irFactory.insts ++ [defConstInst c s.irFactory.tmps.length],
                       tmps := s.irFactory.tmps ++
                         [{ inst := s.irFactory.insts.length,
                            type := IRFactory.typeForConst c }] } :=
  ⟨(s.cns c).2, Prod.ext (cns_fst s c) rfl, cns_emitted s c, cns_sameFrame s c,
    cns_sameTracked s c, cns_irFactory s c⟩

end HhbcTranslator

/-- C19: for a switch whose scrutinee is statically an array, and not of any
of the types tested before, the lowering puts exactly two instructions on the
main trace after the pop: the `DecRef` of the scrutinee and a `Jmp_` to a new
exit trace for the default offset, the current offset plus the last table
entry.  No index is computed, nothing is spilled, no jump through the table
is emitted, and the stack model and the flags are as the pop left them. -/
theorem emitSwitch_array_scrutinee (s r : HhbcTranslator) (v : SSATmpId) (iv : List Int)
    (base : Int) (last : Int)
    (hpop : s.popC = .ok (some v, r))
    (harr : (r.irFactory.typeOf v).subtypeOf IRType.Arr = true)
    (hnull : (r.irFactory.typeOf v).subtypeOf IRType.Null = false)
    (hbool : (r.irFactory.typeOf v).subtypeOf IRType.Bool = false)
    (hint : (r.irFactory.typeOf v).subtypeOf IRType.Int = false)
    (hdbl : (r.irFactory.typeOf v).subtypeOf IRType.Dbl = false)
    (hstr : (r.irFactory.typeOf v).subtypeOf IRType.Str = false)
    (hobj : (r.irFactory.typeOf v).subtypeOf IRType.Obj = false)
    (hsize : 2 < iv.length) (hlast : iv.getLast? = some last)
    (hdef : r.bcOff + last ≠ -1) :
    ∃ s1, s.emitSwitch iv base true = .ok s1 ∧
      Emitted r s1
        [mkInst .DecRef none .none none [some v] none,
         mkInst .Jmp_ none .none (some (.exit r.tb.exitTraces.length)) [] none]
        [r.bcOff + last] ∧
      SameFrame r s1 := by
  obtain ⟨c1, ec1, hc1, fc1, -, -⟩ := HhbcTranslator.cns_ex r (.int base)
  obtain ⟨c2, ec2, hc2, fc2, -, -⟩ := HhbcTranslator.cns_ex c1 (.int ((iv.length : Int) - 2))
  have hbc : c2.bcOff = r.bcOff := by
    simp only [HhbcTranslator.bcOff, fc2.bcStateStack, fc1.bcStateStack]
  obtain ⟨g1, eg1, hg1, fg1, -⟩ := HhbcTranslator.gen_ND_ex c2 .DecRef none .none none
    [some v] rfl
  obtain ⟨x, ex, hx, fx, -⟩ := HhbcTranslator.getExitTrace_ex g1 (r.bcOff + last) hdef
  obtain ⟨g2, eg2, hg2, fg2, -⟩ := HhbcTranslator.gen_ND_ex x .Jmp_ none .none
    (some (.exit g1.tb.exitTraces.length)) [] rfl
  have hzero : ∃ z, (if base ≤ 0 ∧ base + ((iv.length : Int) - 2) > 0 then
      (readVec iv (0 - base)).map (fun rel => c2.bcOff + rel)
      else Except.ok (c2.bcOff + last)) = .ok z := by
    split
    · rename_i hc
      obtain ⟨y, hy⟩ := readVec_inRange iv (0 - base) (by omega) (by omega)
      exact ⟨_, by rw [hy]; rfl⟩
    · exact ⟨_, rfl⟩
  obtain ⟨z, hz⟩ := hzero
  rw [hbc] at hz
  have hall := emitted_trans hc1 (emitted_trans hc2 (emitted_trans hg1 (emitted_trans hx hg2)))
  have hlen : g1.tb.exitTraces.length = r.tb.exitTraces.length := by
    simpa using emitted_exitLen (emitted_trans hc1 (emitted_trans hc2 hg1))
  rw [hlen] at hall eg2
  refine ⟨g2, ?_, by simpa using hall,
    sameFrame_trans fc1 (sameFrame_trans fc2 (sameFrame_trans fg1 (sameFrame_trans fx fg2)))⟩
  simp only [HhbcTranslator.emitSwitch, hpop, derefTmp, if_true, ec1,
    ec2, readVec_last iv last hlast, hz, hnull, hbool, hint, hdbl, hstr, hobj, harr,
    Bool.false_eq_true, if_false, eg1, hbc, ex, hlen, eg2, hsize, not_true_eq_false, and_false,
    true_and]

theorem emitSwitch_array_scrutinee_witness :
    sessionArr.popC = .ok (some 2, { sessionArr with evalStack := [] }) ∧
    (sessionArr.irFactory.typeOf 2).subtypeOf IRType.Arr = true ∧
    (2 < [(10 : Int), 20, 30, 40].length) ∧
    ∃ s1, sessionArr.emitSwitch [10, 20, 30, 40] 0 true = .ok s1 ∧
      Emitted { sessionArr with evalStack := [] } s1
        [mkInst .DecRef none .none none [some 2] none,
         mkInst .Jmp_ none .none (some (.exit 0)) [] none] [40] ∧
      SameFrame { sessionArr with evalStack := [] } s1 :=
  ⟨rfl, by decide, by decide,
    emitSwitch_array_scrutinee sessionArr _ 2 [10, 20, 30, 40] 0 40 rfl (by decide) (by decide)
      (by decide) (by decide) (by decide) (by decide) (by decide) (by decide) rfl (by decide)⟩

theorem readVec_getD (iv : List Int) (i : Int) (h0 : 0 ≤ i) (h1 : i < iv.length) :
    readVec iv i = .ok (iv.getD i.toNat 0) := by
  have hi : ¬ (i < 0) := by omega
  have ht : i.toNat < iv.length := by omega
  simp only [readVec, if_neg hi, List.getElem?_eq_getElem ht, List.getD_eq_getElem?_getD,
    Option.getD_some]

/-- C18, as stated, fails: with a null constant on the stack, the bounded
switch with base 0 and table `[10, 20, 30, 40]` jumps to the exit trace for
offset 10, the entry of case zero, and not to the one for the default offset
40; that exit trace is the only one made. -/
theorem emitSwitch_null_scrutinee_counterexample :
    (sessionNullConst.irFactory.typeOf 2).subtypeOf IRType.Null = true ∧
    ∃ s1, sessionNullConst.emitSwitch [10, 20, 30, 40] 0 true = .ok s1 ∧
      (s1.traceInsts .main).map (fun i => i.op) =
        (sessionNullConst.traceInsts .main).map (fun i => i.op) ++ [.Jmp_] ∧
      s1.exitTargets = [10] ∧ sessionNullConst.bcOff + 40 ≠ 10 :=
  ⟨by decide, _, rfl, by decide, by decide, by decide⟩

/-- C18 (amended): for a switch whose scrutinee is statically null, the
lowering puts exactly one instruction on the main trace after the pop, a
`Jmp_` to a new exit trace for the offset of case zero: the table entry at
index `-base` when zero lies within the cases of the table, and the default
offset (the current offset plus the last table entry) only otherwise.  No
jump through the table is emitted. -/
theorem emitSwitch_null_scrutinee (s r : HhbcTranslator) (v : SSATmpId) (iv : List Int)
    (base : Int) (last : Int)
    (hpop : s.popC = .ok (some v, r))
    (hnull : (r.irFactory.typeOf v).subtypeOf IRType.Null = true)
    (hsize : 2 < iv.length) (hlast : iv.getLast? = some last)
    (hzero : switchZeroOff r.bcOff iv base ((iv.length : Int) - 2) (r.bcOff + last) ≠ -1) :
    ∃ s1, s.emitSwitch iv base true = .ok s1 ∧
      Emitted r s1
        [mkInst .Jmp_ none .none (some (.exit r.tb.exitTraces.length)) [] none]
        [switchZeroOff r.bcOff iv base ((iv.length : Int) - 2) (r.bcOff + last)] ∧
      SameFrame r s1 := by
  obtain ⟨c1, ec1, hc1, fc1, -, -⟩ := HhbcTranslator.cns_ex r (.int base)
  obtain ⟨c2, ec2, hc2, fc2, -, -⟩ := HhbcTranslator.cns_ex c1 (.int ((iv.length : Int) - 2))
  have hbc : c2.bcOff = r.bcOff := by
    simp only [HhbcTranslator.bcOff, fc2.bcStateStack, fc1.bcStateStack]
  obtain ⟨x, ex, hx, fx, -⟩ := HhbcTranslator.getExitTrace_ex c2 _ hzero
  obtain ⟨g2, eg2, hg2, fg2, -⟩ := HhbcTranslator.gen_ND_ex x .Jmp_ none .none
    (some (.exit c2.tb.exitTraces.length)) [] rfl
  have hz : (if base ≤ 0 ∧ base + ((iv.length : Int) - 2) > 0 then
      (readVec iv (0 - base)).map (fun rel => r.bcOff + rel)
      else Except.ok (r.bcOff + last)) =
      .ok (switchZeroOff r.bcOff iv base ((iv.length : Int) - 2) (r.bcOff + last)) := by
    unfold switchZeroOff
    split
    · rename_i hc
      rw [readVec_getD iv (0 - base) (by omega) (by omega)]
      rfl
    · rfl
  have hall := emitted_trans hc1 (emitted_trans hc2 (emitted_trans hx hg2))
  have hlen : c2.tb.exitTraces.length = r.tb.exitTraces.length := by
    simpa using emitted_exitLen (emitted_trans hc1 hc2)
  rw [hlen] at hall
  refine ⟨g2, ?_, by simpa using hall,
    sameFrame_trans fc1 (sameFrame_trans fc2 (sameFrame_trans fx fg2))⟩
  simp only [HhbcTranslator.emitSwitch, hpop, derefTmp, if_true, ec1,
    ec2, readVec_last iv last hlast, hz, hnull, hbc, ex, eg2, hsize, not_true_eq_false,
    and_false, true_and, if_false]

theorem emitSwitch_null_scrutinee_witness :
    sessionNullConst.popC = .ok (some 2, { sessionNullConst with evalStack := [] }) ∧
    (sessionNullConst.irFactory.typeOf 2).subtypeOf IRType.Null = true ∧
    (2 < [(10 : Int), 20, 30, 40].length) ∧
    (∃ s1, sessionNullConst.emitSwitch [10, 20, 30, 40] 0 true = .ok s1 ∧
      Emitted { sessionNullConst with evalStack := [] } s1
        [mkInst .Jmp_ none .none (some (.exit 0)) [] none] [10] ∧
      SameFrame { sessionNullConst with evalStack := [] } s1) ∧
    (∃ s1, sessionNullConst.emitSwitch [10, 20, 30, 40] 1 true = .ok s1 ∧
      Emitted { sessionNullConst with evalStack := [] } s1
        [mkInst .Jmp_ none .none (some (.exit 0)) [] none] [40] ∧
      SameFrame { sessionNullConst with evalStack := [] } s1) :=
  ⟨rfl, by decide, by decide,
    emitSwitch_null_scrutinee sessionNullConst _ 2 [10, 20, 30, 40] 0 40 rfl (by decide)
      (by decide) rfl (by decide),
    emitSwitch_null_scrutinee sessionNullConst _ 2 [10, 20, 30, 40] 1 40 rfl (by decide)
      (by decide) rfl (by decide)⟩

/-! ## String switches -/

namespace HhbcTranslator

theorem refineType_result (s s1 : HhbcTranslator) (v : SSATmpId) (t : IRType)
    (h : s.refineType v t = .ok s1) :
    s1.evalStack = s.evalStack ∧ t.strictSubtypeOf (s1.irFactory.typeOf v) = false := by
  unfold refineType at h
  split at h
  · cases h
  · rename_i f hf
    simp only [Except.ok.injEq] at h
    subst h
    exact ⟨rfl, IRFactory.refineTypeFuel_not_strict_after _ _ _ _ _ hf⟩

/-- What `top` returns is the entry at the requested depth of the stack it
leaves, and that entry needs no further narrowing to the requested type. -/
theorem top_result (s st : HhbcTranslator) (t : IRType) (v : SSATmpId)
    (h : s.top t 0 = .ok (some v, st)) :
    ∃ rest, st.evalStack = v :: rest ∧ t.strictSubtypeOf (st.irFactory.typeOf v) = false := by
  have key : ∀ (s0 : HhbcTranslator) (tmp : SSATmpId), s0.evalStack[0]? = some tmp →
      ∀ s1, s0.refineType tmp t = .ok s1 →
      ∃ rest, s1.evalStack = tmp :: rest ∧
        t.strictSubtypeOf (s1.irFactory.typeOf tmp) = false := by
    intro s0 tmp h0 s1 h1
    obtain ⟨e1, e2⟩ := refineType_result s0 s1 tmp t h1
    cases hs : s0.evalStack with
    | nil => rw [hs] at h0; cases h0
    | cons a rest =>
      rw [hs] at h0
      simp only [List.getElem?_cons_zero, Option.some.injEq] at h0
      subst h0
      exact ⟨rest, e1.trans hs, e2⟩
  unfold top at h
  split at h
  · rename_i tmp htmp
    split at h
    · cases h
    · rename_i s1 hs1
      simp only [Except.ok.injEq, Prod.mk.injEq, Option.some.injEq] at h
      obtain ⟨h1, h2⟩ := h
      subst h1
      subst h2
      exact key s tmp htmp _ hs1
  · split at h
    · cases h
    · rename_i s1 hs1
      split at h
      · cases h
      · rename_i tmp htmp
        split at h
        · cases h
        · rename_i s2 hs2
          simp only [Except.ok.injEq, Prod.mk.injEq, Option.some.injEq] at h
          obtain ⟨h1, h2⟩ := h
          subst h1
          subst h2
          exact key s1 tmp htmp _ hs2

end HhbcTranslator

namespace HhbcTranslator

/-- Lines 2354-2364 of `emitSSwitch`, after the operand was popped: the
dispatch instruction with the given opcode and catch trace, the release of the
operand, the spill of the stack, the register sync and the indirect jump. -/
theorem sswitch_tail (p : HhbcTranslator) (op : Opcode) (hop : op.dstKind ≠ .ND)
    (data : LdSSwitchData) (ct : Option TraceRef) (v : SSATmpId) :
    ∃ s4 spill sync,
      ((((p.gen op none (.sswitch data) ct [some v]).2.gen .DecRef none .none none
          [some v]).2.spillStack.2.gen .SyncABIRegs none .none none
          [((p.gen op none (.sswitch data) ct [some v]).2.gen .DecRef none .none none
              [some v]).2.spillStack.2.tb.fp,
           ((p.gen op none (.sswitch data) ct [some v]).2.gen .DecRef none .none none
              [some v]).2.spillStack.1]).2.gen .JmpIndirect none .none none
          [(p.gen op none (.sswitch data) ct [some v]).1]).2 = s4 ∧
      spill.op = .SpillStack ∧ sync.op = .SyncABIRegs ∧
      Emitted p s4
        [mkInst op none (.sswitch data) ct [some v] (some p.irFactory.tmps.length),
         mkInst .DecRef none .none none [some v] none, spill, sync,
         mkInst .JmpIndirect none .none none [some p.irFactory.tmps.length] none] [] := by
  obtain ⟨s1, e1, h1, -, -⟩ := gen_D_ex p op none (.sswitch data) ct [some v] hop
  obtain ⟨s2, e2, h2, -, -⟩ := gen_ND_ex s1 .DecRef none .none none [some v] rfl
  obtain ⟨s3, e3, h3, -⟩ := spillStack_ex s2
  obtain ⟨s4, e4, h4, -, -⟩ := gen_ND_ex s3 .SyncABIRegs none .none none
    [s3.tb.fp, some (s2.irFactory.tmps.length + 1)] rfl
  obtain ⟨s5, e5, h5, -, -⟩ := gen_ND_ex s4 .JmpIndirect none .none none
    [some p.irFactory.tmps.length] rfl
  refine ⟨s5, mkInst .SpillStack none .none none
    (s2.tb.sp :: some s2.irFactory.tmps.length :: s2.peekSpillValues)
    (some (s2.irFactory.tmps.length + 1)),
    mkInst .SyncABIRegs none .none none [s3.tb.fp, some (s2.irFactory.tmps.length + 1)] none,
    ?_, rfl, rfl, ?_⟩
  · simp only [e1, e2, e3, e4, e5]
  · simpa using emitted_trans h1 (emitted_trans h2 (emitted_trans h3 (emitted_trans h4 h5)))

end HhbcTranslator

/-- C17: a string-keyed switch selects the hash-table dispatch
`LdSSwitchDestFast` exactly when the scrutinee on top of the stack is statically
a string and none of the case strings (the default entry apart) is numeric,
and the linear dispatch `LdSSwitchDestSlow` otherwise.  The fast dispatch
carries no catch trace and no auxiliary trace is made; the slow dispatch
carries the catch trace that `getCatchTrace` builds for the current offset. -/
theorem emitSSwitch_dispatch_choice (lookupLitstrId : Nat → String)
    (isNumeric : String → Bool) (s st : HhbcTranslator) (v : SSATmpId)
    (iv : List (Nat × Offset)) (last : Nat × Offset)
    (htop : s.topC 0 = .ok (some v, st)) (hvalid : v < st.irFactory.tmps.length)
    (hlast : iv.getLast? = some last) :
    ∃ s1 dest spill sync,
      HhbcTranslator.emitSSwitch lookupLitstrId isNumeric s iv = .ok s1 ∧
      spill.op = .SpillStack ∧ sync.op = .SyncABIRegs ∧
      (((st.irFactory.typeOf v).subtypeOf IRType.Str = true ∧
          (iv.take (iv.length - 1)).any (fun item => isNumeric (lookupLitstrId item.1)) = false) →
        Emitted st s1
          [mkInst .LdSSwitchDestFast none
            (.sswitch (HhbcTranslator.sswitchData lookupLitstrId st.curFunc st.bcOff iv last))
            none [some v] (some dest),
           mkInst .DecRef none .none none [some v] none, spill, sync,
           mkInst .JmpIndirect none .none none [some dest] none] []) ∧
      (¬ ((st.irFactory.typeOf v).subtypeOf IRType.Str = true ∧
          (iv.take (iv.length - 1)).any (fun item => isNumeric (lookupLitstrId item.1)) = false) →
        (∃ c, st.getCatchTrace = .ok (.exit st.tb.exitTraces.length, c)) ∧
        Emitted st s1
          [mkInst .LdSSwitchDestSlow none
            (.sswitch (HhbcTranslator.sswitchData lookupLitstrId st.curFunc st.bcOff iv last))
            (some (.exit st.tb.exitTraces.length)) [some v] (some dest),
           mkInst .DecRef none .none none [some v] none, spill, sync,
           mkInst .JmpIndirect none .none none [some dest] none] [st.bcOff]) := by
  obtain ⟨rest, hst, hcell⟩ := HhbcTranslator.top_result s st IRType.Cell v htop
  have htop2 : s.topC 0 = .ok (some v, st) := htop
  by_cases hfast : (st.irFactory.typeOf v).subtypeOf IRType.Str = true ∧
      (iv.take (iv.length - 1)).any (fun item => isNumeric (lookupLitstrId item.1)) = false
  · have hf : (st.isA v IRType.Str &&
        !(iv.take (iv.length - 1)).any (fun item => isNumeric (lookupLitstrId item.1))) = true := by
      simp only [HhbcTranslator.isA, hfast.1, hfast.2, Bool.not_false, Bool.and_self]
    have hpop : st.popC = .ok (some v, { st with evalStack := rest }) :=
      HhbcTranslator.pop_of_cons st IRType.Cell v rest hst hcell
    obtain ⟨s4, spill, sync, e4, hsp, hsy, h4⟩ := HhbcTranslator.sswitch_tail
      { st with evalStack := rest } .LdSSwitchDestFast (by decide)
      (HhbcTranslator.sswitchData lookupLitstrId st.curFunc st.bcOff iv last) none v
    refine ⟨{ s4 with hasExit := true }, st.irFactory.tmps.length, spill, sync, ?_, hsp, hsy,
      fun _ => ?_, fun h => absurd hfast h⟩
    · simp only [HhbcTranslator.emitSSwitch, htop2, derefTmp, hf, not_true_eq_false, if_false,
        hpop, hlast, if_true]
      exact congrArg (fun x : HhbcTranslator => Except.ok { x with hasExit := true }) e4
    · exact emitted_congr (emitted_trans (emitted_of_same st { st with evalStack := rest } rfl rfl)
        h4) rfl rfl
  · have hf : (st.isA v IRType.Str &&
        !(iv.take (iv.length - 1)).any (fun item => isNumeric (lookupLitstrId item.1))) = false := by
      simp only [HhbcTranslator.isA]
      cases h1 : (st.irFactory.typeOf v).subtypeOf IRType.Str with
      | false => rfl
      | true =>
        cases h2 : (iv.take (iv.length - 1)).any (fun item => isNumeric (lookupLitstrId item.1)) with
        | false => exact absurd ⟨h1, h2⟩ hfast
        | true => rfl
    obtain ⟨c, ec, hc, fc, tc⟩ := HhbcTranslator.getCatchTrace_emitted st
    obtain ⟨more, hmore⟩ := hc.tmps
    have hty : c.irFactory.typeOf v = st.irFactory.typeOf v :=
      IRFactory.typeOf_append_left _ _ more hmore v hvalid
    have hpop : c.popC = .ok (some v, { c with evalStack := rest }) :=
      HhbcTranslator.pop_of_cons c IRType.Cell v rest (fc.evalStack.trans hst)
        (by rw [hty]; exact hcell)
    have hcf : ({ c with evalStack := rest } : HhbcTranslator).curFunc = st.curFunc := by
      simp only [HhbcTranslator.curFunc, fc.bcStateStack]
    have hbc : ({ c with evalStack := rest } : HhbcTranslator).bcOff = st.bcOff := by
      simp only [HhbcTranslator.bcOff, fc.bcStateStack]
    obtain ⟨s4, spill, sync, e4, hsp, hsy, h4⟩ := HhbcTranslator.sswitch_tail
      { c with evalStack := rest } .LdSSwitchDestSlow (by decide)
      (HhbcTranslator.sswitchData lookupLitstrId st.curFunc st.bcOff iv last)
      (some (.exit st.tb.exitTraces.length)) v
    have hlen : c.irFactory.tmps.length = c.irFactory.tmps.length := rfl
    refine ⟨{ s4 with hasExit := true }, c.irFactory.tmps.length, spill, sync, ?_, hsp, hsy,
      fun h => absurd h hfast, fun _ => ⟨⟨c, ec⟩, ?_⟩⟩
    · simp only [HhbcTranslator.emitSSwitch, htop2, derefTmp, hf, Bool.false_eq_true,
        not_false_eq_true, if_true, ec, hpop, hlast, hcf, hbc]
      exact congrArg (fun x : HhbcTranslator => Except.ok { x with hasExit := true }) e4
    · have h := emitted_trans hc (emitted_trans
        (emitted_of_same c { c with evalStack := rest } rfl rfl) h4)
      simp only [List.nil_append, List.append_nil, List.singleton_append] at h
      exact emitted_congr h rfl rfl

theorem emitSSwitch_dispatch_choice_witness :
    sessionStr.topC 0 = .ok (some 2, sessionStr) ∧ 2 < sessionStr.irFactory.tmps.length ∧
    sessionTwo.topC 0 = .ok (some 3, sessionTwo) ∧ 3 < sessionTwo.irFactory.tmps.length ∧
    ((sessionStr.irFactory.typeOf 2).subtypeOf IRType.Str = true ∧
      ([((0 : Nat), (10 : Offset)), (1, 20), (2, 30)].take 2).any
        (fun item => sampleIsNumeric (sampleLitstr item.1)) = false) ∧
    (sessionTwo.irFactory.typeOf 3).subtypeOf IRType.Str = false ∧
    (∃ s1 dest spill sync,
      HhbcTranslator.emitSSwitch sampleLitstr sampleIsNumeric sessionStr
        [(0, 10), (1, 20), (2, 30)] = .ok s1 ∧
      Emitted sessionStr s1
        [mkInst .LdSSwitchDestFast none
          (.sswitch (HhbcTranslator.sswitchData sampleLitstr sessionStr.curFunc sessionStr.bcOff
            [(0, 10), (1, 20), (2, 30)] (2, 30)))
          none [some 2] (some dest),
         mkInst .DecRef none .none none [some 2] none, spill, sync,
         mkInst .JmpIndirect none .none none [some dest] none] []) ∧
    (∃ s1 dest spill sync,
      HhbcTranslator.emitSSwitch sampleLitstr sampleIsNumeric sessionTwo
        [(0, 10), (1, 20), (2, 30)] = .ok s1 ∧
      Emitted sessionTwo s1
        [mkInst .LdSSwitchDestSlow none
          (.sswitch (HhbcTranslator.sswitchData sampleLitstr sessionTwo.curFunc sessionTwo.bcOff
            [(0, 10), (1, 20), (2, 30)] (2, 30)))
          (some (.exit 0)) [some 3] (some dest),
         mkInst .DecRef none .none none [some 3] none, spill, sync,
         mkInst .JmpIndirect none .none none [some dest] none] [0]) := by
  have hfast : (sessionStr.irFactory.typeOf 2).subtypeOf IRType.Str = true ∧
      ([((0 : Nat), (10 : Offset)), (1, 20), (2, 30)].take 2).any
        (fun item => sampleIsNumeric (sampleLitstr item.1)) = false := by decide
  have hslow : (sessionTwo.irFactory.typeOf 3).subtypeOf IRType.Str = false := by decide
  obtain ⟨a1, d1, sp1, sy1, e1, -, -, f1, -⟩ := emitSSwitch_dispatch_choice sampleLitstr
    sampleIsNumeric sessionStr sessionStr 2 [(0, 10), (1, 20), (2, 30)] (2, 30) rfl (by decide) rfl
  obtain ⟨a2, d2, sp2, sy2, e2, -, -, -, f2⟩ := emitSSwitch_dispatch_choice sampleLitstr
    sampleIsNumeric sessionTwo sessionTwo 3 [(0, 10), (1, 20), (2, 30)] (2, 30) rfl (by decide) rfl
  exact ⟨rfl, by decide, rfl, by decide, hfast, hslow, ⟨a1, d1, sp1, sy1, e1, f1 hfast⟩,
    ⟨a2, d2, sp2, sy2, e2, (f2 (fun h => by rw [hslow] at h; exact absurd h.1 (by decide))).2⟩⟩

/-! ## Pushing constants, adding and printing -/

theorem isConst_of_emitted {s s1 : HhbcTranslator} {r : List IRInstruction} {e : List Offset}
    {v : SSATmpId} {c : ConstVal} (h : Emitted s s1 r e) (k : IsConst s v c) :
    IsConst s1 v c := by
  obtain ⟨mi, hmi⟩ := h.insts
  obtain ⟨mt, hmt⟩ := h.tmps
  have hio : s1.irFactory.instOf v = s.irFactory.instOf v :=
    IRFactory.instOf_append_left _ _ mt hmt v k.valid
  refine ⟨?_, ?_, ?_, ?_⟩
  · rw [hmt, List.length_append]
    exact Nat.lt_of_lt_of_le k.valid (Nat.le_add_right _ _)
  · rw [hio, hmi, List.length_append]
    exact Nat.lt_of_lt_of_le k.instValid (Nat.le_add_right _ _)
  · rw [hio, IRFactory.inst_append_left _ _ mi hmi _ k.instValid]
    exact k.inst
  · rw [IRFactory.typeOf_append_left _ _ mt hmt v k.valid]
    exact k.type

namespace HhbcTranslator

theorem cns_isConst (s : HhbcTranslator) (c : ConstVal) :
    IsConst (s.cns c).2 s.irFactory.tmps.length c := by
  have h := cns_irFactory s c
  refine ⟨?_, ?_, ?_, ?_⟩
  · simp [h]
  · simp [h, IRFactory.instOf, IRFactory.tmp]
  · simp [h, IRFactory.instOf, IRFactory.tmp, IRFactory.inst]
  · simp [h, IRFactory.typeOf, IRFactory.tmp]

theorem gen_typeOf_D (s : HhbcTranslator) (op : Opcode) (tp : Option IRType)
    (extra : ExtraData) (taken : Option TraceRef) (srcs : List SSATmpPtr) (t : IRType)
    (h : op.dstKind = .D t) :
    (s.gen op tp extra taken srcs).2.irFactory.typeOf s.irFactory.tmps.length = t := by
  have hk : op.dstKind ≠ .ND := by rw [h]; exact fun h => DstKind.noConfusion h
  simp only [gen, IRFactory.gen, if_neg hk, IRFactory.typeOf, IRFactory.tmp,
    List.getD_eq_getElem?_getD, List.getElem?_concat_length, Option.getD_some,
    IRFactory.outputType, IRFactory.inst, h, reduceCtorEq, if_false]

/-- Pushing an integer constant. -/
theorem emitInt_ex (s : HhbcTranslator) (val : Int) :
    ∃ s1, s.emitInt val = .ok s1 ∧ Emitted s s1 [] [] ∧
      s1.evalStack = s.irFactory.tmps.length :: s.evalStack ∧
      s1.stackDeficit = s.stackDeficit ∧ IsConst s1 s.irFactory.tmps.length (.int val) ∧
      s1.irFactory.tmps.length = s.irFactory.tmps.length + 1 := by
  refine ⟨{ (s.cns (.int val)).2 with evalStack := s.irFactory.tmps.length :: s.evalStack },
    ?_, emitted_congr (cns_emitted s _) rfl rfl, rfl, rfl, ?_, ?_⟩
  · simp only [emitInt, cns_fst, push]
    rfl
  · have h := cns_isConst s (.int val)
    exact ⟨h.valid, h.instValid, h.inst, h.type⟩
  · simp [cns_irFactory]

/-- The addition of two integers that are on top of the virtual stack. -/
theorem emitAdd_of_ints (needsReg : IRType → Bool) (s : HhbcTranslator) (a b : SSATmpId)
    (rest : List SSATmpId) (hstack : s.evalStack = a :: b :: rest)
    (ha : s.irFactory.typeOf a = IRType.Int) (hb : s.irFactory.typeOf b = IRType.Int) :
    ∃ s1, s.emitAdd needsReg = .ok s1 ∧
      Emitted s s1
        [mkInst .OpAdd none .none none [some b, some a] (some s.irFactory.tmps.length)] [] ∧
      s1.evalStack = s.irFactory.tmps.length :: rest ∧ s1.stackDeficit = s.stackDeficit ∧
      s1.irFactory.typeOf s.irFactory.tmps.length = IRType.Int ∧
      s1.irFactory.tmps.length = s.irFactory.tmps.length + 1 := by
  have hca : IRType.Cell.strictSubtypeOf (s.irFactory.typeOf a) = false := by rw [ha]; decide
  have hcb : IRType.Cell.strictSubtypeOf (s.irFactory.typeOf b) = false := by rw [hb]; decide
  have ht0 : s.topC 0 = .ok (some a, s) := by
    simp only [topC, top, hstack, List.getElem?_cons_zero,
      refineType_session_of_not_strict s a _ hca]
  have ht1 : s.topC 1 = .ok (some b, s) := by
    simp only [topC, top, hstack, List.getElem?_cons_succ, List.getElem?_cons_zero,
      refineType_session_of_not_strict s b _ hcb]
  have hp0 : s.popC = .ok (some a, { s with evalStack := b :: rest }) :=
    pop_of_cons s _ a _ hstack hca
  have hp1 : ({ s with evalStack := b :: rest } : HhbcTranslator).popC =
      .ok (some b, { s with evalStack := rest }) :=
    pop_of_cons _ _ b rest rfl hcb
  have hsup : areBinaryArithTypesSupported .OpAdd IRType.Int IRType.Int = .ok true := rfl
  have hia : ({ s with evalStack := rest } : HhbcTranslator).isA a IRType.Bool = false := by
    simp only [isA, ha]; decide
  have hib : ({ s with evalStack := rest } : HhbcTranslator).isA b IRType.Bool = false := by
    simp only [isA, hb]; decide
  have hk : Opcode.dstKind .OpAdd ≠ .ND := by decide
  obtain ⟨g, eg, hg, fg, hgl⟩ := gen_D_ex ({ s with evalStack := rest } : HhbcTranslator)
    .OpAdd none .none none [some b, some a] hk
  have hty := gen_typeOf_D ({ s with evalStack := rest } : HhbcTranslator) .OpAdd none .none
    none [some b, some a] IRType.Int rfl
  rw [eg] at hty
  refine ⟨{ g with evalStack := s.irFactory.tmps.length :: rest }, ?_, ?_, rfl,
    fg.stackDeficit, hty, hgl⟩
  · simp only [emitAdd, emitBinaryArith, ht0, derefTmp, ht1, ha, hb, hsup, hp0, hp1, boolToInt,
      hia, hib, Bool.false_eq_true, if_false, eg, push]
    rw [fg.evalStack]
  · exact emitted_congr (emitted_trans (emitted_of_same s { s with evalStack := rest } rfl rfl)
      hg) rfl rfl

/-- Printing an integer that is on top of the virtual stack. -/
theorem emitPrint_of_int (s : HhbcTranslator) (a : SSATmpId) (rest : List SSATmpId)
    (hstack : s.evalStack = a :: rest) (ha : s.irFactory.typeOf a = IRType.Int) :
    ∃ s1, s.emitPrint = .ok s1 ∧
      Emitted s s1 [mkInst .PrintInt none .none none [some a] none] [] ∧
      s1.evalStack = s.irFactory.tmps.length :: rest ∧ s1.stackDeficit = s.stackDeficit ∧
      IsConst s1 s.irFactory.tmps.length (.int 1) := by
  have hca : IRType.Cell.strictSubtypeOf (s.irFactory.typeOf a) = false := by rw [ha]; decide
  have ht0 : s.topC 0 = .ok (some a, s) := by
    simp only [topC, top, hstack, List.getElem?_cons_zero,
      refineType_session_of_not_strict s a _ hca]
  have hp0 : s.popC = .ok (some a, { s with evalStack := rest }) :=
    pop_of_cons s _ a _ hstack hca
  have hany : subtypeOfAny IRType.Int [IRType.Int, IRType.Bool, IRType.Null, IRType.Str] = true := by
    decide
  have hop : printOpcode IRType.Int = .ok .PrintInt := rfl
  obtain ⟨g, eg, hg, fg, hgt⟩ := gen_ND_ex ({ s with evalStack := rest } : HhbcTranslator)
    .PrintInt none .none none [some a] rfl
  have hlen : g.irFactory.tmps.length = s.irFactory.tmps.length := by rw [hgt]
  obtain ⟨c, ec, hc, fc, -, -⟩ := cns_ex g (.int 1)
  have hk := cns_isConst g (.int 1)
  rw [ec, hlen] at hk
  rw [hlen] at ec
  refine ⟨{ c with evalStack := s.irFactory.tmps.length :: rest }, ?_, ?_, rfl,
    fc.stackDeficit.trans fg.stackDeficit, ⟨hk.valid, hk.instValid, hk.inst, hk.type⟩⟩
  · simp only [emitPrint, ht0, derefTmp, ha, hany, if_true, hp0, hop, ne_eq, reduceCtorEq,
      not_false_eq_true, eg, ec, push]
    rw [fc.evalStack, fg.evalStack]
  · exact emitted_congr (emitted_trans (emitted_of_same s { s with evalStack := rest } rfl rfl)
      (emitted_trans hg hc)) rfl rfl

end HhbcTranslator

/-- C15: from an empty virtual stack with zero deficit, `emitInt(3)`,
`emitInt(4)`, `emitAdd`, `emitPrint` all return, and between the first and the
last session the main trace receives exactly two instructions: an `OpAdd`
whose sources are the constants 3 and 4, in that order, and a `PrintInt` whose
source is the result of the `OpAdd`.  Neither an `InterpOne` nor a stack load
is among them, no auxiliary trace is made, the virtual stack ends holding
exactly the integer constant 1, and the deficit is zero. -/
theorem int_add_print_scenario (needsReg : IRType → Bool) (s : HhbcTranslator)
    (he : s.evalStack = []) (hd : s.stackDeficit = 0) :
    ∃ s1 s2 s3 s4, s.emitInt 3 = .ok s1 ∧ s1.emitInt 4 = .ok s2 ∧
      s2.emitAdd needsReg = .ok s3 ∧ s3.emitPrint = .ok s4 ∧
      Emitted s s4
        [mkInst .OpAdd none .none none
          [some s.irFactory.tmps.length, some (s.irFactory.tmps.length + 1)]
          (some (s.irFactory.tmps.length + 2)),
         mkInst .PrintInt none .none none [some (s.irFactory.tmps.length + 2)] none] [] ∧
      IsConst s4 s.irFactory.tmps.length (.int 3) ∧
      IsConst s4 (s.irFactory.tmps.length + 1) (.int 4) ∧
      s4.evalStack = [s.irFactory.tmps.length + 3] ∧
      IsConst s4 (s.irFactory.tmps.length + 3) (.int 1) ∧ s4.stackDeficit = 0 := by
  obtain ⟨s1, e1, h1, st1, d1, k1, l1⟩ := HhbcTranslator.emitInt_ex s 3
  obtain ⟨s2, e2, h2, st2, d2, k2, l2⟩ := HhbcTranslator.emitInt_ex s1 4
  rw [l1] at st2 k2
  rw [st1, he] at st2
  have k1b := isConst_of_emitted h2 k1
  obtain ⟨s3, e3, h3, st3, d3, t3, l3⟩ := HhbcTranslator.emitAdd_of_ints needsReg s2
    (s.irFactory.tmps.length + 1) s.irFactory.tmps.length [] st2 k2.type k1b.type
  rw [l2, l1] at st3 t3 l3 h3
  obtain ⟨s4, e4, h4, st4, d4, k4⟩ := HhbcTranslator.emitPrint_of_int s3
    (s.irFactory.tmps.length + 1 + 1) [] st3 t3
  rw [l3] at st4 k4
  refine ⟨s1, s2, s3, s4, e1, e2, e3, e4, ?_, ?_, ?_, st4, k4, ?_⟩
  · simpa using emitted_trans h1 (emitted_trans h2 (emitted_trans h3 h4))
  · exact isConst_of_emitted (emitted_trans h3 h4) k1b
  · exact isConst_of_emitted (emitted_trans h3 h4) k2
  · rw [d4, d3, d2, d1, hd]

theorem int_add_print_scenario_witness :
    sessionStart.evalStack = [] ∧ sessionStart.stackDeficit = 0 ∧
    ∃ s1 s2 s3 s4, sessionStart.emitInt 3 = .ok s1 ∧ s1.emitInt 4 = .ok s2 ∧
      s2.emitAdd (fun _ => false) = .ok s3 ∧ s3.emitPrint = .ok s4 ∧
      Emitted sessionStart s4
        [mkInst .OpAdd none .none none [some 2, some 3] (some 4),
         mkInst .PrintInt none .none none [some 4] none] [] ∧
      IsConst s4 2 (.int 3) ∧ IsConst s4 3 (.int 4) ∧
      s4.evalStack = [5] ∧ IsConst s4 5 (.int 1) ∧ s4.stackDeficit = 0 :=
  ⟨rfl, rfl, int_add_print_scenario (fun _ => false) sessionStart rfl rfl⟩

/-! ## Inlining -/

namespace HhbcTranslator

/-- A pop returns on every session whose top entry, if any, needs no
narrowing, and leaves the rest of the virtual stack. -/
theorem pop_ok (s : HhbcTranslator) (t : IRType)
    (h : ∀ e ∈ s.evalStack.head?, t.strictSubtypeOf (s.irFactory.typeOf e) = false) :
    ∃ r, s.pop t = .ok r ∧ r.2.evalStack = s.evalStack.tail ∧
      r.2.fpiStack = s.fpiStack ∧ r.2.bcStateStack = s.bcStateStack ∧
      (∀ e ∈ r.2.evalStack, r.2.irFactory.typeOf e = s.irFactory.typeOf e) := by
  cases hs : s.evalStack with
  | nil =>
    have hp : s.pop t = .ok (({ s with stackDeficit := (s.stackDeficit + 1) % uint32Size } :
        HhbcTranslator).gen .LdStack (some t) (.stackOffset s.stackDeficit) none
        [({ s with stackDeficit := (s.stackDeficit + 1) % uint32Size } :
          HhbcTranslator).tb.sp]) := by
      simp only [pop, hs]
    have hev : (({ s with stackDeficit := (s.stackDeficit + 1) % uint32Size } :
        HhbcTranslator).gen .LdStack (some t) (.stackOffset s.stackDeficit) none
        [({ s with stackDeficit := (s.stackDeficit + 1) % uint32Size } :
          HhbcTranslator).tb.sp]).2.evalStack = s.evalStack := rfl
    refine ⟨_, hp, ?_, rfl, rfl, ?_⟩
    · rw [hev, hs]; rfl
    · intro e he
      rw [hev, hs] at he
      cases he
  | cons a rest =>
    have ha := h a (by rw [hs]; rfl)
    exact ⟨_, pop_of_cons s t a rest hs ha, rfl, rfl, rfl, fun _ _ => rfl⟩

/-- The argument pops of `beginInlining` return when the entries they pop
need no narrowing. -/
theorem popParams_ok (numParams : Nat) :
    ∀ (fuel i : Nat) (params : List SSATmpPtr) (s : HhbcTranslator),
      (∀ e ∈ s.evalStack.take fuel, IRType.Gen.strictSubtypeOf (s.irFactory.typeOf e) = false) →
      ∃ p, popParams numParams fuel i params s = .ok p ∧ p.2.fpiStack = s.fpiStack ∧
        p.2.bcStateStack = s.bcStateStack := by
  intro fuel
  induction fuel with
  | zero => intro i params s _; exact ⟨_, rfl, rfl, rfl⟩
  | succ n ih =>
    intro i params s h
    obtain ⟨r, hr, he, hf, hb, hty⟩ := pop_ok s IRType.Gen (by
      intro e he
      apply h e
      cases hs : s.evalStack with
      | nil => rw [hs] at he; cases he
      | cons a rest =>
        rw [hs] at he
        simp only [List.head?_cons, Option.mem_def, Option.some.injEq] at he
        subst he
        simp)
    obtain ⟨p, hp, hpf, hpb⟩ := ih (i + 1) (params.set (numParams - i - 1) r.1) r.2 (by
      intro e he2
      have hmem : e ∈ r.2.evalStack := List.mem_of_mem_take he2
      rw [hty e hmem]
      apply h e
      rw [he] at he2
      cases hs : s.evalStack with
      | nil => rw [hs] at he2; simp at he2
      | cons a rest =>
        rw [hs] at he2
        simp only [List.tail_cons] at he2
        simp only [List.take_succ_cons, List.mem_cons]
        exact Or.inr he2)
    refine ⟨p, ?_, hpf.trans hf, hpb.trans hb⟩
    simp only [popParams, popF, hr, hp]

/-- The argument pops of `beginInlining` when the arguments are on the virtual
stack: every argument goes to the slot that mirrors its depth. -/
theorem popParams_spec (numParams : Nat) :
    ∀ (args : List SSATmpId) (i : Nat) (params : List SSATmpPtr) (s : HhbcTranslator)
      (rest : List SSATmpId), s.evalStack = args ++ rest →
      (∀ a ∈ args, IRType.Gen.strictSubtypeOf (s.irFactory.typeOf a) = false) →
      i + args.length = numParams → params.length = numParams →
      ∃ p, popParams numParams args.length i params s = .ok (p, { s with evalStack := rest }) ∧
        p.length = numParams ∧
        (∀ j, j < args.length → p.getD j none = args[args.length - 1 - j]?) ∧
        (∀ j, args.length ≤ j → p[j]? = params[j]?) := by
  intro args
  induction args with
  | nil =>
    intro i params s rest hs _ _ hp
    refine ⟨params, ?_, hp, fun j hj => absurd hj (Nat.not_lt_zero j), fun _ _ => rfl⟩
    simp only [List.nil_append] at hs
    simp only [List.length_nil, popParams, ← hs]
  | cons a as ih =>
    intro i params s rest hs hty hi hp
    have hpop : s.popF = .ok (some a, { s with evalStack := as ++ rest }) :=
      pop_of_cons s _ a _ (by simpa using hs) (hty a (List.mem_cons_self _ _))
    simp only [List.length_cons] at hi
    have hidx : numParams - i - 1 = as.length := by omega
    obtain ⟨p, hpp, hpl, hlow, hhigh⟩ := ih (i + 1) (params.set as.length (some a))
      { s with evalStack := as ++ rest } rest rfl
      (fun x hx => hty x (List.mem_cons_of_mem _ hx)) (by omega) (by simpa using hp)
    refine ⟨p, ?_, hpl, ?_, ?_⟩
    · simp only [List.length_cons, popParams, hpop, hidx]
      exact hpp
    · intro j hj
      simp only [List.length_cons] at hj ⊢
      by_cases hlt : j < as.length
      · rw [hlow j hlt]
        have : as.length + 1 - 1 - j = (as.length - 1 - j) + 1 := by omega
        rw [this, List.getElem?_cons_succ]
      · have hje : j = as.length := by omega
        subst hje
        have hlen : as.length < params.length := by omega
        have h1 : p[as.length]? = some (some a) := by
          rw [hhigh as.length (Nat.le_refl _), List.getElem?_set_self hlen]
        have : as.length + 1 - 1 - as.length = 0 := by omega
        rw [this, List.getElem?_cons_zero, List.getD_eq_getElem?_getD, h1]
        rfl
    · intro j hj
      simp only [List.length_cons] at hj
      rw [hhigh j (by omega), List.getElem?_set_ne (by omega)]

/-- The stores of the arguments to the locals of the callee. -/
theorem storeParams_emitted (calleeFP : SSATmpPtr) (params : List SSATmpPtr) :
    ∀ (fuel i : Nat) (s : HhbcTranslator),
      Emitted s (storeParams calleeFP params fuel i s)
        ((List.range' i fuel).map (fun j =>
          mkInst .StLoc none (.localId j) none [calleeFP, params.getD j none] none)) [] ∧
      SameFrame s (storeParams calleeFP params fuel i s) ∧
      SameTracked s (storeParams calleeFP params fuel i s) := by
  intro fuel
  induction fuel with
  | zero => intro i s; exact ⟨emitted_refl s, sameFrame_refl s, sameTracked_refl s⟩
  | succ n ih =>
    intro i s
    have h1 := gen_emitted_ND s .StLoc none (.localId i) none [calleeFP, params.getD i none] rfl
    have f1 := gen_sameFrame s .StLoc none (.localId i) none [calleeFP, params.getD i none]
    have t1 := gen_sameTracked s .StLoc none (.localId i) none [calleeFP, params.getD i none] rfl
    obtain ⟨h2, f2, t2⟩ := ih (i + 1)
      (s.gen .StLoc none (.localId i) none [calleeFP, params.getD i none]).2
    refine ⟨?_, sameFrame_trans f1 f2, sameTracked_trans t1 t2⟩
    have h := emitted_trans h1 h2
    simpa only [storeParams, List.range'_succ, List.map_cons, List.singleton_append,
      List.append_nil] using h

/-- The entry counter bumped when statistics are enabled. -/
theorem profileFunctionEntry_emitted (s : HhbcTranslator) (enabled : Bool) (category : String) :
    ∃ prof, prof.map (fun r => r.op) = (if enabled = true then [Opcode.IncStatGrouped] else []) ∧
      Emitted s (s.profileFunctionEntry enabled category) prof [] ∧
      SameFrame s (s.profileFunctionEntry enabled category) ∧
      SameTracked s (s.profileFunctionEntry enabled category) := by
  cases enabled with
  | false =>
    exact ⟨[], rfl, emitted_refl s, sameFrame_refl s, sameTracked_refl s⟩
  | true =>
    obtain ⟨c1, e1, h1, f1, t1, -⟩ := cns_ex s (.str "FunctionEntry")
    obtain ⟨c2, e2, h2, f2, t2, -⟩ := cns_ex c1 (.str category)
    obtain ⟨c3, e3, h3, f3, t3, -⟩ := cns_ex c2 (.int 1)
    have h4 := gen_emitted_ND c3 .IncStatGrouped none .none none
      [some s.irFactory.tmps.length, some c1.irFactory.tmps.length,
       some c2.irFactory.tmps.length] rfl
    have f4 := gen_sameFrame c3 .IncStatGrouped none .none none
      [some s.irFactory.tmps.length, some c1.irFactory.tmps.length,
       some c2.irFactory.tmps.length]
    have t4 := gen_sameTracked c3 .IncStatGrouped none .none none
      [some s.irFactory.tmps.length, some c1.irFactory.tmps.length,
       some c2.irFactory.tmps.length] rfl
    have hst : s.profileFunctionEntry true category = (c3.gen .IncStatGrouped none .none none
        [some s.irFactory.tmps.length, some c1.irFactory.tmps.length,
         some c2.irFactory.tmps.length]).2 := by
      simp only [profileFunctionEntry, if_true, e1, e2, e3]
    rw [hst]
    refine ⟨[mkInst .IncStatGrouped none .none none
      [some s.irFactory.tmps.length, some c1.irFactory.tmps.length,
       some c2.irFactory.tmps.length] none], rfl, ?_,
      sameFrame_trans f1 (sameFrame_trans f2 (sameFrame_trans f3 f4)),
      sameTracked_trans t1 (sameTracked_trans t2 (sameTracked_trans t3 t4))⟩
    simpa using emitted_trans h1 (emitted_trans h2 (emitted_trans h3 h4))

end HhbcTranslator

namespace HhbcTranslator

/-- The release of the locals, from the last to the first. -/
theorem decRefLocals_emitted (retVal : SSATmpPtr) (id : Int) :
    ∀ (n : Nat) (s : HhbcTranslator),
      ∃ recs, Emitted s (decRefLocals retVal id n s) recs [] ∧
        SameFrame s (decRefLocals retVal id n s) ∧
        SameTracked s (decRefLocals retVal id n s) ∧
        (id = -1 → recs = (List.range n).reverse.map (fun k =>
          mkInst .DecRefLoc (some IRType.Gen) (.localId k) none [s.tb.fp] none)) := by
  intro n
  induction n with
  | zero =>
    intro s
    exact ⟨[], emitted_refl s, sameFrame_refl s, sameTracked_refl s, fun _ => rfl⟩
  | succ n ih =>
    intro s
    by_cases hid : id = (n : Int)
    · have h1 := gen_emitted_ND s .DecRef none .none none [retVal] rfl
      have f1 := gen_sameFrame s .DecRef none .none none [retVal]
      have t1 := gen_sameTracked s .DecRef none .none none [retVal] rfl
      obtain ⟨recs, h2, f2, t2, -⟩ := ih (s.gen .DecRef none .none none [retVal]).2
      refine ⟨[mkInst .DecRef none .none none [retVal] none] ++ recs, ?_, ?_, ?_, ?_⟩
      · simp only [decRefLocals, if_pos hid]
        exact emitted_trans h1 h2
      · simp only [decRefLocals, if_pos hid]
        exact sameFrame_trans f1 f2
      · simp only [decRefLocals, if_pos hid]
        exact sameTracked_trans t1 t2
      · intro hneg
        rw [hneg] at hid
        omega
    · have h1 := gen_emitted_ND s .DecRefLoc (some IRType.Gen) (.localId n) none [s.tb.fp] rfl
      have f1 := gen_sameFrame s .DecRefLoc (some IRType.Gen) (.localId n) none [s.tb.fp]
      have t1 := gen_sameTracked s .DecRefLoc (some IRType.Gen) (.localId n) none [s.tb.fp] rfl
      obtain ⟨recs, h2, f2, t2, hshape⟩ := ih
        (s.gen .DecRefLoc (some IRType.Gen) (.localId n) none [s.tb.fp]).2
      refine ⟨[mkInst .DecRefLoc (some IRType.Gen) (.localId n) none [s.tb.fp] none] ++ recs,
        ?_, ?_, ?_, ?_⟩
      · simp only [decRefLocals, if_neg hid]
        exact emitted_trans h1 h2
      · simp only [decRefLocals, if_neg hid]
        exact sameFrame_trans f1 f2
      · simp only [decRefLocals, if_neg hid]
        exact sameTracked_trans t1 t2
      · intro hneg
        have hfp : (s.gen .DecRefLoc (some IRType.Gen) (.localId n) none [s.tb.fp]).2.tb.fp =
            s.tb.fp := t1.fpValue
        rw [hshape hneg, hfp, List.range_succ, List.reverse_append, List.map_append]
        rfl

/-- The release of the receiver and of the locals: what is emitted, for every
return value, and its exact shape in an inlined frame. -/
theorem decRefThisAndLocals_emitted (s : HhbcTranslator) (rv : SSATmpId)
    (srcLoc : SSATmpPtr) (srcOpc : Opcode) :
    ∃ recs, Emitted s (s.decRefThisAndLocals (some rv) srcLoc srcOpc).2 recs [] ∧
      SameFrame s (s.decRefThisAndLocals (some rv) srcLoc srcOpc).2 ∧
      SameTracked s (s.decRefThisAndLocals (some rv) srcLoc srcOpc).2 ∧
      (s.isInlining = true → recs =
        (if s.curFunc.mayHaveThis = true then
          (if srcLoc ≠ none ∧ srcOpc = .LdThis then
            [mkInst .DecRef none .none none [some rv] none]
          else [mkInst .DecRefThis none .none none [s.tb.fp] none])
        else []) ++
        (List.range s.curFunc.numLocals).reverse.map (fun k =>
          mkInst .DecRefLoc (some IRType.Gen) (.localId k) none [s.tb.fp] none)) := by
  have key : ∀ (s1 : HhbcTranslator) (pre : List IRInstruction), Emitted s s1 pre [] →
      SameFrame s s1 → SameTracked s s1 →
      ∀ id : Int, (s1.isInlining = true → id = -1) →
      ∃ recs, Emitted s (decRefLocals (some rv) id s.curFunc.numLocals s1) recs [] ∧
        SameFrame s (decRefLocals (some rv) id s.curFunc.numLocals s1) ∧
        SameTracked s (decRefLocals (some rv) id s.curFunc.numLocals s1) ∧
        (s.isInlining = true → recs = pre ++
          (List.range s.curFunc.numLocals).reverse.map (fun k =>
            mkInst .DecRefLoc (some IRType.Gen) (.localId k) none [s.tb.fp] none)) := by
    intro s1 pre h1 f1 t1 id hid
    obtain ⟨recs, h2, f2, t2, hshape⟩ := decRefLocals_emitted (some rv) id s.curFunc.numLocals s1
    refine ⟨pre ++ recs, by simpa using emitted_trans h1 h2, sameFrame_trans f1 f2,
      sameTracked_trans t1 t2, ?_⟩
    intro hinl
    have hinl1 : s1.isInlining = true := by
      simp only [isInlining, f1.bcStateStack] at hinl ⊢
      exact hinl
    have hfp : s1.tb.fp = s.tb.fp := t1.fpValue
    rw [hshape (hid hinl1), hfp]
  have hidOf : ∀ (s1 : HhbcTranslator), s1.isInlining = true →
      (match srcLoc with
        | some loc =>
          if ¬ s1.isInlining = true ∧ srcOpc = .LdLoc then
            ((locIdOf (s1.irFactory.inst (s1.irFactory.instOf loc)).extra : Nat) : Int)
          else -1
        | none => -1) = -1 := by
    intro s1 h1
    cases srcLoc with
    | none => rfl
    | some loc => simp [h1]
  unfold decRefThisAndLocals
  by_cases hthis : s.curFunc.mayHaveThis = true
  · by_cases hld : srcLoc ≠ none ∧ srcOpc = .LdThis
    · simp only [hthis, if_true, if_pos hld]
      exact key _ _ (gen_emitted_ND s .DecRef none .none none [some rv] rfl)
        (gen_sameFrame s _ _ _ _ _) (gen_sameTracked s _ _ _ _ _ rfl) _ (hidOf _)
    · simp only [hthis, if_true, if_neg hld]
      exact key _ _ (gen_emitted_ND s .DecRefThis none .none none [s.tb.fp] rfl)
        (gen_sameFrame s _ _ _ _ _) (gen_sameTracked s _ _ _ _ _ rfl) _ (hidOf _)
  · simp only [hthis, Bool.false_eq_true, if_false]
    exact key s [] (emitted_refl s) (sameFrame_refl s) (sameTracked_refl s) _ (hidOf _)

end HhbcTranslator

namespace HhbcTranslator

theorem retValSource_ok (s : HhbcTranslator) (rv : SSATmpId)
    (h : (s.irFactory.inst (s.irFactory.instOf rv)).op = .IncRef →
      (s.irFactory.inst (s.irFactory.instOf rv)).src 0 ≠ none) :
    ∃ src, s.retValSource rv = .ok src := by
  unfold retValSource
  by_cases hop : (s.irFactory.inst (s.irFactory.instOf rv)).op = .IncRef
  · simp only [hop, if_true]
    cases hs : (s.irFactory.inst (s.irFactory.instOf rv)).src 0 with
    | none => exact absurd hs (h hop)
    | some loc =>
      simp only
      split
      · exact ⟨_, rfl⟩
      · exact ⟨_, rfl⟩
  · simp only [hop, if_false]
    exact ⟨_, rfl⟩

theorem retValSource_of_incRef (s : HhbcTranslator) (rv loc : SSATmpId)
    (hop : (s.irFactory.inst (s.irFactory.instOf rv)).op = .IncRef)
    (hsrc : (s.irFactory.inst (s.irFactory.instOf rv)).src 0 = some loc)
    (hloc : (s.irFactory.inst (s.irFactory.instOf loc)).op = .LdLoc ∨
      (s.irFactory.inst (s.irFactory.instOf loc)).op = .LdThis) :
    s.retValSource rv = .ok (some loc, (s.irFactory.inst (s.irFactory.instOf loc)).op) := by
  have hn : ¬ ((s.irFactory.inst (s.irFactory.instOf loc)).op ≠ .LdLoc ∧
      (s.irFactory.inst (s.irFactory.instOf loc)).op ≠ .LdThis) := by
    rintro ⟨h1, h2⟩
    rcases hloc with h | h
    · exact h1 h
    · exact h2 h
  simp only [retValSource, hop, if_true, hsrc, if_neg hn]

/-- The inlined return: what it emits and how it leaves the session. -/
theorem emitRetFromInlined_effect (s : HhbcTranslator) (t : IRType) (rv : SSATmpId)
    (hstack : s.evalStack = [rv]) (hty : t.strictSubtypeOf (s.irFactory.typeOf rv) = false)
    (hvv : s.curFunc.mayUseVV = false) (hpm : s.curFunc.isPseudoMain = false)
    (hfpi : s.fpiStack ≠ [])
    (src : SSATmpPtr × Opcode) (hsrc : s.retValSource rv = .ok src) :
    ∃ s1 recs tail,
      s.emitRetFromInlined t = .ok s1 ∧
      tail.map (fun r => r.op) =
        [Opcode.InlineReturn,
         if (s.bcStateStack.dropLast.getLastD default).func.isGenerator = true then
           Opcode.ReDefGeneratorSP else Opcode.ReDefSP,
         Opcode.Marker] ∧
      Emitted s s1 (recs ++ tail) [] ∧
      (s.isInlining = true → recs =
        (if s.curFunc.mayHaveThis = true then
          (if src.1 ≠ none ∧ src.2 = .LdThis then
            [mkInst .DecRef none .none none [some rv] none]
          else [mkInst .DecRefThis none .none none [s.tb.fp] none])
        else []) ++
        (List.range s.curFunc.numLocals).reverse.map (fun k =>
          mkInst .DecRefLoc (some IRType.Gen) (.localId k) none [s.tb.fp] none)) ∧
      s1.bcStateStack = s.bcStateStack.dropLast ∧ s1.fpiStack = s.fpiStack.dropLast ∧
      s1.stackDeficit = 0 ∧ s1.evalStack = [rv] := by
  have hpop : s.pop t = .ok (some rv, { s with evalStack := [] }) :=
    pop_of_cons s t rv [] hstack hty
  have hsrc2 : ({ s with evalStack := [] } : HhbcTranslator).retValSource rv = .ok src := hsrc
  obtain ⟨recs, hD, fD, tD, hshape⟩ := decRefThisAndLocals_emitted
    ({ s with evalStack := [] } : HhbcTranslator) rv src.1 src.2
  generalize hd : (({ s with evalStack := [] } : HhbcTranslator).decRefThisAndLocals (some rv)
    src.1 src.2) = d at hD fD tD
  obtain ⟨sI, eI, hI, fI, -⟩ := gen_ND_ex d.2 .InlineReturn none .none none [d.2.tb.fp] rfl
  have hbI : sI.bcStateStack = s.bcStateStack := fI.bcStateStack.trans fD.bcStateStack
  have hfI : sI.fpiStack = s.fpiStack := fI.fpiStack.trans fD.fpiStack
  have heI : sI.evalStack = [] := fI.evalStack.trans fD.evalStack
  have hcf : ({ sI with bcStateStack := sI.bcStateStack.dropLast, fpiStack := sI.fpiStack.dropLast } : HhbcTranslator).curFunc =
      (s.bcStateStack.dropLast.getLastD default).func := by
    simp only [curFunc, hbI]
  have hE2 : Emitted sI ({ sI with bcStateStack := sI.bcStateStack.dropLast, fpiStack := sI.fpiStack.dropLast } : HhbcTranslator) [] [] := emitted_of_same _ _ rfl rfl
  have hvv2 : ¬ (({ s with evalStack := [] } : HhbcTranslator).curFunc.mayUseVV = true) := by
    show ¬ (s.curFunc.mayUseVV = true)
    rw [hvv]; exact Bool.false_ne_true
  have hpm2 : ¬ (({ s with evalStack := [] } : HhbcTranslator).curFunc.isPseudoMain = true) := by
    show ¬ (s.curFunc.isPseudoMain = true)
    rw [hpm]; exact Bool.false_ne_true
  have hfpi2 : ¬ (({ s with evalStack := [] } : HhbcTranslator).fpiStack = []) := hfpi
  have hpre := emitted_trans (emitted_of_same s { s with evalStack := [] } rfl rfl)
    (emitted_trans hD (emitted_trans hI hE2))
  have hshape2 : s.isInlining = true → recs = _ := hshape
  by_cases hg : (s.bcStateStack.dropLast.getLastD default).func.isGenerator = true
  · obtain ⟨sR, eR, hR, fR, -⟩ := gen_D_ex
      ({ sI with bcStateStack := sI.bcStateStack.dropLast, fpiStack := sI.fpiStack.dropLast } : HhbcTranslator)
      .ReDefGeneratorSP none (.stackOffset sI.tb.spOffset) none [sI.tb.sp] (by decide)
    have heR : sR.evalStack = [] := fR.evalStack.trans heI
    have hnum : ¬ (sR.numCells ≠ 0) := by simp [numCells, heR]
    obtain ⟨s5, hs5⟩ : ∃ s5 : HhbcTranslator,
        s5 = { sR with stackDeficit := 0, evalStack := rv :: sR.evalStack } := ⟨_, rfl⟩
    obtain ⟨hM, fM, -⟩ := emitMarker_emitted s5
    have hall := emitted_trans hpre (emitted_trans hR
      (emitted_trans (emitted_of_same sR s5 (by rw [hs5]) (by rw [hs5])) hM))
    refine ⟨s5.emitMarker, recs, [mkInst .InlineReturn none .none none [d.2.tb.fp] none,
      mkInst .ReDefGeneratorSP none (.stackOffset sI.tb.spOffset) none [sI.tb.sp]
        (some sI.irFactory.tmps.length),
      markerInst ⟨s5.bcOff, toInt32 (s5.tb.spOffset + s5.numCells - s5.stackDeficit),
        s5.curFunc⟩], ?_, ?_, ?_, hshape2, ?_, ?_, ?_, ?_⟩
    · simp only [emitRetFromInlined, hpop, if_neg hvv2, if_neg hpm2, if_neg hfpi2,
        emitDecRefLocalsInline, hsrc2, hd, eI, hcf, hg, if_true, eR, if_neg hnum, push, hs5]
    · simp only [List.map_cons, List.map_nil, hg, if_true]
    · simpa using hall
    · rw [fM.bcStateStack, hs5]
      show sR.bcStateStack = _
      rw [fR.bcStateStack]
      show sI.bcStateStack.dropLast = _
      rw [hbI]
    · rw [fM.fpiStack, hs5]
      show sR.fpiStack = _
      rw [fR.fpiStack]
      show sI.fpiStack.dropLast = _
      rw [hfI]
    · rw [fM.stackDeficit, hs5]
    · rw [fM.evalStack, hs5]
      show rv :: sR.evalStack = _
      rw [heR]
  · obtain ⟨sR, eR, hR, fR, -⟩ := gen_D_ex
      ({ sI with bcStateStack := sI.bcStateStack.dropLast, fpiStack := sI.fpiStack.dropLast } : HhbcTranslator)
      .ReDefSP none (.stackOffset sI.tb.spOffset) none [sI.tb.fp, sI.tb.sp] (by decide)
    have heR : sR.evalStack = [] := fR.evalStack.trans heI
    have hnum : ¬ (sR.numCells ≠ 0) := by simp [numCells, heR]
    obtain ⟨s5, hs5⟩ : ∃ s5 : HhbcTranslator,
        s5 = { sR with stackDeficit := 0, evalStack := rv :: sR.evalStack } := ⟨_, rfl⟩
    obtain ⟨hM, fM, -⟩ := emitMarker_emitted s5
    have hall := emitted_trans hpre (emitted_trans hR
      (emitted_trans (emitted_of_same sR s5 (by rw [hs5]) (by rw [hs5])) hM))
    refine ⟨s5.emitMarker, recs, [mkInst .InlineReturn none .none none [d.2.tb.fp] none,
      mkInst .ReDefSP none (.stackOffset sI.tb.spOffset) none [sI.tb.fp, sI.tb.sp]
        (some sI.irFactory.tmps.length),
      markerInst ⟨s5.bcOff, toInt32 (s5.tb.spOffset + s5.numCells - s5.stackDeficit),
        s5.curFunc⟩], ?_, ?_, ?_, hshape2, ?_, ?_, ?_, ?_⟩
    · simp only [emitRetFromInlined, hpop, if_neg hvv2, if_neg hpm2, if_neg hfpi2,
        emitDecRefLocalsInline, hsrc2, hd, eI, hcf, hg, Bool.false_eq_true, if_false, eR,
        if_neg hnum, push, hs5]
    · simp only [List.map_cons, List.map_nil, hg, Bool.false_eq_true, if_false]
    · simpa using hall
    · rw [fM.bcStateStack, hs5]
      show sR.bcStateStack = _
      rw [fR.bcStateStack]
      show sI.bcStateStack.dropLast = _
      rw [hbI]
    · rw [fM.fpiStack, hs5]
      show sR.fpiStack = _
      rw [fR.fpiStack]
      show sI.fpiStack.dropLast = _
      rw [hfI]
    · rw [fM.stackDeficit, hs5]
    · rw [fM.evalStack, hs5]
      show rv :: sR.evalStack = _
      rw [heR]

end HhbcTranslator

namespace HhbcTranslator

theorem gen_ReDefSP_spOffset (s : HhbcTranslator) (off : Int) (srcs : List SSATmpPtr) :
    (s.gen .ReDefSP none (.stackOffset off) none srcs).2.tb.spOffset = off := by
  rw [gen_tb]
  simp only [TraceBuilder.updateTrackedState, TraceBuilder.stackOffsetOf]

/-- Defining the frame of the callee and storing the arguments: what is
emitted and how the session is left. -/
theorem inlineFrame_effect (s : HhbcTranslator) (params : List SSATmpPtr) (statsEnabled : Bool)
    (numParams : Nat) (target : Func) (returnBcOffset : Offset) :
    ∃ calleeFP pre,
      pre.map (fun r => r.op) =
        [Opcode.SpillStack, .DefInlineFP, .ReDefSP] ++
          (if statsEnabled = true then [Opcode.IncStatGrouped] else []) ∧
      Emitted s (s.inlineFrame params statsEnabled numParams target returnBcOffset)
        (pre ++ (List.range numParams).map (fun j =>
            mkInst .StLoc none (.localId j) none [calleeFP, params.getD j none] none)) [] ∧
      (s.inlineFrame params statsEnabled numParams target returnBcOffset).bcStateStack =
        s.bcStateStack ++ [{ bcOff := target.base, func := target }] ∧
      (s.inlineFrame params statsEnabled numParams target returnBcOffset).fpiStack =
        s.fpiStack ∧
      (s.inlineFrame params statsEnabled numParams target returnBcOffset).evalStack = [] ∧
      (s.inlineFrame params statsEnabled numParams target returnBcOffset).stackDeficit = 0 ∧
      (s.inlineFrame params statsEnabled numParams target returnBcOffset).tb.spOffset =
        target.numLocals := by
  obtain ⟨sS, eS, hS, heS, hdS, hbS, hfS, -, -, -, hspS, hfpS, hsoS⟩ := spillStack_ex s
  obtain ⟨sF, eF, hF, fF, lF⟩ := gen_D_ex sS .DefInlineFP none
    (.inlineFP { target := target, retBCOff := returnBcOffset,
                 retSPOff := (s.fpiStack.getLastD (none, 0)).2 })
    none [some (s.irFactory.tmps.length + 1), (s.fpiStack.getLastD (none, 0)).1] (by decide)
  obtain ⟨sB, hsB⟩ : ∃ sB : HhbcTranslator, sB =
      { sF with bcStateStack := sF.bcStateStack ++ [{ bcOff := target.base, func := target }] } :=
    ⟨_, rfl⟩
  obtain ⟨sR, eR, hR, fR, lR⟩ := gen_D_ex sB
    .ReDefSP none (.stackOffset target.numLocals) none [sF.tb.fp, sF.tb.sp] (by decide)
  have hso : sR.tb.spOffset = target.numLocals := by
    have := gen_ReDefSP_spOffset sB target.numLocals [sF.tb.fp, sF.tb.sp]
    rw [eR] at this
    exact this
  obtain ⟨prof, hprof, hP, fP, tP⟩ := profileFunctionEntry_emitted sR statsEnabled "Inline"
  obtain ⟨hSt, fSt, tSt⟩ := storeParams_emitted (some sS.irFactory.tmps.length) params
    numParams 0 (sR.profileFunctionEntry statsEnabled "Inline")
  have hst : s.inlineFrame params statsEnabled numParams target returnBcOffset =
      storeParams (some sS.irFactory.tmps.length) params numParams 0
        (sR.profileFunctionEntry statsEnabled "Inline") := by
    simp only [inlineFrame, eS, eF, ← hsB, eR]
  rw [hst]
  have hFB : Emitted sS sB _ _ := emitted_congr hF (by rw [hsB]) (by rw [hsB])
  have hall := emitted_trans hS (emitted_trans hFB (emitted_trans hR (emitted_trans hP hSt)))
  refine ⟨some sS.irFactory.tmps.length,
    [mkInst .SpillStack none .none none
        (s.tb.sp :: some s.irFactory.tmps.length :: s.peekSpillValues)
        (some (s.irFactory.tmps.length + 1)),
     mkInst .DefInlineFP none
       (.inlineFP { target := target, retBCOff := returnBcOffset,
                    retSPOff := (s.fpiStack.getLastD (none, 0)).2 })
       none [some (s.irFactory.tmps.length + 1), (s.fpiStack.getLastD (none, 0)).1]
       (some sS.irFactory.tmps.length),
     mkInst .ReDefSP none (.stackOffset target.numLocals) none [sF.tb.fp, sF.tb.sp]
       (some sB.irFactory.tmps.length)] ++ prof, ?_, ?_, ?_, ?_, ?_, ?_, ?_⟩
  · simp only [List.map_append, List.map_cons, List.map_nil, hprof]
  · rw [List.range_eq_range']
    simpa using hall
  · rw [fSt.bcStateStack, fP.bcStateStack, fR.bcStateStack, hsB]
    show sF.bcStateStack ++ _ = _
    rw [fF.bcStateStack, hbS]
  · rw [fSt.fpiStack, fP.fpiStack, fR.fpiStack, hsB]
    show sF.fpiStack = _
    rw [fF.fpiStack, hfS]
  · rw [fSt.evalStack, fP.evalStack, fR.evalStack, hsB]
    show sF.evalStack = _
    rw [fF.evalStack, heS]
  · rw [fSt.stackDeficit, fP.stackDeficit, fR.stackDeficit, hsB]
    show sF.stackDeficit = _
    rw [fF.stackDeficit, hdS]
  · rw [tSt.spOffset, tP.spOffset, hso]

theorem pop_frame (s : HhbcTranslator) (t : IRType) (r : SSATmpPtr × HhbcTranslator)
    (h : s.pop t = .ok r) :
    r.2.fpiStack = s.fpiStack ∧ r.2.bcStateStack = s.bcStateStack := by
  unfold pop at h
  split at h
  · simp only [Except.ok.injEq] at h
    subst h
    exact ⟨rfl, rfl⟩
  · split at h
    · cases h
    · rename_i s1 hs1
      simp only [Except.ok.injEq] at h
      subst h
      unfold refineType at hs1
      split at hs1
      · cases hs1
      · simp only [Except.ok.injEq] at hs1
        subst hs1
        exact ⟨rfl, rfl⟩

theorem popParams_frame (numParams : Nat) :
    ∀ (fuel i : Nat) (params : List SSATmpPtr) (s : HhbcTranslator)
      (p : List SSATmpPtr × HhbcTranslator), popParams numParams fuel i params s = .ok p →
      p.2.fpiStack = s.fpiStack ∧ p.2.bcStateStack = s.bcStateStack := by
  intro fuel
  induction fuel with
  | zero =>
    intro i params s p h
    simp only [popParams, Except.ok.injEq] at h
    subst h
    exact ⟨rfl, rfl⟩
  | succ n ih =>
    intro i params s p h
    simp only [popParams] at h
    split at h
    · cases h
    · rename_i r hr
      obtain ⟨h1, h2⟩ := pop_frame s _ r hr
      obtain ⟨h3, h4⟩ := ih _ _ _ _ h
      exact ⟨h3.trans h1, h4.trans h2⟩

/-- What every successful `beginInlining` does to the frame-state stack, the
call-preparation stack and the stack model. -/
theorem beginInlining_frame (s s1 : HhbcTranslator) (statsEnabled : Bool) (numParams : Nat)
    (target : Func) (returnBcOffset : Offset)
    (h : s.beginInlining statsEnabled numParams target returnBcOffset = .ok s1) :
    s.fpiStack ≠ [] ∧ target.isGenerator = false ∧ target.numLocals ≤ numParams ∧
    s1.bcStateStack = s.bcStateStack ++ [{ bcOff := target.base, func := target }] ∧
    s1.fpiStack = s.fpiStack ∧ s1.evalStack = [] ∧ s1.stackDeficit = 0 := by
  unfold beginInlining at h
  split at h
  · cases h
  · rename_i hfpi
    split at h
    · cases h
    · rename_i hgen
      split at h
      · cases h
      · rename_i p hp
        simp only at h
        split at h
        · cases h
        · rename_i hloc
          simp only [Except.ok.injEq] at h
          subst h
          obtain ⟨hpf, hpb⟩ := popParams_frame _ _ _ _ _ _ hp
          obtain ⟨fp, pre, -, -, hb, hf, he, hd, -⟩ := inlineFrame_effect p.2 p.1 statsEnabled
            numParams target returnBcOffset
          obtain ⟨-, fM, -⟩ := emitMarker_emitted
            (p.2.inlineFrame p.1 statsEnabled numParams target returnBcOffset)
          refine ⟨hfpi, by simpa using hgen, by omega, ?_, ?_, ?_, ?_⟩
          · rw [fM.bcStateStack, hb, hpb]
          · rw [fM.fpiStack, hf, hpf]
          · rw [fM.evalStack, he]
          · rw [fM.stackDeficit, hd]

/-- The effect of a successful `beginInlining` whose arguments are on the
virtual stack. -/
theorem beginInlining_effect (s : HhbcTranslator) (statsEnabled : Bool) (numParams : Nat)
    (target : Func) (returnBcOffset : Offset) (args rest : List SSATmpId)
    (hfpi : s.fpiStack ≠ []) (hgen : target.isGenerator = false)
    (hloc : target.numLocals ≤ numParams)
    (hstack : s.evalStack = args ++ rest) (hlen : args.length = numParams)
    (hty : ∀ a ∈ args, IRType.Gen.strictSubtypeOf (s.irFactory.typeOf a) = false) :
    ∃ s1 calleeFP pre,
      s.beginInlining statsEnabled numParams target returnBcOffset = .ok s1 ∧
      pre.map (fun r => r.op) =
        [Opcode.SpillStack, .DefInlineFP, .ReDefSP] ++
          (if statsEnabled = true then [Opcode.IncStatGrouped] else []) ∧
      Emitted s s1
        (pre ++
         (List.range numParams).map (fun j =>
            mkInst .StLoc none (.localId j) none [calleeFP, args[numParams - 1 - j]?] none) ++
         [markerInst ⟨target.base, toInt32 target.numLocals, target⟩]) [] ∧
      s1.bcStateStack = s.bcStateStack ++ [{ bcOff := target.base, func := target }] ∧
      s1.fpiStack = s.fpiStack ∧ s1.evalStack = [] ∧ s1.stackDeficit = 0 := by
  subst hlen
  obtain ⟨p, hpp, hpl, hlow, -⟩ := popParams_spec args.length args 0
    (List.replicate args.length none) s rest hstack hty (by omega) (by simp)
  obtain ⟨cfp, pre, hpre, hE, hb, hf, he, hd, hso⟩ := inlineFrame_effect
    ({ s with evalStack := rest } : HhbcTranslator) p statsEnabled args.length target
    returnBcOffset
  generalize hs4 : ({ s with evalStack := rest } : HhbcTranslator).inlineFrame p statsEnabled
    args.length target returnBcOffset = s4 at hE hb hf he hd hso
  obtain ⟨hM, fM, -⟩ := emitMarker_emitted s4
  have hmk : markerInst ⟨s4.bcOff, toInt32 (s4.tb.spOffset + s4.numCells - s4.stackDeficit),
      s4.curFunc⟩ = markerInst ⟨target.base, toInt32 target.numLocals, target⟩ := by
    simp [bcOff, curFunc, numCells, hb, he, hd, hso]
  rw [hmk] at hM
  have hstores : (List.range args.length).map (fun j =>
      mkInst .StLoc none (.localId j) none [cfp, p.getD j none] none) =
      (List.range args.length).map (fun j =>
        mkInst .StLoc none (.localId j) none [cfp, args[args.length - 1 - j]?] none) := by
    apply List.map_congr_left
    intro j hj
    rw [hlow j (by simpa using hj)]
  rw [hstores] at hE
  have hall := emitted_trans (emitted_of_same s { s with evalStack := rest } rfl rfl)
    (emitted_trans hE hM)
  refine ⟨s4.emitMarker, cfp, pre, ?_, hpre, by simpa using hall, ?_, ?_, ?_, ?_⟩
  · have hfpi2 : ¬ (s.fpiStack = []) := hfpi
    have hloc2 : ¬ (args.length < target.numLocals) := by omega
    simp only [beginInlining, if_neg hfpi2, hgen, Bool.false_eq_true, if_false, hpp,
      if_neg hloc2, hs4]
  · rw [fM.bcStateStack, hb]
  · rw [fM.fpiStack, hf]
  · rw [fM.evalStack, he]
  · rw [fM.stackDeficit, hd]

end HhbcTranslator

namespace HhbcTranslator

/-- The arena after the virtual stack was materialized: the constant deficit
and the new stack pointer were made. -/
theorem spillStack_arena (s : HhbcTranslator) :
    s.spillStack.2.irFactory.tmps.length = s.irFactory.tmps.length + 2 ∧
    IsConst s.spillStack.2 s.irFactory.tmps.length (.int s.stackDeficit) := by
  have hD : Opcode.dstKind .SpillStack ≠ .ND := by decide
  obtain ⟨s1, e1, h1, f1, k1, l1⟩ := cns_ex s (.int s.stackDeficit)
  obtain ⟨s2, e2, h2, f2, l2⟩ := gen_D_ex s1 .SpillStack none .none none
    ([s.tb.sp, some s.irFactory.tmps.length] ++ s.peekSpillValues) hD
  have hs : s.spillStack.2.irFactory = s2.irFactory := by
    simp only [spillStack, emitSpillStack, if_true, e1, e2]
  constructor
  · rw [hs, l2, l1]
    simp
  · have hc : IsConst s1 s.irFactory.tmps.length (.int s.stackDeficit) := by
      have := cns_isConst s (.int s.stackDeficit)
      rw [e1] at this
      exact this
    have := isConst_of_emitted h2 hc
    exact ⟨by rw [hs]; exact this.valid, by rw [hs]; exact this.instValid,
      by rw [hs]; exact this.inst, by rw [hs]; exact this.type⟩

end HhbcTranslator

namespace HhbcTranslator

/-- A pop fails only when it narrows an entry of the virtual stack: a pop that
loads from the real stack always returns. -/
theorem pop_error_iff (s : HhbcTranslator) (t : IRType) :
    (∃ e, s.pop t = .error e) ↔
      ∃ a rest e, s.evalStack = a :: rest ∧ s.refineType a t = .error e := by
  cases hs : s.evalStack with
  | nil =>
    constructor
    · rintro ⟨e, he⟩
      simp only [pop, hs] at he
      cases he
    · rintro ⟨a, rest, e, h, -⟩
      cases h
  | cons a rest =>
    have hrt : ∀ x : HhbcTranslator, x.irFactory = s.irFactory →
        ∀ e, (x.refineType a t = .error e ↔ s.refineType a t = .error e) := by
      intro x hx e
      simp only [refineType, hx]
      cases s.irFactory.refineType a t with
      | error e2 => simp
      | ok f => simp
    constructor
    · rintro ⟨e, he⟩
      simp only [pop, hs] at he
      cases hr : ({ s with evalStack := rest } : HhbcTranslator).refineType a t with
      | error e2 =>
        exact ⟨a, rest, e2, rfl,
          (hrt ({ s with evalStack := rest } : HhbcTranslator) rfl e2).mp hr⟩
      | ok s1 =>
        rw [hr] at he
        cases he
    · rintro ⟨a2, rest2, e, h, he⟩
      cases h
      have hr := (hrt ({ s with evalStack := rest } : HhbcTranslator) rfl e).mpr he
      exact ⟨e, by simp only [pop, hs, hr]⟩

/-- The loop of argument pops fails exactly when, after some number of
iterations that returned, the next pop fails. -/
theorem popParams_fails_iff (numParams : Nat) :
    ∀ (fuel i : Nat) (params : List SSATmpPtr) (s : HhbcTranslator),
      (∃ e, popParams numParams fuel i params s = .error e) ↔
        ∃ k p sk e, k < fuel ∧ popParams numParams k i params s = .ok (p, sk) ∧
          sk.popF = .error e := by
  intro fuel
  induction fuel with
  | zero =>
    intro i params s
    constructor
    · rintro ⟨e, he⟩
      simp only [popParams] at he
      cases he
    · rintro ⟨k, p, sk, e, hk, -, -⟩
      exact absurd hk (Nat.not_lt_zero k)
  | succ n ih =>
    intro i params s
    cases hpop : s.popF with
    | error e0 =>
      constructor
      · intro _
        exact ⟨0, params, s, e0, Nat.succ_pos n, rfl, hpop⟩
      · intro _
        exact ⟨e0, by simp only [popParams, hpop]⟩
    | ok r =>
      have hstep : ∀ m, popParams numParams (m + 1) i params s =
          popParams numParams m (i + 1) (params.set (numParams - i - 1) r.1) r.2 := by
        intro m
        simp only [popParams, hpop]
      rw [hstep]
      constructor
      · intro h
        obtain ⟨k, p, sk, e, hk, hp, he⟩ := (ih _ _ _).mp h
        exact ⟨k + 1, p, sk, e, Nat.succ_lt_succ hk, by rw [hstep]; exact hp, he⟩
      · rintro ⟨k, p, sk, e, hk, hp, he⟩
        cases k with
        | zero =>
          simp only [popParams, Except.ok.injEq, Prod.mk.injEq] at hp
          obtain ⟨-, hsk⟩ := hp
          subst hsk
          rw [hpop] at he
          cases he
        | succ k =>
          rw [hstep] at hp
          exact (ih _ _ _).mpr ⟨k, p, sk, e, Nat.lt_of_succ_lt_succ hk, hp, he⟩

end HhbcTranslator

/-- C12 (amended): `beginInlining` fails exactly when the callee has more
locals than `numParams`, or the call-preparation stack is empty, or the callee
is a generator, or one of the `numParams` argument pops fails: after `k <
numParams` iterations of the loop of lines 223-226 the next pop takes an entry
from the virtual stack whose narrowing to `Gen` fails in `refineType`.
Whenever it returns, the callee has no local that is not a parameter. -/
theorem beginInlining_fails_exactly_when (s : HhbcTranslator) (statsEnabled : Bool)
    (numParams : Nat) (target : Func) (returnBcOffset : Offset) :
    ((∃ e, s.beginInlining statsEnabled numParams target returnBcOffset = .error e) ↔
      (numParams < target.numLocals ∨ s.fpiStack = [] ∨ target.isGenerator = true ∨
        ∃ k p sk a rest e, k < numParams ∧
          HhbcTranslator.popParams numParams k 0 (List.replicate numParams none) s =
            .ok (p, sk) ∧
          sk.evalStack = a :: rest ∧ sk.refineType a IRType.Gen = .error e)) ∧
    (∀ s1, s.beginInlining statsEnabled numParams target returnBcOffset = .ok s1 →
      target.numLocals ≤ numParams) := by
  have hfour : (∃ e, HhbcTranslator.popParams numParams numParams 0
        (List.replicate numParams none) s = .error e) ↔
      ∃ k p sk a rest e, k < numParams ∧
        HhbcTranslator.popParams numParams k 0 (List.replicate numParams none) s =
          .ok (p, sk) ∧
        sk.evalStack = a :: rest ∧ sk.refineType a IRType.Gen = .error e := by
    rw [HhbcTranslator.popParams_fails_iff]
    constructor
    · rintro ⟨k, p, sk, e, hk, hp, he⟩
      obtain ⟨a, rest, e2, hs, hr⟩ := (HhbcTranslator.pop_error_iff sk IRType.Gen).mp ⟨e, he⟩
      exact ⟨k, p, sk, a, rest, e2, hk, hp, hs, hr⟩
    · rintro ⟨k, p, sk, a, rest, e, hk, hp, hs, hr⟩
      obtain ⟨e2, he2⟩ := (HhbcTranslator.pop_error_iff sk IRType.Gen).mpr ⟨a, rest, e, hs, hr⟩
      exact ⟨k, p, sk, e2, hk, hp, he2⟩
  constructor
  · by_cases hfpi : s.fpiStack = []
    · simp only [HhbcTranslator.beginInlining, if_pos hfpi, hfpi, true_or, or_true, iff_true]
      exact ⟨_, rfl⟩
    · by_cases hgen : target.isGenerator = true
      · simp only [HhbcTranslator.beginInlining, if_neg hfpi, if_pos hgen, hgen, true_or,
          or_true, iff_true]
        exact ⟨_, rfl⟩
      · cases hp : HhbcTranslator.popParams numParams numParams 0
            (List.replicate numParams none) s with
        | error e0 =>
          have h4 := hfour.mp ⟨e0, hp⟩
          constructor
          · intro _
            exact Or.inr (Or.inr (Or.inr h4))
          · intro _
            exact ⟨e0, by simp only [HhbcTranslator.beginInlining, if_neg hfpi, if_neg hgen, hp]⟩
        | ok p =>
          have hno : ¬ ∃ k p sk a rest e, k < numParams ∧
              HhbcTranslator.popParams numParams k 0 (List.replicate numParams none) s =
                .ok (p, sk) ∧
              sk.evalStack = a :: rest ∧ sk.refineType a IRType.Gen = .error e := by
            intro h
            obtain ⟨e, he⟩ := hfour.mpr h
            rw [hp] at he
            cases he
          by_cases hloc : numParams < target.numLocals
          · constructor
            · intro _
              exact Or.inl hloc
            · intro _
              exact ⟨.assertion, by
                simp only [HhbcTranslator.beginInlining, if_neg hfpi, if_neg hgen, hp,
                  if_pos hloc]⟩
          · have hbeg : s.beginInlining statsEnabled numParams target returnBcOffset =
                .ok (p.2.inlineFrame p.1 statsEnabled numParams target
                  returnBcOffset).emitMarker := by
              simp only [HhbcTranslator.beginInlining, if_neg hfpi, if_neg hgen, hp,
                if_neg hloc]
            constructor
            · rintro ⟨e, he⟩
              rw [hbeg] at he
              cases he
            · rintro (h | h | h | h)
              · exact absurd h hloc
              · exact absurd h hfpi
              · exact absurd h hgen
              · exact absurd h hno
  · intro s1 h
    exact (HhbcTranslator.beginInlining_frame s s1 statsEnabled numParams target
      returnBcOffset h).2.2.1

/-- C12, counterexample: the call-preparation stack holds an entry, the callee
is no generator and has no local beyond its two parameters, and yet
`beginInlining` aborts.  The top of the virtual stack was asserted to be of
type `Gen|Cls` (`assertTypeStack`, lines 2467-2477), so that the first argument
pop has to narrow the result of an `AssertType` to `Gen`, which `refineType`
refuses (lines 108-110). -/
theorem beginInlining_fails_counterexample :
    ∃ s, sessionCall.assertTypeStack 0 genericType = .ok s ∧
      ¬ (2 < sampleCallee.numLocals) ∧ s.fpiStack ≠ [] ∧ sampleCallee.isGenerator = false ∧
      s.evalStack = [4, 2] ∧
      (s.irFactory.inst (s.irFactory.instOf 4)).op = .AssertType ∧
      s.irFactory.typeOf 4 = genericType ∧
      s.refineType 4 IRType.Gen = .error .assertion ∧
      s.beginInlining false 2 sampleCallee 50 = .error .assertion :=
  ⟨_, rfl, by decide, by decide, rfl, rfl, rfl, rfl, rfl, rfl⟩

theorem beginInlining_fails_exactly_when_witness :
    (1 < sampleCalleeExtraLocal.numLocals) ∧
    (∃ e, sessionCall.beginInlining false 1 sampleCalleeExtraLocal 50 = .error e) ∧
    (∀ s1, sessionCall.beginInlining false 1 sampleCalleeExtraLocal 50 = .ok s1 →
      sampleCalleeExtraLocal.numLocals ≤ 1) :=
  ⟨by decide,
    (beginInlining_fails_exactly_when sessionCall false 1 sampleCalleeExtraLocal 50).1.mpr
      (Or.inl (by decide)),
    (beginInlining_fails_exactly_when sessionCall false 1 sampleCalleeExtraLocal 50).2⟩

/-- C11: after a successful `beginInlining` and a callee body that leaves the
frame-state and call-preparation stacks at the depth `beginInlining` left them
and exactly the return value on the virtual stack, `emitRetFromInlined`
returns, and then the frame-state stack has the depth it had before
`beginInlining`, the call-preparation stack is one entry shorter than it was at
`beginInlining`, the deficit is zero and the virtual stack holds exactly the
return value. -/
theorem inlining_balance (s s1 s2 : HhbcTranslator) (statsEnabled : Bool) (numParams : Nat)
    (target : Func) (returnBcOffset : Offset) (t : IRType) (rv : SSATmpId)
    (hbegin : s.beginInlining statsEnabled numParams target returnBcOffset = .ok s1)
    (hbc : s2.bcStateStack.length = s1.bcStateStack.length)
    (hfp : s2.fpiStack.length = s1.fpiStack.length)
    (hstack : s2.evalStack = [rv])
    (hty : t.strictSubtypeOf (s2.irFactory.typeOf rv) = false)
    (hvv : s2.curFunc.mayUseVV = false) (hpm : s2.curFunc.isPseudoMain = false)
    (hsrc : (s2.irFactory.inst (s2.irFactory.instOf rv)).op = .IncRef →
      (s2.irFactory.inst (s2.irFactory.instOf rv)).src 0 ≠ none) :
    ∃ s3, s2.emitRetFromInlined t = .ok s3 ∧
      s3.bcStateStack.length = s.bcStateStack.length ∧
      s3.fpiStack.length + 1 = s.fpiStack.length ∧
      s3.stackDeficit = 0 ∧ s3.evalStack = [rv] := by
  obtain ⟨hfpi, -, -, hb1, hf1, -, -⟩ := HhbcTranslator.beginInlining_frame s s1 statsEnabled
    numParams target returnBcOffset hbegin
  have hpos : 0 < s.fpiStack.length := List.length_pos.mpr hfpi
  have hfpi2 : s2.fpiStack ≠ [] := by
    intro h0
    rw [h0, hf1] at hfp
    simp only [List.length_nil] at hfp
    omega
  obtain ⟨src, hs⟩ := HhbcTranslator.retValSource_ok s2 rv hsrc
  obtain ⟨s3, recs, tail, h1, -, -, -, h5, h6, h7, h8⟩ :=
    HhbcTranslator.emitRetFromInlined_effect s2 t rv hstack hty hvv hpm hfpi2 src hs
  refine ⟨s3, h1, ?_, ?_, h7, h8⟩
  · rw [h5, List.length_dropLast, hbc, hb1]
    simp
  · rw [h6, List.length_dropLast, hfp, hf1]
    omega

theorem inlining_balance_witness :
    sessionCall.beginInlining false 2 sampleCallee 50 = .ok sessionInlined ∧
    sessionInlinedBody.bcStateStack.length = sessionInlined.bcStateStack.length ∧
    sessionInlinedBody.fpiStack.length = sessionInlined.fpiStack.length ∧
    sessionInlinedBody.evalStack = [9] ∧
    ∃ s3, sessionInlinedBody.emitRetFromInlined IRType.Cell = .ok s3 ∧
      s3.bcStateStack.length = sessionCall.bcStateStack.length ∧
      s3.fpiStack.length + 1 = sessionCall.fpiStack.length ∧
      s3.stackDeficit = 0 ∧ s3.evalStack = [9] :=
  ⟨rfl, by decide, by decide, by decide,
    inlining_balance sessionCall sessionInlined sessionInlinedBody false 2 sampleCallee 50
      IRType.Cell 9 rfl (by decide) (by decide) (by decide) (by decide) (by decide) (by decide)
      (by decide)⟩

/-- C14, as stated, fails: in the inlined body that returns the `IncRef`
(value 9) of its just-loaded local 0 (value 8), `emitRetFromInlined` releases
local 0 with its own `DecRefLoc` and emits no `DecRef` of the return value. -/
theorem emitRetFromInlined_local_not_folded_counterexample :
    (sessionInlinedBody.irFactory.inst (sessionInlinedBody.irFactory.instOf 9)).op = .IncRef ∧
    (sessionInlinedBody.irFactory.inst (sessionInlinedBody.irFactory.instOf 9)).src 0 = some 8 ∧
    (sessionInlinedBody.irFactory.inst (sessionInlinedBody.irFactory.instOf 8)).op = .LdLoc ∧
    (sessionInlinedBody.irFactory.inst (sessionInlinedBody.irFactory.instOf 8)).extra =
      .localId 0 ∧
    ∃ s1, sessionInlinedBody.emitRetFromInlined IRType.Cell = .ok s1 ∧
      (s1.traceInsts .main).map (fun i => (i.op, i.extra)) =
        (sessionInlinedBody.traceInsts .main).map (fun i => (i.op, i.extra)) ++
          [(.DecRefLoc, .localId 1), (.DecRefLoc, .localId 0), (.InlineReturn, .none),
           (.ReDefSP, .stackOffset 0), (.Marker, .marker ⟨0, 1, {}⟩)] :=
  ⟨by decide, by decide, by decide, by decide, _, rfl, by decide⟩

/-- C14 (amended): in an inlined return whose return value is the `IncRef` of
a `LdLoc` or of a `LdThis`, the receiver release is folded into a `DecRef` of
the return value exactly when the function may have a receiver and the load is
a `LdThis` (otherwise a function that may have a receiver gets a `DecRefThis`),
and the release of a local is never folded: every local of the callee,
including the one the return value was loaded from, is released by its own
`DecRefLoc`, from the last local to the first.  The inlined return, the
redefinition of the stack pointer and the marker of the caller follow. -/
theorem emitRetFromInlined_release_folding (s : HhbcTranslator) (t : IRType)
    (rv loc : SSATmpId)
    (hstack : s.evalStack = [rv]) (hty : t.strictSubtypeOf (s.irFactory.typeOf rv) = false)
    (hvv : s.curFunc.mayUseVV = false) (hpm : s.curFunc.isPseudoMain = false)
    (hfpi : s.fpiStack ≠ []) (hinl : 1 < s.bcStateStack.length)
    (hop : (s.irFactory.inst (s.irFactory.instOf rv)).op = .IncRef)
    (hsrc : (s.irFactory.inst (s.irFactory.instOf rv)).src 0 = some loc)
    (hloc : (s.irFactory.inst (s.irFactory.instOf loc)).op = .LdLoc ∨
      (s.irFactory.inst (s.irFactory.instOf loc)).op = .LdThis) :
    ∃ s1 tail, s.emitRetFromInlined t = .ok s1 ∧
      tail.map (fun r => r.op) =
        [Opcode.InlineReturn,
         if (s.bcStateStack.dropLast.getLastD default).func.isGenerator = true then
           Opcode.ReDefGeneratorSP else Opcode.ReDefSP,
         Opcode.Marker] ∧
      Emitted s s1
        ((if s.curFunc.mayHaveThis = true then
            (if (s.irFactory.inst (s.irFactory.instOf loc)).op = .LdThis then
              [mkInst .DecRef none .none none [some rv] none]
            else [mkInst .DecRefThis none .none none [s.tb.fp] none])
          else []) ++
          (List.range s.curFunc.numLocals).reverse.map (fun k =>
            mkInst .DecRefLoc (some IRType.Gen) (.localId k) none [s.tb.fp] none) ++
          tail) [] := by
  have hs := HhbcTranslator.retValSource_of_incRef s rv loc hop hsrc hloc
  obtain ⟨s1, recs, tail, h1, h2, h3, h4, -⟩ :=
    HhbcTranslator.emitRetFromInlined_effect s t rv hstack hty hvv hpm hfpi _ hs
  have hin : s.isInlining = true := by simp [HhbcTranslator.isInlining, hinl]
  have hrec := h4 hin
  simp only [ne_eq, reduceCtorEq, not_false_eq_true, true_and] at hrec
  rw [hrec] at h3
  exact ⟨s1, tail, h1, h2, h3⟩

theorem emitRetFromInlined_release_folding_witness :
    sessionInlinedMethodBody.evalStack = [9] ∧
    1 < sessionInlinedMethodBody.bcStateStack.length ∧
    (sessionInlinedMethodBody.irFactory.inst
      (sessionInlinedMethodBody.irFactory.instOf 9)).op = .IncRef ∧
    (sessionInlinedMethodBody.irFactory.inst
      (sessionInlinedMethodBody.irFactory.instOf 8)).op = .LdThis ∧
    sessionInlinedMethodBody.curFunc.mayHaveThis = true ∧
    ∃ s1 tail, sessionInlinedMethodBody.emitRetFromInlined IRType.Cell = .ok s1 ∧
      tail.map (fun r => r.op) = [Opcode.InlineReturn, .ReDefSP, .Marker] ∧
      Emitted sessionInlinedMethodBody s1
        ([mkInst .DecRef none .none none [some 9] none,
          mkInst .DecRefLoc (some IRType.Gen) (.localId 1) none [some 6] none,
          mkInst .DecRefLoc (some IRType.Gen) (.localId 0) none [some 6] none] ++ tail) [] :=
  ⟨by decide, by decide, by decide, by decide, by decide,
    emitRetFromInlined_release_folding sessionInlinedMethodBody IRType.Cell 9 8 (by decide)
      (by decide) (by decide) (by decide) (by decide) (by decide) (by decide) (by decide)
      (by decide)⟩

/-! ## The content of exit traces in general -/

theorem IRFactory.gen_tmps_length (f : IRFactory) (op : Opcode) (tp : Option IRType)
    (extra : ExtraData) (taken : Option TraceRef) (srcs : List SSATmpPtr) :
    (f.gen op tp extra taken srcs).2.tmps.length =
      f.tmps.length + (if op.dstKind = .ND then 0 else 1) := by
  simp only [IRFactory.gen]
  split <;> simp

namespace HhbcTranslator

/-- Emission of any instruction into an auxiliary trace whose content is
known. -/
theorem genFor_content (s : HhbcTranslator) (k : Nat) (recs : List IRInstruction)
    (c : ExitContent s k recs) (op : Opcode) (tp : Option IRType) (extra : ExtraData)
    (taken : Option TraceRef) (srcs : List SSATmpPtr) :
    ∃ s1, s.genFor (.exit k) op tp extra taken srcs =
        ((if op.dstKind = .ND then none else some s.irFactory.tmps.length), s1) ∧
      ExitContent s1 k (recs ++ [mkInst op tp extra taken srcs
        (if op.dstKind = .ND then none else some s.irFactory.tmps.length)]) ∧
      SameFrame s s1 ∧ SameTracked s s1 ∧
      (∃ more, s1.irFactory.insts = s.irFactory.insts ++ more) ∧
      (∃ more, s1.irFactory.tmps = s.irFactory.tmps ++ more) ∧
      s1.irFactory.tmps.length =
        s.irFactory.tmps.length + (if op.dstKind = .ND then 0 else 1) := by
  have hins : (s.genFor (.exit k) op tp extra taken srcs).2.irFactory.insts =
      s.irFactory.insts ++ [mkInst op tp extra taken srcs
        (if op.dstKind = .ND then none else some s.irFactory.tmps.length)] := by
    simp only [genFor, IRFactory.gen_insts_eq]
  have hget : ((s.genFor (.exit k) op tp extra taken srcs).2.tb.exitTraces.getD k {}) =
      (s.tb.exitTraces.getD k {}).pushBack s.irFactory.insts.length := by
    have hk2 := c.inRange
    simp only [genFor, TraceBuilder.pushBackOn, IRFactory.gen_fst, List.getD_eq_getElem?_getD,
      List.getElem?_modify_eq, List.getElem?_eq_getElem hk2, Option.map_eq_map, Option.map_some',
      Option.getD_some]
  refine ⟨(s.genFor (.exit k) op tp extra taken srcs).2, Prod.ext ?_ rfl, ⟨?_, ?_, ?_⟩,
    ⟨rfl, rfl, rfl, rfl, rfl, rfl, rfl⟩, ⟨rfl, rfl, rfl⟩, ⟨_, hins⟩,
    IRFactory.gen_tmps _ _ _ _ _ _, IRFactory.gen_tmps_length _ _ _ _ _ _⟩
  · simp only [genFor, IRFactory.gen_fst, IRFactory.gen_inst_new]
  · simp only [genFor, TraceBuilder.pushBackOn, List.length_modify]
    exact c.inRange
  · simp only [traceInsts, hget, IRTrace.instructions, IRTrace.pushBack, pushBackBlocks_flatten,
      List.map_append, List.map_cons, List.map_nil]
    congr 1
    · rw [← c.insts]
      simp only [traceInsts, IRTrace.instructions]
      apply List.map_congr_left
      intro i hi
      exact IRFactory.inst_append_left _ _ _ hins i (c.valid i hi)
    · simp only [genFor, IRFactory.gen_inst_new]
  · intro i hi
    rw [hget] at hi
    simp only [IRTrace.instructions, IRTrace.pushBack, pushBackBlocks_flatten,
      List.mem_append, List.mem_singleton] at hi
    rw [hins, List.length_append, List.length_singleton]
    rcases hi with h | h
    · exact Nat.lt_succ_of_lt (c.valid i h)
    · subst h
      exact Nat.lt_succ_self _

/-- A constant made while an auxiliary trace is built leaves the trace as it
is. -/
theorem cns_content (s : HhbcTranslator) (k : Nat) (recs : List IRInstruction)
    (c : ExitContent s k recs) (cv : ConstVal) :
    ∃ s1, s.cns cv = (some s.irFactory.tmps.length, s1) ∧ ExitContent s1 k recs ∧
      SameFrame s s1 ∧ SameTracked s s1 ∧ IsConst s1 s.irFactory.tmps.length cv ∧
      (∃ more, s1.irFactory.insts = s.irFactory.insts ++ more) ∧
      (∃ more, s1.irFactory.tmps = s.irFactory.tmps ++ more) ∧
      s1.irFactory.tmps.length = s.irFactory.tmps.length + 1 := by
  refine ⟨(s.cns cv).2, Prod.ext (cns_fst s cv) rfl,
    exitContent_of_emitted (cns_emitted s cv) c, cns_sameFrame s cv, cns_sameTracked s cv,
    cns_isConst s cv, (cns_emitted s cv).insts, (cns_emitted s cv).tmps, ?_⟩
  simp [cns_irFactory]

/-- A constant stays the constant it is while the arena grows. -/
theorem isConst_of_append {s s1 : HhbcTranslator} {v : SSATmpId} {c : ConstVal}
    (hi : ∃ more, s1.irFactory.insts = s.irFactory.insts ++ more)
    (ht : ∃ more, s1.irFactory.tmps = s.irFactory.tmps ++ more) (k : IsConst s v c) :
    IsConst s1 v c := by
  obtain ⟨mi, hmi⟩ := hi
  obtain ⟨mt, hmt⟩ := ht
  have h1 : s1.irFactory.instOf v = s.irFactory.instOf v :=
    IRFactory.instOf_append_left _ _ mt hmt v k.valid
  refine ⟨?_, ?_, ?_, ?_⟩
  · rw [hmt, List.length_append]
    exact Nat.lt_of_lt_of_le k.valid (Nat.le_add_right _ _)
  · rw [h1, hmi, List.length_append]
    exact Nat.lt_of_lt_of_le k.instValid (Nat.le_add_right _ _)
  · rw [h1, IRFactory.inst_append_left _ _ mi hmi _ k.instValid]
    exact k.inst
  · rw [IRFactory.typeOf_append_left _ _ mt hmt v k.valid]
    exact k.type

/-- Step 2 of an exit trace (lines 3387-3395): the spill is emitted exactly
when the deficit is not zero or there is a value to spill. -/
theorem exitSpill_content (s : HhbcTranslator) (k : Nat) (recs : List IRInstruction)
    (c : ExitContent s k recs) (vals : List SSATmpPtr) :
    ∃ s1 vec, s.exitSpill (.exit k) vals =
        (((if s.stackDeficit ≠ 0 ∨ vals ≠ [] then some (s.irFactory.tmps.length + 1)
           else s.tb.sp), vec), s1) ∧
      ExitContent s1 k (recs ++
        (if s.stackDeficit ≠ 0 ∨ vals ≠ [] then
          [mkInst .SpillStack none .none none
            (s.tb.sp :: some s.irFactory.tmps.length :: vals)
            (some (s.irFactory.tmps.length + 1))]
        else [])) ∧
      SameFrame s s1 ∧ SameTracked s s1 ∧
      (s.stackDeficit ≠ 0 ∨ vals ≠ [] →
        IsConst s1 s.irFactory.tmps.length (.int s.stackDeficit)) ∧
      (∃ more, s1.irFactory.insts = s.irFactory.insts ++ more) ∧
      (∃ more, s1.irFactory.tmps = s.irFactory.tmps ++ more) := by
  by_cases hc : s.stackDeficit ≠ 0 ∨ vals ≠ []
  · obtain ⟨s1, e1, c1, f1, t1, k1, i1, m1, l1⟩ := cns_content s k recs c (.int s.stackDeficit)
    have hD : Opcode.dstKind .SpillStack ≠ .ND := by decide
    obtain ⟨s2, e2, c2, f2, t2, i2, m2, l2⟩ := genFor_content s1 k recs c1 .SpillStack none .none
      none (s.tb.sp :: some s.irFactory.tmps.length :: vals)
    simp only [if_neg hD, l1] at e2 c2
    refine ⟨s2, s.tb.sp :: some s.irFactory.tmps.length :: vals, ?_, ?_,
      sameFrame_trans f1 f2, sameTracked_trans t1 t2, fun _ => isConst_of_append i2 m2 k1, ?_, ?_⟩
    · simp only [exitSpill, if_pos hc, e1, e2]
    · simpa only [if_pos hc] using c2
    · obtain ⟨a, ha⟩ := i1
      obtain ⟨b, hb⟩ := i2
      exact ⟨a ++ b, by rw [hb, ha, List.append_assoc]⟩
    · obtain ⟨a, ha⟩ := m1
      obtain ⟨b, hb⟩ := m2
      exact ⟨a ++ b, by rw [hb, ha, List.append_assoc]⟩
  · refine ⟨s, vals, ?_, ?_, sameFrame_refl s, sameTracked_refl s, fun h => absurd h hc,
      ⟨[], by simp⟩, ⟨[], by simp⟩⟩
    · simp only [exitSpill, if_neg hc]
    · simpa only [if_neg hc, List.append_nil] using c

/-- Lines 3409-3429: the delayed marker, the register sync and the request,
for every exit flag. -/
theorem exitFinish_content_all (s : HhbcTranslator) (k : Nat) (recs : List IRInstruction)
    (c : ExitContent s k recs) (off : Offset) (flag : ExitFlag) (m : MarkerData)
    (stack : SSATmpPtr) :
    ExitContent (s.exitFinish (.exit k) off flag m stack) k
      (recs ++ (if flag = .DelayedMarker then [markerInst m] else []) ++
        [mkInst .SyncABIRegs none .none none [s.tb.fp, stack] none,
         if flag = .NoIR then
           mkInst (if off = s.startBcOff then .ReqRetranslateNoIR else .ReqBindJmpNoIR) none
             (.bcOffset off) none [] none
         else if s.bcOff = s.startBcOff ∧ off = s.startBcOff then
           mkInst .ReqRetranslate none .none none [] none
         else mkInst .ReqBindJmp none (.bcOffset off) none [] none]) ∧
    SameFrame s (s.exitFinish (.exit k) off flag m stack) ∧
    SameTracked s (s.exitFinish (.exit k) off flag m stack) ∧
    (∃ more, (s.exitFinish (.exit k) off flag m stack).irFactory.insts =
      s.irFactory.insts ++ more) ∧
    (s.exitFinish (.exit k) off flag m stack).irFactory.tmps = s.irFactory.tmps := by
  have hS : Opcode.dstKind .SyncABIRegs = .ND := rfl
  have hR : Opcode.dstKind .ReqRetranslate = .ND := rfl
  have hB : Opcode.dstKind .ReqBindJmp = .ND := rfl
  have hRN : Opcode.dstKind .ReqRetranslateNoIR = .ND := rfl
  have hBN : Opcode.dstKind .ReqBindJmpNoIR = .ND := rfl
  have hM : Opcode.dstKind .Marker = .ND := rfl
  have hND : ∀ (x : HhbcTranslator) (op : Opcode) (tp : Option IRType) (extra : ExtraData)
      (taken : Option TraceRef) (srcs : List SSATmpPtr), op.dstKind = .ND →
      (x.genFor (.exit k) op tp extra taken srcs).2.irFactory.tmps = x.irFactory.tmps := by
    intro x op tp extra taken srcs h
    simp [genFor, IRFactory.gen, h]
  have hI : ∀ (x : HhbcTranslator) (op : Opcode) (tp : Option IRType) (extra : ExtraData)
      (taken : Option TraceRef) (srcs : List SSATmpPtr),
      ∃ more, (x.genFor (.exit k) op tp extra taken srcs).2.irFactory.insts =
        x.irFactory.insts ++ more := fun x op tp extra taken srcs =>
    IRFactory.gen_insts _ _ _ _ _ _
  -- the optional delayed marker
  obtain ⟨s1, hs1, c1, f1, t1, i1, m1⟩ : ∃ s1,
      s1 = (if flag = .DelayedMarker
        then (s.genFor (.exit k) .Marker none (.marker m) none []).2 else s) ∧
      ExitContent s1 k (recs ++ (if flag = .DelayedMarker then [markerInst m] else [])) ∧
      SameFrame s s1 ∧ SameTracked s s1 ∧
      (∃ more, s1.irFactory.insts = s.irFactory.insts ++ more) ∧
      s1.irFactory.tmps = s.irFactory.tmps := by
    by_cases hf : flag = .DelayedMarker
    · obtain ⟨x, ex, cx, fx, tx⟩ := genFor_ND_content s k recs c .Marker none (.marker m) none
        [] hM
      have hx : x = (s.genFor (.exit k) .Marker none (.marker m) none []).2 := by rw [ex]
      refine ⟨x, by rw [if_pos hf, hx], by simpa only [if_pos hf] using cx, fx, tx, ?_, ?_⟩
      · rw [hx]; exact hI _ _ _ _ _ _
      · rw [hx]; exact hND _ _ _ _ _ _ hM
    · exact ⟨s, by rw [if_neg hf], by simpa only [if_neg hf, List.append_nil] using c,
        sameFrame_refl s, sameTracked_refl s, ⟨[], by simp⟩, rfl⟩
  obtain ⟨s2, e2, c2, f2, t2⟩ := genFor_ND_content s1 k _ c1 .SyncABIRegs none .none none
    [s1.tb.fp, stack] hS
  have hs2 : s2 = (s1.genFor (.exit k) .SyncABIRegs none .none none [s1.tb.fp, stack]).2 := by
    rw [e2]
  have i2 : ∃ more, s2.irFactory.insts = s.irFactory.insts ++ more := by
    obtain ⟨a, ha⟩ := i1
    obtain ⟨b, hb⟩ := hI s1 .SyncABIRegs none .none none [s1.tb.fp, stack]
    exact ⟨a ++ b, by rw [hs2, hb, ha, List.append_assoc]⟩
  have m2 : s2.irFactory.tmps = s.irFactory.tmps := by
    rw [hs2, hND _ _ _ _ _ _ hS, m1]
  have hfp : s1.tb.fp = s.tb.fp := t1.fpValue
  have hbc : s2.bcOff = s.bcOff := by
    simp only [bcOff, f2.bcStateStack, f1.bcStateStack]
  have hst : s2.startBcOff = s.startBcOff := f2.startBcOff.trans f1.startBcOff
  have fin : ∀ (op : Opcode) (extra : ExtraData), op.dstKind = .ND →
      ExitContent (s2.genFor (.exit k) op none extra none []).2 k
        (recs ++ (if flag = .DelayedMarker then [markerInst m] else []) ++
          [mkInst .SyncABIRegs none .none none [s.tb.fp, stack] none,
           mkInst op none extra none [] none]) ∧
      SameFrame s (s2.genFor (.exit k) op none extra none []).2 ∧
      SameTracked s (s2.genFor (.exit k) op none extra none []).2 ∧
      (∃ more, (s2.genFor (.exit k) op none extra none []).2.irFactory.insts =
        s.irFactory.insts ++ more) ∧
      (s2.genFor (.exit k) op none extra none []).2.irFactory.tmps = s.irFactory.tmps := by
    intro op extra h
    obtain ⟨s3, e3, c3, f3, t3⟩ := genFor_ND_content s2 k _ c2 op none extra none [] h
    have hs3 : s3 = (s2.genFor (.exit k) op none extra none []).2 := by rw [e3]
    rw [← hs3]
    refine ⟨?_, sameFrame_trans f1 (sameFrame_trans f2 f3),
      sameTracked_trans t1 (sameTracked_trans t2 t3), ?_, ?_⟩
    · rw [hfp] at c3
      simpa only [List.append_assoc, List.singleton_append] using c3
    · obtain ⟨a, ha⟩ := i2
      obtain ⟨b, hb⟩ := hI s2 op none extra none []
      exact ⟨a ++ b, by rw [hs3, hb, ha, List.append_assoc]⟩
    · rw [hs3, hND _ _ _ _ _ _ h, m2]
  have hunf : s.exitFinish (.exit k) off flag m stack =
      (if flag = .NoIR then
        (s2.genFor (.exit k)
          (if off = s2.startBcOff then .ReqRetranslateNoIR else .ReqBindJmpNoIR)
          none (.bcOffset off) none []).2
      else if s2.bcOff = s2.startBcOff ∧ off = s2.startBcOff then
        (s2.genFor (.exit k) .ReqRetranslate none .none none []).2
      else (s2.genFor (.exit k) .ReqBindJmp none (.bcOffset off) none []).2) := by
    simp only [exitFinish, ← hs1, ← hs2]
  rw [hunf, hbc, hst]
  by_cases hn : flag = .NoIR
  · simp only [if_pos hn]
    by_cases ho : off = s.startBcOff
    · simp only [if_pos ho]
      exact fin .ReqRetranslateNoIR (.bcOffset off) hRN
    · simp only [if_neg ho]
      exact fin .ReqBindJmpNoIR (.bcOffset off) hBN
  · simp only [if_neg hn]
    by_cases hb : s.bcOff = s.startBcOff ∧ off = s.startBcOff
    · simp only [if_pos hb]
      exact fin .ReqRetranslate .none hR
    · simp only [if_neg hb]
      exact fin .ReqBindJmp (.bcOffset off) hB

/-- Step 4 of an exit trace (lines 3397-3407) with a closure that appends:
the trace keeps what it holds and receives no request. -/
theorem exitCustom_content (s : HhbcTranslator) (k : Nat) (recs : List IRInstruction)
    (c : ExitContent s k recs) (stack : SSATmpPtr) (customFn : Option CustomExit)
    (hfn : ∀ fn, customFn = some fn → CustomExitAppends fn) :
    ∃ mid, ExitContent (s.exitCustom (.exit k) stack customFn).2 k (recs ++ mid) ∧
      (∀ i ∈ mid, i.op.isRequest = false) ∧
      SameFrame s (s.exitCustom (.exit k) stack customFn).2 ∧
      SameTracked s (s.exitCustom (.exit k) stack customFn).2 ∧
      (customFn = none → mid = [] ∧
        s.exitCustom (.exit k) stack customFn = ((stack, false), s)) ∧
      (∃ grown, (s.exitCustom (.exit k) stack customFn).2.irFactory.insts =
        s.irFactory.insts ++ grown) ∧
      (∃ grown, (s.exitCustom (.exit k) stack customFn).2.irFactory.tmps =
        s.irFactory.tmps ++ grown) := by
  have happ : ∀ {α : Type} {a b c : List α}, (∃ x, b = a ++ x) → (∃ y, c = b ++ y) →
      ∃ z, c = a ++ z := by
    intro α a b c h1 h2
    obtain ⟨x, hx⟩ := h1
    obtain ⟨y, hy⟩ := h2
    exact ⟨x ++ y, by rw [hy, hx, List.append_assoc]⟩
  cases customFn with
  | none =>
    exact ⟨[], by simpa [exitCustom] using c, by simp, sameFrame_refl s, sameTracked_refl s,
      fun _ => ⟨rfl, rfl⟩, ⟨[], by simp [exitCustom]⟩, ⟨[], by simp [exitCustom]⟩⟩
  | some fn =>
    obtain ⟨b, eb, cb, fb, tb, ib, mb, -⟩ := genFor_content s k recs c .ExceptionBarrier none
      .none none [stack]
    obtain ⟨more, cm, hm, fm, tm, im, mm⟩ := hfn fn rfl k b _ cb
    have hE : Opcode.isRequest .ExceptionBarrier = false := rfl
    cases hr : (fn (.exit k) b).1 with
    | none =>
      refine ⟨mkInst .ExceptionBarrier none .none none [stack]
          (if Opcode.dstKind .ExceptionBarrier = .ND then none
            else some s.irFactory.tmps.length) :: more, ?_, ?_, ?_, ?_, ?_, ?_, ?_⟩
      · simp only [exitCustom, eb, hr]
        simpa only [List.append_assoc, List.singleton_append] using cm
      · intro i hi
        rcases List.mem_cons.mp hi with h | h
        · rw [h]; exact hE
        · exact hm i h
      · simp only [exitCustom, eb, hr]
        exact sameFrame_trans fb fm
      · simp only [exitCustom, eb, hr]
        exact sameTracked_trans tb tm
      · intro h; cases h
      · simp only [exitCustom, eb, hr]
        exact happ ib im
      · simp only [exitCustom, eb, hr]
        exact happ mb mm
    | some customTmp =>
      obtain ⟨z, ez, cz, fz, tz, -, iz, mz, -⟩ := cns_content (fn (.exit k) b).2 k _ cm (.int 0)
      obtain ⟨g, eg, cg, fg, tg, ig, mg, -⟩ := genFor_content z k _ cz .SpillStack none .none none
        [(if Opcode.dstKind .ExceptionBarrier = .ND then none
            else some s.irFactory.tmps.length),
          some (fn (.exit k) b).2.irFactory.tmps.length, some customTmp]
      refine ⟨mkInst .ExceptionBarrier none .none none [stack]
          (if Opcode.dstKind .ExceptionBarrier = .ND then none
            else some s.irFactory.tmps.length) :: (more ++
          [mkInst .SpillStack none .none none
            [(if Opcode.dstKind .ExceptionBarrier = .ND then none
                else some s.irFactory.tmps.length),
              some (fn (.exit k) b).2.irFactory.tmps.length, some customTmp]
            (if Opcode.dstKind .SpillStack = .ND then none
              else some z.irFactory.tmps.length)]), ?_, ?_, ?_, ?_, ?_, ?_, ?_⟩
      · simp only [exitCustom, eb, hr, ez, eg]
        simpa only [List.append_assoc, List.singleton_append, List.cons_append] using cg
      · intro i hi
        rcases List.mem_cons.mp hi with h | h
        · rw [h]; exact hE
        · rcases List.mem_append.mp h with h | h
          · exact hm i h
          · rw [List.mem_singleton.mp h]; rfl
      · simp only [exitCustom, eb, hr, ez, eg]
        exact sameFrame_trans fb (sameFrame_trans fm (sameFrame_trans fz fg))
      · simp only [exitCustom, eb, hr, ez, eg]
        exact sameTracked_trans tb (sameTracked_trans tm (sameTracked_trans tz tg))
      · intro h; cases h
      · simp only [exitCustom, eb, hr, ez, eg]
        exact happ ib (happ im (happ iz ig))
      · simp only [exitCustom, eb, hr, ez, eg]
        exact happ mb (happ mm (happ mz mg))

/-- Lines 3382-3430: what follows the first marker of an exit trace. -/
theorem exitTail_content (s : HhbcTranslator) (k : Nat) (recs : List IRInstruction)
    (c : ExitContent s k recs) (off : Offset) (flag : ExitFlag) (m : MarkerData)
    (vals : List SSATmpPtr) (customFn : Option CustomExit)
    (hfn : ∀ fn, customFn = some fn → CustomExitAppends fn) :
    ∃ mid m2 stack,
      ExitContent (s.exitTail (.exit k) off flag m vals customFn).2 k
        (recs ++
          (if s.stackDeficit ≠ 0 ∨ vals ≠ [] then
            [mkInst .SpillStack none .none none
              (s.tb.sp :: some s.irFactory.tmps.length :: vals)
              (some (s.irFactory.tmps.length + 1))]
          else []) ++ mid ++ (if flag = .DelayedMarker then [markerInst m2] else []) ++
          [mkInst .SyncABIRegs none .none none [s.tb.fp, stack] none,
           if flag = .NoIR then
             mkInst (if off = s.startBcOff then .ReqRetranslateNoIR else .ReqBindJmpNoIR) none
               (.bcOffset off) none [] none
           else if s.bcOff = s.startBcOff ∧ off = s.startBcOff then
             mkInst .ReqRetranslate none .none none [] none
           else mkInst .ReqBindJmp none (.bcOffset off) none [] none]) ∧
      (∀ i ∈ mid, i.op.isRequest = false) ∧
      m2.bcOff = m.bcOff ∧ m2.func = m.func ∧
      (customFn = none → mid = [] ∧ m2 = m ∧
        stack = (if s.stackDeficit ≠ 0 ∨ vals ≠ [] then some (s.irFactory.tmps.length + 1)
          else s.tb.sp)) ∧
      (s.stackDeficit ≠ 0 ∨ vals ≠ [] →
        IsConst (s.exitTail (.exit k) off flag m vals customFn).2 s.irFactory.tmps.length
          (.int s.stackDeficit)) ∧
      SameFrame s (s.exitTail (.exit k) off flag m vals customFn).2 ∧
      SameTracked s (s.exitTail (.exit k) off flag m vals customFn).2 ∧
      (s.exitTail (.exit k) off flag m vals customFn).1.1 = .exit k := by
  obtain ⟨s1, vec, e1, c1, f1, t1, k1, i1, m1⟩ := exitSpill_content s k recs c vals
  obtain ⟨mid, cm, hm, fm, tm, hnone, icu, mcu⟩ := exitCustom_content s1 k _ c1
    (if s.stackDeficit ≠ 0 ∨ vals ≠ [] then some (s.irFactory.tmps.length + 1) else s.tb.sp)
    customFn hfn
  obtain ⟨cu, hcu⟩ : ∃ cu, cu = s1.exitCustom (.exit k)
    (if s.stackDeficit ≠ 0 ∨ vals ≠ [] then some (s.irFactory.tmps.length + 1) else s.tb.sp)
    customFn := ⟨_, rfl⟩
  rw [← hcu] at cm fm tm hnone icu mcu
  obtain ⟨m2, hm2⟩ : ∃ m2 : MarkerData, m2 =
      (if cu.1.2 = true then { m with stackOff := toInt32 (m.stackOff + 1) } else m) :=
    ⟨_, rfl⟩
  obtain ⟨cf, ff, tf, jf, mf⟩ := exitFinish_content_all cu.2 k _ cm off flag m2 cu.1.1
  have hunf : s.exitTail (.exit k) off flag m vals customFn =
      ((.exit k, vec), cu.2.exitFinish (.exit k) off flag m2 cu.1.1) := by
    simp only [exitTail, e1, ← hcu, ← hm2]
  have hfp : cu.2.tb.fp = s.tb.fp := tm.fpValue.trans t1.fpValue
  have hbc : cu.2.bcOff = s.bcOff := by
    simp only [bcOff, fm.bcStateStack, f1.bcStateStack]
  have hst : cu.2.startBcOff = s.startBcOff := fm.startBcOff.trans f1.startBcOff
  rw [hfp, hbc, hst] at cf
  rw [hunf]
  refine ⟨mid, m2, cu.1.1, cf, hm, ?_, ?_, ?_, ?_,
    sameFrame_trans f1 (sameFrame_trans fm ff), sameTracked_trans t1 (sameTracked_trans tm tf),
    rfl⟩
  · rw [hm2]; split <;> rfl
  · rw [hm2]; split <;> rfl
  · intro h
    obtain ⟨h1, h2⟩ := hnone h
    refine ⟨h1, ?_, ?_⟩
    · rw [hm2, h2]; simp
    · rw [h2]
  · intro hc
    refine isConst_of_append ?_ ?_ (k1 hc)
    · obtain ⟨x, hx⟩ := icu
      obtain ⟨y, hy⟩ := jf
      exact ⟨x ++ y, by rw [hy, hx, List.append_assoc]⟩
    · obtain ⟨x, hx⟩ := mcu
      exact ⟨x, by rw [mf, hx]⟩

/-- The content of the exit trace `getExitTraceImpl` builds (lines 3361-3430),
for every exit flag and every closure that appends. -/
theorem getExitTraceImpl_content (s : HhbcTranslator) (off : Offset) (flag : ExitFlag)
    (vals : List SSATmpPtr) (customFn : Option CustomExit)
    (hfn : ∀ fn, customFn = some fn → CustomExitAppends fn) :
    ∃ mid m2 stack,
      ExitContent (s.getExitTraceImpl off flag vals customFn).2 s.tb.exitTraces.length
        (markerInst (if flag = .DelayedMarker
            then ⟨s.bcOff, toInt32 (s.tb.spOffset + s.numCells - s.stackDeficit), s.curFunc⟩
            else ⟨off, toInt32 (s.tb.spOffset + vals.length - s.stackDeficit), s.curFunc⟩) ::
          ((if s.stackDeficit ≠ 0 ∨ vals ≠ [] then
            [mkInst .SpillStack none .none none
              (s.tb.sp :: some s.irFactory.tmps.length :: vals)
              (some (s.irFactory.tmps.length + 1))]
          else []) ++ mid ++ (if flag = .DelayedMarker then [markerInst m2] else []) ++
          [mkInst .SyncABIRegs none .none none [s.tb.fp, stack] none,
           if flag = .NoIR then
             mkInst (if off = s.startBcOff then .ReqRetranslateNoIR else .ReqBindJmpNoIR) none
               (.bcOffset off) none [] none
           else if s.bcOff = s.startBcOff ∧ off = s.startBcOff then
             mkInst .ReqRetranslate none .none none [] none
           else mkInst .ReqBindJmp none (.bcOffset off) none [] none])) ∧
      (∀ i ∈ mid, i.op.isRequest = false) ∧
      m2.bcOff = off ∧ m2.func = s.curFunc ∧
      (customFn = none → mid = [] ∧
        m2 = ⟨off, toInt32 (s.tb.spOffset + vals.length - s.stackDeficit), s.curFunc⟩ ∧
        stack = (if s.stackDeficit ≠ 0 ∨ vals ≠ [] then some (s.irFactory.tmps.length + 1)
          else s.tb.sp)) ∧
      (s.stackDeficit ≠ 0 ∨ vals ≠ [] →
        IsConst (s.getExitTraceImpl off flag vals customFn).2 s.irFactory.tmps.length
          (.int s.stackDeficit)) ∧
      SameFrame s (s.getExitTraceImpl off flag vals customFn).2 ∧
      SameTracked s (s.getExitTraceImpl off flag vals customFn).2 ∧
      (s.getExitTraceImpl off flag vals customFn).1.1 = .exit s.tb.exitTraces.length := by
  have hM : Opcode.dstKind .Marker = .ND := rfl
  obtain ⟨m0, hm0⟩ : ∃ m0 : MarkerData, m0 = (if flag = .DelayedMarker
      then ⟨s.bcOff, toInt32 (s.tb.spOffset + s.numCells - s.stackDeficit), s.curFunc⟩
      else ⟨off, toInt32 (s.tb.spOffset + vals.length - s.stackDeficit), s.curFunc⟩) :=
    ⟨_, rfl⟩
  obtain ⟨s1, e1, c1, f1, t1, -, l1, -⟩ := genFor_content _ _ _ (makeExitTrace_content s off)
    .Marker none (.marker m0) none []
  simp only [if_pos hM] at e1 c1
  have hs1 : s1 = (({ s with tb := (s.tb.makeExitTrace off).2 } : HhbcTranslator).genFor
      (.exit s.tb.exitTraces.length) .Marker none (.marker m0) none []).2 := by rw [e1]
  have f0 : SameFrame s s1 := ⟨f1.evalStack, f1.stackDeficit, f1.bcStateStack, f1.fpiStack,
    f1.startBcOff, f1.lastBcOff, f1.hasExit⟩
  have t0 : SameTracked s s1 := ⟨t1.spValue, t1.fpValue, t1.spOffset⟩
  have hl : s1.irFactory.tmps.length = s.irFactory.tmps.length := by
    obtain ⟨more, hmore⟩ := l1
    have h2 : s1.irFactory.tmps = s.irFactory.tmps := by
      rw [hs1]; simp [genFor, IRFactory.gen, hM]
    rw [h2]
  obtain ⟨mid, m2, stack, ct, hmid, hb, hf, hnone, hk, ft, tt, et⟩ := exitTail_content s1 _ _ c1 off
    flag ⟨off, toInt32 (s.tb.spOffset + vals.length - s.stackDeficit), s.curFunc⟩ vals customFn
    hfn
  have hunf : s.getExitTraceImpl off flag vals customFn =
      s1.exitTail (.exit s.tb.exitTraces.length) off flag
        ⟨off, toInt32 (s.tb.spOffset + vals.length - s.stackDeficit), s.curFunc⟩ vals
        customFn := by
    rw [hs1, hm0]
    rfl
  have hbc : s1.bcOff = s.bcOff := by simp only [bcOff, f0.bcStateStack]
  have hsp : s1.tb.sp = s.tb.sp := t0.spValue
  have hfp : s1.tb.fp = s.tb.fp := t0.fpValue
  rw [f0.stackDeficit, hl, hbc, f0.startBcOff, hsp, hfp] at ct
  rw [f0.stackDeficit, hl, hsp] at hnone
  rw [f0.stackDeficit, hl] at hk
  rw [hunf]
  refine ⟨mid, m2, stack, ?_, hmid, hb, hf, hnone, hk, sameFrame_trans f0 ft,
    sameTracked_trans t0 tt, et⟩
  rw [← hm0]
  simpa only [List.singleton_append, List.append_assoc, List.cons_append, List.nil_append]
    using ct

end HhbcTranslator

/-! ## Exit traces: marker, spill and request -/

theorem toInt32_of_inRange (x : Int) (h1 : -2 ^ 31 ≤ x) (h2 : x < 2 ^ 31) : toInt32 x = x := by
  unfold toInt32
  have h : (x + 2 ^ 31) % 2 ^ 32 = x + 2 ^ 31 := Int.emod_eq_of_lt (by omega) (by omega)
  rw [h]
  omega

namespace HhbcTranslator

theorem warnExit_appends (warning : String) : CustomExitAppends (warnExit warning) := by
  intro k s recs c
  obtain ⟨s1, e1, c1, f1, t1, -, i1, m1, -⟩ := cns_content s k recs c (.str warning)
  obtain ⟨s2, e2, c2, f2, t2, i2, m2, -⟩ := genFor_content s1 k recs c1 .RaiseWarning none .none
    none [some s.irFactory.tmps.length]
  have hr : (warnExit warning (.exit k) s).2 = s2 := by
    simp only [warnExit, e1, e2]
  rw [hr]
  refine ⟨_, c2, ?_, sameFrame_trans f1 f2, sameTracked_trans t1 t2, ?_, ?_⟩
  · intro i hi
    rw [List.mem_singleton.mp hi]
    rfl
  · obtain ⟨x, hx⟩ := i1
    obtain ⟨y, hy⟩ := i2
    exact ⟨x ++ y, by rw [hy, hx, List.append_assoc]⟩
  · obtain ⟨x, hx⟩ := m1
    obtain ⟨y, hy⟩ := m2
    exact ⟨x ++ y, by rw [hy, hx, List.append_assoc]⟩

theorem lookupClsCnsExit_appends (name : String) : CustomExitAppends (lookupClsCnsExit name) := by
  intro k s recs c
  obtain ⟨s2, e2, c2, f2, t2, i2, m2, -⟩ := genFor_content s k recs c .LookupClsCns
    (some IRType.Cell) (.name name) none []
  have hr : (lookupClsCnsExit name (.exit k) s).2 = s2 := by
    simp only [lookupClsCnsExit, e2]
  rw [hr]
  refine ⟨_, c2, ?_, f2, t2, i2, m2⟩
  intro i hi
  rw [List.mem_singleton.mp hi]
  rfl

/-- The exit trace `getExitTraceImpl` builds ends with its request, the only
one on the trace. -/
theorem getExitTraceImpl_endsWithRequest (s : HhbcTranslator) (off : Offset) (flag : ExitFlag)
    (vals : List SSATmpPtr) (customFn : Option CustomExit)
    (hfn : ∀ fn, customFn = some fn → CustomExitAppends fn) :
    EndsWithRequest (s.getExitTraceImpl off flag vals customFn).2 s.tb.exitTraces.length
      (if flag = .NoIR then
         mkInst (if off = s.startBcOff then .ReqRetranslateNoIR else .ReqBindJmpNoIR) none
           (.bcOffset off) none [] none
       else if s.bcOff = s.startBcOff ∧ off = s.startBcOff then
         mkInst .ReqRetranslate none .none none [] none
       else mkInst .ReqBindJmp none (.bcOffset off) none [] none) := by
  obtain ⟨mid, m2, stack, c, hmid, -, -, -, -, -, -, -⟩ :=
    getExitTraceImpl_content s off flag vals customFn hfn
  rw [show ∀ (a : IRInstruction) (l : List IRInstruction) (x y : IRInstruction),
      a :: (l ++ [x, y]) = (a :: (l ++ [x])) ++ [y] from by intros; simp] at c
  refine ⟨_, c, ?_⟩
  · intro i hi
    simp only [List.mem_cons, List.mem_append, List.mem_singleton, List.not_mem_nil,
      or_false] at hi
    rcases hi with h | (((h | h) | h) | h)
    · rw [h]; rfl
    · by_cases hc : s.stackDeficit ≠ 0 ∨ vals ≠ []
      · rw [if_pos hc] at h
        rw [List.mem_singleton.mp h]; rfl
      · rw [if_neg hc] at h
        cases h
    · exact hmid i h
    · by_cases hf : flag = .DelayedMarker
      · rw [if_pos hf] at h
        rw [List.mem_singleton.mp h]; rfl
      · rw [if_neg hf] at h
        cases h
    · rw [h]; rfl

end HhbcTranslator

/-- C21, as stated, fails for a side exit whose closure hands back a value:
built from an empty virtual stack with zero deficit, the side exit of
`emitClsCnsD` for offset 7 holds a `SpillStack` all the same (of the value
the closure looked up), and its marker for offset 7 carries stack depth 1
where `spOffset + 0 - 0` is 0. -/
theorem exit_trace_marker_and_spill_counterexample :
    sessionStart.stackDeficit = 0 ∧ sessionStart.peekSpillValues = [] ∧
    sessionStart.tb.spOffset = 0 ∧
    ((sessionStart.makeSideExit 7 (HhbcTranslator.lookupClsCnsExit "C::K")).2.traceInsts
        (.exit 0)).map (fun i => (i.op, i.extra, i.srcs)) =
      [(.Marker, .marker ⟨0, 0, {}⟩, []),
       (.ExceptionBarrier, .none, [some 1]),
       (.LookupClsCns, .name "C::K", []),
       (.SpillStack, .none, [some 2, some 4, some 3]),
       (.Marker, .marker ⟨7, 1, {}⟩, []),
       (.SyncABIRegs, .none, [some 0, some 5]),
       (.ReqBindJmp, .bcOffset 7, [])] := by
  decide

/-- C21 (amended): the exit trace `getExitTraceImpl` builds for target offset
`off` from the spill values `vals` (top first) under deficit `d` starts with a
position marker, for the target offset, or for the current offset in a side
exit.  Right after that marker comes the `SpillStack` of step 2 exactly when
`d` is not zero or there is a spill value; its operands are the current stack
pointer, the constant `d`, then the spill values in order.  For an exit without
a custom closure nothing else is spilled: the rest of the trace is the marker
for the target offset (side exits only), the register sync and the request,
the trace holds a `SpillStack` if and only if `d` is not zero or there is a
spill value, and the marker for the target offset carries the 32-bit stack
depth `spOffset + k - d`, which is that number whenever it fits 32 bits.  With
a closure that hands back a value one more `SpillStack` follows and the marker
carries one more. -/
theorem exit_trace_marker_and_spill (s : HhbcTranslator) (off : Offset) (flag : ExitFlag)
    (vals : List SSATmpPtr) (customFn : Option HhbcTranslator.CustomExit)
    (hfn : ∀ fn, customFn = some fn → CustomExitAppends fn) :
    ∃ rest stack,
      ExitContent (s.getExitTraceImpl off flag vals customFn).2 s.tb.exitTraces.length
        (markerInst (if flag = .DelayedMarker
            then ⟨s.bcOff, toInt32 (s.tb.spOffset + s.numCells - s.stackDeficit), s.curFunc⟩
            else ⟨off, toInt32 (s.tb.spOffset + vals.length - s.stackDeficit), s.curFunc⟩) ::
          ((if s.stackDeficit ≠ 0 ∨ vals ≠ [] then
            [mkInst .SpillStack none .none none
              (s.tb.sp :: some s.irFactory.tmps.length :: vals)
              (some (s.irFactory.tmps.length + 1))]
          else []) ++ rest)) ∧
      (s.stackDeficit ≠ 0 ∨ vals ≠ [] →
        IsConst (s.getExitTraceImpl off flag vals customFn).2 s.irFactory.tmps.length
          (.int s.stackDeficit)) ∧
      (customFn = none →
        rest = (if flag = .DelayedMarker then
            [markerInst ⟨off, toInt32 (s.tb.spOffset + vals.length - s.stackDeficit), s.curFunc⟩]
          else []) ++
          [mkInst .SyncABIRegs none .none none [s.tb.fp, stack] none,
           if flag = .NoIR then
             mkInst (if off = s.startBcOff then .ReqRetranslateNoIR else .ReqBindJmpNoIR) none
               (.bcOffset off) none [] none
           else if s.bcOff = s.startBcOff ∧ off = s.startBcOff then
             mkInst .ReqRetranslate none .none none [] none
           else mkInst .ReqBindJmp none (.bcOffset off) none [] none] ∧
        stack = (if s.stackDeficit ≠ 0 ∨ vals ≠ [] then some (s.irFactory.tmps.length + 1)
          else s.tb.sp) ∧
        ((∃ i ∈ (s.getExitTraceImpl off flag vals customFn).2.traceInsts
            (.exit s.tb.exitTraces.length), i.op = .SpillStack) ↔
          (s.stackDeficit ≠ 0 ∨ vals ≠ []))) ∧
      (-2 ^ 31 ≤ s.tb.spOffset + vals.length - s.stackDeficit ∧
        s.tb.spOffset + vals.length - s.stackDeficit < 2 ^ 31 →
        toInt32 (s.tb.spOffset + vals.length - s.stackDeficit) =
          s.tb.spOffset + vals.length - s.stackDeficit) := by
  obtain ⟨mid, m2, stack, c, -, -, -, hnone, hk, -, -, -⟩ :=
    HhbcTranslator.getExitTraceImpl_content s off flag vals customFn hfn
  rw [List.append_assoc, List.append_assoc] at c
  refine ⟨_, stack, c, hk, ?_, fun h => toInt32_of_inRange _ h.1 h.2⟩
  intro h
  obtain ⟨h1, h2, h3⟩ := hnone h
  subst h1 h2
  refine ⟨by simp only [List.nil_append], h3, ?_⟩
  rw [c.insts]
  constructor
  · rintro ⟨i, hi, hop⟩
    by_contra hc
    simp only [if_neg hc, List.nil_append, List.mem_cons, List.mem_append,
      List.mem_singleton, List.not_mem_nil, or_false] at hi
    rcases hi with h | h | h | h
    · rw [h] at hop; cases hop
    · by_cases hf : flag = .DelayedMarker
      · rw [if_pos hf] at h
        rw [List.mem_singleton.mp h] at hop; cases hop
      · rw [if_neg hf] at h
        cases h
    · rw [h] at hop; cases hop
    · rw [h] at hop
      by_cases hn : flag = .NoIR
      · rw [if_pos hn] at hop
        by_cases ho : off = s.startBcOff
        · rw [if_pos ho] at hop; cases hop
        · rw [if_neg ho] at hop; cases hop
      · rw [if_neg hn] at hop
        by_cases hb : s.bcOff = s.startBcOff ∧ off = s.startBcOff
        · rw [if_pos hb] at hop; cases hop
        · rw [if_neg hb] at hop; cases hop
  · intro hc
    refine ⟨mkInst .SpillStack none .none none
      (s.tb.sp :: some s.irFactory.tmps.length :: vals) (some (s.irFactory.tmps.length + 1)),
      ?_, rfl⟩
    rw [if_pos hc]
    exact List.mem_cons_of_mem _ (List.mem_append_left _ (List.mem_singleton_self _))

theorem exit_trace_marker_and_spill_witness :
    ((∀ fn, (none : Option HhbcTranslator.CustomExit) = some fn → CustomExitAppends fn) ∧
     ∃ rest stack,
      ExitContent (sessionTwo.getExitTraceImpl 7 .None [some 3] none).2 0
        (markerInst ⟨7, 1, {}⟩ ::
          ([mkInst .SpillStack none .none none [some 1, some 4, some 3] (some 5)] ++ rest)) ∧
      (sessionTwo.stackDeficit ≠ 0 ∨ [some 3] ≠ ([] : List SSATmpPtr) →
        IsConst (sessionTwo.getExitTraceImpl 7 .None [some 3] none).2 4 (.int 0)) ∧
      ((none : Option HhbcTranslator.CustomExit) = none →
        rest = [mkInst .SyncABIRegs none .none none [some 0, stack] none,
           mkInst .ReqBindJmp none (.bcOffset 7) none [] none] ∧
        stack = some 5 ∧
        ((∃ i ∈ (sessionTwo.getExitTraceImpl 7 .None [some 3] none).2.traceInsts (.exit 0),
            i.op = .SpillStack) ↔
          (sessionTwo.stackDeficit ≠ 0 ∨ [some 3] ≠ ([] : List SSATmpPtr)))) ∧
      (-2 ^ 31 ≤ sessionTwo.tb.spOffset + ([some 3] : List SSATmpPtr).length -
          sessionTwo.stackDeficit ∧
        sessionTwo.tb.spOffset + ([some 3] : List SSATmpPtr).length - sessionTwo.stackDeficit <
          2 ^ 31 →
        toInt32 (sessionTwo.tb.spOffset + ([some 3] : List SSATmpPtr).length -
          sessionTwo.stackDeficit) =
          sessionTwo.tb.spOffset + ([some 3] : List SSATmpPtr).length -
            sessionTwo.stackDeficit)) ∧
    ((∀ fn, some (HhbcTranslator.lookupClsCnsExit "C::K") = some fn → CustomExitAppends fn) ∧
     ∃ rest,
      ExitContent
        (sessionTwo.getExitTraceImpl 7 .DelayedMarker [some 3]
          (some (HhbcTranslator.lookupClsCnsExit "C::K"))).2 0
        (markerInst ⟨0, 2, {}⟩ ::
          ([mkInst .SpillStack none .none none [some 1, some 4, some 3] (some 5)] ++ rest))) :=
  ⟨⟨(fun fn h => by cases h),
    exit_trace_marker_and_spill sessionTwo 7 .None [some 3] none (fun fn h => by cases h)⟩,
   ⟨(fun fn h => by cases h; exact HhbcTranslator.lookupClsCnsExit_appends "C::K"),
    (exit_trace_marker_and_spill sessionTwo 7 .DelayedMarker [some 3]
      (some (HhbcTranslator.lookupClsCnsExit "C::K"))
      (fun fn h => by cases h; exact HhbcTranslator.lookupClsCnsExit_appends "C::K")).elim
      (fun rest h => h.elim (fun _ h2 => ⟨rest, h2.1⟩))⟩⟩

/-- C22, as stated, fails: once the cursor of the session has moved on to
offset 5, the exit trace for the entry offset 0 of the session ends with a
bind-jump request carrying offset 0, not with a retranslate request. -/
theorem exit_trace_request_counterexample :
    sessionMoved.startBcOff = 0 ∧ sessionMoved.bcOff = 5 ∧
    ((sessionMoved.getExitTrace 0).2.traceInsts (.exit 0)).map (fun i => (i.op, i.extra)) =
      [(.Marker, .marker ⟨0, 0, {}⟩), (.SyncABIRegs, .none), (.ReqBindJmp, .bcOffset 0)] := by
  decide

/-- C22 (amended): the exit trace that `getExitTrace`, `getExitTraceWarn` or
`makeSideExit` builds for target offset `off` ends with exactly one request,
its last instruction `req`; no instruction ahead of it is a request.  The
request is `ReqRetranslate` when both the current offset and the target offset
equal the entry offset of the session, and `ReqBindJmp` carrying the target
offset otherwise, also for a target that equals the entry offset while the
cursor is elsewhere. -/
theorem exit_trace_request (s : HhbcTranslator) (off : Offset) (vals : List SSATmpPtr)
    (warning : String) (exit : HhbcTranslator.CustomExit) (req : IRInstruction)
    (hoff : off ≠ -1) (hexit : CustomExitAppends exit)
    (hreq : req = if s.bcOff = s.startBcOff ∧ off = s.startBcOff
      then mkInst .ReqRetranslate none .none none [] none
      else mkInst .ReqBindJmp none (.bcOffset off) none [] none) :
    req.op.isRequest = true ∧
    EndsWithRequest (s.getExitTrace off).2 s.tb.exitTraces.length req ∧
    EndsWithRequest (s.getExitTraceSpill off vals).2 s.tb.exitTraces.length req ∧
    (∃ r, s.getExitTraceWarn off vals warning = .ok r ∧
      EndsWithRequest r.2 s.tb.exitTraces.length req) ∧
    EndsWithRequest (s.makeSideExit off exit).2 s.tb.exitTraces.length req := by
  have hnone : ∀ fn, (none : Option HhbcTranslator.CustomExit) = some fn →
      CustomExitAppends fn := fun fn h => by cases h
  have hwarn : ∀ fn, some (HhbcTranslator.warnExit warning) = some fn →
      CustomExitAppends fn := fun fn h => by
    cases h; exact HhbcTranslator.warnExit_appends warning
  have hside : ∀ fn, some exit = some fn → CustomExitAppends fn := fun fn h => by
    cases h; exact hexit
  have h1 := HhbcTranslator.getExitTraceImpl_endsWithRequest s off .None s.peekSpillValues none
    hnone
  have h2 := HhbcTranslator.getExitTraceImpl_endsWithRequest s off .None vals none hnone
  have h3 := HhbcTranslator.getExitTraceImpl_endsWithRequest s off .None vals
    (some (HhbcTranslator.warnExit warning)) hwarn
  have h4 := HhbcTranslator.getExitTraceImpl_endsWithRequest s off .DelayedMarker
    s.peekSpillValues (some exit) hside
  simp only [reduceCtorEq, if_false, ← hreq] at h1 h2 h3 h4
  refine ⟨?_, ?_, ?_, ⟨_, ?_, h3⟩, ?_⟩
  · rw [hreq]; split <;> rfl
  · simpa only [HhbcTranslator.getExitTrace, HhbcTranslator.getExitTraceSpill, if_neg hoff]
      using h1
  · simpa only [HhbcTranslator.getExitTraceSpill, if_neg hoff] using h2
  · simp only [HhbcTranslator.getExitTraceWarn, if_neg hoff]
  · simpa only [HhbcTranslator.makeSideExit] using h4

theorem exit_trace_request_witness :
    (7 : Offset) ≠ -1 ∧ CustomExitAppends (HhbcTranslator.lookupClsCnsExit "C::K") ∧
    (mkInst .ReqBindJmp none (.bcOffset 7) none [] none).op.isRequest = true ∧
    EndsWithRequest (sessionTwo.getExitTrace 7).2 0
      (mkInst .ReqBindJmp none (.bcOffset 7) none [] none) ∧
    EndsWithRequest (sessionTwo.getExitTraceSpill 7 [some 3]).2 0
      (mkInst .ReqBindJmp none (.bcOffset 7) none [] none) ∧
    (∃ r, sessionTwo.getExitTraceWarn 7 [some 3] "Division by zero" = .ok r ∧
      EndsWithRequest r.2 0 (mkInst .ReqBindJmp none (.bcOffset 7) none [] none)) ∧
    EndsWithRequest (sessionTwo.makeSideExit 7 (HhbcTranslator.lookupClsCnsExit "C::K")).2 0
      (mkInst .ReqBindJmp none (.bcOffset 7) none [] none) :=
  ⟨by decide, HhbcTranslator.lookupClsCnsExit_appends "C::K",
    exit_trace_request sessionTwo 7 [some 3] "Division by zero"
      (HhbcTranslator.lookupClsCnsExit "C::K") (mkInst .ReqBindJmp none (.bcOffset 7) none [] none)
      (by decide) (HhbcTranslator.lookupClsCnsExit_appends "C::K") (by decide)⟩

/-- C23, as stated, fails: the trace `getExitSlowTrace` builds right after the
session was made holds a `SyncABIRegs` of the frame pointer and the stack
pointer ahead of its no-IR request. -/
theorem getExitSlowTrace_sync_counterexample :
    (sessionStart.getExitSlowTrace.2.traceInsts (.exit 0)).map (fun i => (i.op, i.srcs)) =
      [(.Marker, []), (.SyncABIRegs, [some 0, some 1]), (.ReqRetranslateNoIR, [])] := by
  decide

/-- C23 (amended): the trace `getExitSlowTrace` builds is for the current
offset and holds, in order: the marker for the current offset, the
`SpillStack` of the deficit and of the virtual stack when the deficit is not
zero or the virtual stack is not empty, the register sync `SyncABIRegs` of the
frame pointer and the resulting stack pointer, and as last instruction the
no-IR request carrying the current offset: `ReqRetranslateNoIR` when the
current offset is the entry offset of the session, `ReqBindJmpNoIR`
otherwise.  The register sync is not skipped: it is the instruction right
ahead of the request. -/
theorem getExitSlowTrace_content (s : HhbcTranslator) :
    s.getExitSlowTrace.1 = .exit s.tb.exitTraces.length ∧
    s.getExitSlowTrace.2.exitTargets = s.exitTargets ++ [s.bcOff] ∧
    ExitContent s.getExitSlowTrace.2 s.tb.exitTraces.length
      (markerInst ⟨s.bcOff, toInt32 (s.tb.spOffset + s.numCells - s.stackDeficit), s.curFunc⟩ ::
        ((if s.stackDeficit ≠ 0 ∨ s.peekSpillValues ≠ [] then
            [mkInst .SpillStack none .none none
              (s.tb.sp :: some s.irFactory.tmps.length :: s.peekSpillValues)
              (some (s.irFactory.tmps.length + 1))]
          else []) ++
          [mkInst .SyncABIRegs none .none none
             [s.tb.fp, if s.stackDeficit ≠ 0 ∨ s.peekSpillValues ≠ []
               then some (s.irFactory.tmps.length + 1) else s.tb.sp] none,
           mkInst (if s.bcOff = s.startBcOff then .ReqRetranslateNoIR else .ReqBindJmpNoIR) none
             (.bcOffset s.bcOff) none [] none])) ∧
    (s.stackDeficit ≠ 0 ∨ s.peekSpillValues ≠ [] →
      IsConst s.getExitSlowTrace.2 s.irFactory.tmps.length (.int s.stackDeficit)) := by
  obtain ⟨mid, m2, stack, c, -, -, -, hnone, hk, -, -, he⟩ :=
    HhbcTranslator.getExitTraceImpl_content s s.bcOff .NoIR s.peekSpillValues none
      (fun fn h => by cases h)
  obtain ⟨h1, -, h3⟩ := hnone rfl
  subst h1 h3
  have hlen : ((s.peekSpillValues.length : Nat) : Int) = (s.numCells : Int) := by
    simp [HhbcTranslator.peekSpillValues, HhbcTranslator.numCells]
  simp only [reduceCtorEq, if_false, if_true, List.append_nil, hlen] at c
  refine ⟨he, HhbcTranslator.getExitTraceImpl_targets s s.bcOff .NoIR s.peekSpillValues, ?_, hk⟩
  simpa only [HhbcTranslator.getExitSlowTrace, List.append_assoc] using c

/-! ## Catch traces -/

namespace HhbcTranslator

theorem pushFront_instructions (t : IRTrace) (i : InstId) (h : t.blocks.length = 1) :
    (t.pushFront i).instructions = t.instructions ++ [i] := by
  obtain ⟨b, hb⟩ := List.length_eq_one.mp h
  simp [IRTrace.pushFront, IRTrace.instructions, hb, pushFrontBlocks]

/-- The marker a catch trace receives through `front()->push_back` (line
3444) lands at the end of the trace, which has a single block. -/
theorem pushFrontMarker_content (s : HhbcTranslator) (k : Nat) (recs : List IRInstruction)
    (c : ExitContent s k recs) (h1 : s.numBlocks (.exit k) = 1) (off : Offset) :
    ∃ s1, ({ (s.makeMarker off).2 with
        tb := (s.makeMarker off).2.tb.pushFrontOn (.exit k) (s.makeMarker off).1 } :
        HhbcTranslator) = s1 ∧
      ExitContent s1 k (recs ++
        [markerInst ⟨off, toInt32 (s.tb.spOffset + s.numCells - s.stackDeficit), s.curFunc⟩]) ∧
      s1.numBlocks (.exit k) = 1 ∧ SameFrame s s1 ∧ SameTracked s s1 ∧
      s1.irFactory.tmps = s.irFactory.tmps ∧
      (∃ more, s1.irFactory.insts = s.irFactory.insts ++ more) := by
  have hM : Opcode.dstKind .Marker = .ND := rfl
  have hins : (s.makeMarker off).2.irFactory.insts = s.irFactory.insts ++
      [markerInst ⟨off, toInt32 (s.tb.spOffset + s.numCells - s.stackDeficit), s.curFunc⟩] := by
    simp only [makeMarker, IRFactory.gen_insts_eq, if_pos hM]
  have hfst : (s.makeMarker off).1 = s.irFactory.insts.length := by
    simp only [makeMarker, IRFactory.gen_fst]
  have htb : (s.makeMarker off).2.tb = s.tb := rfl
  have hget : ((s.tb.pushFrontOn (.exit k) s.irFactory.insts.length).exitTraces.getD k {}) =
      (s.tb.exitTraces.getD k {}).pushFront s.irFactory.insts.length := by
    have hk2 := c.inRange
    simp only [TraceBuilder.pushFrontOn, List.getD_eq_getElem?_getD,
      List.getElem?_modify_eq, List.getElem?_eq_getElem hk2, Option.map_eq_map, Option.map_some',
      Option.getD_some]
  have hb : (s.tb.exitTraces.getD k {}).blocks.length = 1 := h1
  refine ⟨_, rfl, ⟨?_, ?_, ?_⟩, ?_, ⟨rfl, rfl, rfl, rfl, rfl, rfl, rfl⟩, ⟨rfl, rfl, rfl⟩, ?_,
    ⟨_, hins⟩⟩
  · simp only [htb, TraceBuilder.pushFrontOn, List.length_modify]
    exact c.inRange
  · simp only [traceInsts, htb, hfst, hget, pushFront_instructions _ _ hb, List.map_append,
      List.map_cons, List.map_nil]
    congr 1
    · rw [← c.insts]
      simp only [traceInsts]
      apply List.map_congr_left
      intro i hi
      exact IRFactory.inst_append_left _ _ _ hins i (c.valid i hi)
    · simp only [IRFactory.inst, hins, List.getD_eq_getElem?_getD, List.getElem?_concat_length,
        Option.getD_some]
  · intro i hi
    simp only [htb, hfst, hget, pushFront_instructions _ _ hb, List.mem_append,
      List.mem_singleton] at hi
    rw [hins, List.length_append, List.length_singleton]
    rcases hi with h | h
    · exact Nat.lt_succ_of_lt (c.valid i h)
    · subst h
      exact Nat.lt_succ_self _
  · simp only [numBlocks, htb, hfst, hget]
    exact pushFront_blocks _ _ hb
  · simp [makeMarker, IRFactory.gen, hM]

/-- The spill `emitSpillStack` emits into an auxiliary trace (lines 3452-3463):
it is emitted whatever the deficit and the values are. -/
theorem emitSpillStack_content (s : HhbcTranslator) (k : Nat) (recs : List IRInstruction)
    (c : ExitContent s k recs) (h1 : s.numBlocks (.exit k) = 1) (sp : SSATmpPtr)
    (vals : List SSATmpPtr) :
    ∃ s1, s.emitSpillStack (.exit k) sp vals = (some (s.irFactory.tmps.length + 1), s1) ∧
      ExitContent s1 k (recs ++
        [mkInst .SpillStack none .none none (sp :: some s.irFactory.tmps.length :: vals)
          (some (s.irFactory.tmps.length + 1))]) ∧
      s1.numBlocks (.exit k) = 1 ∧ SameFrame s s1 ∧ SameTracked s s1 ∧
      IsConst s1 s.irFactory.tmps.length (.int s.stackDeficit) := by
  obtain ⟨s1, e1, c1, f1, t1, k1, i1, m1, l1⟩ := cns_content s k recs c (.int s.stackDeficit)
  have hD : Opcode.dstKind .SpillStack ≠ .ND := by decide
  obtain ⟨s2, e2, c2, f2, t2, i2, m2, l2⟩ := genFor_content s1 k recs c1 .SpillStack none .none
    none (sp :: some s.irFactory.tmps.length :: vals)
  simp only [if_neg hD, l1] at e2 c2
  have hs1 : s1 = (s.cns (.int s.stackDeficit)).2 := by rw [e1]
  have hb1 : s1.numBlocks (.exit k) = 1 := by rw [hs1]; exact h1
  have hb2 := numBlocks_genFor s1 k .SpillStack none .none none
    (sp :: some s.irFactory.tmps.length :: vals) hb1
  rw [e2] at hb2
  refine ⟨s2, ?_, c2, hb2, sameFrame_trans f1 f2, sameTracked_trans t1 t2,
    isConst_of_append i2 m2 k1⟩
  simp only [emitSpillStack, reduceCtorEq, if_false, e1, List.cons_append, List.nil_append, e2]

/-- The content of the catch trace `getCatchTrace` builds (lines 3439-3450). -/
theorem getCatchTrace_content (s : HhbcTranslator) :
    ∃ s1, s.getCatchTrace = .ok (.exit s.tb.exitTraces.length, s1) ∧
      ExitContent s1 s.tb.exitTraces.length
        [mkInst .BeginCatch none .none none [] none,
         markerInst ⟨s.bcOff, toInt32 (s.tb.spOffset + s.numCells - s.stackDeficit), s.curFunc⟩,
         mkInst .SpillStack none .none none
           (s.tb.sp :: some s.irFactory.tmps.length :: s.peekSpillValues)
           (some (s.irFactory.tmps.length + 1)),
         mkInst .EndCatch none .none none [some (s.irFactory.tmps.length + 1)] none] ∧
      s1.numBlocks (.exit s.tb.exitTraces.length) = 1 ∧
      IsConst s1 s.irFactory.tmps.length (.int s.stackDeficit) := by
  have hB : Opcode.dstKind .BeginCatch = .ND := rfl
  have hE : Opcode.dstKind .EndCatch = .ND := rfl
  have h0 : ({ s with tb := (s.tb.makeExitTrace s.bcOff).2 } : HhbcTranslator).numBlocks
      (.exit s.tb.exitTraces.length) = 1 := by
    simp [numBlocks, TraceBuilder.makeExitTrace]
  obtain ⟨sA, eA, cA, fA, tA, iA, mA, lA⟩ := genFor_content _ _ _
    (makeExitTrace_content s s.bcOff) .BeginCatch none .none none []
  simp only [if_pos hB, List.nil_append, Nat.add_zero] at eA cA lA
  have hbA := numBlocks_genFor _ _ .BeginCatch none .none none [] h0
  rw [eA] at hbA
  have fA0 : SameFrame s sA := ⟨fA.evalStack, fA.stackDeficit, fA.bcStateStack, fA.fpiStack,
    fA.startBcOff, fA.lastBcOff, fA.hasExit⟩
  have tA0 : SameTracked s sA := ⟨tA.spValue, tA.fpValue, tA.spOffset⟩
  have hbcA : sA.bcOff = s.bcOff := by simp only [bcOff, fA0.bcStateStack]
  have hcfA : sA.curFunc = s.curFunc := by simp only [curFunc, fA0.bcStateStack]
  have hncA : sA.numCells = s.numCells := by simp only [numCells, fA0.evalStack]
  obtain ⟨sB, eB, cB, hbB, fB, tB, mB, iB⟩ := pushFrontMarker_content sA _ _ cA hbA sA.bcOff
  rw [hbcA, hcfA, hncA, tA0.spOffset, fA0.stackDeficit] at cB
  have hlB : sB.irFactory.tmps.length = s.irFactory.tmps.length := by rw [mB, lA]
  have fB0 := sameFrame_trans fA0 fB
  have tB0 := sameTracked_trans tA0 tB
  have hpk : sB.peekSpillValues = s.peekSpillValues := by
    simp only [peekSpillValues, fB0.evalStack]
  have hspB : sB.tb.sp = s.tb.sp := tB0.spValue
  obtain ⟨sC, eC, cC, hbC, fC, tC, kC⟩ := emitSpillStack_content sB _ _ cB hbB sB.tb.sp
    sB.peekSpillValues
  rw [hlB, hpk, hspB] at cC
  rw [hlB, fB0.stackDeficit] at kC
  rw [hlB] at eC
  obtain ⟨sD, eD, cD, fD, tD, iD, mD, lD⟩ := genFor_content sC _ _ cC .EndCatch none .none none
    [some (s.irFactory.tmps.length + 1)]
  simp only [if_pos hE] at eD cD
  have hbD := numBlocks_genFor sC _ .EndCatch none .none none
    [some (s.irFactory.tmps.length + 1)] hbC
  rw [eD] at hbD
  refine ⟨sD, ?_, by simpa using cD, hbD, isConst_of_append iD mD kC⟩
  have hsp2 : ((sA.makeMarker sA.bcOff).2.tb.pushFrontOn (.exit s.tb.exitTraces.length)
      (sA.makeMarker sA.bcOff).1).sp = sB.tb.sp := by rw [← eB]
  simp only [getCatchTrace, TraceBuilder.makeExitTrace] at *
  simp only [h0, ne_eq, not_true_eq_false, if_false, eA, eB, hsp2, eC, eD, hbD]

end HhbcTranslator

/-- C24, as stated, fails: with an empty virtual stack and a zero deficit the
catch trace holds a `SpillStack` all the same, of the stack pointer and the
constant 0; a marker stands between `BeginCatch` and it. -/
theorem catch_trace_shape_counterexample :
    sessionStart.evalStack = [] ∧ sessionStart.stackDeficit = 0 ∧
    ∃ s1, sessionStart.getCatchTrace = .ok (.exit 0, s1) ∧
      (s1.traceInsts (.exit 0)).map (fun i => (i.op, i.srcs)) =
        [(.BeginCatch, []), (.Marker, []), (.SpillStack, [some 1, some 2]),
         (.EndCatch, [some 3])] :=
  ⟨by decide, by decide, _, rfl, by decide⟩

/-- C24 (amended): `getCatchTrace` returns a new auxiliary trace that holds
exactly four instructions: `BeginCatch`; the marker for the current offset and
stack depth; a `SpillStack` of the current stack pointer, the constant deficit
and the values of the virtual stack, top first, which is emitted whatever the
deficit and the virtual stack are, also when there is nothing to materialize;
and `EndCatch`, whose operand is the stack pointer that `SpillStack` made.  The
trace has exactly one basic block and no instruction on it branches. -/
theorem catch_trace_shape (s : HhbcTranslator) :
    ∃ s1, s.getCatchTrace = .ok (.exit s.tb.exitTraces.length, s1) ∧
      ExitContent s1 s.tb.exitTraces.length
        [mkInst .BeginCatch none .none none [] none,
         markerInst ⟨s.bcOff, toInt32 (s.tb.spOffset + s.numCells - s.stackDeficit), s.curFunc⟩,
         mkInst .SpillStack none .none none
           (s.tb.sp :: some s.irFactory.tmps.length :: s.peekSpillValues)
           (some (s.irFactory.tmps.length + 1)),
         mkInst .EndCatch none .none none [some (s.irFactory.tmps.length + 1)] none] ∧
      IsConst s1 s.irFactory.tmps.length (.int s.stackDeficit) ∧
      s1.numBlocks (.exit s.tb.exitTraces.length) = 1 ∧
      (∀ i ∈ s1.traceInsts (.exit s.tb.exitTraces.length), i.taken = none) := by
  obtain ⟨s1, e, c, hb, k⟩ := HhbcTranslator.getCatchTrace_content s
  refine ⟨s1, e, c, k, hb, ?_⟩
  intro i hi
  rw [c.insts] at hi
  simp only [List.mem_cons, List.mem_singleton, List.not_mem_nil, or_false] at hi
  rcases hi with h | h | h | h <;> rw [h]

/-! ## Moving the cursor -/

/-- C25: `setBcOff(newOff, last)` appends exactly one position marker to the
main trace when `newOff` differs from the offset of the current frame and
nothing when it is equal.  The marker carries the new offset, the current
function and the 32-bit stack depth `spOffset + numCells - deficit`.  In both
cases the last-offset flag becomes `last`, the current frame is at `newOff`,
and the virtual stack and the deficit are unchanged.  The frame-state stack is
taken to hold a frame, and the call to pass the assertion of line 322: `last`
is not set while inlining. -/
theorem setBcOff_marker (s : HhbcTranslator) (newOff : Offset) (last : Bool)
    (hframe : s.bcStateStack ≠ []) (hinl : s.isInlining = true → last = false) :
    ∃ s1, s.setBcOff newOff last = .ok s1 ∧
      Emitted s s1
        (if newOff ≠ s.bcOff then
          [markerInst ⟨newOff, toInt32 (s.tb.spOffset + s.numCells - s.stackDeficit), s.curFunc⟩]
        else []) [] ∧
      s1.lastBcOff = last ∧ s1.evalStack = s.evalStack ∧ s1.stackDeficit = s.stackDeficit ∧
      s1.bcOff = newOff ∧ s1.curFunc = s.curFunc ∧
      s1.bcStateStack.length = s.bcStateStack.length := by
  have h1 : ¬ (s.isInlining = true ∧ last = true) := by
    rintro ⟨a, b⟩
    rw [hinl a] at b
    cases b
  by_cases hne : newOff ≠ s.bcOff
  · obtain ⟨s2, hs2⟩ : ∃ s2 : HhbcTranslator, s2 = { s with bcStateStack :=
        s.bcStateStack.dropLast ++ [{ s.bcStateStack.getLastD default with bcOff := newOff }] } :=
      ⟨_, rfl⟩
    have hbc : s2.bcOff = newOff := by
      rw [hs2]; simp [HhbcTranslator.bcOff]
    have hcf : s2.curFunc = s.curFunc := by
      rw [hs2]; simp [HhbcTranslator.curFunc]
    have hnc : s2.numCells = s.numCells := by rw [hs2]; rfl
    have hsd : s2.stackDeficit = s.stackDeficit := by rw [hs2]
    have hso : s2.tb.spOffset = s.tb.spOffset := by rw [hs2]
    have hlen : s2.bcStateStack.length = s.bcStateStack.length := by
      rw [hs2]
      simp only [List.length_append, List.length_dropLast, List.length_singleton]
      have := List.length_pos.mpr hframe
      omega
    obtain ⟨em, fm, tm⟩ := HhbcTranslator.emitMarker_emitted s2
    rw [hbc, hcf, hnc, hsd, hso] at em
    have e0 : Emitted s s2 [] [] := emitted_of_same s s2 (by rw [hs2]) (by rw [hs2])
    have hbc2 : s2.emitMarker.bcOff = newOff := by
      simp only [HhbcTranslator.bcOff, fm.bcStateStack] at hbc ⊢
      exact hbc
    have hcf2 : s2.emitMarker.curFunc = s.curFunc := by
      simp only [HhbcTranslator.curFunc, fm.bcStateStack] at hcf ⊢
      exact hcf
    refine ⟨{ s2.emitMarker with lastBcOff := last }, ?_, ?_, rfl, ?_, ?_, hbc2, hcf2, ?_⟩
    · simp only [HhbcTranslator.setBcOff, if_neg h1, if_neg hframe, if_pos hne, ← hs2]
    · rw [if_pos hne]
      have h := emitted_trans e0 em
      simp only [List.nil_append, List.append_nil] at h
      exact emitted_congr h rfl rfl
    · show s2.emitMarker.evalStack = s.evalStack
      rw [fm.evalStack, hs2]
    · show s2.emitMarker.stackDeficit = s.stackDeficit
      rw [fm.stackDeficit, hs2]
    · show s2.emitMarker.bcStateStack.length = s.bcStateStack.length
      rw [fm.bcStateStack, hlen]
  · have heq : newOff = s.bcOff := not_not.mp hne
    refine ⟨{ s with lastBcOff := last }, ?_, ?_, rfl, rfl, rfl, heq.symm, rfl, rfl⟩
    · simp only [HhbcTranslator.setBcOff, if_neg h1, if_neg hframe, if_neg hne]
    · rw [if_neg hne]
      exact emitted_of_same s _ rfl rfl

theorem setBcOff_marker_witness :
    (sessionStart.bcStateStack ≠ [] ∧ (sessionStart.isInlining = true → false = false) ∧
     ∃ s1, sessionStart.setBcOff 5 false = .ok s1 ∧
      Emitted sessionStart s1 [markerInst ⟨5, 0, {}⟩] [] ∧
      s1.lastBcOff = false ∧ s1.evalStack = sessionStart.evalStack ∧
      s1.stackDeficit = sessionStart.stackDeficit ∧
      s1.bcOff = 5 ∧ s1.curFunc = sessionStart.curFunc ∧
      s1.bcStateStack.length = sessionStart.bcStateStack.length) ∧
    (sessionTwo.bcStateStack ≠ [] ∧ (sessionTwo.isInlining = true → true = false) ∧
     ∃ s1, sessionTwo.setBcOff 0 true = .ok s1 ∧
      Emitted sessionTwo s1 [] [] ∧
      s1.lastBcOff = true ∧ s1.evalStack = sessionTwo.evalStack ∧
      s1.stackDeficit = sessionTwo.stackDeficit ∧
      s1.bcOff = 0 ∧ s1.curFunc = sessionTwo.curFunc ∧
      s1.bcStateStack.length = sessionTwo.bcStateStack.length) :=
  ⟨⟨by decide, by decide, setBcOff_marker sessionStart 5 false (by decide) (by decide)⟩,
   ⟨by decide, by decide, setBcOff_marker sessionTwo 0 true (by decide) (by decide)⟩⟩

/-! ## Bailing out of `emitAKExists` -/

theorem loaded_trans {s a p : HhbcTranslator} {n m : Nat} (h1 : Loaded s a n)
    (h2 : Loaded a p m) : Loaded s p (n + m) where
  trace := by
    rw [h2.trace, h1.trace, h1.length, List.append_assoc]
    congr 1
    rw [List.range'_append_1, Nat.add_comm]
  length := by rw [h2.length, h1.length, Nat.add_assoc]
  old := fun i hi => by
    rw [h2.old i (by rw [h1.length]; exact Nat.lt_of_lt_of_le hi (Nat.le_add_right _ _)),
      h1.old i hi]
  new := fun i h3 h4 => by
    by_cases hi : i < s.irFactory.insts.length + n
    · rw [h2.old i (by rw [h1.length]; exact hi)]
      exact h1.new i h3 hi
    · exact h2.new i (by rw [h1.length]; exact Nat.le_of_not_lt hi)
        (by rw [h1.length, Nat.add_assoc]; exact h4)
  exitTraces := h2.exitTraces.trans h1.exitTraces

namespace HhbcTranslator

theorem pop_loaded (s : HhbcTranslator) (t : IRType) (r : SSATmpPtr × HhbcTranslator)
    (h : s.pop t = .ok r) :
    Loaded s r.2 (if s.evalStack = [] then 1 else 0) ∧ r.2.evalStack = s.evalStack.tail ∧
    r.2.stackDeficit =
      (if s.evalStack = [] then (s.stackDeficit + 1) % uint32Size else s.stackDeficit) := by
  unfold pop at h
  cases hs : s.evalStack with
  | nil =>
    rw [hs] at h
    simp only [Except.ok.injEq] at h
    subst h
    have hk : Opcode.dstKind .LdStack ≠ .ND := by decide
    have hg : ∀ x : HhbcTranslator,
        (x.gen .LdStack (some t) (.stackOffset s.stackDeficit) none [s.tb.sp]).2.irFactory =
          (x.irFactory.gen .LdStack (some t) (.stackOffset s.stackDeficit) none
            [s.tb.sp]).2 := fun x => rfl
    refine ⟨⟨?_, ?_, ?_, ?_, ?_⟩, ?_, ?_⟩
    · simp [gen, TraceBuilder.pushBackOn, IRTrace.pushBack, IRTrace.instructions,
        pushBackBlocks_flatten, IRFactory.gen_fst, TraceBuilder.updateTrackedState_trace]
    · simp [gen, IRFactory.gen_length]
    · intro i hi
      have := IRFactory.gen_insts_eq s.irFactory .LdStack (some t)
        (.stackOffset s.stackDeficit) none [s.tb.sp]
      rw [hg]
      dsimp only
      rw [IRFactory.inst_append_left _ _ _ this i hi]
    · intro i h1 h2
      have hi : i = s.irFactory.insts.length := by
        simp only [if_true] at h2
        omega
      subst hi
      rw [hg]
      dsimp only
      rw [IRFactory.gen_inst_new]
    · simp [gen, TraceBuilder.pushBackOn, TraceBuilder.updateTrackedState_exitTraces]
    · simp [gen, hs]
    · simp [gen]
  | cons opnd rest =>
    rw [hs] at h
    simp only at h
    split at h
    · cases h
    · rename_i s1 hr
      simp only [Except.ok.injEq] at h
      subst h
      unfold refineType at hr
      split at hr
      · cases hr
      · rename_i f hf
        simp only [Except.ok.injEq] at hr
        subst hr
        have hsh := IRFactory.refineTypeFuel_sameShape _ _ _ _ _ hf
        refine ⟨⟨?_, ?_, ?_, ?_, rfl⟩, ?_, ?_⟩
        · simp
        · simpa using hsh.instsLen
        · intro i _
          exact hsh.op i
        · intro i h1 h2
          simp only [reduceCtorEq, if_false, Nat.add_zero] at h2
          exact absurd h2 (Nat.not_lt.mpr h1)
        · simp
        · simp

/-- When `emitAKExists` throws, both operands were popped and one of the two
type tests of lines 1530-1535 failed. -/
theorem emitAKExists_punted (s p : HhbcTranslator) (h : s.emitAKExists = .punted p) :
    ∃ arr key a, s.popC = .ok (some arr, a) ∧ a.popC = .ok (key, p) ∧
      ((p.isA arr IRType.Arr = false ∧ p.isA arr IRType.Obj = false) ∨
        ∃ kv, key = some kv ∧ isString (p.irFactory.typeOf kv) = false ∧
          p.isA kv IRType.Int = false ∧ p.isA kv IRType.Null = false) := by
  unfold emitAKExists at h
  split at h
  · cases h
  · rename_i a ha
    split at h
    · cases h
    · rename_i k hk
      split at h
      · cases h
      · rename_i arr harr
        split at h
        · rename_i hbad
          simp only [Outcome.punted.injEq] at h
          subst h
          refine ⟨arr, k.1, a.2, ?_, ?_, Or.inl ?_⟩
          · rw [ha, ← harr]
          · rw [hk]
          · simpa using hbad
        · split at h
          · cases h
          · rename_i key hkey
            split at h
            · rename_i hbad
              simp only [Outcome.punted.injEq] at h
              subst h
              refine ⟨arr, k.1, a.2, ?_, ?_, Or.inr ⟨key, hkey, ?_⟩⟩
              · rw [ha, ← harr]
              · rw [hk]
              · simpa using hbad
            · simp only at h
              split at h <;> cases h

end HhbcTranslator

/-- C27, as stated, fails.  Called with two integers on the virtual stack,
`emitAKExists` bails out with the virtual stack emptied: both operands were
popped.  Called with an empty virtual stack, it bails out after two loads from
the real stack were appended to the main trace and the deficit went from 0 to
2. -/
theorem emitAKExists_bailout_counterexample :
    (sessionCall.evalStack = [3, 2] ∧
      ∃ p, sessionCall.emitAKExists = .punted p ∧ p.evalStack = []) ∧
    (sessionStart.stackDeficit = 0 ∧
      (sessionStart.traceInsts .main).map (fun i => i.op) = [.Marker, .DefFP, .DefSP] ∧
      ∃ p, sessionStart.emitAKExists = .punted p ∧ p.stackDeficit = 2 ∧
        (p.traceInsts .main).map (fun i => i.op) =
          [.Marker, .DefFP, .DefSP, .LdStack, .LdStack]) :=
  ⟨⟨by decide, _, rfl, by decide⟩, ⟨by decide, by decide, _, rfl, by decide, by decide⟩⟩

/-- C27 (amended): when `emitAKExists` bails out, one of its two type tests
failed on the operands as popped, and the session it leaves is the one after
both pops, never the one it was called on.  Up to two entries are gone from
the virtual stack; for each operand the virtual stack did not hold, a load from
the real stack was appended to the main trace and the deficit was raised by
one.  Nothing else was emitted: the main trace gained those loads only, the
auxiliary traces are as they were, and no instruction that existed changed its
opcode. -/
theorem emitAKExists_bailout (s p : HhbcTranslator) (h : s.emitAKExists = .punted p) :
    (∃ arr key a, s.popC = .ok (some arr, a) ∧ a.popC = .ok (key, p) ∧
      ((p.isA arr IRType.Arr = false ∧ p.isA arr IRType.Obj = false) ∨
        ∃ kv, key = some kv ∧ isString (p.irFactory.typeOf kv) = false ∧
          p.isA kv IRType.Int = false ∧ p.isA kv IRType.Null = false)) ∧
    p.evalStack = s.evalStack.drop 2 ∧
    Loaded s p (2 - s.evalStack.length) ∧
    p.stackDeficit =
      (if 2 ≤ s.evalStack.length then s.stackDeficit
       else (s.stackDeficit + (2 - s.evalStack.length)) % uint32Size) ∧
    p ≠ s := by
  obtain ⟨arr, key, a, h1, h2, hbad⟩ := HhbcTranslator.emitAKExists_punted s p h
  obtain ⟨l1, e1, d1⟩ := HhbcTranslator.pop_loaded s IRType.Cell _ h1
  obtain ⟨l2, e2, d2⟩ := HhbcTranslator.pop_loaded a IRType.Cell _ h2
  simp only at l1 e1 d1 l2 e2 d2
  have hl := loaded_trans l1 l2
  have hev : p.evalStack = s.evalStack.drop 2 := by
    rw [e2, e1]
    cases s.evalStack with
    | nil => rfl
    | cons x xs => cases xs <;> rfl
  have hn : ((if s.evalStack = [] then 1 else 0) + (if a.evalStack = [] then 1 else 0)) =
      2 - s.evalStack.length := by
    rw [e1]
    cases s.evalStack with
    | nil => rfl
    | cons x xs => cases xs <;> simp
  rw [hn] at hl
  refine ⟨⟨arr, key, a, h1, h2, hbad⟩, hev, hl, ?_, ?_⟩
  · rw [d2, d1, e1]
    cases hs : s.evalStack with
    | nil => simp [Nat.add_assoc]
    | cons x xs => cases xs <;> simp
  · intro hps
    cases hs : s.evalStack with
    | nil =>
      have h3 := hl.trace
      rw [hps, hs] at h3
      have h4 := congrArg List.length h3
      simp at h4
    | cons x xs =>
      rw [hps, hs] at hev
      have h4 := congrArg List.length hev
      simp at h4
      omega

theorem emitAKExists_bailout_witness :
    ∃ p, sessionStart.emitAKExists = .punted p ∧
      ((∃ arr key a, sessionStart.popC = .ok (some arr, a) ∧ a.popC = .ok (key, p) ∧
        ((p.isA arr IRType.Arr = false ∧ p.isA arr IRType.Obj = false) ∨
          ∃ kv, key = some kv ∧ isString (p.irFactory.typeOf kv) = false ∧
            p.isA kv IRType.Int = false ∧ p.isA kv IRType.Null = false)) ∧
      p.evalStack = sessionStart.evalStack.drop 2 ∧
      Loaded sessionStart p (2 - sessionStart.evalStack.length) ∧
      p.stackDeficit =
        (if 2 ≤ sessionStart.evalStack.length then sessionStart.stackDeficit
         else (sessionStart.stackDeficit + (2 - sessionStart.evalStack.length)) % uint32Size) ∧
      p ≠ sessionStart) :=
  ⟨_, rfl, emitAKExists_bailout sessionStart _ rfl⟩

/-! ## Call preparation and calls -/

namespace HhbcTranslator

end HhbcTranslator

namespace HhbcTranslator

/-- Emission of an instruction without a result whose opcode the trace builder
does not track. -/
theorem gen_ND_untracked (s : HhbcTranslator) (op : Opcode) (tp : Option IRType)
    (extra : ExtraData) (taken : Option TraceRef) (srcs : List SSATmpPtr)
    (h : op.dstKind = .ND) (ht : op.tracked = false) :
    ∃ s1, s.gen op tp extra taken srcs = (none, s1) ∧
      Emitted s s1 [mkInst op tp extra taken srcs none] [] ∧ SameFrame s s1 ∧
      SameTracked s s1 ∧ s1.irFactory.tmps = s.irFactory.tmps := by
  obtain ⟨s1, e1, h1, f1, l1⟩ := gen_ND_ex s op tp extra taken srcs h
  have t1 := gen_sameTracked s op tp extra taken srcs ht
  rw [e1] at t1
  exact ⟨s1, e1, h1, f1, t1, l1⟩

/-- Emission of an instruction with a result whose opcode the trace builder
does not track. -/
theorem gen_D_untracked (s : HhbcTranslator) (op : Opcode) (tp : Option IRType)
    (extra : ExtraData) (taken : Option TraceRef) (srcs : List SSATmpPtr)
    (h : op.dstKind ≠ .ND) (ht : op.tracked = false) :
    ∃ s1, s.gen op tp extra taken srcs = (some s.irFactory.tmps.length, s1) ∧
      Emitted s s1 [mkInst op tp extra taken srcs (some s.irFactory.tmps.length)] [] ∧
      SameFrame s s1 ∧ SameTracked s s1 ∧
      s1.irFactory.tmps.length = s.irFactory.tmps.length + 1 := by
  obtain ⟨s1, e1, h1, f1, l1⟩ := gen_D_ex s op tp extra taken srcs h
  have t1 := gen_sameTracked s op tp extra taken srcs ht
  rw [e1] at t1
  exact ⟨s1, e1, h1, f1, t1, l1⟩

/-- Lines 2208-2214: the checks a return starts with. -/
theorem retChecks_emitted (s : HhbcTranslator) :
    Emitted s s.retChecks
      ([mkInst .ExitWhenSurprised none .none (some (.exit s.tb.exitTraces.length)) [] none] ++
        (if s.curFunc.mayUseVV = true then
          [mkInst .ReleaseVVOrExit none .none (some (.exit (s.tb.exitTraces.length + 1)))
            [s.tb.fp] none]
        else []))
      ([s.bcOff] ++ (if s.curFunc.mayUseVV = true then [s.bcOff] else [])) ∧
    SameFrame s s.retChecks ∧ SameTracked s s.retChecks := by
  obtain ⟨s1, e1, h1, f1, t1⟩ := getExitSlowTrace_ex s
  obtain ⟨s2, e2, h2, f2, t2, -⟩ := gen_ND_untracked s1 .ExitWhenSurprised none .none
    (some (.exit s.tb.exitTraces.length)) [] rfl rfl
  have h12 := emitted_trans h1 h2
  by_cases hv : s.curFunc.mayUseVV = true
  · obtain ⟨s3, e3, h3, f3, t3⟩ := getExitSlowTrace_ex s2
    have hlen : s2.tb.exitTraces.length = s.tb.exitTraces.length + 1 := by
      rw [emitted_exitLen h12]; rfl
    have hbc : s2.bcOff = s.bcOff := by
      simp only [bcOff, f2.bcStateStack, f1.bcStateStack]
    rw [hlen] at e3
    rw [hbc] at h3
    obtain ⟨s4, e4, h4, f4, t4, -⟩ := gen_ND_untracked s3 .ReleaseVVOrExit none .none
      (some (.exit (s.tb.exitTraces.length + 1))) [s3.tb.fp] rfl rfl
    have hfp : s3.tb.fp = s.tb.fp := t3.fpValue.trans (t2.fpValue.trans t1.fpValue)
    have hr : s.retChecks = s4 := by
      simp only [retChecks, e1, e2, hv, if_true, e3, e4]
    rw [hr, if_pos hv, if_pos hv]
    rw [hfp] at h4
    refine ⟨?_, sameFrame_trans f1 (sameFrame_trans f2 (sameFrame_trans f3 f4)),
      sameTracked_trans t1 (sameTracked_trans t2 (sameTracked_trans t3 t4))⟩
    simpa using emitted_trans h12 (emitted_trans h3 h4)
  · have hr : s.retChecks = s2 := by
      simp only [retChecks, e1, e2, hv, Bool.false_eq_true, if_false]
    rw [hr, if_neg hv, if_neg hv]
    refine ⟨?_, sameFrame_trans f1 f2, sameTracked_trans t1 t2⟩
    simpa using h12

/-- Lines 2223-2236: the release of the receiver and the locals, the store of
the return value and the return of control. -/
theorem retGeneric_emitted (r : HhbcTranslator) (curFunc : Func) (retVal : SSATmpPtr) :
    Emitted r (r.retGeneric curFunc retVal)
      ((if curFunc.mayHaveThis = true then
          [mkInst .DecRefThis none .none none [r.tb.fp] none]
        else []) ++
       [mkInst .GenericRetDecRefs none .none none [r.tb.fp, some r.irFactory.tmps.length]
          (some (r.irFactory.tmps.length + 1)),
        mkInst .StRetVal none .none none [r.tb.fp, retVal] none,
        mkInst .LdRetAddr none .none none [r.tb.fp] (some (r.irFactory.tmps.length + 2)),
        mkInst .FreeActRec none .none none [r.tb.fp] (some (r.irFactory.tmps.length + 3)),
        mkInst .RetCtrl none .none none
          [some (r.irFactory.tmps.length + 1), some (r.irFactory.tmps.length + 3),
           some (r.irFactory.tmps.length + 2)] none]) [] ∧
    IsConst (r.retGeneric curFunc retVal) r.irFactory.tmps.length (.int curFunc.numLocals) ∧
    (r.retGeneric curFunc retVal).hasExit = true ∧
    (r.retGeneric curFunc retVal).evalStack = r.evalStack ∧
    (r.retGeneric curFunc retVal).stackDeficit = r.stackDeficit ∧
    (r.retGeneric curFunc retVal).bcStateStack = r.bcStateStack := by
  have hG : Opcode.dstKind .GenericRetDecRefs ≠ .ND := by decide
  have hL : Opcode.dstKind .LdRetAddr ≠ .ND := by decide
  have hA : Opcode.dstKind .FreeActRec ≠ .ND := by decide
  -- the release of the receiver
  obtain ⟨s3, hs3, h3, f3, t3, l3⟩ : ∃ s3,
      s3 = (if curFunc.mayHaveThis = true
        then (r.gen .DecRefThis none .none none [r.tb.fp]).2 else r) ∧
      Emitted r s3 (if curFunc.mayHaveThis = true then
          [mkInst .DecRefThis none .none none [r.tb.fp] none] else []) [] ∧
      SameFrame r s3 ∧ SameTracked r s3 ∧ s3.irFactory.tmps = r.irFactory.tmps := by
    by_cases ht : curFunc.mayHaveThis = true
    · obtain ⟨x, ex, hx, fx, tx, lx⟩ := gen_ND_untracked r .DecRefThis none .none none
        [r.tb.fp] rfl rfl
      refine ⟨x, by rw [if_pos ht, ex], by rw [if_pos ht]; exact hx, fx, tx, lx⟩
    · exact ⟨r, by rw [if_neg ht], by rw [if_neg ht]; exact emitted_refl r, sameFrame_refl r,
        sameTracked_refl r, rfl⟩
  obtain ⟨s4, e4, h4, f4, t4, i4⟩ := cns_ex s3 (.int curFunc.numLocals)
  have k4 : IsConst s4 r.irFactory.tmps.length (.int curFunc.numLocals) := by
    have := cns_isConst s3 (.int curFunc.numLocals)
    rw [e4, l3] at this
    exact this
  have l4 : s4.irFactory.tmps.length = r.irFactory.tmps.length + 1 := by
    rw [i4]; simp [l3]
  obtain ⟨s5, e5, h5, f5, t5, l5⟩ := gen_D_untracked s4 .GenericRetDecRefs none .none none
    [s4.tb.fp, some s3.irFactory.tmps.length] hG rfl
  obtain ⟨s6, e6, h6, f6, t6, l6⟩ := gen_ND_untracked s5 .StRetVal none .none none
    [s5.tb.fp, retVal] rfl rfl
  obtain ⟨s7, e7, h7, f7, t7, l7⟩ := gen_D_untracked s6 .LdRetAddr none .none none
    [s6.tb.fp] hL rfl
  obtain ⟨s8, e8, h8, f8, l8⟩ := gen_D_ex s7 .FreeActRec none .none none [s7.tb.fp] hA
  obtain ⟨s9, e9, h9, f9, l9⟩ := gen_ND_ex s8 .RetCtrl none .none none
    [some s4.irFactory.tmps.length, some s7.irFactory.tmps.length,
      some s6.irFactory.tmps.length] rfl
  have hfp4 : s4.tb.fp = r.tb.fp := t4.fpValue.trans t3.fpValue
  have hfp5 : s5.tb.fp = r.tb.fp := t5.fpValue.trans hfp4
  have hfp6 : s6.tb.fp = r.tb.fp := t6.fpValue.trans hfp5
  have hfp7 : s7.tb.fp = r.tb.fp := t7.fpValue.trans hfp6
  have hl5 : s5.irFactory.tmps.length = r.irFactory.tmps.length + 2 := by rw [l5, l4]
  have hl6 : s6.irFactory.tmps.length = r.irFactory.tmps.length + 2 := by rw [l6, hl5]
  have hl7 : s7.irFactory.tmps.length = r.irFactory.tmps.length + 3 := by rw [l7, hl6]
  have hr : r.retGeneric curFunc retVal = { s9 with hasExit := true } := by
    simp only [retGeneric, retCtrl, ← hs3, e4, e5, e6, e7, e8, e9]
  have h49 := emitted_trans h5 (emitted_trans h6 (emitted_trans h7 (emitted_trans h8 h9)))
  have hfin : Emitted s9 ({ s9 with hasExit := true } : HhbcTranslator) [] [] :=
    emitted_of_same _ _ rfl rfl
  rw [hr]
  refine ⟨?_, isConst_of_emitted (emitted_trans h49 hfin) k4, rfl, ?_, ?_, ?_⟩
  · rw [hfp4, l3, l4] at h5
    rw [hfp5] at h6
    rw [hfp6, hl6] at h7
    rw [hfp7, hl7] at h8
    rw [l4, hl7, hl6] at h9
    have := emitted_trans h3 (emitted_trans h4 (emitted_trans h5 (emitted_trans h6
      (emitted_trans h7 (emitted_trans h8 (emitted_trans h9 hfin))))))
    simpa using this
  · show s9.evalStack = r.evalStack
    rw [f9.evalStack, f8.evalStack, f7.evalStack, f6.evalStack, f5.evalStack, f4.evalStack,
      f3.evalStack]
  · show s9.stackDeficit = r.stackDeficit
    rw [f9.stackDeficit, f8.stackDeficit, f7.stackDeficit, f6.stackDeficit, f5.stackDeficit,
      f4.stackDeficit, f3.stackDeficit]
  · show s9.bcStateStack = r.bcStateStack
    rw [f9.bcStateStack, f8.bcStateStack, f7.bcStateStack, f6.bcStateStack, f5.bcStateStack,
      f4.bcStateStack, f3.bcStateStack]

/-- A pop leaves the tracked frame pointer alone. -/
theorem pop_fp (s : HhbcTranslator) (t : IRType) (r : SSATmpPtr × HhbcTranslator)
    (h : s.pop t = .ok r) : r.2.tb.fp = s.tb.fp := by
  unfold pop at h
  split at h
  · simp only [Except.ok.injEq] at h
    subst h
    exact (gen_sameTracked _ .LdStack _ _ _ _ rfl).fpValue
  · split at h
    · cases h
    · rename_i s1 hr
      simp only [Except.ok.injEq] at h
      subst h
      unfold refineType at hr
      split at hr
      · cases hr
      · simp only [Except.ok.injEq] at hr
        subst hr
        rfl

end HhbcTranslator

/-- C30: a return that is not inlined (`emitRet` with at most one frame-state
entry and `freeInline` false) emits, in this order: the surprise check
`ExitWhenSurprised`, whose target is a new exit trace for the current offset;
`ReleaseVVOrExit` with another such exit trace exactly when the function may
use the extra variables; then the return value is popped, which appends at
most one load from the real stack; `DecRefThis` exactly when the function may
have a receiver; one `GenericRetDecRefs` on the frame pointer and the constant
number of locals of the function; `StRetVal` of the popped value; `LdRetAddr`;
`FreeActRec`; and `RetCtrl` as last instruction, on the stack pointer
`GenericRetDecRefs` made, the frame pointer `FreeActRec` made and the return
address.  The session is marked as having an exit.  A session with more than
one frame-state entry takes the inlined return instead. -/
theorem emitRet_not_inlined (s r : HhbcTranslator) (type : IRType) (retVal : SSATmpPtr)
    (hinl : s.bcStateStack.length ≤ 1)
    (hpop : s.retChecks.pop type = .ok (retVal, r)) :
    ∃ s1,
      s.emitRet type false = .ok s1 ∧
      Emitted s s.retChecks
        ([mkInst .ExitWhenSurprised none .none (some (.exit s.tb.exitTraces.length)) [] none] ++
          (if s.curFunc.mayUseVV = true then
            [mkInst .ReleaseVVOrExit none .none (some (.exit (s.tb.exitTraces.length + 1)))
              [s.tb.fp] none]
          else []))
        ([s.bcOff] ++ (if s.curFunc.mayUseVV = true then [s.bcOff] else [])) ∧
      Loaded s.retChecks r (if s.evalStack = [] then 1 else 0) ∧
      Emitted r s1
        ((if s.curFunc.mayHaveThis = true then
            [mkInst .DecRefThis none .none none [s.tb.fp] none]
          else []) ++
         [mkInst .GenericRetDecRefs none .none none [s.tb.fp, some r.irFactory.tmps.length]
            (some (r.irFactory.tmps.length + 1)),
          mkInst .StRetVal none .none none [s.tb.fp, retVal] none,
          mkInst .LdRetAddr none .none none [s.tb.fp] (some (r.irFactory.tmps.length + 2)),
          mkInst .FreeActRec none .none none [s.tb.fp] (some (r.irFactory.tmps.length + 3)),
          mkInst .RetCtrl none .none none
            [some (r.irFactory.tmps.length + 1), some (r.irFactory.tmps.length + 3),
             some (r.irFactory.tmps.length + 2)] none]) [] ∧
      IsConst s1 r.irFactory.tmps.length (.int s.curFunc.numLocals) ∧
      s1.hasExit = true ∧ s1.evalStack = s.evalStack.tail ∧
      (∀ (s2 : HhbcTranslator) (fi : Bool), 1 < s2.bcStateStack.length →
        s2.emitRet type fi = s2.emitRetFromInlined type) := by
  obtain ⟨hc, fc, tc⟩ := HhbcTranslator.retChecks_emitted s
  obtain ⟨hl, he, -⟩ := HhbcTranslator.pop_loaded s.retChecks type _ hpop
  have hfp : r.tb.fp = s.tb.fp :=
    (HhbcTranslator.pop_fp s.retChecks type _ hpop).trans tc.fpValue
  obtain ⟨hg, kg, xg, eg, -, -⟩ := HhbcTranslator.retGeneric_emitted r s.curFunc retVal
  rw [hfp] at hg
  rw [fc.evalStack] at hl he
  have hni : s.isInlining = false := by
    simp only [HhbcTranslator.isInlining, decide_eq_false_iff_not, Nat.not_lt]
    exact hinl
  refine ⟨r.retGeneric s.curFunc retVal, ?_, hc, hl, hg, kg, xg, eg.trans he, ?_⟩
  · simp only [HhbcTranslator.emitRet, hni, Bool.false_eq_true, if_false, hpop]
  · intro s2 fi h2
    have hi : s2.isInlining = true := by
      simp only [HhbcTranslator.isInlining, decide_eq_true_eq]
      exact h2
    simp only [HhbcTranslator.emitRet, hi, if_true]

theorem emitRet_not_inlined_witness :
    sessionRet.bcStateStack.length ≤ 1 ∧
    sessionRet.retChecks.pop IRType.Cell =
      .ok (some 2, { sessionRet.retChecks with evalStack := [] }) ∧
    ∃ s1,
      sessionRet.emitRet IRType.Cell false = .ok s1 ∧
      Emitted sessionRet sessionRet.retChecks
        [mkInst .ExitWhenSurprised none .none (some (.exit 0)) [] none,
         mkInst .ReleaseVVOrExit none .none (some (.exit 1)) [some 0] none] [0, 0] ∧
      Loaded sessionRet.retChecks { sessionRet.retChecks with evalStack := [] } 0 ∧
      Emitted { sessionRet.retChecks with evalStack := [] } s1
        [mkInst .DecRefThis none .none none [some 0] none,
         mkInst .GenericRetDecRefs none .none none [some 0, some 7] (some 8),
         mkInst .StRetVal none .none none [some 0, some 2] none,
         mkInst .LdRetAddr none .none none [some 0] (some 9),
         mkInst .FreeActRec none .none none [some 0] (some 10),
         mkInst .RetCtrl none .none none [some 8, some 10, some 9] none] [] ∧
      IsConst s1 7 (.int 3) ∧
      s1.hasExit = true ∧ s1.evalStack = [] ∧
      (∀ (s2 : HhbcTranslator) (fi : Bool), 1 < s2.bcStateStack.length →
        s2.emitRet IRType.Cell fi = s2.emitRetFromInlined IRType.Cell) :=
  ⟨by decide, rfl,
    emitRet_not_inlined sessionRet { sessionRet.retChecks with evalStack := [] } IRType.Cell
      (some 2) (by decide) rfl⟩

/-! ## Markers and the current frame -/

namespace IRFactory

theorem extra_setTypeParam (f : IRFactory) (i j : InstId) (t : IRType) :
    ((f.setTypeParam i t).inst j).extra = (f.inst j).extra := by
  by_cases hij : i = j
  · subst hij
    by_cases hlt : i < f.insts.length
    · rw [inst_setTypeParam_self f i t hlt]
    · simp [setTypeParam, inst, List.set_eq_of_length_le (Nat.le_of_not_lt hlt)]
  · rw [inst_setTypeParam_ne f i j t hij]

/-- Narrowing keeps the immediate operand of every instruction. -/
theorem refineTypeFuel_extra (n : Nat) :
    ∀ (f g : IRFactory) (v : SSATmpId) (t : IRType),
      refineTypeFuel n f v t = .ok g → ∀ i, (g.inst i).extra = (f.inst i).extra := by
  induction n with
  | zero => intro f g v t h; simp [refineTypeFuel] at h
  | succ n ih =>
    intro f g v t h
    simp only [refineTypeFuel] at h
    split at h
    · split at h
      · split at h
        · exact absurd h (by simp)
        · rename_i src hsrc
          split at h
          · exact absurd h (by simp)
          · rename_i f1 hf1
            simp only [Except.ok.injEq] at h
            subst h
            intro i
            exact ih f f1 src t hf1 i
      · split at h
        · simp only [Except.ok.injEq] at h
          subst h
          intro i
          rfl
        · split at h
          · split at h
            · simp only [Except.ok.injEq] at h
              subst h
              intro i
              exact extra_setTypeParam _ _ _ _
            · exact absurd h (by simp)
          · exact absurd h (by simp)
    · simp only [Except.ok.injEq] at h
      subst h
      intro i
      rfl

end IRFactory

theorem ruleStep_refl (s : HhbcTranslator) : RuleStep s s :=
  ⟨rfl, ⟨[], by simp, by simp⟩, fun _ hi => ⟨hi, rfl, rfl⟩⟩

theorem ruleStep_trans {s s1 s2 : HhbcTranslator} (h1 : RuleStep s s1) (h2 : RuleStep s1 s2) :
    RuleStep s s2 where
  bcStateStack := h2.bcStateStack.trans h1.bcStateStack
  trace := by
    obtain ⟨a, ha, va⟩ := h1.trace
    obtain ⟨b, hb, vb⟩ := h2.trace
    refine ⟨a ++ b, by rw [hb, ha, List.append_assoc], ?_⟩
    intro i hi
    rcases List.mem_append.mp hi with h | h
    · obtain ⟨x, y⟩ := va i h
      obtain ⟨x2, y2, -⟩ := h2.arena i x
      exact ⟨x2, by rw [y2]; exact y⟩
    · exact vb i h
  arena := fun i hi => by
    obtain ⟨x, y, z⟩ := h1.arena i hi
    obtain ⟨x2, y2, z2⟩ := h2.arena i x
    exact ⟨x2, y2.trans y, z2.trans z⟩

/-- A change of the stack model, of the call-preparation stack or of a flag is
a step of a lowering rule. -/
theorem ruleStep_of_same (s s1 : HhbcTranslator) (h1 : s1.irFactory = s.irFactory)
    (h2 : s1.tb = s.tb) (h3 : s1.bcStateStack = s.bcStateStack) : RuleStep s s1 :=
  ⟨h3, ⟨[], by simp [h2], by simp⟩, fun _ hi => ⟨by rw [h1]; exact hi, by rw [h1], by rw [h1]⟩⟩

/-- Emission of instructions other than markers is a step of a lowering
rule. -/
theorem ruleStep_of_emitted {s s1 : HhbcTranslator} {recs : List IRInstruction}
    {exits : List Offset} (h : Emitted s s1 recs exits)
    (hb : s1.bcStateStack = s.bcStateStack) (hm : ∀ r ∈ recs, r.op ≠ .Marker) :
    RuleStep s s1 where
  bcStateStack := hb
  trace := by
    obtain ⟨ids, h1, h2, h3⟩ := h.ids
    refine ⟨ids, h1, fun i hi => ⟨h3 i hi, hm _ ?_⟩⟩
    rw [← h2]
    exact List.mem_map_of_mem _ hi
  arena := fun i hi => by
    obtain ⟨more, hmore⟩ := h.insts
    refine ⟨?_, ?_, ?_⟩
    · rw [hmore, List.length_append]
      exact Nat.lt_of_lt_of_le hi (Nat.le_add_right _ _)
    · rw [IRFactory.inst_append_left _ _ more hmore i hi]
    · rw [IRFactory.inst_append_left _ _ more hmore i hi]

namespace HhbcTranslator

/-- Emission through `gen` of an instruction other than a marker is a step of
a lowering rule. -/
theorem gen_ruleStep (s : HhbcTranslator) (op : Opcode) (tp : Option IRType)
    (extra : ExtraData) (taken : Option TraceRef) (srcs : List SSATmpPtr)
    (h : op ≠ .Marker) : RuleStep s (s.gen op tp extra taken srcs).2 :=
  ruleStep_of_emitted (gen_emitted s op tp extra taken srcs) rfl (fun r hr => by
    rw [List.mem_singleton.mp hr]; exact h)

/-- A pop is a step of a lowering rule. -/
theorem pop_ruleStep (s : HhbcTranslator) (t : IRType) (r : SSATmpPtr × HhbcTranslator)
    (h : s.pop t = .ok r) : RuleStep s r.2 := by
  unfold pop at h
  split at h
  · simp only [Except.ok.injEq] at h
    subst h
    exact ruleStep_trans
      (ruleStep_of_same s { s with stackDeficit := (s.stackDeficit + 1) % uint32Size }
        rfl rfl rfl)
      (gen_ruleStep _ .LdStack _ _ _ _ (by decide))
  · split at h
    · cases h
    · rename_i opnd rest hstack s1 hr
      simp only [Except.ok.injEq] at h
      subst h
      unfold refineType at hr
      split at hr
      · cases hr
      · rename_i f hf
        simp only [Except.ok.injEq] at hr
        subst hr
        have hsh := IRFactory.refineTypeFuel_sameShape _ _ _ _ _ hf
        have hex := IRFactory.refineTypeFuel_extra _ _ _ _ _ hf
        exact ⟨rfl, ⟨[], by simp, by simp⟩,
          fun i hi => ⟨by simpa using (hsh.instsLen.symm ▸ hi), hsh.op i, hex i⟩⟩

/-- A push is a step of a lowering rule. -/
theorem push_ruleStep (s : HhbcTranslator) (v : SSATmpPtr) (r : SSATmpPtr × HhbcTranslator)
    (h : s.push v = .ok r) : RuleStep s r.2 := by
  unfold push at h
  split at h
  · cases h
  · simp only [Except.ok.injEq] at h
    subst h
    exact ruleStep_of_same _ _ rfl rfl rfl

end HhbcTranslator

/-- The marker invariant reads the main trace, the arena and the frame-state
stack only. -/
theorem markerCurrent_congr {s s1 : HhbcTranslator} (h : MarkerCurrent s)
    (h1 : s1.irFactory = s.irFactory) (h2 : s1.tb.trace = s.tb.trace)
    (h3 : s1.bcStateStack = s.bcStateStack) : MarkerCurrent s1 := by
  obtain ⟨pre, i, post, m, a, b, c, d, e, f, g⟩ := h
  refine ⟨pre, i, post, m, by rw [h2]; exact a, by rw [h1]; exact b, by rw [h1]; exact c,
    by rw [h1]; exact d, ?_, ?_, by rw [h1]; exact g⟩
  · simp only [HhbcTranslator.bcOff, h3] at e ⊢
    exact e
  · simp only [HhbcTranslator.curFunc, h3] at f ⊢
    exact f

/-- Right after `emitMarker` the most recent marker is for the current frame,
whatever the session was. -/
theorem markerCurrent_emitMarker (s : HhbcTranslator) : MarkerCurrent s.emitMarker := by
  obtain ⟨h, f, -⟩ := HhbcTranslator.emitMarker_emitted s
  obtain ⟨ids, h1, h2, h3⟩ := h.ids
  obtain ⟨i, hi⟩ : ∃ i, ids = [i] := by
    have := congrArg List.length h2
    simp only [List.length_map, List.length_singleton] at this
    exact List.length_eq_one.mp this
  subst hi
  simp only [List.map_cons, List.map_nil, List.cons.injEq, and_true] at h2
  refine ⟨s.tb.trace.instructions, i, [],
    ⟨s.bcOff, toInt32 (s.tb.spOffset + s.numCells - s.stackDeficit), s.curFunc⟩, h1,
    h3 i (List.mem_singleton_self _), ?_, ?_, ?_, ?_, by simp⟩
  · rw [h2]
  · rw [h2]
  · simp only [HhbcTranslator.bcOff, f.bcStateStack]
  · simp only [HhbcTranslator.curFunc, f.bcStateStack]

/-- A step of a lowering rule keeps the most recent marker current. -/
theorem markerCurrent_ruleStep {s s1 : HhbcTranslator} (h : RuleStep s s1)
    (hm : MarkerCurrent s) : MarkerCurrent s1 := by
  obtain ⟨pre, i, post, m, a, b, c, d, e, f, g⟩ := hm
  obtain ⟨ids, h1, h2⟩ := h.trace
  obtain ⟨b1, c1, d1⟩ := h.arena i b
  refine ⟨pre, i, post ++ ids, m, by rw [h1, a]; simp, b1, c1.trans c, d1.trans d, ?_, ?_, ?_⟩
  · simp only [HhbcTranslator.bcOff, h.bcStateStack] at e ⊢
    exact e
  · simp only [HhbcTranslator.curFunc, h.bcStateStack] at f ⊢
    exact f
  · intro j hj
    rcases List.mem_append.mp hj with hj | hj
    · obtain ⟨x, y⟩ := g j hj
      obtain ⟨x1, y1, -⟩ := h.arena j x
      exact ⟨x1, by rw [y1]; exact y⟩
    · exact h2 j hj

/-- The constructor leaves a session whose first instruction is the marker for
its frame. -/
theorem markerCurrent_new (startOffset : Offset) (initialSpOffsetFromFp : Nat) (func : Func) :
    MarkerCurrent (HhbcTranslator.new startOffset initialSpOffsetFromFp func) := by
  unfold HhbcTranslator.new
  exact markerCurrent_ruleStep (HhbcTranslator.gen_ruleStep _ .DefSP _ _ _ _ (by decide))
    (markerCurrent_ruleStep (HhbcTranslator.gen_ruleStep _ .DefFP _ _ _ _ (by decide))
      (markerCurrent_emitMarker _))

theorem markerCurrent_setBcOff (s s1 : HhbcTranslator) (newOff : Offset) (last : Bool)
    (h : s.setBcOff newOff last = .ok s1) (hm : MarkerCurrent s) : MarkerCurrent s1 := by
  unfold HhbcTranslator.setBcOff at h
  split at h
  · cases h
  · split at h
    · cases h
    · simp only [Except.ok.injEq] at h
      subst h
      by_cases hne : newOff ≠ s.bcOff
      · simp only [if_pos hne]
        exact markerCurrent_congr (markerCurrent_emitMarker _) rfl rfl rfl
      · simp only [if_neg hne]
        exact markerCurrent_congr hm rfl rfl rfl

theorem markerCurrent_beginInlining (s s1 : HhbcTranslator) (statsEnabled : Bool)
    (numParams : Nat) (target : Func) (returnBcOffset : Offset)
    (h : s.beginInlining statsEnabled numParams target returnBcOffset = .ok s1) :
    MarkerCurrent s1 := by
  unfold HhbcTranslator.beginInlining at h
  split at h
  · cases h
  · split at h
    · cases h
    · split at h
      · cases h
      · simp only at h
        split at h
        · cases h
        · simp only [Except.ok.injEq] at h
          subst h
          exact markerCurrent_emitMarker _

theorem markerCurrent_emitRetFromInlined (s s1 : HhbcTranslator) (type : IRType)
    (h : s.emitRetFromInlined type = .ok s1) : MarkerCurrent s1 := by
  unfold HhbcTranslator.emitRetFromInlined at h
  repeat' first
    | contradiction
    | (simp only [Except.ok.injEq] at h; subst h; exact markerCurrent_emitMarker _)
    | split at h
    | simp only at h

/-- The marker the invariant speaks of is the one `lastMarker` computes. -/
theorem lastMarker_of_markerCurrent (s : HhbcTranslator) (h : MarkerCurrent s) :
    ∃ m, s.lastMarker = some m ∧ m.bcOff = s.bcOff ∧ m.func = s.curFunc := by
  obtain ⟨pre, i, post, m, a, b, c, d, e, f, g⟩ := h
  refine ⟨m, ?_, e, f⟩
  have hpost : (post.map s.irFactory.inst).filter (fun i => decide (i.op = .Marker)) = [] := by
    rw [List.filter_eq_nil_iff]
    intro x hx
    obtain ⟨j, hj, rfl⟩ := List.mem_map.mp hx
    simpa using (g j hj).2
  simp only [HhbcTranslator.lastMarker, HhbcTranslator.traceInsts, a, List.map_append,
    List.map_cons, List.filter_append, List.filter_cons, c, decide_True, if_true, hpost,
    List.getLast?_append_cons, List.getLast?_singleton, Option.some_bind, d, markerOf]

namespace HhbcTranslator

/-- Pushing a constant is a step of a lowering rule. -/
theorem emitInt_ruleStep (s s1 : HhbcTranslator) (v : Int) (h : s.emitInt v = .ok s1) :
    RuleStep s s1 := by
  unfold emitInt at h
  simp only at h
  split at h
  · cases h
  · rename_i p hp
    simp only [Except.ok.injEq] at h
    subst h
    exact ruleStep_trans (ruleStep_of_emitted (cns_emitted s (.int v)) rfl (by simp))
      (push_ruleStep _ _ _ hp)

/-- Where `beginInlining` emits `ReDefSP` (line 239): in the session
`inlineFrameEntered` leaves, whose current frame is the one of the callee. -/
theorem beginInlining_at_entered (s p : HhbcTranslator) (statsEnabled : Bool)
    (numParams : Nat) (target : Func) (returnBcOffset : Offset) (params : List SSATmpPtr)
    (hfpi : s.fpiStack ≠ []) (hgen : target.isGenerator = false)
    (hloc : target.numLocals ≤ numParams)
    (hpop : popParams numParams numParams 0 (List.replicate numParams none) s =
      .ok (params, p)) :
    s.beginInlining statsEnabled numParams target returnBcOffset =
      .ok (storeParams (p.inlineFrameEntered target returnBcOffset).1 params numParams 0
        (((p.inlineFrameEntered target returnBcOffset).2.gen .ReDefSP none
          (.stackOffset target.numLocals) none
          [(p.inlineFrameEntered target returnBcOffset).2.tb.fp,
           (p.inlineFrameEntered target returnBcOffset).2.tb.sp]).2.profileFunctionEntry
          statsEnabled "Inline")).emitMarker ∧
    (p.inlineFrameEntered target returnBcOffset).2.bcOff = target.base ∧
    (p.inlineFrameEntered target returnBcOffset).2.curFunc = target := by
  refine ⟨?_, ?_, ?_⟩
  · simp only [beginInlining, if_neg hfpi, hgen, Bool.false_eq_true, if_false, hpop,
      if_neg (Nat.not_lt.mpr hloc)]
    rfl
  · simp [inlineFrameEntered, bcOff]
  · simp [inlineFrameEntered, curFunc]

end HhbcTranslator

/-- The sample session of an inlined call is a session. -/
theorem session_sessionInlined : Session sessionInlined := by
  obtain ⟨a, ha, b, hb, hc⟩ : ∃ a, sessionStart.emitInt 7 = .ok a ∧ ∃ b, a.emitInt 8 = .ok b ∧
      sessionCall = { b with fpiStack := [(b.tb.sp, 0)] } := ⟨_, rfl, _, rfl, rfl⟩
  have h0 : Session sessionStart := Session.new 0 0 {}
  have h1 : Session a := Session.rule h0 (HhbcTranslator.emitInt_ruleStep _ _ _ ha)
  have h2 : Session b := Session.rule h1 (HhbcTranslator.emitInt_ruleStep _ _ _ hb)
  have h3 : Session sessionCall :=
    Session.rule h2 (by rw [hc]; exact ruleStep_of_same _ _ rfl rfl rfl)
  exact Session.beginInlining false 2 sampleCallee 50 h3 rfl

/-- C26, as stated, fails inside `beginInlining`.  When `sampleCallee` is
inlined from `sessionCall`, the frame state of the callee (offset 100) is
pushed at line 238, and `ReDefSP` and the stores of the arguments are appended
to the main trace after that, in the session `sessionCallEntered` and its
successors, while the most recent marker on the main trace is still the one of
the caller at offset 0; the marker for the callee is appended last. -/
theorem marker_current_counterexample :
    HhbcTranslator.popParams 2 2 0 [none, none] sessionCall =
      .ok ([some 2, some 3], { sessionCall with evalStack := [] }) ∧
    sessionCall.beginInlining false 2 sampleCallee 50 =
      .ok (HhbcTranslator.storeParams (some 6) [some 2, some 3] 2 0
        (sessionCallEntered.gen .ReDefSP none (.stackOffset 2) none
          [sessionCallEntered.tb.fp, sessionCallEntered.tb.sp]).2).emitMarker ∧
    sessionCallEntered.bcOff = 100 ∧ sessionCallEntered.curFunc = sampleCallee ∧
    sessionCallEntered.lastMarker = some ⟨0, 0, {}⟩ ∧
    ¬ MarkerCurrent sessionCallEntered ∧
    (sessionInlined.traceInsts .main).map (fun i => i.op) =
      [.Marker, .DefFP, .DefSP, .SpillStack, .DefInlineFP, .ReDefSP, .StLoc, .StLoc, .Marker] := by
  refine ⟨rfl, rfl, by decide, by decide, by decide, ?_, by decide⟩
  intro h
  obtain ⟨m, h1, h2, -⟩ := lastMarker_of_markerCurrent _ h
  have h3 : sessionCallEntered.lastMarker = some ⟨0, 0, {}⟩ := by decide
  have h4 : sessionCallEntered.bcOff = 100 := by decide
  rw [h3] at h1
  cases h1
  rw [h4] at h2
  exact absurd h2 (by decide)

/-- C26 (amended): at every boundary between the operations of a session
(the constructor, `setBcOff`, the steps of lowering rules and the markers they
ask for, `beginInlining`, `emitRetFromInlined`) the main trace holds a marker
that carries the bytecode offset and the function of the frame state that is
current, and no marker follows it.  So every instruction a lowering rule
appends comes after a marker for the frame it is emitted for, and that marker
is the most recent one: the invariant holds again after the step.  It does not
hold inside `beginInlining` and `emitRetFromInlined`, which emit between the
change of the frame-state stack and the marker that closes them. -/
theorem marker_current_at_boundaries (s : HhbcTranslator) (h : Session s) :
    MarkerCurrent s ∧
    (∃ m, s.lastMarker = some m ∧ m.bcOff = s.bcOff ∧ m.func = s.curFunc) ∧
    (∀ s1, RuleStep s s1 → MarkerCurrent s1) := by
  have hm : MarkerCurrent s := by
    induction h with
    | new a b c => exact markerCurrent_new a b c
    | setBcOff off last _ h ih => exact markerCurrent_setBcOff _ _ off last h ih
    | rule _ h ih => exact markerCurrent_ruleStep h ih
    | emitMarker _ _ => exact markerCurrent_emitMarker _
    | beginInlining st n t r _ h _ => exact markerCurrent_beginInlining _ _ st n t r h
    | emitRetFromInlined t _ h _ => exact markerCurrent_emitRetFromInlined _ _ t h
  exact ⟨hm, lastMarker_of_markerCurrent s hm, fun s1 h1 => markerCurrent_ruleStep h1 hm⟩

theorem marker_current_at_boundaries_witness :
    Session sessionInlined ∧
    MarkerCurrent sessionInlined ∧
    (∃ m, sessionInlined.lastMarker = some m ∧ m.bcOff = sessionInlined.bcOff ∧
      m.func = sessionInlined.curFunc) ∧
    (∀ s1, RuleStep sessionInlined s1 → MarkerCurrent s1) :=
  ⟨session_sessionInlined, marker_current_at_boundaries sessionInlined session_sessionInlined⟩

/-! ## Packing guard bits -/

/-- C40: the code departs from the claim at bit 31.  For the 32-bit vector
whose only set bit is bit 31, `packBitVec(bits, 0)` returns the word
`0xFFFFFFFF80000000`: the shift at line 2553 is a shift of a 32-bit `int`, so
bit 31 is the sign bit and the conversion to `uint64_t` extends it over the
bits 32 to 63.  The claim asks for the word `2 ^ 31`, in which bit 32 is
clear, as index 32 lies past the end of the vector. -/
theorem packBitVec_bit31_sign_extended :
    ∃ w, packBitVec (List.replicate 31 false ++ [true]) 0 = .ok w ∧
      w = 0xFFFFFFFF80000000 ∧ w ≠ 2 ^ 31 ∧
      w.testBit 31 = true ∧ w.testBit 32 = true ∧ w.testBit 63 = true ∧
      ¬ (0 + 32 < (List.replicate 31 false ++ [true]).length) :=
  ⟨_, rfl, by decide⟩

set_option maxRecDepth 100000 in
/-- C35: the code departs from the claim when the chunk that starts at index
64 is skipped.  With a mask of 129 bits whose set bits are bit 0 and bit 128,
the chunk of bits 64 to 127 is all zero and line 2573 skips it before line
2579 can load the parameter count; the `GuardRefs` for the chunk that starts at
index 128 then carries the constant 64 of the first chunk (value 4) as its
parameter-count operand, and no `LdRaw` is emitted at all.  With a mask whose
only set bit is bit 128 the operand is the null pointer. -/
theorem guardRefs_stale_param_count :
    (∃ s1, sessionStart.guardRefs (fun n => n * 16) 0
        ([true] ++ List.replicate 127 false ++ [true]) (List.replicate 129 false) = .ok s1 ∧
      ((s1.traceInsts .main).filter (fun i => decide (i.op = .GuardRefs))).map
          (fun i => i.srcs) =
        [[some 3, some 4, some 7, some 5, some 6], [some 3, some 4, some 10, some 8, some 9]] ∧
      s1.irFactory.inst (s1.irFactory.instOf 4) = defConstInst (.int 64) 4 ∧
      s1.irFactory.inst (s1.irFactory.instOf 7) = defConstInst (.int 0) 7 ∧
      s1.irFactory.inst (s1.irFactory.instOf 10) = defConstInst (.int 128) 10 ∧
      (s1.traceInsts .main).filter (fun i => decide (i.op = .LdRaw)) = []) ∧
    (∃ s1, sessionStart.guardRefs (fun n => n * 16) 0
        (List.replicate 128 false ++ [true]) (List.replicate 129 false) = .ok s1 ∧
      ((s1.traceInsts .main).filter (fun i => decide (i.op = .GuardRefs))).map
          (fun i => i.srcs) =
        [[some 3, none, some 6, some 4, some 5]] ∧
      s1.irFactory.inst (s1.irFactory.instOf 6) = defConstInst (.int 128) 6) :=
  ⟨⟨_, rfl, by decide⟩, ⟨_, rfl, by decide⟩⟩

/-! ## Pop and release -/

/-- C32: `popDecRef(t)` on a non-empty virtual stack removes the top entry `v`
and puts exactly one instruction on the main trace, the `DecRef` of `v`; the
deficit is unchanged and no load is emitted.  On an empty virtual stack with
deficit `d` it puts exactly one instruction on the main trace, the combined
`DecRefStack` that is typed `t`, reads real stack offset `d` and takes the
current stack pointer as its source, and the deficit becomes `d + 1`.  No
auxiliary trace is made in either case.  The counter is taken to stay within
its 32-bit range. -/
theorem popDecRef_effect (s : HhbcTranslator) (t : IRType)
    (hd : s.evalStack = [] → s.stackDeficit + 1 < uint32Size) :
    (∀ v rest, s.evalStack = v :: rest →
      Emitted s (s.popDecRef t) [mkInst .DecRef none .none none [some v] none] [] ∧
      (s.popDecRef t).evalStack = rest ∧
      (s.popDecRef t).stackDeficit = s.stackDeficit) ∧
    (s.evalStack = [] →
      Emitted s (s.popDecRef t)
        [mkInst .DecRefStack (some t) (.stackOffset s.stackDeficit) none [s.tb.sp] none] [] ∧
      (s.popDecRef t).evalStack = [] ∧
      (s.popDecRef t).stackDeficit = s.stackDeficit + 1) := by
  constructor
  · intro v rest hs
    obtain ⟨x, hx⟩ : ∃ x : HhbcTranslator, x = { s with evalStack := rest } := ⟨_, rfl⟩
    obtain ⟨s1, e1, h1, f1, -⟩ := HhbcTranslator.gen_ND_ex x .DecRef none .none none [some v] rfl
    have hp : s.popDecRef t = s1 := by
      simp only [HhbcTranslator.popDecRef, hs, ← hx, e1]
    have h0 : Emitted s x [] [] := emitted_of_same s x (by rw [hx]) (by rw [hx])
    have h := emitted_trans h0 h1
    simp only [List.nil_append] at h
    rw [hp]
    exact ⟨h, by rw [f1.evalStack, hx], by rw [f1.stackDeficit, hx]⟩
  · intro hs
    obtain ⟨s1, e1, h1, f1, -⟩ := HhbcTranslator.gen_ND_ex s .DecRefStack (some t)
      (.stackOffset s.stackDeficit) none [s.tb.sp] rfl
    have hp : s.popDecRef t = { s1 with stackDeficit := (s1.stackDeficit + 1) % uint32Size } := by
      simp only [HhbcTranslator.popDecRef, hs, e1]
    rw [hp]
    refine ⟨emitted_congr h1 rfl rfl, ?_, ?_⟩
    · simp only [f1.evalStack, hs]
    · simp only [f1.stackDeficit]
      exact Nat.mod_eq_of_lt (hd hs)

theorem popDecRef_effect_witness :
    ((sessionTwo.evalStack = [] → sessionTwo.stackDeficit + 1 < uint32Size) ∧
      Emitted sessionTwo (sessionTwo.popDecRef IRType.Cell)
        [mkInst .DecRef none .none none [some 3] none] [] ∧
      (sessionTwo.popDecRef IRType.Cell).evalStack = [2] ∧
      (sessionTwo.popDecRef IRType.Cell).stackDeficit = 0) ∧
    ((sessionStart.evalStack = [] → sessionStart.stackDeficit + 1 < uint32Size) ∧
      Emitted sessionStart (sessionStart.popDecRef IRType.Cell)
        [mkInst .DecRefStack (some IRType.Cell) (.stackOffset 0) none [some 1] none] [] ∧
      (sessionStart.popDecRef IRType.Cell).evalStack = [] ∧
      (sessionStart.popDecRef IRType.Cell).stackDeficit = 1) :=
  ⟨⟨(fun _ => by decide),
    (popDecRef_effect sessionTwo IRType.Cell (fun _ => by decide)).1 3 [2] (by decide)⟩,
   ⟨(fun _ => by decide),
    (popDecRef_effect sessionStart IRType.Cell (fun _ => by decide)).2 (by decide)⟩⟩

/-! ## The generic interpretation of one instruction -/

namespace HhbcTranslator

/-- The loads made for the requested types, as an emission into the main
trace. -/
theorem afterLoads_emitted (s : HhbcTranslator) (ts : List IRType) :
    Emitted s (s.afterLoads ts)
      (stackLoads s.tb.sp s.stackDeficit s.irFactory.tmps.length ts) [] where
  ids := by
    refine ⟨List.range' s.irFactory.insts.length ts.length, ?_, ?_, ?_⟩
    · simp only [afterLoads, IRTrace.instructions, foldl_pushBackBlocks_flatten]
    · apply List.ext_getElem?
      intro j
      rw [List.getElem?_map]
      by_cases hj : j < ts.length
      · have hl : j < (stackLoads s.tb.sp s.stackDeficit s.irFactory.tmps.length ts).length := by
          rw [stackLoads_length]; exact hj
        rw [List.getElem?_range' _ _ hj, List.getElem?_eq_getElem hl]
        simp only [Option.map_some', Option.some.injEq, Nat.one_mul, afterLoads, IRFactory.inst,
          List.getD_eq_getElem?_getD]
        rw [List.getElem?_append_right (Nat.le_add_right _ _), Nat.add_sub_cancel_left,
          List.getElem?_eq_getElem hl]
        rfl
      · have hl : (stackLoads s.tb.sp s.stackDeficit s.irFactory.tmps.length ts).length ≤ j := by
          rw [stackLoads_length]; exact Nat.le_of_not_lt hj
        rw [List.getElem?_eq_none (by simpa using Nat.le_of_not_lt hj),
          List.getElem?_eq_none hl]
        rfl
    · intro i hi
      simp only [List.mem_range', Nat.one_mul] at hi
      obtain ⟨k, hk, rfl⟩ := hi
      simp only [afterLoads, List.length_append, stackLoads_length]
      exact Nat.add_lt_add_left hk _
  targets := by simp [exitTargets, afterLoads]
  old := fun _ _ => rfl
  insts := ⟨_, rfl⟩
  tmps := ⟨_, rfl⟩

end HhbcTranslator

/-- C31: for every session, every result type, every `numPopped` in the range
of `int` and every `numExtraPushed`, `emitInterpOne` returns: the assertion
that the deficit equals `numPopped` after discarding holds, since the
`SpillStack` that comes first leaves an empty virtual stack and zero deficit,
so that the discarding is `numPopped` loads from the real stack.  After these
it emits exactly one `InterpOne`, typed with the result type, whose operands
are the frame pointer, the stack pointer the `SpillStack` made, the constant
current bytecode offset, and the constant
`numPopped - ((type is None ? 0 : 1) + numExtraPushed)`.  Nothing is pushed:
the virtual stack is empty and the deficit is zero afterwards. -/
theorem emitInterpOne_effect (s : HhbcTranslator) (type : IRType) (numPopped : Nat)
    (numExtraPushed : Int) (hint : numPopped < 2 ^ 31) :
    ∃ s1 afterDiscard,
      s.emitInterpOne type numPopped numExtraPushed = .ok s1 ∧
      s.spillStack.2.discard numPopped = .ok afterDiscard ∧
      afterDiscard.stackDeficit = numPopped ∧
      Emitted s s1
        ([mkInst .SpillStack none .none none
            (s.tb.sp :: some s.irFactory.tmps.length :: s.peekSpillValues)
            (some (s.irFactory.tmps.length + 1))] ++
         stackLoads (some (s.irFactory.tmps.length + 1)) 0 (s.irFactory.tmps.length + 2)
           (List.replicate numPopped genericType) ++
         [mkInst .InterpOne (some type) .none none
            [s.tb.fp, some (s.irFactory.tmps.length + 1),
             some (s.irFactory.tmps.length + 2 + numPopped),
             some (s.irFactory.tmps.length + 2 + numPopped + 1)]
            (some (s.irFactory.tmps.length + 2 + numPopped + 2))]) [] ∧
      IsConst s1 (s.irFactory.tmps.length + 2 + numPopped) (.int s.bcOff) ∧
      IsConst s1 (s.irFactory.tmps.length + 2 + numPopped + 1)
        (.int (numPopped - ((if type = IRType.None then 0 else 1) + numExtraPushed))) ∧
      s1.evalStack = [] ∧ s1.stackDeficit = 0 := by
  have hI : Opcode.dstKind .InterpOne ≠ .ND := by decide
  have h32 : numPopped < uint32Size := Nat.lt_trans hint (by decide)
  obtain ⟨sA, eA, hA, evA, dA, bA, -, -, -, -, spA, fpA, -⟩ := HhbcTranslator.spillStack_ex s
  obtain ⟨lA, -⟩ := HhbcTranslator.spillStack_arena s
  have hsA : sA = s.spillStack.2 := by rw [eA]
  rw [← hsA] at lA
  have hdisc := HhbcTranslator.discard_of_empty numPopped sA evA (by rw [dA, Nat.zero_add]; exact h32)
  have hB := HhbcTranslator.afterLoads_emitted sA (List.replicate numPopped genericType)
  obtain ⟨sB, hsB⟩ : ∃ sB : HhbcTranslator,
      sB = sA.afterLoads (List.replicate numPopped genericType) := ⟨_, rfl⟩
  rw [← hsB] at hdisc hB
  rw [spA, dA, lA] at hB
  have dB : sB.stackDeficit = numPopped := by
    rw [hsB]; simp [HhbcTranslator.afterLoads, dA]
  have evB : sB.evalStack = [] := by rw [hsB]; exact evA
  have bB : sB.bcOff = s.bcOff := by
    rw [hsB]; simp only [HhbcTranslator.bcOff, HhbcTranslator.afterLoads, bA]
  have fpB : sB.tb.fp = s.tb.fp := by rw [hsB]; exact fpA
  have lB : sB.irFactory.tmps.length = s.irFactory.tmps.length + 2 + numPopped := by
    rw [hsB]
    simp [HhbcTranslator.afterLoads, HhbcTranslator.stackLoadTmps_length, lA]
  obtain ⟨sC, eC, hC, fC, tC, -⟩ := HhbcTranslator.cns_ex sB (.int sB.bcOff)
  have kC : IsConst sC sB.irFactory.tmps.length (.int sB.bcOff) := by
    have := HhbcTranslator.cns_isConst sB (.int sB.bcOff)
    rwa [eC] at this
  have lC : sC.irFactory.tmps.length = sB.irFactory.tmps.length + 1 := by
    have : sC = (sB.cns (.int sB.bcOff)).2 := by rw [eC]
    rw [this, HhbcTranslator.cns_irFactory]
    simp
  obtain ⟨sD, eD, hD, fD, tD, -⟩ := HhbcTranslator.cns_ex sC
    (.int (numPopped - ((if type = IRType.None then 0 else 1) + numExtraPushed)))
  have kD : IsConst sD sC.irFactory.tmps.length
      (.int (numPopped - ((if type = IRType.None then 0 else 1) + numExtraPushed))) := by
    have := HhbcTranslator.cns_isConst sC
      (.int (numPopped - ((if type = IRType.None then 0 else 1) + numExtraPushed)))
    rwa [eD] at this
  have lD : sD.irFactory.tmps.length = sC.irFactory.tmps.length + 1 := by
    have : sD = (sC.cns
      (.int (numPopped - ((if type = IRType.None then 0 else 1) + numExtraPushed)))).2 := by
      rw [eD]
    rw [this, HhbcTranslator.cns_irFactory]
    simp
  obtain ⟨sE, eE, hE, fE, -⟩ := HhbcTranslator.gen_D_ex sD .InterpOne (some type) .none none
    [sD.tb.fp, some (s.irFactory.tmps.length + 1), some sB.irFactory.tmps.length,
      some sC.irFactory.tmps.length] hI
  have fpD : sD.tb.fp = s.tb.fp := (tD.fpValue.trans tC.fpValue).trans fpB
  refine ⟨{ sE with stackDeficit := 0 }, sB, ?_, by rw [← hsA]; exact hdisc, dB, ?_, ?_, ?_, ?_,
    rfl⟩
  · simp only [HhbcTranslator.emitInterpOne, eA, hdisc, dB, Nat.mod_eq_of_lt h32, ne_eq,
      not_true_eq_false, if_false, eC, eD, eE]
  · rw [fpD, lD, lC, lB] at hE
    have h := emitted_trans hA (emitted_trans hB (emitted_trans hC (emitted_trans hD hE)))
    simp only [List.nil_append, List.append_nil, Nat.add_assoc, Nat.reduceAdd] at h
    simp only [List.append_assoc, Nat.add_assoc, Nat.reduceAdd]
    exact emitted_congr h rfl rfl
  · rw [lB, bB] at kC
    exact isConst_of_emitted (emitted_congr (emitted_trans hD hE) rfl rfl) kC
  · rw [lC, lB] at kD
    exact isConst_of_emitted (emitted_congr hE rfl rfl) kD
  · show sE.evalStack = []
    rw [fE.evalStack, fD.evalStack, fC.evalStack, evB]

theorem emitInterpOne_effect_witness :
    (3 : Nat) < 2 ^ 31 ∧
    ∃ s1 afterDiscard,
      sessionTwo.emitInterpOne IRType.Cell 3 0 = .ok s1 ∧
      sessionTwo.spillStack.2.discard 3 = .ok afterDiscard ∧
      afterDiscard.stackDeficit = 3 ∧
      Emitted sessionTwo s1
        ([mkInst .SpillStack none .none none
            (sessionTwo.tb.sp :: some sessionTwo.irFactory.tmps.length ::
              sessionTwo.peekSpillValues)
            (some (sessionTwo.irFactory.tmps.length + 1))] ++
         stackLoads (some (sessionTwo.irFactory.tmps.length + 1)) 0
           (sessionTwo.irFactory.tmps.length + 2) (List.replicate 3 genericType) ++
         [mkInst .InterpOne (some IRType.Cell) .none none
            [sessionTwo.tb.fp, some (sessionTwo.irFactory.tmps.length + 1),
             some (sessionTwo.irFactory.tmps.length + 2 + 3),
             some (sessionTwo.irFactory.tmps.length + 2 + 3 + 1)]
            (some (sessionTwo.irFactory.tmps.length + 2 + 3 + 2))]) [] ∧
      IsConst s1 (sessionTwo.irFactory.tmps.length + 2 + 3) (.int sessionTwo.bcOff) ∧
      IsConst s1 (sessionTwo.irFactory.tmps.length + 2 + 3 + 1)
        (.int ((3 : Nat) - ((if IRType.Cell = IRType.None then 0 else 1) + 0))) ∧
      s1.evalStack = [] ∧ s1.stackDeficit = 0 :=
  ⟨by decide, emitInterpOne_effect sessionTwo IRType.Cell 3 0 (by decide)⟩

/-! ## The end of a session -/

namespace HhbcTranslator

/-- Moving the cursor: the session `setBcOff` returns, with what it leaves
alone. -/
theorem setBcOff_ex (s : HhbcTranslator) (newOff : Offset) (last : Bool)
    (hframe : s.bcStateStack ≠ []) (hinl : s.isInlining = true → last = false) :
    ∃ s1, s.setBcOff newOff last = .ok s1 ∧
      Emitted s s1
        (if newOff ≠ s.bcOff then
          [markerInst ⟨newOff, toInt32 (s.tb.spOffset + s.numCells - s.stackDeficit), s.curFunc⟩]
        else []) [] ∧
      s1.lastBcOff = last ∧ s1.evalStack = s.evalStack ∧ s1.stackDeficit = s.stackDeficit ∧
      s1.bcOff = newOff ∧ s1.curFunc = s.curFunc ∧ SameTracked s s1 ∧
      s1.irFactory.tmps = s.irFactory.tmps ∧ s1.hasExit = s.hasExit ∧
      s1.startBcOff = s.startBcOff ∧ s1.fpiStack = s.fpiStack := by
  have h1 : ¬ (s.isInlining = true ∧ last = true) := by
    rintro ⟨a, b⟩
    rw [hinl a] at b
    cases b
  by_cases hne : newOff ≠ s.bcOff
  · obtain ⟨s2, hs2⟩ : ∃ s2 : HhbcTranslator, s2 = { s with bcStateStack :=
        s.bcStateStack.dropLast ++ [{ s.bcStateStack.getLastD default with bcOff := newOff }] } :=
      ⟨_, rfl⟩
    have hbc : s2.bcOff = newOff := by
      rw [hs2]; simp [bcOff]
    have hcf : s2.curFunc = s.curFunc := by
      rw [hs2]; simp [curFunc]
    have hnc : s2.numCells = s.numCells := by rw [hs2]; rfl
    have hsd : s2.stackDeficit = s.stackDeficit := by rw [hs2]
    have hso : s2.tb.spOffset = s.tb.spOffset := by rw [hs2]
    obtain ⟨em, fm, tm⟩ := emitMarker_emitted s2
    rw [hbc, hcf, hnc, hsd, hso] at em
    have e0 : Emitted s s2 [] [] := emitted_of_same s s2 (by rw [hs2]) (by rw [hs2])
    have hbc2 : s2.emitMarker.bcOff = newOff := by
      simp only [bcOff, fm.bcStateStack] at hbc ⊢
      exact hbc
    have hcf2 : s2.emitMarker.curFunc = s.curFunc := by
      simp only [curFunc, fm.bcStateStack] at hcf ⊢
      exact hcf
    have hK : Opcode.dstKind .Marker = .ND := rfl
    have htm : s2.emitMarker.irFactory.tmps = s.irFactory.tmps := by
      rw [hs2]
      simp only [emitMarker, makeMarker, IRFactory.gen, hK, if_true]
    refine ⟨{ s2.emitMarker with lastBcOff := last }, ?_, ?_, rfl, ?_, ?_, hbc2, hcf2, ?_, htm,
      ?_, ?_, ?_⟩
    · simp only [setBcOff, if_neg h1, if_neg hframe, if_pos hne, ← hs2]
    · rw [if_pos hne]
      have h := emitted_trans e0 em
      simp only [List.nil_append, List.append_nil] at h
      exact emitted_congr h rfl rfl
    · show s2.emitMarker.evalStack = s.evalStack
      rw [fm.evalStack, hs2]
    · show s2.emitMarker.stackDeficit = s.stackDeficit
      rw [fm.stackDeficit, hs2]
    · exact ⟨by show s2.emitMarker.tb.spValue = _; rw [tm.spValue, hs2],
        by show s2.emitMarker.tb.fpValue = _; rw [tm.fpValue, hs2],
        by show s2.emitMarker.tb.spOffset = _; rw [tm.spOffset, hs2]⟩
    · show s2.emitMarker.hasExit = s.hasExit
      rw [fm.hasExit, hs2]
    · show s2.emitMarker.startBcOff = s.startBcOff
      rw [fm.startBcOff, hs2]
    · show s2.emitMarker.fpiStack = s.fpiStack
      rw [fm.fpiStack, hs2]
  · have heq : newOff = s.bcOff := not_not.mp hne
    refine ⟨{ s with lastBcOff := last }, ?_, ?_, rfl, rfl, rfl, heq.symm, rfl, ⟨rfl, rfl, rfl⟩,
      rfl, rfl, rfl, rfl⟩
    · simp only [setBcOff, if_neg h1, if_neg hframe, if_neg hne]
    · rw [if_neg hne]
      exact emitted_of_same s _ rfl rfl

end HhbcTranslator

/-- C33, as stated, fails: in a session at offset 0 of a function whose
bytecode ends at offset 10, with no terminal control transfer emitted yet,
`end()` for an instruction whose successor is at offset 10 returns at line
3612 without emitting anything: the session is as it was, and its main trace
holds no `ReqBindJmp`. -/
theorem end_forced_jump_counterexample :
    sessionBody.hasExit = false ∧ sessionBody.curFunc.past = 10 ∧
    sessionBody.end_ 10 = .ok sessionBody ∧
    (sessionBody.traceInsts .main).map (fun i => i.op) = [.Marker, .DefFP, .DefSP] :=
  ⟨by decide, by decide, rfl, by decide⟩

/-- C33 (amended): `end()` emits nothing and changes no state when the
has-exit flag is set, and also when the offset `nextPc` of the next
instruction is at or past the end of the bytecode of the current function.
Otherwise, in a session that is not inlining, it completes the main trace with
a forced jump: it moves the cursor to `nextPc` with the last-offset flag set
(which puts a marker for `nextPc` on the trace when the offset changes),
materializes the whole virtual stack with one `SpillStack`, synchronizes the
registers on the frame pointer and the new stack pointer, and emits
`ReqBindJmp` to `nextPc` as the final instruction; the virtual stack is empty
and the deficit zero afterwards. -/
theorem end_forced_jump (s : HhbcTranslator) (nextPc : Offset)
    (hframe : s.bcStateStack ≠ []) (hinl : s.isInlining = false) :
    (s.hasExit = true ∨ nextPc ≥ s.curFunc.past → s.end_ nextPc = .ok s) ∧
    (s.hasExit = false → nextPc < s.curFunc.past →
      ∃ s1, s.end_ nextPc = .ok s1 ∧
        Emitted s s1
          ((if nextPc ≠ s.bcOff then
              [markerInst
                ⟨nextPc, toInt32 (s.tb.spOffset + s.numCells - s.stackDeficit), s.curFunc⟩]
            else []) ++
           [mkInst .SpillStack none .none none
              (s.tb.sp :: some s.irFactory.tmps.length :: s.peekSpillValues)
              (some (s.irFactory.tmps.length + 1)),
            mkInst .SyncABIRegs none .none none
              [s.tb.fp, some (s.irFactory.tmps.length + 1)] none,
            mkInst .ReqBindJmp none (.bcOffset nextPc) none [] none]) [] ∧
        IsConst s1 s.irFactory.tmps.length (.int s.stackDeficit) ∧
        s1.bcOff = nextPc ∧ s1.lastBcOff = true ∧
        s1.evalStack = [] ∧ s1.stackDeficit = 0 ∧ s1.hasExit = false) := by
  constructor
  · intro h
    rcases h with h | h
    · simp only [HhbcTranslator.end_, h, if_true]
    · by_cases hx : s.hasExit = true
      · simp only [HhbcTranslator.end_, hx, if_true]
      · simp only [HhbcTranslator.end_, hx, Bool.false_eq_true, if_false, h, if_true]
  · intro hx hlt
    obtain ⟨sA, eA, hA, lastA, evA, dA, bcA, cfA, tA, tmA, exA, -, -⟩ :=
      HhbcTranslator.setBcOff_ex s nextPc true hframe (fun h => by rw [hinl] at h; cases h)
    obtain ⟨sB, eB, hB, evB, dB, bB, -, -, lB, xB, spB, fpB, -⟩ := HhbcTranslator.spillStack_ex sA
    obtain ⟨-, kB⟩ := HhbcTranslator.spillStack_arena sA
    have hsB : sB = sA.spillStack.2 := by rw [eB]
    rw [← hsB] at kB
    obtain ⟨sC, eC, hC, fC, -⟩ := HhbcTranslator.gen_ND_ex sB .SyncABIRegs none .none none
      [sB.tb.fp, some (sA.irFactory.tmps.length + 1)] rfl
    obtain ⟨sD, eD, hD, fD, -⟩ := HhbcTranslator.gen_ND_ex sC .ReqBindJmp none
      (.bcOffset nextPc) none [] rfl
    have hpeek : sA.peekSpillValues = s.peekSpillValues := by
      simp only [HhbcTranslator.peekSpillValues, evA]
    refine ⟨sD, ?_, ?_, ?_, ?_, ?_, ?_, ?_, ?_⟩
    · simp only [HhbcTranslator.end_, hx, Bool.false_eq_true, if_false, not_le.mpr hlt, eA, eB,
        eC, eD, ge_iff_le]
    · have hsp : sA.tb.sp = s.tb.sp := tA.spValue
      have hfp : sA.tb.fp = s.tb.fp := tA.fpValue
      rw [hsp, tmA, hpeek] at hB
      rw [fpB, hfp, tmA] at hC
      simpa using emitted_trans hA (emitted_trans hB (emitted_trans hC hD))
    · rw [tmA, dA] at kB
      exact isConst_of_emitted (emitted_trans hC hD) kB
    · simp only [HhbcTranslator.bcOff, fD.bcStateStack, fC.bcStateStack, bB] at bcA ⊢
      exact bcA
    · rw [fD.lastBcOff, fC.lastBcOff, lB, lastA]
    · rw [fD.evalStack, fC.evalStack, evB]
    · rw [fD.stackDeficit, fC.stackDeficit, dB]
    · rw [fD.hasExit, fC.hasExit, xB, exA, hx]

theorem end_forced_jump_witness :
    sessionBody.bcStateStack ≠ [] ∧ sessionBody.isInlining = false ∧
    (sessionBody.hasExit = true ∨ (1 : Offset) ≥ sessionBody.curFunc.past →
      sessionBody.end_ 1 = .ok sessionBody) ∧
    (sessionBody.hasExit = false → (1 : Offset) < sessionBody.curFunc.past →
      ∃ s1, sessionBody.end_ 1 = .ok s1 ∧
        Emitted sessionBody s1
          ((if (1 : Offset) ≠ sessionBody.bcOff then
              [markerInst
                ⟨1, toInt32 (sessionBody.tb.spOffset + sessionBody.numCells -
                  sessionBody.stackDeficit), sessionBody.curFunc⟩]
            else []) ++
           [mkInst .SpillStack none .none none
              (sessionBody.tb.sp :: some sessionBody.irFactory.tmps.length ::
                sessionBody.peekSpillValues)
              (some (sessionBody.irFactory.tmps.length + 1)),
            mkInst .SyncABIRegs none .none none
              [sessionBody.tb.fp, some (sessionBody.irFactory.tmps.length + 1)] none,
            mkInst .ReqBindJmp none (.bcOffset 1) none [] none]) [] ∧
        IsConst s1 sessionBody.irFactory.tmps.length (.int sessionBody.stackDeficit) ∧
        s1.bcOff = 1 ∧ s1.lastBcOff = true ∧
        s1.evalStack = [] ∧ s1.stackDeficit = 0 ∧ s1.hasExit = false) :=
  ⟨by decide, by decide, end_forced_jump sessionBody 1 (by decide) (by decide)⟩

/-! ## Side exits with a delayed marker -/

theorem toInt32_succ_of_inRange (x : Int) (h1 : -2 ^ 31 ≤ x) (h2 : x + 1 < 2 ^ 31) :
    toInt32 (toInt32 x + 1) = x + 1 := by
  rw [toInt32_of_inRange x h1 (by omega), toInt32_of_inRange (x + 1) (by omega) h2]

/-- C34: the side exit that `makeSideExit` builds for target offset `off`
begins with a marker for the current bytecode offset and the current stack
depth `spOffset + numCells - deficit`, not for the target.  After the
`SpillStack` of the pending values (emitted when the deficit is not zero or
there is a pending value) comes the `ExceptionBarrier`, then what the closure
appends.  When the closure returns a value `v`, that value is materialized by
one more `SpillStack` whose operands are the stack pointer the barrier made,
the constant 0 and `v`; the marker for the target offset comes after that,
right ahead of the register sync, and carries the 32-bit stack depth
`spOffset + k - deficit + 1`, `k` being the number of pending values.  When the
closure returns no value there is no such `SpillStack` and the marker for the
target carries `spOffset + k - deficit`. -/
theorem makeSideExit_delayed_marker (s : HhbcTranslator) (off : Offset)
    (fn : HhbcTranslator.CustomExit) (hfn : CustomExitAppends fn) :
    ∃ more bar,
      (s.sideExitBarrier off).1 = some bar ∧
      ExitContent (s.sideExitBarrier off).2 s.tb.exitTraces.length
        (markerInst ⟨s.bcOff, toInt32 (s.tb.spOffset + s.numCells - s.stackDeficit),
            s.curFunc⟩ ::
          ((if s.stackDeficit ≠ 0 ∨ s.peekSpillValues ≠ [] then
              [mkInst .SpillStack none .none none
                (s.tb.sp :: some s.irFactory.tmps.length :: s.peekSpillValues)
                (some (s.irFactory.tmps.length + 1))]
            else []) ++
           [mkInst .ExceptionBarrier none .none none
              [if s.stackDeficit ≠ 0 ∨ s.peekSpillValues ≠ []
                then some (s.irFactory.tmps.length + 1) else s.tb.sp] (some bar)])) ∧
      (∀ v, (fn (.exit s.tb.exitTraces.length) (s.sideExitBarrier off).2).1 = some v →
        ∃ c0 g,
          ExitContent (s.makeSideExit off fn).2 s.tb.exitTraces.length
            (markerInst ⟨s.bcOff, toInt32 (s.tb.spOffset + s.numCells - s.stackDeficit),
                s.curFunc⟩ ::
              ((if s.stackDeficit ≠ 0 ∨ s.peekSpillValues ≠ [] then
                  [mkInst .SpillStack none .none none
                    (s.tb.sp :: some s.irFactory.tmps.length :: s.peekSpillValues)
                    (some (s.irFactory.tmps.length + 1))]
                else []) ++
               [mkInst .ExceptionBarrier none .none none
                  [if s.stackDeficit ≠ 0 ∨ s.peekSpillValues ≠ []
                    then some (s.irFactory.tmps.length + 1) else s.tb.sp] (some bar)] ++
               more ++
               [mkInst .SpillStack none .none none [some bar, some c0, some v] (some g),
                markerInst ⟨off,
                  toInt32 (toInt32 (s.tb.spOffset + s.peekSpillValues.length -
                    s.stackDeficit) + 1), s.curFunc⟩,
                mkInst .SyncABIRegs none .none none [s.tb.fp, some g] none,
                if s.bcOff = s.startBcOff ∧ off = s.startBcOff then
                  mkInst .ReqRetranslate none .none none [] none
                else mkInst .ReqBindJmp none (.bcOffset off) none [] none])) ∧
          IsConst (s.makeSideExit off fn).2 c0 (.int 0)) ∧
      ((fn (.exit s.tb.exitTraces.length) (s.sideExitBarrier off).2).1 = none →
        ExitContent (s.makeSideExit off fn).2 s.tb.exitTraces.length
          (markerInst ⟨s.bcOff, toInt32 (s.tb.spOffset + s.numCells - s.stackDeficit),
              s.curFunc⟩ ::
            ((if s.stackDeficit ≠ 0 ∨ s.peekSpillValues ≠ [] then
                [mkInst .SpillStack none .none none
                  (s.tb.sp :: some s.irFactory.tmps.length :: s.peekSpillValues)
                  (some (s.irFactory.tmps.length + 1))]
              else []) ++
             [mkInst .ExceptionBarrier none .none none
                [if s.stackDeficit ≠ 0 ∨ s.peekSpillValues ≠ []
                  then some (s.irFactory.tmps.length + 1) else s.tb.sp] (some bar)] ++
             more ++
             [markerInst ⟨off,
                toInt32 (s.tb.spOffset + s.peekSpillValues.length - s.stackDeficit),
                s.curFunc⟩,
              mkInst .SyncABIRegs none .none none [s.tb.fp, some bar] none,
              if s.bcOff = s.startBcOff ∧ off = s.startBcOff then
                mkInst .ReqRetranslate none .none none [] none
              else mkInst .ReqBindJmp none (.bcOffset off) none [] none]))) ∧
      (-2 ^ 31 ≤ s.tb.spOffset + s.peekSpillValues.length - s.stackDeficit ∧
        s.tb.spOffset + s.peekSpillValues.length - s.stackDeficit + 1 < 2 ^ 31 →
        toInt32 (toInt32 (s.tb.spOffset + s.peekSpillValues.length - s.stackDeficit) + 1) =
          s.tb.spOffset + s.peekSpillValues.length - s.stackDeficit + 1) := by
  have hM : Opcode.dstKind .Marker = .ND := rfl
  have hE : Opcode.dstKind .ExceptionBarrier ≠ .ND := by decide
  have hS : Opcode.dstKind .SpillStack ≠ .ND := by decide
  obtain ⟨m0, hm0⟩ : ∃ m0 : MarkerData, m0 =
      ⟨s.bcOff, toInt32 (s.tb.spOffset + s.numCells - s.stackDeficit), s.curFunc⟩ := ⟨_, rfl⟩
  obtain ⟨mx, hmx⟩ : ∃ mx : MarkerData, mx =
      ⟨off, toInt32 (s.tb.spOffset + s.peekSpillValues.length - s.stackDeficit), s.curFunc⟩ :=
    ⟨_, rfl⟩
  obtain ⟨s1, e1, c1, f1, t1, -, l1, -⟩ := HhbcTranslator.genFor_content _ _ _
    (HhbcTranslator.makeExitTrace_content s off) .Marker none (.marker m0) none []
  simp only [if_pos hM] at e1 c1
  have hs1 : s1 = (({ s with tb := (s.tb.makeExitTrace off).2 } : HhbcTranslator).genFor
      (.exit s.tb.exitTraces.length) .Marker none (.marker m0) none []).2 := by rw [e1]
  have f0 : SameFrame s s1 := ⟨f1.evalStack, f1.stackDeficit, f1.bcStateStack, f1.fpiStack,
    f1.startBcOff, f1.lastBcOff, f1.hasExit⟩
  have t0 : SameTracked s s1 := ⟨t1.spValue, t1.fpValue, t1.spOffset⟩
  have hl : s1.irFactory.tmps.length = s.irFactory.tmps.length := by
    have h2 : s1.irFactory.tmps = s.irFactory.tmps := by
      rw [hs1]; simp [HhbcTranslator.genFor, IRFactory.gen, hM]
    rw [h2]
  have hsp : s1.tb.sp = s.tb.sp := t0.spValue
  obtain ⟨sS, vec, eS, cS, fS, tS, -, -, -⟩ :=
    HhbcTranslator.exitSpill_content s1 s.tb.exitTraces.length _ c1 s.peekSpillValues
  obtain ⟨b, eb, cb, fb, tb, -, -, -⟩ := HhbcTranslator.genFor_content sS s.tb.exitTraces.length
    _ cS .ExceptionBarrier none .none none
    [if s1.stackDeficit ≠ 0 ∨ s.peekSpillValues ≠ [] then some (s1.irFactory.tmps.length + 1)
      else s1.tb.sp]
  simp only [if_neg hE] at eb cb
  obtain ⟨more, cm, -, fm, tm, im, mm⟩ := hfn s.tb.exitTraces.length b _ cb
  have hbar : s.sideExitBarrier off = (some sS.irFactory.tmps.length, b) := by
    have : s.sideExitBarrier off =
        (s1.exitSpill (.exit s.tb.exitTraces.length) s.peekSpillValues).2.genFor
          (.exit s.tb.exitTraces.length) .ExceptionBarrier none .none none
          [(s1.exitSpill (.exit s.tb.exitTraces.length) s.peekSpillValues).1.1] := by
      rw [hs1, hm0]; rfl
    rw [this, eS, eb]
  have hunf : (s.makeSideExit off fn).2 =
      (s1.exitTail (.exit s.tb.exitTraces.length) off .DelayedMarker mx s.peekSpillValues
        (some fn)).2 := by
    rw [hs1, hm0, hmx]; rfl
  have hfp : ∀ x : HhbcTranslator, SameTracked b x → x.tb.fp = s.tb.fp := fun x h =>
    h.fpValue.trans (tb.fpValue.trans (tS.fpValue.trans t0.fpValue))
  have hbc : ∀ x : HhbcTranslator, SameFrame b x → x.bcOff = s.bcOff := fun x h => by
    simp only [HhbcTranslator.bcOff, h.bcStateStack, fb.bcStateStack, fS.bcStateStack,
      f0.bcStateStack]
  have hst : ∀ x : HhbcTranslator, SameFrame b x → x.startBcOff = s.startBcOff := fun x h =>
    h.startBcOff.trans (fb.startBcOff.trans (fS.startBcOff.trans f0.startBcOff))
  rw [f0.stackDeficit, hl, hsp, hm0] at cb cm
  refine ⟨more, sS.irFactory.tmps.length, by rw [hbar], ?_, ?_, ?_,
    fun h => toInt32_succ_of_inRange _ h.1 h.2⟩
  · rw [hbar]
    simpa only [List.singleton_append, List.append_assoc, List.cons_append, List.nil_append]
      using cb
  · intro v hv
    rw [hbar] at hv
    obtain ⟨z, ez, cz, fz, tz, kz, -, -, -⟩ := HhbcTranslator.cns_content
      (fn (.exit s.tb.exitTraces.length) b).2 s.tb.exitTraces.length _ cm (.int 0)
    obtain ⟨g, eg, cg, fg, tg, ig, mg, -⟩ := HhbcTranslator.genFor_content z
      s.tb.exitTraces.length _ cz .SpillStack none .none none
      [some sS.irFactory.tmps.length,
        some (fn (.exit s.tb.exitTraces.length) b).2.irFactory.tmps.length, some v]
    simp only [if_neg hS] at eg cg
    obtain ⟨cf, -, -, jf, mf⟩ := HhbcTranslator.exitFinish_content_all g s.tb.exitTraces.length
      _ cg off .DelayedMarker { mx with stackOff := toInt32 (mx.stackOff + 1) }
      (some z.irFactory.tmps.length)
    have hx : (s.makeSideExit off fn).2 = g.exitFinish (.exit s.tb.exitTraces.length) off
        .DelayedMarker { mx with stackOff := toInt32 (mx.stackOff + 1) }
        (some z.irFactory.tmps.length) := by
      rw [hunf]
      simp only [HhbcTranslator.exitTail, eS, HhbcTranslator.exitCustom, eb, hv, ez, eg,
        if_true]
    have fbg : SameFrame b g := sameFrame_trans fm (sameFrame_trans fz fg)
    have tbg : SameTracked b g := sameTracked_trans tm (sameTracked_trans tz tg)
    rw [hfp g tbg, hbc g fbg, hst g fbg] at cf
    simp only [reduceCtorEq, if_false, if_true] at cf
    refine ⟨(fn (.exit s.tb.exitTraces.length) b).2.irFactory.tmps.length,
      z.irFactory.tmps.length, ?_, ?_⟩
    · rw [hx]
      subst hmx
      simpa only [List.singleton_append, List.append_assoc, List.cons_append, List.nil_append]
        using cf
    · rw [hx]
      exact HhbcTranslator.isConst_of_append (by
          obtain ⟨x, hx2⟩ := ig
          obtain ⟨y, hy⟩ := jf
          exact ⟨x ++ y, by rw [hy, hx2, List.append_assoc]⟩)
        (by
          obtain ⟨x, hx2⟩ := mg
          exact ⟨x, by rw [mf, hx2]⟩) kz
  · intro hv
    rw [hbar] at hv
    obtain ⟨cf, -, -, -, -⟩ := HhbcTranslator.exitFinish_content_all
      (fn (.exit s.tb.exitTraces.length) b).2 s.tb.exitTraces.length
      _ cm off .DelayedMarker mx (some sS.irFactory.tmps.length)
    have hx : (s.makeSideExit off fn).2 =
        (fn (.exit s.tb.exitTraces.length) b).2.exitFinish (.exit s.tb.exitTraces.length) off
          .DelayedMarker mx (some sS.irFactory.tmps.length) := by
      rw [hunf]
      simp only [HhbcTranslator.exitTail, eS, HhbcTranslator.exitCustom, eb, hv,
        Bool.false_eq_true, if_false]
    rw [hfp _ tm, hbc _ fm, hst _ fm] at cf
    simp only [reduceCtorEq, if_false, if_true] at cf
    rw [hx]
    subst hmx
    simpa only [List.singleton_append, List.append_assoc, List.cons_append, List.nil_append]
      using cf

theorem makeSideExit_delayed_marker_witness :
    CustomExitAppends (HhbcTranslator.lookupClsCnsExit "C::K") ∧
    (HhbcTranslator.lookupClsCnsExit "C::K" (.exit 0) (sessionTwo.sideExitBarrier 7).2).1 =
      some 7 ∧
    ∃ more bar,
      (sessionTwo.sideExitBarrier 7).1 = some bar ∧
      ExitContent (sessionTwo.sideExitBarrier 7).2 0
        (markerInst ⟨0, 2, {}⟩ ::
          ([mkInst .SpillStack none .none none [some 1, some 4, some 3, some 2] (some 5)] ++
           [mkInst .ExceptionBarrier none .none none [some 5] (some bar)])) ∧
      (∀ v, (HhbcTranslator.lookupClsCnsExit "C::K" (.exit 0) (sessionTwo.sideExitBarrier 7).2).1 =
          some v →
        ∃ c0 g,
          ExitContent (sessionTwo.makeSideExit 7 (HhbcTranslator.lookupClsCnsExit "C::K")).2 0
            (markerInst ⟨0, 2, {}⟩ ::
              ([mkInst .SpillStack none .none none [some 1, some 4, some 3, some 2] (some 5)] ++
               [mkInst .ExceptionBarrier none .none none [some 5] (some bar)] ++
               more ++
               [mkInst .SpillStack none .none none [some bar, some c0, some v] (some g),
                markerInst ⟨7, 3, {}⟩,
                mkInst .SyncABIRegs none .none none [some 0, some g] none,
                mkInst .ReqBindJmp none (.bcOffset 7) none [] none])) ∧
          IsConst (sessionTwo.makeSideExit 7 (HhbcTranslator.lookupClsCnsExit "C::K")).2 c0
            (.int 0)) :=
  ⟨HhbcTranslator.lookupClsCnsExit_appends "C::K", by decide,
    (makeSideExit_delayed_marker sessionTwo 7 (HhbcTranslator.lookupClsCnsExit "C::K")
      (HhbcTranslator.lookupClsCnsExit_appends "C::K")).elim
      (fun more h => h.elim (fun bar h2 => ⟨more, bar, h2.1, h2.2.1, h2.2.2.1⟩))⟩

/-! ## The jump table of a switch is read in bounds -/

theorem refineTypeFuel_not_outOfBounds (t : IRType) (n : Nat) :
    ∀ (f : IRFactory) (v : SSATmpId), refineTypeFuel n f v t ≠ .error .outOfBounds := by
  induction n with
  | zero => intro f v h; simp [refineTypeFuel] at h
  | succ n ih =>
    intro f v h
    unfold refineTypeFuel at h
    simp only at h
    split at h
    · split at h
      · split at h
        · cases h
        · rename_i src hsrc
          split at h
          · rename_i e he
            rw [Except.error.injEq] at h
            subst h
            exact ih f src he
          · cases h
      · split at h
        · cases h
        · split at h
          · split at h
            · cases h
            · cases h
          · cases h
    · cases h

namespace HhbcTranslator

theorem pop_not_outOfBounds (s : HhbcTranslator) (t : IRType) :
    s.pop t ≠ .error .outOfBounds := by
  intro h
  unfold pop at h
  split at h
  · cases h
  · rename_i opnd rest hs
    simp only [refineType, IRFactory.refineType] at h
    split at h
    · rename_i e he
      split at he
      · rename_i e2 he2
        rw [Except.error.injEq] at he h
        subst h
        subst he
        exact refineTypeFuel_not_outOfBounds t _ _ _ he2
      · cases he
    · cases h

theorem getCatchTrace_not_outOfBounds (s : HhbcTranslator) :
    s.getCatchTrace ≠ .error .outOfBounds := by
  intro h
  unfold getCatchTrace at h
  simp only at h
  split at h
  · cases h
  · split at h
    · cases h
    · cases h

end HhbcTranslator

theorem subtypeOf_Bool_ne_Int (t : IRType) (h : t.subtypeOf IRType.Bool = true) :
    t ≠ IRType.Int := by
  intro h2
  subst h2
  revert h
  decide

/-- C36: `emitSwitch` on a non-empty table never reads the table out of
bounds: it does not end in an out-of-bounds read, whatever else it does.  The
default index `size - 1` is in bounds.  Under the two assertions of lines
2246-2247 a scrutinee that is a boolean makes the switch bounded and the table
longer than two entries, so the index `size - 2` of the boolean case is in
bounds; and the index `-base` of the zero case, read only when `base <= 0`
and `base + nTargets > 0`, satisfies `0 <= -base < nTargets <= size`, where
`nTargets` is `size - 2` for a bounded switch and `size` otherwise. -/
theorem emitSwitch_reads_in_bounds (s : HhbcTranslator) (iv : List Int) (base : Int)
    (bounded : Bool) (hne : iv ≠ []) :
    s.emitSwitch iv base bounded ≠ .error .outOfBounds ∧
    (∃ rel, readVec iv ((iv.length : Int) - 1) = .ok rel) ∧
    (∀ type : IRType, ¬ (type ≠ IRType.Int ∧ ¬ bounded = true) →
      ¬ (bounded = true ∧ ¬ 2 < iv.length) →
      (type.subtypeOf IRType.Bool = true →
        ∃ rel, readVec iv ((iv.length : Int) - 2) = .ok rel) ∧
      (base ≤ 0 ∧ base + (if bounded = true then (iv.length : Int) - 2 else iv.length) > 0 →
        0 ≤ 0 - base ∧
        0 - base < (if bounded = true then (iv.length : Int) - 2 else iv.length) ∧
        (if bounded = true then (iv.length : Int) - 2 else iv.length) ≤ (iv.length : Int) ∧
        ∃ rel, readVec iv (0 - base) = .ok rel)) := by
  have hpos : 0 < iv.length := List.length_pos.mpr hne
  have hlast : ∃ rel, readVec iv ((iv.length : Int) - 1) = .ok rel :=
    readVec_inRange iv _ (by omega) (by omega)
  have hbool : ∀ type : IRType, ¬ (type ≠ IRType.Int ∧ ¬ bounded = true) →
      ¬ (bounded = true ∧ ¬ 2 < iv.length) → type.subtypeOf IRType.Bool = true →
      ∃ rel, readVec iv ((iv.length : Int) - 2) = .ok rel := by
    intro type h1 h2 hb
    have hb2 : bounded = true := by
      by_contra hc
      exact h1 ⟨subtypeOf_Bool_ne_Int type hb, hc⟩
    have h3 : 2 < iv.length := by
      by_contra hc
      exact h2 ⟨hb2, hc⟩
    exact readVec_inRange iv _ (by omega) (by omega)
  have hnt : (if bounded = true then (iv.length : Int) - 2 else iv.length) ≤ (iv.length : Int) := by
    split <;> omega
  have hzero : base ≤ 0 ∧
      base + (if bounded = true then (iv.length : Int) - 2 else iv.length) > 0 →
      0 ≤ 0 - base ∧
      0 - base < (if bounded = true then (iv.length : Int) - 2 else iv.length) ∧
      (if bounded = true then (iv.length : Int) - 2 else iv.length) ≤ (iv.length : Int) ∧
      ∃ rel, readVec iv (0 - base) = .ok rel := by
    intro hz
    exact ⟨by omega, by omega, hnt, readVec_inRange iv _ (by omega) (by omega)⟩
  refine ⟨?_, hlast, fun type h1 h2 => ⟨hbool type h1 h2, hzero⟩⟩
  cases hp : s.popC with
  | error e =>
    simp only [HhbcTranslator.emitSwitch, hp]
    intro h
    rw [Except.error.injEq] at h
    subst h
    exact HhbcTranslator.pop_not_outOfBounds s _ hp
  | ok r =>
    cases hv : r.1 with
    | none =>
      simp only [HhbcTranslator.emitSwitch, hp, hv, derefTmp]
      intro h
      cases h
    | some v =>
      obtain ⟨x, hx⟩ := hlast
      simp only [HhbcTranslator.emitSwitch, hp, hv, derefTmp]
      rw [hx]
      by_cases hA1 : r.2.irFactory.typeOf v ≠ IRType.Int ∧ ¬ bounded = true
      · rw [if_pos hA1]
        intro h
        cases h
      rw [if_neg hA1]
      by_cases hA2 : bounded = true ∧ ¬ 2 < iv.length
      · rw [if_pos hA2]
        intro h
        cases h
      rw [if_neg hA2]
      dsimp only
      by_cases hz : base ≤ 0 ∧
          base + (if bounded = true then (iv.length : Int) - 2 else iv.length) > 0
      on_goal 1 =>
        obtain ⟨-, -, -, y, hy⟩ := hzero hz
        rw [if_pos hz, hy]
        dsimp only [Except.map]
      on_goal 2 =>
        rw [if_neg hz]
        dsimp only
      all_goals
        by_cases hN : (r.2.irFactory.typeOf v).subtypeOf IRType.Null = true
        · rw [if_pos hN]
          intro h
          cases h
        rw [if_neg hN]
        by_cases hb : (r.2.irFactory.typeOf v).subtypeOf IRType.Bool = true
        · obtain ⟨y2, hy2⟩ := hbool _ hA1 hA2 hb
          rw [if_pos hb, hy2]
          intro h
          cases h
        rw [if_neg hb]
        repeat' split
        all_goals
          first
          | (intro h; cases h; done)
          | (intro h
             rw [Except.error.injEq] at h
             subst h
             exact HhbcTranslator.getCatchTrace_not_outOfBounds _ (by assumption))

theorem emitSwitch_reads_in_bounds_witness :
    ([10, 20, 30, 40] : List Int) ≠ [] ∧
    sessionTwo.emitSwitch [10, 20, 30, 40] (-1) true ≠ .error .outOfBounds ∧
    (∃ rel, readVec [10, 20, 30, 40] ((([10, 20, 30, 40] : List Int).length : Int) - 1) =
      .ok rel) ∧
    (∀ type : IRType, ¬ (type ≠ IRType.Int ∧ ¬ true = true) →
      ¬ (true = true ∧ ¬ 2 < ([10, 20, 30, 40] : List Int).length) →
      (type.subtypeOf IRType.Bool = true →
        ∃ rel, readVec [10, 20, 30, 40] ((([10, 20, 30, 40] : List Int).length : Int) - 2) =
          .ok rel) ∧
      ((-1 : Int) ≤ 0 ∧ (-1 : Int) + (if true = true
          then (([10, 20, 30, 40] : List Int).length : Int) - 2
          else ([10, 20, 30, 40] : List Int).length) > 0 →
        (0 : Int) ≤ 0 - (-1) ∧
        0 - (-1) < (if true = true then (([10, 20, 30, 40] : List Int).length : Int) - 2
          else ([10, 20, 30, 40] : List Int).length) ∧
        (if true = true then (([10, 20, 30, 40] : List Int).length : Int) - 2
          else ([10, 20, 30, 40] : List Int).length) ≤
          (([10, 20, 30, 40] : List Int).length : Int) ∧
        ∃ rel, readVec [10, 20, 30, 40] (0 - (-1)) = .ok rel)) :=
  ⟨by decide, emitSwitch_reads_in_bounds sessionTwo [10, 20, 30, 40] (-1) true (by decide)⟩

/-! ## Releasing the locals one by one -/

namespace HhbcTranslator

/-- The release of the locals, from the last to the first, for every return
value: local `k` is released by `DecRefLoc`, but for the local the return value
was loaded from, which is released by the `DecRef` of the return value. -/
theorem decRefLocals_shape (retVal : SSATmpPtr) (id : Int) :
    ∀ (n : Nat) (s : HhbcTranslator),
      Emitted s (decRefLocals retVal id n s)
        ((List.range n).reverse.map (fun (k : Nat) =>
          if id = (k : Int) then mkInst .DecRef none .none none [retVal] none
          else mkInst .DecRefLoc (some IRType.Gen) (.localId k) none [s.tb.fp] none)) [] ∧
      SameFrame s (decRefLocals retVal id n s) ∧
      SameTracked s (decRefLocals retVal id n s) := by
  intro n
  induction n with
  | zero =>
    intro s
    exact ⟨emitted_refl s, sameFrame_refl s, sameTracked_refl s⟩
  | succ n ih =>
    intro s
    rw [List.range_succ, List.reverse_append, List.map_append]
    by_cases hid : id = (n : Int)
    · have h1 := gen_emitted_ND s .DecRef none .none none [retVal] rfl
      have f1 := gen_sameFrame s .DecRef none .none none [retVal]
      have t1 := gen_sameTracked s .DecRef none .none none [retVal] rfl
      obtain ⟨h2, f2, t2⟩ := ih (s.gen .DecRef none .none none [retVal]).2
      have hfp : (s.gen .DecRef none .none none [retVal]).2.tb.fp = s.tb.fp := t1.fpValue
      rw [hfp] at h2
      simp only [decRefLocals, if_pos hid]
      refine ⟨?_, sameFrame_trans f1 f2, sameTracked_trans t1 t2⟩
      have h := emitted_trans h1 h2
      simpa [hid] using h
    · have h1 := gen_emitted_ND s .DecRefLoc (some IRType.Gen) (.localId n) none [s.tb.fp] rfl
      have f1 := gen_sameFrame s .DecRefLoc (some IRType.Gen) (.localId n) none [s.tb.fp]
      have t1 := gen_sameTracked s .DecRefLoc (some IRType.Gen) (.localId n) none [s.tb.fp] rfl
      obtain ⟨h2, f2, t2⟩ := ih
        (s.gen .DecRefLoc (some IRType.Gen) (.localId n) none [s.tb.fp]).2
      have hfp : (s.gen .DecRefLoc (some IRType.Gen) (.localId n) none [s.tb.fp]).2.tb.fp =
          s.tb.fp := t1.fpValue
      rw [hfp] at h2
      simp only [decRefLocals, if_neg hid]
      refine ⟨?_, sameFrame_trans f1 f2, sameTracked_trans t1 t2⟩
      have h := emitted_trans h1 h2
      simpa [hid] using h

/-- What `retValSource` finds: the load behind the return value, exactly when
the return value is the `IncRef` of a `LdLoc` or `LdThis`. -/
theorem retValSource_spec (s : HhbcTranslator) (rv : SSATmpId) (src : SSATmpPtr)
    (opc : Opcode) (h : s.retValSource rv = .ok (src, opc)) :
    (∀ loc, src = some loc ↔
      ((s.irFactory.inst (s.irFactory.instOf rv)).op = .IncRef ∧
       (s.irFactory.inst (s.irFactory.instOf rv)).src 0 = some loc ∧
       ((s.irFactory.inst (s.irFactory.instOf loc)).op = .LdLoc ∨
        (s.irFactory.inst (s.irFactory.instOf loc)).op = .LdThis))) ∧
    (∀ loc, src = some loc → opc = (s.irFactory.inst (s.irFactory.instOf loc)).op) := by
  unfold retValSource at h
  by_cases hop : (s.irFactory.inst (s.irFactory.instOf rv)).op = .IncRef
  · simp only [hop, if_true] at h
    cases hs : (s.irFactory.inst (s.irFactory.instOf rv)).src 0 with
    | none =>
      rw [hs] at h
      cases h
    | some l =>
      rw [hs] at h
      simp only at h
      by_cases hl : (s.irFactory.inst (s.irFactory.instOf l)).op ≠ .LdLoc ∧
          (s.irFactory.inst (s.irFactory.instOf l)).op ≠ .LdThis
      · rw [if_pos hl] at h
        simp only [Except.ok.injEq, Prod.mk.injEq] at h
        obtain ⟨h1, h2⟩ := h
        subst h1
        refine ⟨fun loc => ⟨(fun hc => by cases hc), ?_⟩, fun loc hc => by cases hc⟩
        rintro ⟨-, hb, hc⟩
        simp only [Option.some.injEq] at hb
        subst hb
        rcases hc with hc | hc
        · exact absurd hc hl.1
        · exact absurd hc hl.2
      · rw [if_neg hl] at h
        simp only [Except.ok.injEq, Prod.mk.injEq] at h
        obtain ⟨h1, h2⟩ := h
        subst h1
        refine ⟨fun loc => ⟨?_, ?_⟩, ?_⟩
        · intro hc
          simp only [Option.some.injEq] at hc
          subst hc
          refine ⟨hop, rfl, ?_⟩
          by_contra hn
          exact hl ⟨fun h => hn (Or.inl h), fun h => hn (Or.inr h)⟩
        · rintro ⟨-, hb, -⟩
          exact hb
        · intro loc hc
          simp only [Option.some.injEq] at hc
          subst hc
          exact h2.symm
  · simp only [hop, if_false, Except.ok.injEq, Prod.mk.injEq] at h
    obtain ⟨h1, h2⟩ := h
    subst h1
    exact ⟨fun loc => ⟨(fun hc => by cases hc), fun hc => absurd hc.1 hop⟩,
      fun loc hc => by cases hc⟩

/-- The release of the receiver and of the locals: what is emitted and what
is returned, for every return value, inlining or not. -/
theorem decRefThisAndLocals_shape (s : HhbcTranslator) (rv : SSATmpId)
    (srcLoc : SSATmpPtr) (srcOpc : Opcode)
    (hvalid : ∀ loc, srcLoc = some loc →
      (s.irFactory.inst (s.irFactory.instOf loc)).op ≠ Opcode.Nop) :
    Emitted s (s.decRefThisAndLocals (some rv) srcLoc srcOpc).2
      ((if s.curFunc.mayHaveThis = true then
          [if srcLoc ≠ none ∧ srcOpc = .LdThis then mkInst .DecRef none .none none [some rv] none
           else mkInst .DecRefThis none .none none [s.tb.fp] none]
        else []) ++
       (List.range s.curFunc.numLocals).reverse.map (fun (k : Nat) =>
          if s.retValLocId srcLoc srcOpc = (k : Int)
          then mkInst .DecRef none .none none [some rv] none
          else mkInst .DecRefLoc (some IRType.Gen) (.localId k) none [s.tb.fp] none)) [] ∧
    SameFrame s (s.decRefThisAndLocals (some rv) srcLoc srcOpc).2 ∧
    (s.decRefThisAndLocals (some rv) srcLoc srcOpc).1 =
      (if srcLoc ≠ none then srcLoc else some rv) := by
  have hid : ∀ s1 : HhbcTranslator, SameFrame s s1 →
      (∃ more, s1.irFactory.insts = s.irFactory.insts ++ more) →
      s1.irFactory.tmps = s.irFactory.tmps →
      s1.retValLocId srcLoc srcOpc = s.retValLocId srcLoc srcOpc := by
    intro s1 f1 hi ht
    cases srcLoc with
    | none => rfl
    | some loc =>
      obtain ⟨more, hmore⟩ := hi
      have h1 : s1.isInlining = s.isInlining := by
        simp only [isInlining, f1.bcStateStack]
      have h2 : s1.irFactory.instOf loc = s.irFactory.instOf loc := by
        simp only [IRFactory.instOf, IRFactory.tmp, ht]
      have h3 : s1.irFactory.inst (s.irFactory.instOf loc) =
          s.irFactory.inst (s.irFactory.instOf loc) :=
        IRFactory.inst_append_left _ _ more hmore _ (IRFactory.lt_of_op_ne_nop (hvalid loc rfl))
      simp only [retValLocId, h1, h2, h3]
  have key : ∀ (s1 : HhbcTranslator) (pre : List IRInstruction), Emitted s s1 pre [] →
      SameFrame s s1 → SameTracked s s1 → s1.irFactory.tmps = s.irFactory.tmps →
      Emitted s (decRefLocals (some rv) (s1.retValLocId srcLoc srcOpc) s.curFunc.numLocals s1)
        (pre ++ (List.range s.curFunc.numLocals).reverse.map (fun (k : Nat) =>
          if s.retValLocId srcLoc srcOpc = (k : Int)
          then mkInst .DecRef none .none none [some rv] none
          else mkInst .DecRefLoc (some IRType.Gen) (.localId k) none [s.tb.fp] none)) [] ∧
      SameFrame s
        (decRefLocals (some rv) (s1.retValLocId srcLoc srcOpc) s.curFunc.numLocals s1) := by
    intro s1 pre h1 f1 t1 ht
    rw [hid s1 f1 h1.insts ht]
    obtain ⟨h2, f2, -⟩ := decRefLocals_shape (some rv) (s.retValLocId srcLoc srcOpc)
      s.curFunc.numLocals s1
    have hfp : s1.tb.fp = s.tb.fp := t1.fpValue
    rw [hfp] at h2
    exact ⟨by simpa using emitted_trans h1 h2, sameFrame_trans f1 f2⟩
  refine ⟨?_, ?_, rfl⟩
  · unfold decRefThisAndLocals
    by_cases hthis : s.curFunc.mayHaveThis = true
    · by_cases hld : srcLoc ≠ none ∧ srcOpc = .LdThis
      · obtain ⟨s1, e1, h1, f1, t1, l1⟩ := gen_ND_untracked s .DecRef none .none none [some rv]
          rfl rfl
        simp only [hthis, if_true, if_pos hld, e1]
        exact (key s1 _ h1 f1 t1 l1).1
      · obtain ⟨s1, e1, h1, f1, t1, l1⟩ := gen_ND_untracked s .DecRefThis none .none none
          [s.tb.fp] rfl rfl
        simp only [hthis, if_true, if_neg hld, e1]
        exact (key s1 _ h1 f1 t1 l1).1
    · simp only [hthis, Bool.false_eq_true, if_false]
      exact (key s [] (emitted_refl s) (sameFrame_refl s) (sameTracked_refl s) rfl).1
  · unfold decRefThisAndLocals
    by_cases hthis : s.curFunc.mayHaveThis = true
    · by_cases hld : srcLoc ≠ none ∧ srcOpc = .LdThis
      · obtain ⟨s1, e1, h1, f1, t1, l1⟩ := gen_ND_untracked s .DecRef none .none none [some rv]
          rfl rfl
        simp only [hthis, if_true, if_pos hld, e1]
        exact (key s1 _ h1 f1 t1 l1).2
      · obtain ⟨s1, e1, h1, f1, t1, l1⟩ := gen_ND_untracked s .DecRefThis none .none none
          [s.tb.fp] rfl rfl
        simp only [hthis, if_true, if_neg hld, e1]
        exact (key s1 _ h1 f1 t1 l1).2
    · simp only [hthis, Bool.false_eq_true, if_false]
      exact (key s [] (emitted_refl s) (sameFrame_refl s) (sameTracked_refl s) rfl).2

end HhbcTranslator

/-- C37: `emitDecRefLocalsInline` on a return value `rv` releases every local
of the current function exactly once, from the last local id down to 0: after
the release of the receiver (when the function may have one) it emits, for each
`k` below `numLocals`, one instruction, which is `DecRefLoc` of local `k`,
except that a session that is not inlining, whose return value is the `IncRef`
of a `LdLoc` of local `k`, emits the `DecRef` of the return value in place of
`DecRefLoc k`.  It returns the load behind the reference when the return value
is the `IncRef` of a `LdLoc` or `LdThis`, and the return value itself
otherwise.  An `IncRef` is taken to have its source operand. -/
theorem emitDecRefLocalsInline_releases (s : HhbcTranslator) (rv : SSATmpId)
    (hsrc : (s.irFactory.inst (s.irFactory.instOf rv)).op = .IncRef →
      (s.irFactory.inst (s.irFactory.instOf rv)).src 0 ≠ none) :
    ∃ s1 src opc,
      s.retValSource rv = .ok (src, opc) ∧
      (∀ loc, src = some loc ↔
        ((s.irFactory.inst (s.irFactory.instOf rv)).op = .IncRef ∧
         (s.irFactory.inst (s.irFactory.instOf rv)).src 0 = some loc ∧
         ((s.irFactory.inst (s.irFactory.instOf loc)).op = .LdLoc ∨
          (s.irFactory.inst (s.irFactory.instOf loc)).op = .LdThis))) ∧
      (∀ loc, src = some loc → opc = (s.irFactory.inst (s.irFactory.instOf loc)).op) ∧
      s.emitDecRefLocalsInline (some rv) = .ok ((if src ≠ none then src else some rv), s1) ∧
      Emitted s s1
        ((if s.curFunc.mayHaveThis = true then
            [if src ≠ none ∧ opc = .LdThis then mkInst .DecRef none .none none [some rv] none
             else mkInst .DecRefThis none .none none [s.tb.fp] none]
          else []) ++
         (List.range s.curFunc.numLocals).reverse.map (fun (k : Nat) =>
            if s.retValLocId src opc = (k : Int)
            then mkInst .DecRef none .none none [some rv] none
            else mkInst .DecRefLoc (some IRType.Gen) (.localId k) none [s.tb.fp] none)) [] ∧
      s1.evalStack = s.evalStack ∧ s1.stackDeficit = s.stackDeficit := by
  obtain ⟨⟨src, opc⟩, hsrcEq⟩ := HhbcTranslator.retValSource_ok s rv hsrc
  obtain ⟨hiff, hopc⟩ := HhbcTranslator.retValSource_spec s rv src opc hsrcEq
  have hvalid : ∀ loc, src = some loc →
      (s.irFactory.inst (s.irFactory.instOf loc)).op ≠ Opcode.Nop := by
    intro loc hl
    rcases ((hiff loc).mp hl).2.2 with h | h
    · rw [h]; decide
    · rw [h]; decide
  obtain ⟨h1, f1, hret⟩ := HhbcTranslator.decRefThisAndLocals_shape s rv src opc hvalid
  refine ⟨(s.decRefThisAndLocals (some rv) src opc).2, src, opc, hsrcEq, hiff, hopc, ?_, h1,
    f1.evalStack, f1.stackDeficit⟩
  simp only [HhbcTranslator.emitDecRefLocalsInline, hsrcEq]
  rw [← hret]

theorem emitDecRefLocalsInline_releases_witness :
    ((sessionRetLocal.irFactory.inst (sessionRetLocal.irFactory.instOf 3)).op = .IncRef →
      (sessionRetLocal.irFactory.inst (sessionRetLocal.irFactory.instOf 3)).src 0 ≠ none) ∧
    sessionRetLocal.curFunc.numLocals = 3 ∧ sessionRetLocal.isInlining = false ∧
    ∃ s1,
      sessionRetLocal.emitDecRefLocalsInline (some 3) = .ok (some 2, s1) ∧
      Emitted sessionRetLocal s1
        [mkInst .DecRefThis none .none none [some 0] none,
         mkInst .DecRefLoc (some IRType.Gen) (.localId 2) none [some 0] none,
         mkInst .DecRef none .none none [some 3] none,
         mkInst .DecRefLoc (some IRType.Gen) (.localId 0) none [some 0] none] [] :=
  ⟨by decide, by decide, by decide,
    (emitDecRefLocalsInline_releases sessionRetLocal 3 (by decide)).elim (fun s1 h =>
      h.elim (fun src h2 => h2.elim (fun opc h3 => ⟨s1, by
        have e : sessionRetLocal.retValSource 3 = .ok (some 2, .LdLoc) := rfl
        have hs := h3.1
        rw [e] at hs
        simp only [Except.ok.injEq, Prod.mk.injEq] at hs
        obtain ⟨a, b⟩ := hs
        subst a
        subst b
        exact ⟨h3.2.2.2.1, h3.2.2.2.2.1⟩⟩)))⟩

/-! ## Type checks and assertions on stack slots -/

namespace HhbcTranslator

/-- Building the exit trace for a target, the sentinel -1 standing for the
current offset: the pair it returns. -/
theorem getExitTrace_any (s : HhbcTranslator) (off : Offset) :
    ∃ s1, s.getExitTrace off = (.exit s.tb.exitTraces.length, s1) ∧
      Emitted s s1 [] [if off = -1 then s.bcOff else off] ∧ SameFrame s s1 ∧
      SameTracked s s1 := by
  obtain ⟨h, f, t, k⟩ := getExitTraceImpl_emitted s (if off = -1 then s.bcOff else off) .None
    s.peekSpillValues
  exact ⟨(s.getExitTrace off).2, Prod.ext k rfl, h, f, t⟩

theorem replace_ok (s : HhbcTranslator) (idx : Nat) (v : SSATmpId)
    (h : idx < s.evalStack.length) :
    s.replace idx (some v) = .ok { s with evalStack := s.evalStack.set idx v } := by
  simp only [replace, if_pos h]

end HhbcTranslator

/-- C38: `checkTypeStack(idx, type, dest)` and `assertTypeStack(idx, type)`
keep the size of the virtual stack and the deficit.  When `idx` is below the
size of the virtual stack they emit one `CheckType` (with a new exit trace for
`dest` as its target) or `AssertType` of the entry at depth `idx`, typed
`type`, and put its result in the place of that entry; every other entry stays
where it is.  Otherwise they leave the virtual stack as it is and emit one
`CheckStk` or `AssertStk`, typed `type`, on the current stack pointer, for the
real stack offset `idx - size + deficit`.  The offset is taken to stay within
the 32-bit range it is computed in. -/
theorem typeStack_check_and_assert (s : HhbcTranslator) (idx : Nat) (type : IRType)
    (dest : Offset)
    (hoff : s.evalStack.length ≤ idx →
      idx - s.evalStack.length + s.stackDeficit < uint32Size) :
    (∀ tmp, s.evalStack[idx]? = some tmp →
      (∃ s1 v, s.checkTypeStack idx type dest = .ok s1 ∧
        Emitted s s1
          [mkInst .CheckType (some type) .none (some (.exit s.tb.exitTraces.length))
            [some tmp] (some v)] [if dest = -1 then s.bcOff else dest] ∧
        s1.evalStack = s.evalStack.set idx v ∧
        s1.evalStack.length = s.evalStack.length ∧ s1.stackDeficit = s.stackDeficit) ∧
      (∃ s1 v, s.assertTypeStack idx type = .ok s1 ∧
        Emitted s s1 [mkInst .AssertType (some type) .none none [some tmp] (some v)] [] ∧
        s1.evalStack = s.evalStack.set idx v ∧
        s1.evalStack.length = s.evalStack.length ∧ s1.stackDeficit = s.stackDeficit)) ∧
    (s.evalStack.length ≤ idx →
      (∃ s1 sp, s.checkTypeStack idx type dest = .ok s1 ∧
        Emitted s s1
          [mkInst .CheckStk (some type)
            (.stackOffset ((idx - s.evalStack.length + s.stackDeficit : Nat) : Int))
            (some (.exit s.tb.exitTraces.length)) [s.tb.sp] sp]
          [if dest = -1 then s.bcOff else dest] ∧
        s1.evalStack = s.evalStack ∧ s1.stackDeficit = s.stackDeficit) ∧
      (∃ s1 sp, s.assertTypeStack idx type = .ok s1 ∧
        Emitted s s1
          [mkInst .AssertStk (some type)
            (.stackOffset ((idx - s.evalStack.length + s.stackDeficit : Nat) : Int))
            none [s.tb.sp] sp] [] ∧
        s1.evalStack = s.evalStack ∧ s1.stackDeficit = s.stackDeficit)) := by
  have hCT : Opcode.dstKind .CheckType ≠ .ND := by decide
  have hAT : Opcode.dstKind .AssertType ≠ .ND := by decide
  have hCS : Opcode.dstKind .CheckStk ≠ .ND := by decide
  have hAS : Opcode.dstKind .AssertStk ≠ .ND := by decide
  obtain ⟨sE, eE, hE, fE, tE⟩ := HhbcTranslator.getExitTrace_any s dest
  constructor
  · intro tmp htmp
    have hlt : idx < s.evalStack.length := by
      by_contra hc
      rw [List.getElem?_eq_none (Nat.le_of_not_lt hc)] at htmp
      cases htmp
    constructor
    · obtain ⟨sG, eG, hG, fG, -⟩ := HhbcTranslator.gen_D_ex sE .CheckType (some type) .none
        (some (.exit s.tb.exitTraces.length)) [some tmp] hCT
      have hltG : idx < sG.evalStack.length := by rw [fG.evalStack, fE.evalStack]; exact hlt
      refine ⟨{ sG with evalStack := sG.evalStack.set idx sE.irFactory.tmps.length },
        sE.irFactory.tmps.length, ?_, ?_, ?_, ?_, ?_⟩
      · simp only [HhbcTranslator.checkTypeStack, eE, fE.evalStack, if_pos hlt, htmp, eG,
          HhbcTranslator.replace_ok sG idx _ hltG]
      · have h := emitted_trans hE hG
        simp only [List.nil_append, List.append_nil] at h
        exact emitted_congr h rfl rfl
      · show sG.evalStack.set idx _ = _
        rw [fG.evalStack, fE.evalStack]
      · show (sG.evalStack.set idx _).length = _
        rw [List.length_set, fG.evalStack, fE.evalStack]
      · show sG.stackDeficit = _
        rw [fG.stackDeficit, fE.stackDeficit]
    · obtain ⟨sG, eG, hG, fG, -⟩ := HhbcTranslator.gen_D_ex s .AssertType (some type) .none
        none [some tmp] hAT
      have hltG : idx < sG.evalStack.length := by rw [fG.evalStack]; exact hlt
      refine ⟨{ sG with evalStack := sG.evalStack.set idx s.irFactory.tmps.length },
        s.irFactory.tmps.length, ?_, ?_, ?_, ?_, ?_⟩
      · simp only [HhbcTranslator.assertTypeStack, if_pos hlt, htmp, eG,
          HhbcTranslator.replace_ok sG idx _ hltG]
      · exact emitted_congr hG rfl rfl
      · show sG.evalStack.set idx _ = _
        rw [fG.evalStack]
      · show (sG.evalStack.set idx _).length = _
        rw [List.length_set, fG.evalStack]
      · show sG.stackDeficit = _
        rw [fG.stackDeficit]
  · intro hge
    have hnlt : ¬ idx < s.evalStack.length := Nat.not_lt.mpr hge
    have hmod : ((idx : Int) - (s.evalStack.length : Int) + (s.stackDeficit : Int)) %
        (uint32Size : Int) = ((idx - s.evalStack.length + s.stackDeficit : Nat) : Int) := by
      have h1 : (idx : Int) - (s.evalStack.length : Int) + (s.stackDeficit : Int) =
          ((idx - s.evalStack.length + s.stackDeficit : Nat) : Int) := by omega
      have h2 := hoff hge
      rw [h1]
      exact Int.emod_eq_of_lt (Int.ofNat_nonneg _) (by exact_mod_cast h2)
    constructor
    · obtain ⟨sG, eG, hG, fG, -⟩ := HhbcTranslator.gen_D_ex sE .CheckStk (some type)
        (.stackOffset ((idx - s.evalStack.length + s.stackDeficit : Nat) : Int))
        (some (.exit s.tb.exitTraces.length)) [sE.tb.sp] hCS
      have hsp : sE.tb.sp = s.tb.sp := tE.spValue
      refine ⟨sG, some sE.irFactory.tmps.length, ?_, ?_, ?_, ?_⟩
      · simp only [HhbcTranslator.checkTypeStack, eE, fE.evalStack, fE.stackDeficit,
          if_neg hnlt, hmod, eG]
      · rw [hsp] at hG
        simpa using emitted_trans hE hG
      · rw [fG.evalStack, fE.evalStack]
      · rw [fG.stackDeficit, fE.stackDeficit]
    · obtain ⟨sG, eG, hG, fG, -⟩ := HhbcTranslator.gen_D_ex s .AssertStk (some type)
        (.stackOffset ((idx - s.evalStack.length + s.stackDeficit : Nat) : Int))
        none [s.tb.sp] hAS
      refine ⟨sG, some s.irFactory.tmps.length, ?_, hG, fG.evalStack, fG.stackDeficit⟩
      simp only [HhbcTranslator.assertTypeStack, if_neg hnlt, hmod, eG]

theorem typeStack_check_and_assert_witness :
    ((sessionTwo.evalStack.length ≤ 1 →
        1 - sessionTwo.evalStack.length + sessionTwo.stackDeficit < uint32Size) ∧
      (∃ s1 v, sessionTwo.checkTypeStack 1 IRType.Int 7 = .ok s1 ∧
        Emitted sessionTwo s1
          [mkInst .CheckType (some IRType.Int) .none (some (.exit 0)) [some 2] (some v)] [7] ∧
        s1.evalStack = [3, v] ∧
        s1.evalStack.length = 2 ∧ s1.stackDeficit = 0) ∧
      (∃ s1 v, sessionTwo.assertTypeStack 1 IRType.Int = .ok s1 ∧
        Emitted sessionTwo s1
          [mkInst .AssertType (some IRType.Int) .none none [some 2] (some v)] [] ∧
        s1.evalStack = [3, v] ∧
        s1.evalStack.length = 2 ∧ s1.stackDeficit = 0)) ∧
    ((sessionTwo.evalStack.length ≤ 5 →
        5 - sessionTwo.evalStack.length + sessionTwo.stackDeficit < uint32Size) ∧
      (∃ s1 sp, sessionTwo.checkTypeStack 5 IRType.Int 7 = .ok s1 ∧
        Emitted sessionTwo s1
          [mkInst .CheckStk (some IRType.Int) (.stackOffset 3) (some (.exit 0)) [some 1] sp]
          [7] ∧
        s1.evalStack = [3, 2] ∧ s1.stackDeficit = 0) ∧
      (∃ s1 sp, sessionTwo.assertTypeStack 5 IRType.Int = .ok s1 ∧
        Emitted sessionTwo s1
          [mkInst .AssertStk (some IRType.Int) (.stackOffset 3) none [some 1] sp] [] ∧
        s1.evalStack = [3, 2] ∧ s1.stackDeficit = 0)) :=
  ⟨⟨(fun _ => by decide),
    (typeStack_check_and_assert sessionTwo 1 IRType.Int 7 (fun _ => by decide)).1 2
      (by decide)⟩,
   ⟨(fun _ => by decide),
    (typeStack_check_and_assert sessionTwo 5 IRType.Int 7 (fun _ => by decide)).2
      (by decide)⟩⟩

/-! ## Array lookups with a default value -/

theorem not_strict_of_subtypeOf_cell {t u : IRType} (h : t.subtypeOf u = true)
    (hu : u.subtypeOf IRType.Cell = true) : IRType.Cell.strictSubtypeOf t = false :=
  IRType.not_strict_of_subtypeOf (IRType.subtypeOf_trans h hu)

namespace HhbcTranslator

theorem top_of_entry (s : HhbcTranslator) (t : IRType) (idx : Nat) (v : SSATmpId)
    (hv : s.evalStack[idx]? = some v)
    (hty : t.strictSubtypeOf (s.irFactory.typeOf v) = false) :
    s.top t idx = .ok (some v, s) := by
  simp only [top, hv, refineType_session_of_not_strict s v t hty]

/-- The three pops of `emitArrayIdx` when the operands lie on the virtual stack
and need no narrowing. -/
theorem popArrayIdxOperands_ok (s : HhbcTranslator) (d a k : SSATmpId) (rest : List SSATmpId)
    (hstack : s.evalStack = d :: a :: k :: rest)
    (hd : IRType.Cell.strictSubtypeOf (s.irFactory.typeOf d) = false)
    (ha : IRType.Cell.strictSubtypeOf (s.irFactory.typeOf a) = false)
    (hk : IRType.Cell.strictSubtypeOf (s.irFactory.typeOf k) = false) :
    s.popArrayIdxOperands = .ok ((some d, some a, some k), { s with evalStack := rest }) := by
  have h1 := pop_of_cons s IRType.Cell d (a :: k :: rest) hstack hd
  have h2 := pop_of_cons ({ s with evalStack := a :: k :: rest }) IRType.Cell a (k :: rest) rfl ha
  have h3 := pop_of_cons ({ s with evalStack := k :: rest }) IRType.Cell k rest rfl hk
  simp only [popArrayIdxOperands, popC, h1, h2, h3]

/-- Lines 1277-1279: the lookup through the chosen helper, the push of its
result and the release of the array and of the key. -/
theorem arrayIdx_tail (x : HhbcTranslator) (d a key : SSATmpId) (helper : String) :
    ∃ cf g p r s1,
      x.cns (.tca helper) = (some x.irFactory.tmps.length, cf) ∧
      cf.gen .ArrayIdx none .none none
        [some x.irFactory.tmps.length, some a, some key, some d] =
        (some (x.irFactory.tmps.length + 1), g) ∧
      g.push (some (x.irFactory.tmps.length + 1)) =
        .ok (some (x.irFactory.tmps.length + 1), p) ∧
      p.gen .DecRef none .none none [some a] = (none, r) ∧
      r.gen .DecRef none .none none [some key] = (none, s1) ∧
      Emitted x s1
        [mkInst .ArrayIdx none .none none
           [some x.irFactory.tmps.length, some a, some key, some d]
           (some (x.irFactory.tmps.length + 1)),
         mkInst .DecRef none .none none [some a] none,
         mkInst .DecRef none .none none [some key] none] [] ∧
      IsConst s1 x.irFactory.tmps.length (.tca helper) ∧
      s1.evalStack = (x.irFactory.tmps.length + 1) :: x.evalStack ∧
      s1.stackDeficit = x.stackDeficit := by
  have hA : Opcode.dstKind .ArrayIdx ≠ .ND := by decide
  obtain ⟨cf, e1, h1, f1, -, i1⟩ := cns_ex x (.tca helper)
  have k1 : IsConst cf x.irFactory.tmps.length (.tca helper) := by
    have := cns_isConst x (.tca helper)
    rwa [e1] at this
  have l1 : cf.irFactory.tmps.length = x.irFactory.tmps.length + 1 := by
    rw [i1]; simp
  obtain ⟨g, e2, h2, f2, -⟩ := gen_D_ex cf .ArrayIdx none .none none
    [some x.irFactory.tmps.length, some a, some key, some d] hA
  rw [l1] at e2 h2
  obtain ⟨p, hp⟩ : ∃ p : HhbcTranslator,
      p = { g with evalStack := (x.irFactory.tmps.length + 1) :: g.evalStack } := ⟨_, rfl⟩
  have e3 : g.push (some (x.irFactory.tmps.length + 1)) =
      .ok (some (x.irFactory.tmps.length + 1), p) := by rw [hp]; rfl
  have h3 : Emitted g p [] [] := emitted_of_same g p (by rw [hp]) (by rw [hp])
  obtain ⟨r, e4, h4, f4, -⟩ := gen_ND_ex p .DecRef none .none none [some a] rfl
  obtain ⟨s1, e5, h5, f5, -⟩ := gen_ND_ex r .DecRef none .none none [some key] rfl
  refine ⟨cf, g, p, r, s1, e1, e2, e3, e4, e5, ?_, ?_, ?_, ?_⟩
  · simpa using emitted_trans h1 (emitted_trans h2 (emitted_trans h3 (emitted_trans h4 h5)))
  · exact isConst_of_emitted (emitted_trans h2 (emitted_trans h3 (emitted_trans h4 h5))) k1
  · rw [f5.evalStack, f4.evalStack, hp]
    simp only [f2.evalStack, f1.evalStack]
  · rw [f5.stackDeficit, f4.stackDeficit, hp]
    simp only [f2.stackDeficit, f1.stackDeficit]

theorem isConst_congr (s x : HhbcTranslator) (k : SSATmpId) (hx : x.irFactory = s.irFactory) :
    x.isConst k = s.isConst k := by
  simp only [isConst, hx]

theorem getValStr_congr (s x : HhbcTranslator) (k : SSATmpId) (hx : x.irFactory = s.irFactory) :
    x.getValStr k = s.getValStr k := by
  simp only [getValStr, hx]

theorem checkStrictlyInteger_int (f : String → Option Int) (x : HhbcTranslator) (k : SSATmpId)
    (hI : (x.irFactory.typeOf k).subtypeOf IRType.Int = true) :
    checkStrictlyInteger f x k = .ok ((some k, .IntKey, false), x) := by
  simp only [checkStrictlyInteger, isA, hI, if_true]

theorem checkStrictlyInteger_const (f : String → Option Int) (x : HhbcTranslator) (k : SSATmpId)
    (str : String)
    (hI : (x.irFactory.typeOf k).subtypeOf IRType.Int = false)
    (hS : (x.irFactory.typeOf k).subtypeOf IRType.Str = true)
    (hc : x.isConst k = true) (hstr : x.getValStr k = .ok str) :
    (∀ i, f str = some i →
      checkStrictlyInteger f x k =
        .ok (((x.cns (.int i)).1, .IntKey, false), (x.cns (.int i)).2)) ∧
    (f str = none → checkStrictlyInteger f x k = .ok ((some k, .StrKey, false), x)) := by
  constructor
  · intro i hi
    simp only [checkStrictlyInteger, isA, hI, hS, hc, hstr, hi, Bool.false_eq_true, if_false,
      not_true_eq_false, if_true]
  · intro hi
    simp only [checkStrictlyInteger, isA, hI, hS, hc, hstr, hi, Bool.false_eq_true, if_false,
      not_true_eq_false, if_true]

theorem checkStrictlyInteger_dynamic (f : String → Option Int) (x : HhbcTranslator)
    (k : SSATmpId)
    (hI : (x.irFactory.typeOf k).subtypeOf IRType.Int = false)
    (hS : (x.irFactory.typeOf k).subtypeOf IRType.Str = true)
    (hc : x.isConst k = false) :
    checkStrictlyInteger f x k = .ok ((some k, .StrKey, true), x) := by
  simp only [checkStrictlyInteger, isA, hI, hS, hc, Bool.false_eq_true, if_false,
    not_true_eq_false]

end HhbcTranslator

/-- C39: with the default value `d`, the array `a` and the key `k` on the
virtual stack, the array statically an array, `emitArrayIdx` chooses as
follows.  A key of null type: no `ArrayIdx` is emitted, the default value is
pushed, and the array and the key are released.  Otherwise one `ArrayIdx` is
emitted on the constant address of a helper, the array, the key and the default
value, its result is pushed, and the array and the key are released: an integer
key goes to the integer-key helper; a constant string key that strictly denotes
the integer `i` is replaced by the integer constant `i` and goes to the
integer-key helper; any other constant string key goes to the string-key
helper; a string key that is not a constant goes to the helper that tests for
integer-like strings at run time.  In every case the three operands leave the
virtual stack and one result is pushed, and the deficit is unchanged. -/
theorem emitArrayIdx_helper_choice (isStrictlyInteger : String → Option Int)
    (s : HhbcTranslator) (d a k : SSATmpId) (rest : List SSATmpId)
    (hstack : s.evalStack = d :: a :: k :: rest)
    (hd : IRType.Cell.strictSubtypeOf (s.irFactory.typeOf d) = false)
    (harr : (s.irFactory.typeOf a).subtypeOf IRType.Arr = true)
    (hkey : (s.irFactory.typeOf k).subtypeOf IRType.Null = true ∨
      (s.irFactory.typeOf k).subtypeOf IRType.Int = true ∨
      (s.irFactory.typeOf k).subtypeOf IRType.Str = true)
    (hval : s.isConst k = true → (s.irFactory.typeOf k).subtypeOf IRType.Str = true →
      ∃ str, s.getValStr k = .ok str) :
    ∃ s1, s.emitArrayIdx isStrictlyInteger = .ok s1 ∧
      s1.stackDeficit = s.stackDeficit ∧
      s1.evalStack.length + 2 = s.evalStack.length ∧
      ((s.irFactory.typeOf k).subtypeOf IRType.Null = true →
        Emitted s s1
          [mkInst .DecRef none .none none [some a] none,
           mkInst .DecRef none .none none [some k] none] [] ∧
        s1.evalStack = d :: rest) ∧
      ((s.irFactory.typeOf k).subtypeOf IRType.Null = false →
        ∃ helper key cf v,
          Emitted s s1
            [mkInst .ArrayIdx none .none none [some cf, some a, some key, some d] (some v),
             mkInst .DecRef none .none none [some a] none,
             mkInst .DecRef none .none none [some key] none] [] ∧
          IsConst s1 cf (.tca helper) ∧ s1.evalStack = v :: rest ∧
          ((s.irFactory.typeOf k).subtypeOf IRType.Int = true →
            helper = "arrayIdxI" ∧ key = k) ∧
          ((s.irFactory.typeOf k).subtypeOf IRType.Int = false → s.isConst k = true →
            ∃ str, s.getValStr k = .ok str ∧
              (∀ i, isStrictlyInteger str = some i →
                helper = "arrayIdxI" ∧ IsConst s1 key (.int i)) ∧
              (isStrictlyInteger str = none → helper = "arrayIdxS" ∧ key = k)) ∧
          ((s.irFactory.typeOf k).subtypeOf IRType.Int = false → s.isConst k = false →
            helper = "arrayIdxSi" ∧ key = k)) := by
  have hArrCell : IRType.Arr.subtypeOf IRType.Cell = true := by decide
  have hNullCell : IRType.Null.subtypeOf IRType.Cell = true := by decide
  have hIntCell : IRType.Int.subtypeOf IRType.Cell = true := by decide
  have hStrCell : IRType.Str.subtypeOf IRType.Cell = true := by decide
  have ha : IRType.Cell.strictSubtypeOf (s.irFactory.typeOf a) = false :=
    not_strict_of_subtypeOf_cell harr hArrCell
  have hk : IRType.Cell.strictSubtypeOf (s.irFactory.typeOf k) = false := by
    rcases hkey with h | h | h
    · exact not_strict_of_subtypeOf_cell h hNullCell
    · exact not_strict_of_subtypeOf_cell h hIntCell
    · exact not_strict_of_subtypeOf_cell h hStrCell
  have htop1 : s.top IRType.Cell 1 = .ok (some a, s) :=
    HhbcTranslator.top_of_entry s IRType.Cell 1 a (by simp [hstack]) ha
  have htop2 : s.top IRType.Cell 2 = .ok (some k, s) :=
    HhbcTranslator.top_of_entry s IRType.Cell 2 k (by simp [hstack]) hk
  have hpop := HhbcTranslator.popArrayIdxOperands_ok s d a k rest hstack hd ha hk
  obtain ⟨x, hx⟩ : ∃ x : HhbcTranslator, x = { s with evalStack := rest } := ⟨_, rfl⟩
  rw [← hx] at hpop
  have hxi : x.irFactory = s.irFactory := by rw [hx]
  have hxe : x.evalStack = rest := by rw [hx]
  have hxd : x.stackDeficit = s.stackDeficit := by rw [hx]
  have h0 : Emitted s x [] [] := emitted_of_same s x hxi (by rw [hx])
  have hlen : ∀ v : SSATmpId, (v :: rest).length + 2 = s.evalStack.length := by
    intro v
    rw [hstack]
    simp
  by_cases hN : (s.irFactory.typeOf k).subtypeOf IRType.Null = true
  · obtain ⟨p, hp⟩ : ∃ p : HhbcTranslator, p = { x with evalStack := d :: x.evalStack } :=
      ⟨_, rfl⟩
    have e3 : x.push (some d) = .ok (some d, p) := by rw [hp]; rfl
    have h3 : Emitted x p [] [] := emitted_of_same x p (by rw [hp]) (by rw [hp])
    obtain ⟨r, e4, h4, f4, -⟩ := HhbcTranslator.gen_ND_ex p .DecRef none .none none [some a] rfl
    obtain ⟨s1, e5, h5, f5, -⟩ := HhbcTranslator.gen_ND_ex r .DecRef none .none none [some k]
      rfl
    have hev : s1.evalStack = d :: rest := by
      rw [f5.evalStack, f4.evalStack, hp]
      simp only [hxe]
    refine ⟨s1, ?_, ?_, ?_, fun _ => ⟨?_, hev⟩, fun h => ?_⟩
    · simp only [HhbcTranslator.emitArrayIdx, HhbcTranslator.topC, htop1, htop2, derefTmp, harr,
        not_true_eq_false, if_false, hN, if_true, hpop, e3, e4, e5]
    · rw [f5.stackDeficit, f4.stackDeficit, hp]
      exact hxd
    · rw [hev]; exact hlen d
    · simpa using emitted_trans h0 (emitted_trans h3 (emitted_trans h4 h5))
    · rw [hN] at h; cases h
  · have hN' : (s.irFactory.typeOf k).subtypeOf IRType.Null = false := by
      simpa using hN
    have hIS : (s.irFactory.typeOf k).subtypeOf IRType.Int = true ∨
        (s.irFactory.typeOf k).subtypeOf IRType.Str = true := by
      rcases hkey with h | h
      · exact absurd h hN
      · exact h
    by_cases hI : (s.irFactory.typeOf k).subtypeOf IRType.Int = true
    · have hcheck := HhbcTranslator.checkStrictlyInteger_int isStrictlyInteger x k
        (by rw [hxi]; exact hI)
      obtain ⟨cf, g, p, r, s1, e1, e2, e3, e4, e5, hE, kc, hev, hdf⟩ :=
        HhbcTranslator.arrayIdx_tail x d a k "arrayIdxI"
      rw [hxe] at hev
      refine ⟨s1, ?_, hdf.trans hxd, by rw [hev]; exact hlen _,
        fun h => absurd h hN, fun _ => ⟨"arrayIdxI", k, _, _, ?_, kc, hev,
          fun _ => ⟨rfl, rfl⟩, fun h => ?_, fun h => ?_⟩⟩
      · simp only [HhbcTranslator.emitArrayIdx, HhbcTranslator.topC, htop1, htop2, derefTmp,
          harr, not_true_eq_false, if_false, hN', Bool.false_eq_true, hIS, hpop, hcheck,
          reduceCtorEq, if_true, e1, e2, e3, e4, e5]
      · simpa using emitted_trans h0 hE
      · rw [hI] at h; cases h
      · rw [hI] at h; cases h
    · have hI' : (s.irFactory.typeOf k).subtypeOf IRType.Int = false := by simpa using hI
      have hS : (s.irFactory.typeOf k).subtypeOf IRType.Str = true := by
        rcases hIS with h | h
        · exact absurd h hI
        · exact h
      by_cases hc : s.isConst k = true
      · obtain ⟨str, hstr⟩ := hval hc hS
        obtain ⟨hck1, hck2⟩ := HhbcTranslator.checkStrictlyInteger_const isStrictlyInteger x k
          str (by rw [hxi]; exact hI') (by rw [hxi]; exact hS)
          ((HhbcTranslator.isConst_congr s x k hxi).trans hc)
          ((HhbcTranslator.getValStr_congr s x k hxi).trans hstr)
        cases hsi : isStrictlyInteger str with
        | some i =>
          have hcheck := hck1 i hsi
          obtain ⟨xc, ec, hC, fC, -, iC⟩ := HhbcTranslator.cns_ex x (.int i)
          have kC : IsConst xc x.irFactory.tmps.length (.int i) := by
            have := HhbcTranslator.cns_isConst x (.int i)
            rwa [ec] at this
          rw [ec] at hcheck
          obtain ⟨cf, g, p, r, s1, e1, e2, e3, e4, e5, hE, kc, hev, hdf⟩ :=
            HhbcTranslator.arrayIdx_tail xc d a x.irFactory.tmps.length "arrayIdxI"
          rw [fC.evalStack, hxe] at hev
          refine ⟨s1, ?_, (hdf.trans fC.stackDeficit).trans hxd, by rw [hev]; exact hlen _,
            fun h => absurd h hN, fun _ => ⟨"arrayIdxI", x.irFactory.tmps.length, _, _, ?_, kc,
              hev, fun h => ?_, fun _ _ => ⟨str, hstr, fun j hj => ?_, fun h => ?_⟩,
              fun _ h => ?_⟩⟩
          · simp only [HhbcTranslator.emitArrayIdx, HhbcTranslator.topC, htop1, htop2, derefTmp,
              harr, not_true_eq_false, if_false, hN', Bool.false_eq_true, hIS, hpop, hcheck,
              reduceCtorEq, if_true, e1, e2, e3, e4, e5]
          · simpa using emitted_trans h0 (emitted_trans hC hE)
          · rw [hI'] at h; cases h
          · rw [hsi] at hj
            cases hj
            exact ⟨rfl, isConst_of_emitted hE kC⟩
          · rw [hsi] at h; cases h
          · rw [hc] at h; cases h
        | none =>
          have hcheck := hck2 hsi
          obtain ⟨cf, g, p, r, s1, e1, e2, e3, e4, e5, hE, kc, hev, hdf⟩ :=
            HhbcTranslator.arrayIdx_tail x d a k "arrayIdxS"
          rw [hxe] at hev
          refine ⟨s1, ?_, hdf.trans hxd, by rw [hev]; exact hlen _,
            fun h => absurd h hN, fun _ => ⟨"arrayIdxS", k, _, _, ?_, kc, hev,
              fun h => ?_, fun _ _ => ⟨str, hstr, fun j hj => ?_, fun _ => ⟨rfl, rfl⟩⟩,
              fun _ h => ?_⟩⟩
          · simp only [HhbcTranslator.emitArrayIdx, HhbcTranslator.topC, htop1, htop2, derefTmp,
              harr, not_true_eq_false, if_false, hN', Bool.false_eq_true, hIS, hpop, hcheck,
              reduceCtorEq, if_true, e1, e2, e3, e4, e5]
          · simpa using emitted_trans h0 hE
          · rw [hI'] at h; cases h
          · rw [hsi] at hj; cases hj
          · rw [hc] at h; cases h
      · have hc' : s.isConst k = false := by simpa using hc
        have hcheck := HhbcTranslator.checkStrictlyInteger_dynamic isStrictlyInteger x k
          (by rw [hxi]; exact hI') (by rw [hxi]; exact hS)
          ((HhbcTranslator.isConst_congr s x k hxi).trans hc')
        obtain ⟨cf, g, p, r, s1, e1, e2, e3, e4, e5, hE, kc, hev, hdf⟩ :=
          HhbcTranslator.arrayIdx_tail x d a k "arrayIdxSi"
        rw [hxe] at hev
        refine ⟨s1, ?_, hdf.trans hxd, by rw [hev]; exact hlen _,
          fun h => absurd h hN, fun _ => ⟨"arrayIdxSi", k, _, _, ?_, kc, hev,
            fun h => ?_, fun _ h => ?_, fun _ _ => ⟨rfl, rfl⟩⟩⟩
        · simp only [HhbcTranslator.emitArrayIdx, HhbcTranslator.topC, htop1, htop2, derefTmp,
            harr, not_true_eq_false, if_false, hN', Bool.false_eq_true, hIS, hpop, hcheck,
            reduceCtorEq, if_true, e1, e2, e3, e4, e5]
        · simpa using emitted_trans h0 hE
        · rw [hI'] at h; cases h
        · rw [hc'] at h; cases h

theorem emitArrayIdx_helper_choice_witness :
    sessionArrayIdxArgs.evalStack = 4 :: 2 :: 3 :: [] ∧
    IRType.Cell.strictSubtypeOf (sessionArrayIdxArgs.irFactory.typeOf 4) = false ∧
    (sessionArrayIdxArgs.irFactory.typeOf 2).subtypeOf IRType.Arr = true ∧
    (sessionArrayIdxArgs.irFactory.typeOf 3).subtypeOf IRType.Str = true ∧
    sessionArrayIdxArgs.isConst 3 = true ∧
    sessionArrayIdxArgs.getValStr 3 = .ok "12" ∧
    sampleStrictlyInteger "12" = some 12 ∧
    ∃ s1, sessionArrayIdxArgs.emitArrayIdx sampleStrictlyInteger = .ok s1 ∧
      s1.stackDeficit = sessionArrayIdxArgs.stackDeficit ∧
      s1.evalStack.length + 2 = sessionArrayIdxArgs.evalStack.length ∧
      ((sessionArrayIdxArgs.irFactory.typeOf 3).subtypeOf IRType.Null = true →
        Emitted sessionArrayIdxArgs s1
          [mkInst .DecRef none .none none [some 2] none,
           mkInst .DecRef none .none none [some 3] none] [] ∧
        s1.evalStack = 4 :: ([] : List SSATmpId)) ∧
      ((sessionArrayIdxArgs.irFactory.typeOf 3).subtypeOf IRType.Null = false →
        ∃ helper key cf v,
          Emitted sessionArrayIdxArgs s1
            [mkInst .ArrayIdx none .none none [some cf, some 2, some key, some 4] (some v),
             mkInst .DecRef none .none none [some 2] none,
             mkInst .DecRef none .none none [some key] none] [] ∧
          IsConst s1 cf (.tca helper) ∧ s1.evalStack = v :: ([] : List SSATmpId) ∧
          ((sessionArrayIdxArgs.irFactory.typeOf 3).subtypeOf IRType.Int = true →
            helper = "arrayIdxI" ∧ key = 3) ∧
          ((sessionArrayIdxArgs.irFactory.typeOf 3).subtypeOf IRType.Int = false →
            sessionArrayIdxArgs.isConst 3 = true →
            ∃ str, sessionArrayIdxArgs.getValStr 3 = .ok str ∧
              (∀ i, sampleStrictlyInteger str = some i →
                helper = "arrayIdxI" ∧ IsConst s1 key (.int i)) ∧
              (sampleStrictlyInteger str = none → helper = "arrayIdxS" ∧ key = 3)) ∧
          ((sessionArrayIdxArgs.irFactory.typeOf 3).subtypeOf IRType.Int = false →
            sessionArrayIdxArgs.isConst 3 = false →
            helper = "arrayIdxSi" ∧ key = 3)) :=
  ⟨by decide, by decide, by decide, by decide, by decide, rfl, by decide,
    emitArrayIdx_helper_choice sampleStrictlyInteger sessionArrayIdxArgs 4 2 3 [] (by decide)
      (by decide) (by decide) (Or.inr (Or.inr (by decide))) (fun _ _ => ⟨"12", rfl⟩)⟩

/-! ## What packBitVec does get right -/

/-- The loop of packBitVec returns within the fuel of one chunk: it stops at the
next multiple of 64 at the latest. -/
theorem packBitVecLoop_returns (bits : List Bool) :
    ∀ (fuel i retval : Nat), 64 - i % 64 ≤ fuel →
      ∃ w, packBitVecLoop bits fuel i retval = .ok w := by
  intro fuel
  induction fuel with
  | zero => intro i retval h; omega
  | succ n ih =>
    intro i retval h
    unfold packBitVecLoop
    by_cases hi : i < bits.length
    · rw [if_pos hi]
      dsimp only
      by_cases hm : (i + 1) % 64 = 0
      · rw [if_pos hm]; exact ⟨_, rfl⟩
      · rw [if_neg hm]; exact ih _ _ (by omega)
    · rw [if_neg hi]; exact ⟨_, rfl⟩

/-- On every input that meets its two assertions packBitVec returns a word. -/
theorem packBitVec_returns (bits : List Bool) (i : Nat)
    (hi : i % 64 = 0) (hlt : i < bits.length) :
    ∃ w, packBitVec bits i = .ok w := by
  unfold packBitVec
  rw [if_neg (by simpa using hi), if_neg (by simpa using hlt)]
  exact packBitVecLoop_returns bits 64 i 0 (by omega)

/-- Below position 31 the shifted flag is the single bit of that position. -/
theorem toUInt64_shlBool_low (b : Bool) (p : Nat) (hp : p ≤ 30) :
    toUInt64 (shlBool b p) = if b then 2 ^ p else 0 := by
  interval_cases p <;> cases b <;> rfl

/-- Invariant of the loop of packBitVec on a chunk of at most 31 flags: the
word holds exactly the flags read so far. -/
theorem packBitVecLoop_low (bits : List Bool) (i : Nat) (hi : i % 64 = 0)
    (hlen : bits.length ≤ i + 31) :
    ∀ (fuel j retval : Nat), i ≤ j → j ≤ bits.length → 64 - j % 64 ≤ fuel →
      (∀ k, retval.testBit k = (decide (i + k < j) && bits.getD (i + k) false)) →
      ∃ w, packBitVecLoop bits fuel j retval = .ok w ∧
        ∀ k, w.testBit k = (decide (i + k < bits.length) && bits.getD (i + k) false) := by
  intro fuel
  induction fuel with
  | zero => intro j retval _ _ h; omega
  | succ n ih =>
    intro j retval hij hjl hf hinv
    unfold packBitVecLoop
    by_cases hj : j < bits.length
    · rw [if_pos hj]
      dsimp only
      have hp : j % 64 = j - i := by omega
      have hm : ¬ (j + 1) % 64 = 0 := by omega
      rw [if_neg hm]
      refine ih _ _ (by omega) (by omega) (by omega) ?_
      intro k
      rw [hp, toUInt64_shlBool_low _ _ (by omega), Nat.testBit_lor, hinv k]
      have hbit : (if bits.getD j false = true then 2 ^ (j - i) else 0).testBit k
          = (bits.getD j false && decide (j - i = k)) := by
        cases hb : bits.getD j false <;> simp [Nat.testBit_two_pow]
      rw [hbit]
      by_cases hk : i + k < j
      · have h1 : i + k < j + 1 := by omega
        have h2 : ¬ j - i = k := by omega
        simp [hk, h1, h2]
      · by_cases hk2 : j - i = k
        · have h1 : i + k < j + 1 := by omega
          have h3 : i + k = j := by omega
          simp [hk, h1, hk2, h3]
        · have h1 : ¬ i + k < j + 1 := by omega
          simp [hk, h1, hk2]
    · rw [if_neg hj]
      have hjl2 : j = bits.length := by omega
      subst hjl2
      exact ⟨_, rfl, hinv⟩

/-- On a chunk of at most 31 flags packBitVec returns the word whose bit k is
the flag at index i + k, and no other bit is set. -/
theorem packBitVec_low_chunk (bits : List Bool) (i : Nat)
    (hi : i % 64 = 0) (hlt : i < bits.length) (hlen : bits.length ≤ i + 31) :
    ∃ w, packBitVec bits i = .ok w ∧
      ∀ k, w.testBit k = (decide (i + k < bits.length) && bits.getD (i + k) false) := by
  unfold packBitVec
  rw [if_neg (by simpa using hi), if_neg (by simpa using hlt)]
  exact packBitVecLoop_low bits i hi hlen 64 i 0 (le_refl _) (by omega) (by omega)
    (by intro k; simp)

/-! ## Ordinary calls -/

namespace HhbcTranslator

end HhbcTranslator

end HPHP.JIT
